import Mathlib

/-!
# RrsumuScheduler: a shallow embedding of `rr-sumu-scheduler.cc`

The scheduler class of `src/src/rr-sumu-scheduler.{h,cc}` is embedded as pure
functions over an explicit `State` (the data members of `RrsumuScheduler`) and an
`Env` (everything the class obtains from ns-3 objects it does not own: the base
class `MultiUserScheduler`, the AP MAC, the PHY, the HE frame exchange manager, the
queues, the remote station manager and the `HeRu` tables).

Conventions.
* `Time` is the ns-3 `Time` at its default resolution: an integer number of
  nanoseconds.  `TimeMin` is the sentinel `Time::Min ()`.
* C++ `double` values (credits, throughput estimates) are idealised as exact
  rationals.  IEEE rounding, infinities and NaN are not represented, except in the
  section "The credit ledger in double precision", which repeats the credit update
  with every operation rounded to the nearest binary64 value.
* A `std::list<MasterInfo>` node is a `Node`: the `MasterInfo` payload together with
  the identity of the list node, which is what a stored `std::list` iterator denotes.
* `NS_ASSERT`, `NS_ABORT_MSG_IF` and undefined behaviour end the computation with a
  `Fault`; results are `Except Fault _`.  This is the build with assertions enabled;
  the definitions whose name ends in `NoAssert` are the methods with the assertion on
  the result of `TryAddMpdu` compiled out.
-/

namespace RrSumu

/-! ## Basic types -/

/-- The ns-3 `Time`, in nanoseconds. -/
abbrev Time := Int

/-- The sentinel `Time::Min ()`. -/
def TimeMin : Time := -(2 ^ 63)

/-- The conversion `Time::ToDouble (Time::US)`. -/
def ToDoubleUS (t : Time) : ℚ := (t : ℚ) / 1000

/-- The conversion `Time::GetMicroSeconds ()`: integer microseconds, truncated. -/
def GetMicroSeconds (t : Time) : Int := Int.tdiv t 1000

/-- How a computation can end without a result. -/
inductive Fault where
  | assertion
  | abort
  | undefinedBehaviour
  deriving DecidableEq, Repr

/-- The enumeration `MultiUserScheduler::TxFormat`. -/
inductive TxFormat where
  | NO_TX
  | SU_TX
  | DL_MU_TX
  | UL_MU_TX
  deriving DecidableEq, Repr

/-- The trigger frame types the scheduler uses (`TriggerFrameType`). -/
inductive TriggerFrameType where
  | BASIC_TRIGGER
  | BSRP_TRIGGER
  deriving DecidableEq, Repr

/-- The enumeration `HeRu::RuType`. -/
inductive RuType where
  | RU_26_TONE
  | RU_52_TONE
  | RU_106_TONE
  | RU_242_TONE
  | RU_484_TONE
  | RU_996_TONE
  | RU_2x996_TONE
  deriving DecidableEq, Repr

/-- Position of an RU type in the enumeration (the order of a `std::set<HeRu::RuType>`). -/
def RuType.toNat : RuType → Nat
  | .RU_26_TONE => 0
  | .RU_52_TONE => 1
  | .RU_106_TONE => 2
  | .RU_242_TONE => 3
  | .RU_484_TONE => 4
  | .RU_996_TONE => 5
  | .RU_2x996_TONE => 6

/-- The preamble types the scheduler sets or reads. -/
inductive WifiPreamble where
  | LONG
  | HE_MU
  | HE_TB
  deriving DecidableEq, Repr

/-- The access categories of `wifiAcList` (the enumeration `AcIndex`). -/
inductive AcIndex where
  | AC_BE
  | AC_BK
  | AC_VI
  | AC_VO
  deriving DecidableEq, Repr

/-- The rank of an `AcIndex` in the order ns-3 gives the access categories: the
comparison operators of `AcIndex` are overloaded to compare priorities, background below
best effort below video below voice, and `wifiAcList`, a `std::map` keyed by `AcIndex`,
is iterated in that order. -/
def AcIndex.priority : AcIndex → Nat
  | .AC_BK => 0
  | .AC_BE => 1
  | .AC_VI => 2
  | .AC_VO => 3

/-- The class `HeRu::RuSpec`: RU type, index and primary-80-MHz flag. -/
structure RuSpec where
  ruType : RuType
  index : Nat
  primary80MHz : Bool
  deriving DecidableEq, Repr

/-- The struct `HeMuUserInfo`. -/
structure HeMuUserInfo where
  ru : RuSpec
  mcs : Nat
  nss : Nat
  deriving DecidableEq, Repr

/-- The fields of `WifiTxVector` the scheduler touches.  `users` is the
`HeMuUserInfoMap`, a `std::map` kept in increasing order of STA-ID. -/
structure WifiTxVector where
  preamble : WifiPreamble
  channelWidth : Nat
  guardInterval : Nat
  bssColor : Nat
  mode : Nat
  nss : Nat
  users : List (Nat × HeMuUserInfo)
  deriving DecidableEq, Repr

/-- A default-constructed `WifiTxVector`. -/
def WifiTxVector.default : WifiTxVector :=
  { preamble := .LONG, channelWidth := 20, guardInterval := 800, bssColor := 0,
    mode := 0, nss := 1, users := [] }

/-- Insert-or-assign in a `std::map` kept as a key-sorted association list. -/
def mapInsert {β : Type} (k : Nat) (v : β) : List (Nat × β) → List (Nat × β)
  | [] => [(k, v)]
  | (k', v') :: rest =>
      if k < k' then (k, v) :: (k', v') :: rest
      else if k = k' then (k, v) :: rest
      else (k', v') :: mapInsert k v rest

/-- Lookup in a `std::map` kept as an association list. -/
def mapFind {β : Type} (k : Nat) : List (Nat × β) → Option β
  | [] => none
  | (k', v') :: rest => if k = k' then some v' else mapFind k rest

/-- The method `WifiTxVector::SetHeMuUserInfo`. -/
def WifiTxVector.SetHeMuUserInfo (tv : WifiTxVector) (staId : Nat) (info : HeMuUserInfo) :
    WifiTxVector :=
  { tv with users := mapInsert staId info tv.users }

/-- The method `WifiTxVector::GetMode (staId)`; the user must be present. -/
def WifiTxVector.GetMode (tv : WifiTxVector) (staId : Nat) : Except Fault Nat :=
  match mapFind staId tv.users with
  | some u => .ok u.mcs
  | none => .error .assertion

/-- The method `WifiTxVector::GetNss (staId)`; the user must be present. -/
def WifiTxVector.GetNss (tv : WifiTxVector) (staId : Nat) : Except Fault Nat :=
  match mapFind staId tv.users with
  | some u => .ok u.nss
  | none => .error .assertion

/-- The method `WifiTxVector::SetRu (ru, staId)`. -/
def WifiTxVector.SetRu (tv : WifiTxVector) (ru : RuSpec) (staId : Nat) : WifiTxVector :=
  { tv with
    users := tv.users.map (fun p => if p.1 = staId then (p.1, { p.2 with ru := ru }) else p) }

/-- A user info field of a trigger frame. -/
structure TriggerUserInfo where
  aid12 : Nat
  ru : RuSpec
  ulMcs : Nat
  nss : Nat
  preferredAc : Option AcIndex
  deriving DecidableEq, Repr

/-- The fields of `CtrlTriggerHeader` the scheduler sets or reads. -/
structure CtrlTriggerHeader where
  type : TriggerFrameType
  ulBandwidth : Nat
  guardInterval : Nat
  userInfos : List TriggerUserInfo
  ulLength : Nat
  csRequired : Bool
  targetRssiSet : Bool
  deriving DecidableEq, Repr

/-- A `WifiMacQueueItem`: a queued data frame, or a trigger frame built by the
scheduler (`trigger` is then set). -/
structure WifiMacQueueItem where
  size : Nat
  addr1 : Nat
  tid : Nat
  isQosData : Bool
  isRetry : Bool
  isQueued : Bool
  trigger : Option CtrlTriggerHeader
  deriving DecidableEq, Repr

/-- The acknowledgment method of a `WifiTxParameters`: its `acknowledgmentTime` and,
read through the `WifiDlMuAggregateTf` cast, the `blockAckTxVector` of each entry of
`stationsReplyingWithBlockAck`. -/
structure WifiAcknowledgment where
  acknowledgmentTime : Time
  stationsReplyingWithBlockAck : List WifiTxVector
  deriving DecidableEq, Repr

/-- The class `WifiTxParameters`.  `m_protection` holds the `protectionTime` of the
protection method, `nPsdus` is `GetPsduInfoMap ().size ()`. -/
structure WifiTxParameters where
  m_txVector : WifiTxVector
  m_protection : Option Time
  m_acknowledgment : Option WifiAcknowledgment
  m_txDuration : Time
  nPsdus : Nat
  deriving DecidableEq, Repr

/-- The state after `WifiTxParameters::Clear ()` (also the default-constructed one). -/
def WifiTxParameters.Clear : WifiTxParameters :=
  { m_txVector := WifiTxVector.default, m_protection := none, m_acknowledgment := none,
    m_txDuration := TimeMin, nPsdus := 0 }

/-- The struct `MasterInfo`. -/
structure MasterInfo where
  aid : Nat
  address : Nat
  credits : ℚ
  deriving DecidableEq, Repr

/-- A node of a `std::list<MasterInfo>`: `id` is the identity of the node (what an
iterator stored in a `CandidateInfo` points at), `info` its payload. -/
structure Node where
  id : Nat
  info : MasterInfo
  deriving DecidableEq, Repr

/-- The typedef `CandidateInfo`: an iterator into the station list of one access
category (`ac`, `node`) and the frame selected for that station. -/
structure CandidateInfo where
  ac : AcIndex
  node : Nat
  mpdu : Option WifiMacQueueItem
  deriving DecidableEq, Repr

/-- The struct `MultiUserScheduler::DlMuInfo`; `psduMap` maps a STA-ID to the MPDUs
of its PSDU. -/
structure DlMuInfo where
  psduMap : List (Nat × List WifiMacQueueItem)
  txParams : WifiTxParameters
  deriving DecidableEq, Repr

/-- A default-constructed `DlMuInfo`. -/
def DlMuInfo.default : DlMuInfo := { psduMap := [], txParams := WifiTxParameters.Clear }

/-- The struct `MultiUserScheduler::UlMuInfo`. -/
structure UlMuInfo where
  trigger : Option WifiMacQueueItem
  tbPpduDuration : Time
  txParams : WifiTxParameters
  deriving DecidableEq, Repr

/-! ## The environment -/

/-- Everything the scheduler reads from objects it does not own.  One `Env` describes
those objects during one call of a scheduler method. -/
structure Env where
  /-- Value of `MultiUserScheduler::GetLastTxFormat ()`. -/
  lastTxFormat : TxFormat
  /-- Value of `GetDlMuInfo ().txParams.m_txVector`. -/
  dlMuInfoTxVector : WifiTxVector
  /-- Header of `GetUlMuInfo ().trigger`. -/
  ulMuInfoTrigger : CtrlTriggerHeader
  m_availableTime : Time
  m_availableTime2 : Time
  m_initialFrame : Bool
  m_sizeOf8QosNull : Nat
  /-- Value of `m_edca->GetAccessCategory ()`. -/
  primaryAc : AcIndex
  /-- Value of `m_edca->PeekNextMpdu ()`. -/
  edcaPeekNextMpdu : Option WifiMacQueueItem
  /-- Value of `m_apMac->GetWifiPhy ()->GetChannelWidth ()`. -/
  channelWidth : Nat
  /-- Value of `m_apMac->GetWifiPhy ()->GetSifs ()`. -/
  phySifs : Time
  /-- Value of `m_apMac->GetStaList ()`: AID to address. -/
  apStaList : Nat → Option Nat
  /-- Value of `Mac48Address::GetBroadcast ()`. -/
  broadcast : Nat
  GetMaxBufferStatus : Nat → Nat
  heGuardInterval : Nat
  heBssColor : Nat
  GetHeSupported : Nat → Bool
  GetRtsTxVector : Nat → WifiTxVector
  GetDataTxVector : WifiMacQueueItem → WifiTxVector
  /-- The table `wifiAcList`: `GetHighTid` of each access category. -/
  GetHighTid : AcIndex → Nat
  /-- The table `wifiAcList`: `GetOtherTid` of each access category. -/
  GetOtherTid : AcIndex → Nat → Nat
  QosUtilsMapTidToAc : Nat → AcIndex
  GetBaAgreementEstablished : AcIndex → Nat → Nat → Bool
  /-- Value of `m_apMac->GetQosTxop (ac)->PeekNextMpdu (tid, address)`. -/
  PeekNextMpdu : AcIndex → Nat → Nat → Option WifiMacQueueItem
  /-- The call `m_heFem->TryAddMpdu (mpdu, txParams, availableTime)`: `none` when it
  returns false (the parameters are then left as they were), the updated parameters
  otherwise. -/
  TryAddMpdu : WifiMacQueueItem → WifiTxParameters → Time → Option WifiTxParameters
  /-- The call `GetMsduAggregator ()->GetNextAmsdu`: the returned item (or null) and the
  updated parameters. -/
  GetNextAmsdu : WifiMacQueueItem → WifiTxParameters → Time →
    Option WifiMacQueueItem × WifiTxParameters
  /-- The call `GetMpduAggregator ()->GetNextAmpdu`: the returned MPDU list and the
  updated parameters. -/
  GetNextAmpdu : WifiMacQueueItem → WifiTxParameters → Time →
    List WifiMacQueueItem × WifiTxParameters
  /-- The call `WifiPhy::CalculateTxDuration (size, txVector, band, staId)`. -/
  CalculateTxDuration : Nat → WifiTxVector → Nat → Time
  CalculatePhyPreambleAndHeaderDuration : WifiTxVector → Time
  GetPpduMaxTime : WifiPreamble → Time
  ConvertHeTbPpduDurationToLSigLength : Time → Nat
  /-- Guard interval reported by a trigger frame built from a TX vector with the given
  guard interval (`CtrlTriggerHeader::GetGuardInterval`). -/
  triggerGuardInterval : Nat → Nat
  /-- Guard interval of a default-constructed `CtrlTriggerHeader`. -/
  defaultTriggerGuardInterval : Nat
  /-- The call `HeRu::GetEqualSizedRusForStations (bw, nStations, nCentral26TonesRus)`:
  the returned RU type and the values left in the two reference arguments. -/
  GetEqualSizedRusForStations : Nat → Nat → RuType × Nat × Nat
  /-- The call `HeRu::GetBandwidth (ruType)`, in MHz. -/
  GetBandwidth : RuType → Nat
  GetRusOfType : Nat → RuType → List RuSpec
  GetCentral26TonesRus : Nat → RuType → List RuSpec
  /-- The index drawn by the `std::discrete_distribution` of `pickSuAmpduByProbability`. -/
  discreteDraw : Nat

/-! ## The scheduler state -/

/-- The data members of `RrsumuScheduler`.  `m_staList` is the `std::map` from access
category to station list (`none`: key absent); `nextNodeId` numbers list nodes. -/
structure State where
  m_nStations : Nat
  m_enableTxopSharing : Bool
  m_forceDlOfdma : Bool
  m_enableUlOfdma : Bool
  m_enableBsrp : Bool
  m_useCentral26TonesRus : Bool
  m_ulPsduSize : Nat
  m_maxCredits : Time
  m_staList : AcIndex → Option (List Node)
  nextNodeId : Nat
  m_candidates : List CandidateInfo
  m_trigger : Option WifiMacQueueItem
  m_tbPpduDuration : Time
  m_txParams : WifiTxParameters
  m_ulTriggerType : TriggerFrameType
  mpdu_size : Nat
  mu_tpt : ℚ
  mu_ampdu : List Int
  mu_txdata : Time
  mu_Back : Time
  mu_Pdl : Time
  mu_Pul : Time
  su_tpt : ℚ
  m_candidates2 : List CandidateInfo
  m_txParams2 : WifiTxParameters
  su_ampdu : Nat
  su_txdata : Time
  su_Back : Time
  su_Pdl : Time
  su_Pul : Time
  /-- The pointer `que` to the AP queue: `false` while it is null. -/
  que : Bool

/-- Member initialiser `slot_time = 9`. -/
def slot_time : Nat := 9
/-- Member initialiser `sifs = 16`. -/
def sifs : Nat := 16
/-- Member initialiser `aifs = sifs+3*slot_time`. -/
def aifs : Nat := sifs + 3 * slot_time
/-- Member initialiser `bo = (15/2)*slot_time`, with the integer division of C++. -/
def bo : ℚ := (((15 / 2 : Nat) * slot_time : Nat) : ℚ)
/-- Member initialiser `pe = 16`. -/
def pe : Nat := 16

/-- The station list `m_staList[ac]` as read through `operator[]`. -/
def State.staList (s : State) (ac : AcIndex) : List Node := (s.m_staList ac).getD []

/-- The effect of `m_staList[ac]` on the map: an absent key is inserted with an empty list. -/
def State.touchStaList (s : State) (ac : AcIndex) : State :=
  { s with m_staList := Function.update s.m_staList ac (some (s.staList ac)) }

/-- Replace the list stored under `ac`. -/
def State.setStaList (s : State) (ac : AcIndex) (l : List Node) : State :=
  { s with m_staList := Function.update s.m_staList ac (some l) }

/-- Dereference the station iterator of a candidate. -/
def State.deref (s : State) (c : CandidateInfo) : Except Fault MasterInfo :=
  match (s.staList c.ac).find? (fun n => n.id = c.node) with
  | some n => .ok n.info
  | none => .error .undefinedBehaviour

/-! ## Initialisation and association notifications -/

/-- The method `RrsumuScheduler::DoInitialize`: the aggregation counters are reset and
every access category of `wifiAcList` gets a station list if it has none. -/
def DoInitialize (s : State) : State :=
  { s with
    mu_ampdu := List.replicate 18 7
    su_ampdu := 0
    m_staList := fun ac => some ((s.m_staList ac).getD []) }

/-- The method `RrsumuScheduler::NotifyStationAssociated`. -/
def NotifyStationAssociated (env : Env) (s : State) (aid address : Nat) : State :=
  if env.GetHeSupported address then
    { s with
      m_staList := fun ac =>
        (s.m_staList ac).map (fun l => l ++ [⟨s.nextNodeId, ⟨aid, address, 0⟩⟩])
      nextNodeId := s.nextNodeId + 1 }
  else s

/-- The method `RrsumuScheduler::NotifyStationDeassociated`. -/
def NotifyStationDeassociated (env : Env) (s : State) (aid address : Nat) : State :=
  if env.GetHeSupported address then
    { s with
      m_staList := fun ac =>
        (s.m_staList ac).map
          (fun l => l.filter (fun n => !(n.info.aid = aid ∧ n.info.address = address))) }
  else s

/-! ## RU index assignment -/

/-- Insertion into a `std::set<HeRu::RuType>` kept in increasing order. -/
def ruSetInsert (t : RuType) : List RuType → List RuType
  | [] => [t]
  | u :: rest =>
      if t.toNat < u.toNat then t :: u :: rest
      else if t = u then u :: rest
      else u :: ruSetInsert t rest

/-- The assignment loop of `AssignRuIndices`: `users` are the entries of the user map
still to visit, `ruSet` and `central` what is left of the two RU lists. -/
def assignLoop (mainType : RuType) :
    List (Nat × HeMuUserInfo) → List RuSpec → List RuSpec → WifiTxVector →
      Except Fault WifiTxVector
  | [], _, _, tv => .ok tv
  | (staId, u) :: users, ruSet, central, tv =>
      if u.ru.ruType = mainType then
        match ruSet with
        | [] => .error .assertion
        | ru :: ruSet' => assignLoop mainType users ruSet' central (tv.SetRu ru staId)
      else
        match central with
        | [] => .error .assertion
        | ru :: central' => assignLoop mainType users ruSet central' (tv.SetRu ru staId)

/-- The method `RrsumuScheduler::AssignRuIndices`. -/
def AssignRuIndices (env : Env) (txVector : WifiTxVector) : Except Fault WifiTxVector :=
  let bw := txVector.channelWidth % 256
  let ruTypeSet := txVector.users.foldl (fun acc p => ruSetInsert p.2.ru.ruType acc) []
  if ruTypeSet.length = 2 then
    if RuType.RU_26_TONE ∈ ruTypeSet then
      match ruTypeSet.filter (fun t => t ≠ RuType.RU_26_TONE) with
      | [mainType] =>
          assignLoop mainType txVector.users (env.GetRusOfType bw mainType)
            (env.GetCentral26TonesRus bw mainType) txVector
      | _ => .error .assertion
    else .error .assertion
  else
    match ruTypeSet with
    | [mainType] => assignLoop mainType txVector.users (env.GetRusOfType bw mainType) [] txVector
    | _ => .error .assertion

/-! ## Uplink solicitation -/

/-- The constructor `CtrlTriggerHeader (type, txVector)`: one user info field per user
of the TX vector. -/
def CtrlTriggerHeader.ofTxVector (env : Env) (type : TriggerFrameType) (tv : WifiTxVector) :
    CtrlTriggerHeader :=
  { type := type
    ulBandwidth := tv.channelWidth
    guardInterval := env.triggerGuardInterval tv.guardInterval
    userInfos := tv.users.map
      (fun p => { aid12 := p.1, ru := p.2.ru, ulMcs := p.2.mcs, nss := p.2.nss,
                  preferredAc := none })
    ulLength := 0
    csRequired := false
    targetRssiSet := false }

/-- The queue item carrying a trigger frame addressed to `receiver` (its size is not
read by the scheduler). -/
def triggerItem (trigger : CtrlTriggerHeader) (receiver : Nat) : WifiMacQueueItem :=
  { size := 0, addr1 := receiver, tid := 0, isQosData := false, isRetry := false,
    isQueued := false, trigger := some trigger }

/-- The loop `Max` over the user info fields of the time to send `size` bytes. -/
def maxTxDuration (env : Env) (size : Nat) (txVector : WifiTxVector)
    (users : List TriggerUserInfo) : Time :=
  users.foldl (fun acc u => max acc (env.CalculateTxDuration size txVector u.aid12)) 0

/-- The method `RrsumuScheduler::TrySendingBsrpTf`. -/
def TrySendingBsrpTf (env : Env) (s : State) : Except Fault (TxFormat × State) := do
  let trigger := CtrlTriggerHeader.ofTxVector env .BSRP_TRIGGER env.dlMuInfoTxVector
  let txVector := { env.dlMuInfoTxVector with guardInterval := trigger.guardInterval }
  let receiver ←
    match trigger.userInfos with
    | [u] =>
        match env.apStaList u.aid12 with
        | some a => pure a
        | none => throw Fault.assertion
    | _ => pure env.broadcast
  let item := triggerItem trigger receiver
  let txParams0 := { WifiTxParameters.Clear with m_txVector := env.GetRtsTxVector receiver }
  match env.TryAddMpdu item txParams0 env.m_availableTime with
  | none => pure (TxFormat.NO_TX, { s with m_txParams := txParams0 })
  | some txParams =>
    let s1 := { s with m_txParams := txParams }
    let qosNullTxDuration := maxTxDuration env env.m_sizeOf8QosNull txVector trigger.userInfos
    let finish : Except Fault (TxFormat × State) :=
      let trigger' :=
        { trigger with
          ulLength := env.ConvertHeTbPpduDurationToLSigLength qosNullTxDuration
          csRequired := true
          targetRssiSet := true }
      pure (TxFormat.UL_MU_TX,
        { s1 with
          m_trigger := some (triggerItem trigger' receiver)
          m_ulTriggerType := TriggerFrameType.BSRP_TRIGGER
          m_tbPpduDuration := qosNullTxDuration })
    if env.m_availableTime ≠ TimeMin then
      match txParams.m_protection, txParams.m_acknowledgment with
      | some protectionTime, some ack =>
          if protectionTime = TimeMin ∨ ack.acknowledgmentTime ≠ 0
              ∨ txParams.m_txDuration = TimeMin then
            throw Fault.assertion
          else if protectionTime + txParams.m_txDuration + env.phySifs + qosNullTxDuration
              > env.m_availableTime then
            pure (TxFormat.NO_TX, s1)
          else finish
      | _, _ => throw Fault.assertion
    else finish

/-- Insertion into the `std::multimap` of uplink candidates, ordered by decreasing
queue size; equal keys keep their insertion order. -/
def ulInsert (q : Nat) (c : CandidateInfo) :
    List (Nat × CandidateInfo) → List (Nat × CandidateInfo)
  | [] => [(q, c)]
  | (q', c') :: rest =>
      if q' < q then (q, c) :: (q', c') :: rest else (q', c') :: ulInsert q c rest

/-- The first loop of `TrySendingBasicTf`: the worst-case buffer size and the uplink
candidates. -/
def basicScan (env : Env) (s : State) :
    List CandidateInfo → Nat × List (Nat × CandidateInfo) →
      Except Fault (Nat × List (Nat × CandidateInfo))
  | [], acc => .ok acc
  | c :: cs, (maxBufferSize, ulCandidates) => do
      let info ← s.deref c
      let queueSize := env.GetMaxBufferStatus info.address % 256
      let maxBufferSize' :=
        if queueSize = 255 then max maxBufferSize s.m_ulPsduSize
        else if queueSize = 254 then 0xffffffff
        else max maxBufferSize ((queueSize * 256) % 2 ^ 32)
      let ulCandidates' :=
        if queueSize > 0 then ulInsert queueSize c ulCandidates else ulCandidates
      basicScan env s cs (maxBufferSize', ulCandidates')

/-- Subtraction of `std::size_t` values (64 bits, wrapping). -/
def sizeSub (a b : Nat) : Nat := (a + 2 ^ 64 - b % 2 ^ 64) % 2 ^ 64

/-- The loops of `TrySendingBasicTf` that fill the TX vector of the solicited TB PPDU:
`k` iterations are left, `i` is the loop index. -/
def basicFill (env : Env) (s : State) (ruType : RuType) (count : Nat) :
    Nat → Nat → List (Nat × CandidateInfo) → WifiTxVector → Except Fault WifiTxVector
  | 0, _, _, tv => .ok tv
  | _ + 1, _, [], _ => .error .assertion
  | k + 1, i, (_, c) :: rest, tv => do
      let info ← s.deref c
      let staId := info.aid
      let ru : RuSpec := ⟨if i < count then ruType else .RU_26_TONE, 1, false⟩
      if env.lastTxFormat = .DL_MU_TX then
        let mode ← env.dlMuInfoTxVector.GetMode staId
        let nss ← env.dlMuInfoTxVector.GetNss staId
        basicFill env s ruType count k (i + 1) rest (tv.SetHeMuUserInfo staId ⟨ru, mode, nss⟩)
      else
        match env.ulMuInfoTrigger.userInfos.find? (fun u => u.aid12 = staId) with
        | none => .error .assertion
        | some u =>
            basicFill env s ruType count k (i + 1) rest
              (tv.SetHeMuUserInfo staId ⟨ru, u.ulMcs, u.nss⟩)

/-- The loop of `TrySendingBasicTf` computing `minDuration`. -/
def minTxDuration (env : Env) (size : Nat) (txVector : WifiTxVector)
    (users : List TriggerUserInfo) : Time :=
  users.foldl
    (fun acc u =>
      let duration := env.CalculateTxDuration size txVector u.aid12
      if acc = 0 then duration else min acc duration) 0

/-- The end of `TrySendingBasicTf`: the trigger frame is finalised for the granted
duration `maxDuration` and stored. -/
def basicGrant (env : Env) (s1 : State) (trigger : CtrlTriggerHeader) (receiver : Nat)
    (maxDuration : Time) : TxFormat × State :=
  let trigger' :=
    { trigger with
      ulLength := env.ConvertHeTbPpduDurationToLSigLength maxDuration
      csRequired := true
      targetRssiSet := true
      userInfos := trigger.userInfos.map (fun u => { u with preferredAc := some env.primaryAc }) }
  (TxFormat.UL_MU_TX,
    { s1 with
      m_trigger := some (triggerItem trigger' receiver)
      m_ulTriggerType := TriggerFrameType.BASIC_TRIGGER
      m_tbPpduDuration := maxDuration })

/-- The part of `TrySendingBasicTf` from the computation of `bufferTxTime` on, for the
bound `maxDuration` on the duration that can be granted. -/
def basicDuration (env : Env) (s s1 : State) (maxBufferSize : Nat) (txVector : WifiTxVector)
    (trigger : CtrlTriggerHeader) (receiver : Nat) (maxDuration : Time) : TxFormat × State :=
  let bufferTxTime := maxTxDuration env maxBufferSize txVector trigger.userInfos
  if bufferTxTime < maxDuration then basicGrant env s1 trigger receiver bufferTxTime
  else
    let minDuration := minTxDuration env s.m_ulPsduSize txVector trigger.userInfos
    if maxDuration < minDuration then (TxFormat.NO_TX, s1)
    else basicGrant env s1 trigger receiver maxDuration

/-- The part of `TrySendingBasicTf` that follows `AssignRuIndices`: the trigger frame is
built for the final TX vector and checked against the time budget. -/
def basicTrigger (env : Env) (s : State) (maxBufferSize : Nat) (txVector : WifiTxVector)
    (receiver : Nat) : Except Fault (TxFormat × State) :=
  let trigger := CtrlTriggerHeader.ofTxVector env .BASIC_TRIGGER txVector
  let item := triggerItem trigger receiver
  let maxDuration0 := env.GetPpduMaxTime txVector.preamble
  let txParams0 := { WifiTxParameters.Clear with m_txVector := env.GetRtsTxVector receiver }
  match env.TryAddMpdu item txParams0 env.m_availableTime with
  | none => .ok (TxFormat.NO_TX, { s with m_txParams := txParams0 })
  | some txParams =>
    let s1 := { s with m_txParams := txParams }
    if env.m_availableTime ≠ TimeMin then
      match txParams.m_protection, txParams.m_acknowledgment with
      | some protectionTime, some ack =>
          if protectionTime = TimeMin ∨ ack.acknowledgmentTime = TimeMin
              ∨ txParams.m_txDuration = TimeMin then
            .error .assertion
          else
            let maxDuration1 := min maxDuration0
              (env.m_availableTime - protectionTime - txParams.m_txDuration - env.phySifs
                - ack.acknowledgmentTime)
            -- `Time::IsNegative` is `<= 0`
            if maxDuration1 ≤ 0 then .ok (TxFormat.NO_TX, s1)
            else .ok (basicDuration env s s1 maxBufferSize txVector trigger receiver maxDuration1)
      | _, _ => .error .assertion
    else .ok (basicDuration env s s1 maxBufferSize txVector trigger receiver maxDuration0)

/-- The branch `maxBufferSize > 0` of `TrySendingBasicTf`. -/
def basicSolicit (env : Env) (s : State) (maxBufferSize : Nat)
    (ulCandidates : List (Nat × CandidateInfo)) : Except Fault (TxFormat × State) :=
  if ulCandidates = [] then .error .assertion
  else
    let (ruType, count, nCentral) :=
      env.GetEqualSizedRusForStations env.channelWidth ulCandidates.length
    let nCentral26TonesRus :=
      if !s.m_useCentral26TonesRus || ulCandidates.length = count then 0
      else min (sizeSub ulCandidates.length count) nCentral
    let txVector0 : WifiTxVector :=
      if env.lastTxFormat = .DL_MU_TX then
        { WifiTxVector.default with
          preamble := .HE_TB
          channelWidth := env.dlMuInfoTxVector.channelWidth
          guardInterval := env.defaultTriggerGuardInterval }
      else
        { WifiTxVector.default with
          preamble := .HE_TB
          channelWidth := env.ulMuInfoTrigger.ulBandwidth
          guardInterval := env.ulMuInfoTrigger.guardInterval }
    match basicFill env s ruType count (count + nCentral26TonesRus) 0 ulCandidates txVector0 with
    | .error e => .error e
    | .ok txVector1 =>
      let ulCandidates' := ulCandidates.take (count + nCentral26TonesRus)
      match AssignRuIndices env txVector1 with
      | .error e => .error e
      | .ok txVector =>
        match ulCandidates' with
        | [(_, c)] =>
            match s.deref c with
            | .error e => .error e
            | .ok info => basicTrigger env s maxBufferSize txVector info.address
        | _ => basicTrigger env s maxBufferSize txVector env.broadcast

/-- The method `RrsumuScheduler::TrySendingBasicTf`. -/
def TrySendingBasicTf (env : Env) (s : State) : Except Fault (TxFormat × State) :=
  if s.m_ulPsduSize = 0 then .error .abort
  else
    match basicScan env s s.m_candidates (0, []) with
    | .error e => .error e
    | .ok (maxBufferSize, ulCandidates) =>
        if maxBufferSize > 0 then basicSolicit env s maxBufferSize ulCandidates
        else .ok (TxFormat.DL_MU_TX, s)

/-! ## Downlink candidate selection and the SU/MU decision -/

/-- The variables the selection loop of `TrySendingDlMuPpdu` updates: `m_txParams`,
the TX vector of `m_txParams2`, the two candidate lists and the local `mpdu`. -/
structure SelState where
  txParams : WifiTxParameters
  txVector2 : WifiTxVector
  candidates : List CandidateInfo
  candidates2 : List CandidateInfo
  mpdu : Option WifiMacQueueItem
  deriving DecidableEq, Repr

/-- The inner loop of the selection (`for (uint8_t tid : tids)`) for the station `sta`. -/
def tryTids (env : Env) (sta : Node) (currRuType : RuType) (actualAvailableTime : Time) :
    List Nat → SelState → Except Fault SelState
  | [], st => .ok st
  | tid :: rest, st =>
      let ac := env.QosUtilsMapTidToAc tid
      if ac.priority < env.primaryAc.priority then .error .assertion
      else if env.GetBaAgreementEstablished ac sta.info.address tid then
        match env.PeekNextMpdu ac tid sta.info.address with
        | some mpdu =>
            let suTxVector := env.GetDataTxVector mpdu
            let txVectorCopy := st.txParams.m_txVector
            let info : HeMuUserInfo :=
              ⟨⟨currRuType, 1, false⟩, suTxVector.mode, suTxVector.nss⟩
            let txParams :=
              { st.txParams with
                m_txVector := st.txParams.m_txVector.SetHeMuUserInfo sta.info.aid info }
            let txVectorCopy2 := st.txVector2
            match env.TryAddMpdu mpdu txParams actualAvailableTime with
            | none =>
                tryTids env sta currRuType actualAvailableTime rest
                  { st with
                    txParams := { txParams with m_txVector := txVectorCopy }
                    txVector2 := txVectorCopy2
                    mpdu := some mpdu }
            | some txParams' =>
                .ok
                  { txParams := txParams'
                    txVector2 := st.txVector2.SetHeMuUserInfo sta.info.aid info
                    candidates := st.candidates ++ [⟨env.primaryAc, sta.id, some mpdu⟩]
                    candidates2 := st.candidates2 ++ [⟨env.primaryAc, sta.id, some mpdu⟩]
                    mpdu := some mpdu }
        | none => tryTids env sta currRuType actualAvailableTime rest { st with mpdu := none }
      else tryTids env sta currRuType actualAvailableTime rest st

/-- The outer loop of the selection (`while (staIt != ... end () && ...)`) over the
stations still to visit. -/
def selectLoop (env : Env) (nStations count nCentral26TonesRus : Nat) (ruType : RuType)
    (actualAvailableTime : Time) (tids : List Nat) :
    List Node → SelState → Except Fault SelState
  | [], st => .ok st
  | sta :: rest, st =>
      if st.candidates.length < max nStations (count + nCentral26TonesRus) then
        let currRuType := if st.candidates.length < count then ruType else RuType.RU_26_TONE
        match tryTids env sta currRuType actualAvailableTime tids st with
        | .ok st' =>
            selectLoop env nStations count nCentral26TonesRus ruType actualAvailableTime tids
              rest st'
        | .error e => .error e
      else .ok st

/-- The access categories from `ac` to the end of `wifiAcList`. -/
def acsFrom (ac : AcIndex) : List AcIndex :=
  [AcIndex.AC_BK, .AC_BE, .AC_VI, .AC_VO].filter (fun a => ac.priority ≤ a.priority)

/-- The list `tids` of `TrySendingDlMuPpdu`. -/
def dlTids (env : Env) (s : State) : List Nat :=
  let currTid :=
    match env.edcaPeekNextMpdu with
    | some mpdu => if mpdu.isQosData then mpdu.tid else env.GetHighTid env.primaryAc
    | none => env.GetHighTid env.primaryAc
  if s.m_enableTxopSharing then
    (acsFrom env.primaryAc).foldl
      (fun tids ac =>
        let firstTid := if ac = env.primaryAc then currTid else env.GetHighTid ac
        tids ++ [firstTid, env.GetOtherTid ac firstTid])
      []
  else [currTid]

/-- The TX vector `TrySendingDlMuPpdu` gives to `m_txParams` and `m_txParams2` after
clearing them. -/
def dlInitialTxVector (env : Env) : WifiTxVector :=
  { WifiTxVector.default with
    preamble := .HE_MU
    channelWidth := env.channelWidth
    guardInterval := env.heGuardInterval
    bssColor := env.heBssColor }

/-- The candidate selection of `TrySendingDlMuPpdu` (from the call of
`GetEqualSizedRusForStations` to the end of the `while` loop), for a non-empty list. -/
def dlSelect (env : Env) (s : State) : Except Fault SelState :=
  let staList := s.staList env.primaryAc
  let (ruType, count, nCentral) :=
    env.GetEqualSizedRusForStations env.channelWidth (min (s.m_nStations % 256) staList.length)
  if count < 1 then .error .assertion
  else
    let nCentral26TonesRus := if !s.m_useCentral26TonesRus then 0 else nCentral
    let actualAvailableTime := if env.m_initialFrame then TimeMin else env.m_availableTime
    selectLoop env (s.m_nStations % 256) count nCentral26TonesRus ruType actualAvailableTime
      (dlTids env s) staList
      { txParams := { WifiTxParameters.Clear with m_txVector := dlInitialTxVector env }
        txVector2 := dlInitialTxVector env
        candidates := []
        candidates2 := []
        mpdu := env.edcaPeekNextMpdu }

/-- The `blockAckTxVector` of the first entry of `stationsReplyingWithBlockAck`, read
through `m_acknowledgment`. -/
def responseTxVector (txParams : WifiTxParameters) :
    Except Fault (WifiAcknowledgment × WifiTxVector) :=
  match txParams.m_acknowledgment with
  | none => .error .undefinedBehaviour
  | some ack =>
      match ack.stationsReplyingWithBlockAck with
      | [] => .error .undefinedBehaviour
      | tv :: _ => .ok (ack, tv)

/-- The method `RrsumuScheduler::pickSuAmpduByProbability`: the key at the drawn index
(the draw of a `std::discrete_distribution` is below the number of weights). -/
def pickSuAmpduByProbability (env : Env) (valueCounts : List (Nat × Nat)) : Nat :=
  let keys := valueCounts.map Prod.fst
  keys.getD (env.discreteDraw % keys.length) 0

/-- The method `RrsumuScheduler::calculate_su_mpdu`.  Its call of
`GetEqualSizedRusForStations` only feeds a log line; the RU type given to the station
is the literal `HeRu::RU_484_TONE`. -/
def calculate_su_mpdu (env : Env) (s : State) : Except Fault (Nat × State) :=
  match s.m_candidates2 with
  | [] => .ok (0, s)
  | candidate_su :: _ => do
      let tv0 : WifiTxVector :=
        { WifiTxVector.default with
          preamble := s.m_txParams2.m_txVector.preamble
          channelWidth := s.m_txParams2.m_txVector.channelWidth
          guardInterval := s.m_txParams2.m_txVector.guardInterval
          bssColor := s.m_txParams2.m_txVector.bssColor }
      let info ← s.deref candidate_su
      let staId := info.aid
      let mode ← s.m_txParams2.m_txVector.GetMode staId
      let nss ← s.m_txParams2.m_txVector.GetNss staId
      let tv1 := tv0.SetHeMuUserInfo staId ⟨⟨.RU_484_TONE, 1, false⟩, mode, nss⟩
      let tv ← AssignRuIndices env tv1
      let actualAvailableTime2 := if env.m_initialFrame then TimeMin else env.m_availableTime2
      match candidate_su.mpdu with
      | none => throw Fault.assertion
      | some mpdu2 =>
        match env.TryAddMpdu mpdu2 { WifiTxParameters.Clear with m_txVector := tv }
            actualAvailableTime2 with
        | none => throw Fault.assertion
        | some txParams =>
            let (ack, responseTxVector2) ← responseTxVector txParams
            pure (pickSuAmpduByProbability env [(14, 1256), (64, 2513)],
              { s with
                m_txParams2 := WifiTxParameters.Clear
                su_txdata := txParams.m_txDuration
                su_Back := ack.acknowledgmentTime
                su_Pdl := env.CalculatePhyPreambleAndHeaderDuration txParams.m_txVector
                su_Pul := env.CalculatePhyPreambleAndHeaderDuration responseTxVector2 })

/-- The expression assigned to `su_tpt`. -/
def suThroughput (s : State) : ℚ :=
  (((8 * s.mpdu_size % 2 ^ 32 * s.su_ampdu % 2 ^ 32 : Nat) : ℚ))
    / ((aifs : ℚ) + bo + (GetMicroSeconds s.su_Pdl : ℚ) + (GetMicroSeconds s.su_txdata : ℚ)
        + (sifs : ℚ) + (GetMicroSeconds s.su_Pul : ℚ) + (GetMicroSeconds s.su_Back : ℚ))

/-- The expression assigned to `mu_tpt`. -/
def muThroughput (s : State) : ℚ :=
  (((8 * s.mpdu_size % 2 ^ 32 * (s.mu_ampdu.sum % 2 ^ 32).toNat % 2 ^ 32 : Nat) : ℚ))
    / ((aifs : ℚ) + bo + (GetMicroSeconds s.mu_Pdl : ℚ) + (GetMicroSeconds s.mu_txdata : ℚ)
        + (pe : ℚ) + (sifs : ℚ) + (GetMicroSeconds s.mu_Pul : ℚ)
        + (GetMicroSeconds s.mu_Back : ℚ) + (pe : ℚ))

/-- The part of `TrySendingDlMuPpdu` that follows a selection with at least one
candidate: the MU and SU duration components, the two estimates and the decision.
`s1` is the state left by the selection, `sel` what the selection loop computed. -/
def dlEstimate (env : Env) (s1 : State) (sel : SelState) : Except Fault (TxFormat × State) :=
  match responseTxVector sel.txParams with
  | .error e => .error e
  | .ok (ack, responseTv) =>
    let s2 :=
      { s1 with
        mu_txdata := sel.txParams.m_txDuration
        mu_Back := ack.acknowledgmentTime
        mu_Pul := env.CalculatePhyPreambleAndHeaderDuration responseTv }
    match calculate_su_mpdu env s2 with
    | .error e => .error e
    | .ok (ampdu, s3) =>
      let s4 := { s3 with su_ampdu := ampdu % 2 ^ 32 }
      if !s4.que then .error .undefinedBehaviour
      else
        let s5 :=
          match sel.mpdu with
          | some mpdu => { s4 with mpdu_size := mpdu.size % 2 ^ 32 }
          | none => s4
        let s6 := { s5 with su_tpt := suThroughput s5 }
        let s7 := { s6 with mu_tpt := muThroughput s6 }
        if s7.su_tpt > s7.mu_tpt then .ok (TxFormat.SU_TX, s7)
        else .ok (TxFormat.DL_MU_TX, s7)

/-- The state `TrySendingDlMuPpdu` is in when the selection loop has ended. -/
def dlSelected (s0 : State) (sel : SelState) : State :=
  { s0 with
    m_txParams := sel.txParams
    m_txParams2 := { WifiTxParameters.Clear with m_txVector := sel.txVector2 }
    m_candidates := sel.candidates
    m_candidates2 := sel.candidates2 }

/-- The method `RrsumuScheduler::TrySendingDlMuPpdu`. -/
def TrySendingDlMuPpdu (env : Env) (s : State) : Except Fault (TxFormat × State) :=
  let s0 := s.touchStaList env.primaryAc
  if s0.staList env.primaryAc = [] then .ok (TxFormat.SU_TX, s0)
  else
    match dlSelect env s0 with
    | .error e => .error e
    | .ok sel =>
      if sel.candidates = [] then
        if s.m_forceDlOfdma then .ok (TxFormat.NO_TX, dlSelected s0 sel)
        else .ok (TxFormat.SU_TX, dlSelected s0 sel)
      else dlEstimate env (dlSelected s0 sel) sel

/-- The method `RrsumuScheduler::SelectTxFormat`. -/
def SelectTxFormat (env : Env) (s : State) : Except Fault (TxFormat × State) :=
  if s.m_enableUlOfdma && s.m_enableBsrp && env.lastTxFormat = .DL_MU_TX then
    TrySendingBsrpTf env s
  else if s.m_enableUlOfdma
      && (env.lastTxFormat = .DL_MU_TX || s.m_ulTriggerType = .BSRP_TRIGGER) then
    match TrySendingBasicTf env s with
    | .error e => .error e
    | .ok (txFormat, s') =>
        if txFormat ≠ .DL_MU_TX then .ok (txFormat, s') else TrySendingDlMuPpdu env s'
  else TrySendingDlMuPpdu env s

/-! ## Multi-user finalisation and the credit ledger -/

/-- Apply `f` to the payload of the node an iterator with identity `id` points at. -/
def updateNode (id : Nat) (f : MasterInfo → MasterInfo) : List Node → Option (List Node)
  | [] => none
  | n :: rest =>
      if n.id = id then some ({ n with info := f n.info } :: rest)
      else (updateNode id f rest).map (fun l => n :: l)

/-- The first loop of `ComputeDlMuInfo`, which fills the final TX vector: `k` iterations
are left, `i` is the loop index. -/
def dlFill (s : State) (ruType : RuType) (nRusAssigned : Nat) :
    Nat → Nat → List CandidateInfo → WifiTxVector → Except Fault WifiTxVector
  | 0, _, _, tv => .ok tv
  | _ + 1, _, [], _ => .error .assertion
  | k + 1, i, c :: rest, tv => do
      let info ← s.deref c
      let staId := info.aid
      let mode ← s.m_txParams.m_txVector.GetMode staId
      let nss ← s.m_txParams.m_txVector.GetNss staId
      dlFill s ruType nRusAssigned k (i + 1) rest
        (tv.SetHeMuUserInfo staId
          ⟨⟨if i < nRusAssigned then ruType else .RU_26_TONE, 1, false⟩, mode, nss⟩)

/-- The loop of `ComputeDlMuInfo` that re-applies the stored frames to the final
TX vector. -/
def dlReAdd (env : Env) (actualAvailableTime : Time) :
    List CandidateInfo → WifiTxParameters → Except Fault WifiTxParameters
  | [], txParams => .ok txParams
  | c :: rest, txParams =>
      match c.mpdu with
      | none => .error .assertion
      | some mpdu =>
          match env.TryAddMpdu mpdu txParams actualAvailableTime with
          | none => .error .assertion
          | some txParams' => dlReAdd env actualAvailableTime rest txParams'

/-- Assignment `v[i] = x` to a `std::vector<int>`; writing past the end is undefined. -/
def vectorSet (v : List Int) (i : Nat) (x : Int) : Except Fault (List Int) :=
  if i < v.length then .ok (v.set i x) else .error .undefinedBehaviour

/-- What the aggregation loop of `ComputeDlMuInfo` updates. -/
structure AggState where
  txParams : WifiTxParameters
  psduMap : List (Nat × List WifiMacQueueItem)
  mu_ampdu : List Int
  iterator : Nat
  deriving DecidableEq, Repr

/-- The aggregation loop of `ComputeDlMuInfo`. -/
def dlAggregate (env : Env) (s : State) :
    List CandidateInfo → AggState → Except Fault AggState
  | [], st => .ok st
  | c :: rest, st =>
      match c.mpdu with
      | none => .error .assertion
      | some mpdu => do
          let info ← s.deref c
          if mpdu.addr1 ≠ info.address then throw Fault.assertion
          if !mpdu.isQueued then throw Fault.assertion
          let (item, txParams1) :=
            if !mpdu.isRetry then
              let r := env.GetNextAmsdu mpdu st.txParams env.m_availableTime
              (r.1.getD mpdu, r.2)
            else (mpdu, st.txParams)
          let (mpduList, txParams2) := env.GetNextAmpdu item txParams1 env.m_availableTime
          let psdu := if mpduList.length > 1 then mpduList else [item]
          let mu_ampdu ← vectorSet st.mu_ampdu st.iterator psdu.length
          dlAggregate env s rest
            { txParams := txParams2
              psduMap := mapInsert info.aid psdu st.psduMap
              mu_ampdu := mu_ampdu
              iterator := st.iterator + 1 }

/-- The loop of `ComputeDlMuInfo` that adds `creditsPerSta` to every station and caps
the result. -/
def grantCredits (creditsPerSta maxCredits : ℚ) (l : List Node) : List Node :=
  l.map (fun n =>
    { n with info := { n.info with credits := min (n.info.credits + creditsPerSta) maxCredits } })

/-- The loop of `ComputeDlMuInfo` that subtracts the debits of the served candidates:
`k` iterations are left, `i` is the loop index. -/
def debitLoop (env : Env) (debitsPerMhz : ℚ) (ruType : RuType) (nRusAssigned : Nat) :
    Nat → Nat → List CandidateInfo → (AcIndex → Option (List Node)) →
      Except Fault (AcIndex → Option (List Node))
  | 0, _, _, m => .ok m
  | _ + 1, _, [], _ => .error .assertion
  | k + 1, i, c :: rest, m =>
      let debit := debitsPerMhz
        * (env.GetBandwidth (if i < nRusAssigned then ruType else .RU_26_TONE) : ℚ)
      match updateNode c.node (fun info => { info with credits := info.credits - debit })
          ((m c.ac).getD []) with
      | none => .error .undefinedBehaviour
      | some l =>
          debitLoop env debitsPerMhz ruType nRusAssigned k (i + 1) rest
            (Function.update m c.ac (some l))

/-- The comparison of `std::list::sort` in `ComputeDlMuInfo` is `a.credits > b.credits`;
the sort is stable, so it is the insertion sort for "credit not smaller". -/
def sortByCredits (l : List Node) : List Node :=
  l.insertionSort (fun a b => b.info.credits ≤ a.info.credits)

/-- The numbers `nRusAssigned` and `nCentral26TonesRus1` of `ComputeDlMuInfo`, with the
RU type of the equal-size partition. -/
def dlPartition (env : Env) (s : State) : RuType × Nat × Nat :=
  let (ruType, nRusAssigned, nCentral) :=
    env.GetEqualSizedRusForStations (env.channelWidth % 2 ^ 16) s.m_txParams.nPsdus
  let nCentral26TonesRus1 :=
    if !s.m_useCentral26TonesRus || s.m_candidates.length = nRusAssigned then 0
    else min (sizeSub s.m_candidates.length nRusAssigned) nCentral
  (ruType, nRusAssigned, nCentral26TonesRus1)

/-- The credit ledger update at the end of `ComputeDlMuInfo` (from the computation of
`creditsPerSta` to the sort), for the final TX duration `txDuration` and the served
candidates `candidates`, in exact arithmetic; `creditLedgerFl` is the same update in
double precision. -/
def creditLedger (env : Env) (s : State) (ruType : RuType)
    (nRusAssigned nCentral26TonesRus1 : Nat) (candidates : List CandidateInfo)
    (txDuration : Time) : Except Fault (AcIndex → Option (List Node)) :=
  let primaryAc := env.primaryAc
  let staList := s.staList primaryAc
  let creditsPerSta := ToDoubleUS txDuration / (staList.length : ℚ)
  let debitsPerMhz := ToDoubleUS txDuration
    / ((nRusAssigned * env.GetBandwidth ruType
        + nCentral26TonesRus1 * env.GetBandwidth .RU_26_TONE : Nat) : ℚ)
  let granted := Function.update s.m_staList primaryAc
    (some (grantCredits creditsPerSta (ToDoubleUS s.m_maxCredits) staList))
  match debitLoop env debitsPerMhz ruType nRusAssigned
      (nRusAssigned + nCentral26TonesRus1) 0 candidates granted with
  | .error e => .error e
  | .ok debited =>
      .ok (Function.update debited primaryAc
        (some (sortByCredits ((debited primaryAc).getD []))))

/-- The TX vector `ComputeDlMuInfo` starts from: the common fields of the trial TX
vector, no user yet. -/
def dlFinalTxVector0 (s : State) : WifiTxVector :=
  { WifiTxVector.default with
    preamble := s.m_txParams.m_txVector.preamble
    channelWidth := s.m_txParams.m_txVector.channelWidth
    guardInterval := s.m_txParams.m_txVector.guardInterval
    bssColor := s.m_txParams.m_txVector.bssColor }

/-- The method `RrsumuScheduler::ComputeDlMuInfo`. -/
def ComputeDlMuInfo (env : Env) (s : State) : Except Fault (DlMuInfo × State) :=
  if s.m_candidates = [] then .ok (DlMuInfo.default, s)
  else
    let ruType := (dlPartition env s).1
    let nRusAssigned := (dlPartition env s).2.1
    let nCentral26TonesRus1 := (dlPartition env s).2.2
    match dlFill s ruType nRusAssigned (nRusAssigned + nCentral26TonesRus1) 0
        s.m_candidates (dlFinalTxVector0 s) with
    | .error e => .error e
    | .ok tv1 =>
      let candidates := s.m_candidates.take (nRusAssigned + nCentral26TonesRus1)
      match AssignRuIndices env tv1 with
      | .error e => .error e
      | .ok tv =>
        let actualAvailableTime := if env.m_initialFrame then TimeMin else env.m_availableTime
        match dlReAdd env actualAvailableTime candidates
            { WifiTxParameters.Clear with m_txVector := tv } with
        | .error e => .error e
        | .ok txParams1 =>
          match dlAggregate env s candidates
              { txParams := txParams1, psduMap := [], mu_ampdu := s.mu_ampdu, iterator := 0 } with
          | .error e => .error e
          | .ok agg =>
            if !s.que then .error .undefinedBehaviour
            else
              match creditLedger env s ruType nRusAssigned nCentral26TonesRus1 candidates
                  agg.txParams.m_txDuration with
              | .error e => .error e
              | .ok staLists =>
                .ok ({ psduMap := agg.psduMap, txParams := agg.txParams },
                  { s with
                    m_candidates := candidates
                    m_txParams := WifiTxParameters.Clear
                    mu_ampdu := agg.mu_ampdu
                    m_staList := staLists })

/-! ## Reference definitions -/

/-- The reference definition of `SelectTxFormat` in the words of the specification: a
buffer-status solicitation when uplink OFDMA and BSRP are enabled and the last format
is DL MU; otherwise, when uplink OFDMA is enabled and the last format is DL MU or the
stored trigger type is BSRP, the basic solicitation, whose result is returned unless it
is "proceed to DL"; in every remaining case the DL MU attempt on the state the call
started from. -/
def SelectTxFormat_reference (env : Env) (s : State) : Except Fault (TxFormat × State) :=
  if s.m_enableUlOfdma = true ∧ s.m_enableBsrp = true ∧ env.lastTxFormat = .DL_MU_TX then
    TrySendingBsrpTf env s
  else if s.m_enableUlOfdma = true
      ∧ (env.lastTxFormat = .DL_MU_TX ∨ s.m_ulTriggerType = .BSRP_TRIGGER) then
    match TrySendingBasicTf env s with
    | .error e => .error e
    | .ok (txFormat, s') =>
        if txFormat = .DL_MU_TX then TrySendingDlMuPpdu env s else .ok (txFormat, s')
  else TrySendingDlMuPpdu env s

/-- The candidates found by the DL candidate selection of `TrySendingDlMuPpdu`: none
when the station list of the winning category is empty, those of the selection loop
otherwise. -/
def dlCandidatesFound (env : Env) (s : State) : Except Fault (List CandidateInfo) :=
  if s.staList env.primaryAc = [] then .ok []
  else
    match dlSelect env (s.touchStaList env.primaryAc) with
    | .error e => .error e
    | .ok sel => .ok sel.candidates

/-- The assertions of the selection of `TrySendingDlMuPpdu` hold: the equal-size
partition has at least one RU and every TID to check maps to the winning access
category or a higher one. -/
def SelectionAsserts (env : Env) (s : State) : Prop :=
  1 ≤ (env.GetEqualSizedRusForStations env.channelWidth
        (min (s.m_nStations % 256) (s.staList env.primaryAc).length)).2.1
  ∧ ∀ tid ∈ dlTids env s, env.primaryAc.priority ≤ (env.QosUtilsMapTidToAc tid).priority

/-- Position of the list node `id` among the served candidates, if it is one of them. -/
def servedIndex (id : Nat) : List CandidateInfo → Option Nat
  | [] => none
  | c :: rest => if c.node = id then some 0 else (servedIndex id rest).map (· + 1)

/-- The effect on one list node of the debit loop of `ComputeDlMuInfo` run over the
candidates `cs` from loop index `i` on. -/
def debitNode (env : Env) (dpm : ℚ) (rt : RuType) (nRus : Nat) (i : Nat)
    (cs : List CandidateInfo) (n : Node) : Node :=
  match servedIndex n.id cs with
  | none => n
  | some j =>
      { n with info := { n.info with credits := n.info.credits
          - dpm * (env.GetBandwidth (if i + j < nRus then rt else .RU_26_TONE) : ℚ) } }

/-- The credit of the station `sta` after a commit, in the words of the specification:
with `T` the final TX duration and `n` the number of stations of the list, the old
credit plus `T / n` capped at `MaxCredits` (all in microseconds), minus, for a station
granted the `i`-th RU,
`T / (nRus * bandwidth (ruType) + nLeftover * bandwidth (26-tone)) * bandwidth (its RU type)`;
a station that is not granted an RU is not debited. -/
def creditAfterCommit (env : Env) (T : Time) (n : Nat) (maxCredits : Time) (ruType : RuType)
    (nRus nLeftover : Nat) (served : List CandidateInfo) (sta : Node) : ℚ :=
  let granted := min (sta.info.credits + ToDoubleUS T / (n : ℚ)) (ToDoubleUS maxCredits)
  match servedIndex sta.id served with
  | none => granted
  | some i =>
      granted - ToDoubleUS T
        / ((nRus * env.GetBandwidth ruType + nLeftover * env.GetBandwidth .RU_26_TONE : Nat) : ℚ)
        * (env.GetBandwidth (if i < nRus then ruType else .RU_26_TONE) : ℚ)

/-- The states the scheduler can be in: `DoInitialize` on a scheduler without station
lists, then any sequence of association and de-association notifications, calls of
`SelectTxFormat` and MU commits (`ComputeDlMuInfo`) whose final TX duration is not
negative, each in an environment of its own. -/
inductive Reachable : State → Prop where
  | init (s : State) : (∀ ac, s.m_staList ac = none) → Reachable (DoInitialize s)
  | associated (env : Env) (s : State) (aid address : Nat) :
      Reachable s → Reachable (NotifyStationAssociated env s aid address)
  | deassociated (env : Env) (s : State) (aid address : Nat) :
      Reachable s → Reachable (NotifyStationDeassociated env s aid address)
  | selected (env : Env) (s : State) (txFormat : TxFormat) (s' : State) :
      Reachable s → SelectTxFormat env s = .ok (txFormat, s') → Reachable s'
  | committed (env : Env) (s : State) (info : DlMuInfo) (s' : State) :
      Reachable s → ComputeDlMuInfo env s = .ok (info, s') →
      0 ≤ info.txParams.m_txDuration → Reachable s'

/-- The AID of the station a candidate points at (0 for a dangling iterator). -/
def candidateAid (s : State) (c : CandidateInfo) : Nat :=
  match s.deref c with
  | .ok info => info.aid
  | .error _ => 0

/-- The frame-exchange collaborator leaves the TX vector of the parameters it is given
as it is: `TryAddMpdu`, `GetNextAmsdu` and `GetNextAmpdu` only update the timing and
the PSDU information. -/
def KeepsTxVector (env : Env) : Prop :=
  (∀ mpdu txParams t txParams', env.TryAddMpdu mpdu txParams t = some txParams' →
      txParams'.m_txVector = txParams.m_txVector)
  ∧ (∀ mpdu txParams t, (env.GetNextAmsdu mpdu txParams t).2.m_txVector = txParams.m_txVector)
  ∧ (∀ mpdu txParams t, (env.GetNextAmpdu mpdu txParams t).2.m_txVector = txParams.m_txVector)

/-- One MU commit of a run of uniform rounds for the access category `ac`: a returning
`ComputeDlMuInfo` on a non-empty candidate list with final TX duration `T`, `k` stations
served on RUs of type `rt` (of bandwidth `bw`) and none on a leftover unit; every
station is eligible, so the candidates are the first stations of the list, in order;
the credit cap is not reached. -/
def UniformCommit (ac : AcIndex) (T : Time) (rt : RuType) (k bw : Nat) (s s' : State) : Prop :=
  ∃ env info, env.primaryAc = ac ∧ ComputeDlMuInfo env s = .ok (info, s')
    ∧ s.m_candidates ≠ [] ∧ info.txParams.m_txDuration = T
    ∧ dlPartition env s = (rt, k, 0) ∧ env.GetBandwidth rt = bw
    ∧ (∃ m, s.m_candidates.map (fun c => (c.ac, c.node))
        = ((s.staList ac).take m).map (fun n => (ac, n.id)))
    ∧ ∀ n ∈ s.staList ac,
        n.info.credits + ToDoubleUS T / ((s.staList ac).length : ℚ) ≤ ToDoubleUS s.m_maxCredits

/-- A run of one or more uniform commits: `UniformRounds ac T rt k bw L0 s` says that
`s` is the state after the last commit of a run that started with the station list
`L0`; between two commits the station list is left as it is. -/
inductive UniformRounds (ac : AcIndex) (T : Time) (rt : RuType) (k bw : Nat) :
    List Node → State → Prop where
  | first (s s' : State) :
      UniformCommit ac T rt k bw s s' → UniformRounds ac T rt k bw (s.staList ac) s'
  | next (L0 : List Node) (sPrev s s' : State) :
      UniformRounds ac T rt k bw L0 sPrev → s.staList ac = sPrev.staList ac →
      UniformCommit ac T rt k bw s s' → UniformRounds ac T rt k bw L0 s'

/-- The largest difference between two credits of the list is at most `d`. -/
def CreditSpread (d : ℚ) (l : List Node) : Prop :=
  ∀ a ∈ l, ∀ b ∈ l, a.info.credits - b.info.credits ≤ d

/-! ## A concrete environment

The tables below are those of ns-3 for a 40 MHz channel; they instantiate the
environment in the worked examples. -/

/-- The result of `HeRu::GetEqualSizedRusForStations` on a 40 MHz channel. -/
def ns3EqualSizedRus (_bw n : Nat) : RuType × Nat × Nat :=
  if 18 ≤ n then (.RU_26_TONE, 18, 0)
  else if 8 ≤ n then (.RU_52_TONE, 8, 2)
  else if 4 ≤ n then (.RU_106_TONE, 4, 2)
  else if 2 ≤ n then (.RU_242_TONE, 2, 0)
  else (.RU_484_TONE, 1, 0)

/-- The table of `HeRu::GetBandwidth`, in MHz. -/
def ns3Bandwidth : RuType → Nat
  | .RU_26_TONE => 2
  | .RU_52_TONE => 4
  | .RU_106_TONE => 8
  | .RU_242_TONE => 20
  | .RU_484_TONE => 40
  | .RU_996_TONE => 80
  | .RU_2x996_TONE => 160

/-- The RUs of one type on a 40 MHz channel (`HeRu::GetRusOfType`). -/
def ns3RusOfType (_bw : Nat) (t : RuType) : List RuSpec :=
  let n := match t with
    | .RU_26_TONE => 18
    | .RU_52_TONE => 8
    | .RU_106_TONE => 4
    | .RU_242_TONE => 2
    | .RU_484_TONE => 1
    | _ => 0
  (List.range n).map (fun i => ⟨t, i + 1, true⟩)

/-- The central 26-tone RUs on a 40 MHz channel (`HeRu::GetCentral26TonesRus`). -/
def ns3Central26TonesRus (_bw : Nat) (t : RuType) : List RuSpec :=
  match t with
  | .RU_52_TONE => [⟨.RU_26_TONE, 5, true⟩, ⟨.RU_26_TONE, 14, true⟩]
  | .RU_106_TONE => [⟨.RU_26_TONE, 5, true⟩, ⟨.RU_26_TONE, 14, true⟩]
  | _ => []

/-- The function `QosUtilsMapTidToAc` of ns-3. -/
def ns3MapTidToAc (tid : Nat) : AcIndex :=
  if tid = 0 ∨ tid = 3 then .AC_BE
  else if tid = 1 ∨ tid = 2 then .AC_BK
  else if tid = 4 ∨ tid = 5 then .AC_VI
  else .AC_VO

/-- The high TID of each access category in `wifiAcList`. -/
def ns3HighTid : AcIndex → Nat
  | .AC_BE => 3
  | .AC_BK => 2
  | .AC_VI => 5
  | .AC_VO => 7

/-- The low TID of each access category in `wifiAcList`. -/
def ns3LowTid : AcIndex → Nat
  | .AC_BE => 0
  | .AC_BK => 1
  | .AC_VI => 4
  | .AC_VO => 6

/-- The method `WifiAc::GetOtherTid`. -/
def ns3OtherTid (ac : AcIndex) (tid : Nat) : Nat :=
  if tid = ns3LowTid ac then ns3HighTid ac else ns3LowTid ac

/-- A queued QoS data frame of 1000 bytes for the station with address `addr`. -/
def exampleFrame (addr tid : Nat) : WifiMacQueueItem :=
  { size := 1000, addr1 := addr, tid := tid, isQosData := true, isRetry := false,
    isQueued := true, trigger := none }

/-- An environment in which every station has a block-ack agreement and a queued frame
for every TID, every frame fits the time budget, a DL MU PPDU lasts 6 microseconds and
no aggregation takes place. -/
def exampleEnv : Env :=
  { lastTxFormat := .NO_TX
    dlMuInfoTxVector := WifiTxVector.default
    ulMuInfoTrigger :=
      { type := .BASIC_TRIGGER, ulBandwidth := 20, guardInterval := 3200, userInfos := [],
        ulLength := 0, csRequired := false, targetRssiSet := false }
    m_availableTime := TimeMin
    m_availableTime2 := TimeMin
    m_initialFrame := true
    m_sizeOf8QosNull := 240
    primaryAc := .AC_BE
    edcaPeekNextMpdu := none
    channelWidth := 40
    phySifs := 16000
    apStaList := fun _ => none
    broadcast := 0xffffffffffff
    GetMaxBufferStatus := fun _ => 0
    heGuardInterval := 3200
    heBssColor := 0
    GetHeSupported := fun _ => true
    GetRtsTxVector := fun _ => WifiTxVector.default
    GetDataTxVector := fun _ => WifiTxVector.default
    GetHighTid := ns3HighTid
    GetOtherTid := ns3OtherTid
    QosUtilsMapTidToAc := ns3MapTidToAc
    GetBaAgreementEstablished := fun _ _ _ => true
    PeekNextMpdu := fun _ tid addr => some (exampleFrame addr tid)
    TryAddMpdu := fun _ txParams _ =>
      some
        { txParams with
          m_protection := some 0
          m_acknowledgment := some ⟨44000, [WifiTxVector.default]⟩
          m_txDuration := 6000
          nPsdus := txParams.nPsdus + 1 }
    GetNextAmsdu := fun _ txParams _ => (none, txParams)
    GetNextAmpdu := fun _ txParams _ => ([], txParams)
    CalculateTxDuration := fun _ _ _ => 100000
    CalculatePhyPreambleAndHeaderDuration := fun _ => 40000
    GetPpduMaxTime := fun _ => 5484000
    ConvertHeTbPpduDurationToLSigLength := fun _ => 0
    triggerGuardInterval := fun gi => gi
    defaultTriggerGuardInterval := 3200
    GetEqualSizedRusForStations := ns3EqualSizedRus
    GetBandwidth := ns3Bandwidth
    GetRusOfType := ns3RusOfType
    GetCentral26TonesRus := ns3Central26TonesRus
    discreteDraw := 0 }

/-- A scheduler as constructed, before `DoInitialize`: at most two stations per DL MU
PPDU, uplink OFDMA off, a credit cap of one second. -/
def exampleState0 : State :=
  { m_nStations := 2
    m_enableTxopSharing := false
    m_forceDlOfdma := false
    m_enableUlOfdma := false
    m_enableBsrp := false
    m_useCentral26TonesRus := false
    m_ulPsduSize := 500
    m_maxCredits := 1000000000
    m_staList := fun _ => none
    nextNodeId := 0
    m_candidates := []
    m_trigger := none
    m_tbPpduDuration := 0
    m_txParams := WifiTxParameters.Clear
    m_ulTriggerType := .BASIC_TRIGGER
    mpdu_size := 0
    mu_tpt := 0
    mu_ampdu := []
    mu_txdata := 0
    mu_Back := 0
    mu_Pdl := 0
    mu_Pul := 0
    su_tpt := 0
    m_candidates2 := []
    m_txParams2 := WifiTxParameters.Clear
    su_ampdu := 0
    su_txdata := 0
    su_Back := 0
    su_Pdl := 0
    su_Pul := 0
    que := true }

/-- The example environment with empty queues: no frame is queued for any station. -/
def idleEnv : Env := { exampleEnv with PeekNextMpdu := fun _ _ _ => none }

/-- The example scheduler after `DoInitialize` and the association of one station. -/
def oneStation : State :=
  NotifyStationAssociated exampleEnv (DoInitialize exampleState0) 1 101

/-- The example scheduler with `ForceDlOfdma` enabled, after `DoInitialize`. -/
def forcedNoStation : State := DoInitialize { exampleState0 with m_forceDlOfdma := true }

/-- The example scheduler with `ForceDlOfdma` enabled, after `DoInitialize` and the
association of one station. -/
def forcedOneStation : State := NotifyStationAssociated exampleEnv forcedNoStation 1 101

/-- The example scheduler after `DoInitialize` and the association of three stations. -/
def threeStations : State :=
  NotifyStationAssociated exampleEnv (NotifyStationAssociated exampleEnv
    (NotifyStationAssociated exampleEnv (DoInitialize exampleState0) 1 101) 2 102) 3 103

/-- The state of a returned result, `d` if the call ended in a fault. -/
def resultState {α : Type} (r : Except Fault (α × State)) (d : State) : State :=
  match r with
  | .ok (_, s) => s
  | .error _ => d

/-- The DL MU information of a returned commit, the default one after a fault. -/
def resultInfo (r : Except Fault (DlMuInfo × State)) : DlMuInfo :=
  match r with
  | .ok (info, _) => info
  | .error _ => DlMuInfo.default

/-- The three-station example after the selection of `TrySendingDlMuPpdu`: the first
two stations are candidates. -/
def selectedThree : State :=
  resultState (TrySendingDlMuPpdu exampleEnv threeStations) threeStations

/-- The three-station example after the commit of the first round. -/
def committedThree : State :=
  resultState (ComputeDlMuInfo exampleEnv selectedThree) selectedThree

/-- The DL MU information returned by the commit of the first round. -/
def committedThreeInfo : DlMuInfo := resultInfo (ComputeDlMuInfo exampleEnv selectedThree)

/-- The identity, AID and address of a list node. -/
def stationKey (n : Node) : Nat × Nat × Nat := (n.id, n.info.aid, n.info.address)

/-- The example scheduler configured with a negative `MaxCredits`, after `DoInitialize`
and the association of one station. -/
def negativeCap : State :=
  NotifyStationAssociated exampleEnv
    (DoInitialize { exampleState0 with m_maxCredits := -1000 }) 1 101

/-- The example scheduler with `NStations` at its default of 6, after `DoInitialize` and
the association of four stations. -/
def fourStations : State :=
  NotifyStationAssociated exampleEnv (NotifyStationAssociated exampleEnv
    (NotifyStationAssociated exampleEnv (NotifyStationAssociated exampleEnv
      (DoInitialize { exampleState0 with m_nStations := 6 }) 1 101) 2 102) 3 103) 4 104

/-- The four-station example after the selection of `TrySendingDlMuPpdu`. -/
def selectedFour : State :=
  resultState (TrySendingDlMuPpdu exampleEnv fourStations) fourStations

/-- The four-station example after the commit. -/
def committedFour : State :=
  resultState (ComputeDlMuInfo exampleEnv selectedFour) selectedFour

/-- The DL MU information returned by the commit of the four-station example. -/
def committedFourInfo : DlMuInfo := resultInfo (ComputeDlMuInfo exampleEnv selectedFour)

/-- The example scheduler after `DoInitialize` and two association notifications that
carry the same AID for two addresses. -/
def sharedAid : State :=
  NotifyStationAssociated exampleEnv
    (NotifyStationAssociated exampleEnv (DoInitialize exampleState0) 1 101) 1 102

/-- The shared-AID example after the selection of `TrySendingDlMuPpdu`. -/
def selectedShared : State :=
  resultState (TrySendingDlMuPpdu exampleEnv sharedAid) sharedAid

/-- The shared-AID example after the commit. -/
def committedShared : State :=
  resultState (ComputeDlMuInfo exampleEnv selectedShared) selectedShared

/-- The DL MU information returned by the commit of the shared-AID example. -/
def committedSharedInfo : DlMuInfo := resultInfo (ComputeDlMuInfo exampleEnv selectedShared)

/-- The three-station example after the selection of the second round. -/
def selectedThree2 : State :=
  resultState (TrySendingDlMuPpdu exampleEnv committedThree) committedThree

/-- The three-station example after the commit of the second round. -/
def committedThree2 : State :=
  resultState (ComputeDlMuInfo exampleEnv selectedThree2) selectedThree2

/-- The DL MU information returned by the commit of the second round. -/
def committedThree2Info : DlMuInfo := resultInfo (ComputeDlMuInfo exampleEnv selectedThree2)

/-! ## Worked examples for the candidate selection -/

/-- The equal-size partition `TrySendingDlMuPpdu` computes before the selection loop:
the RU type, the number of RUs (`count` after the call) and the number of central
26-tone RUs reported by `HeRu::GetEqualSizedRusForStations`. -/
def selectionPartition (env : Env) (s : State) : RuType × Nat × Nat :=
  env.GetEqualSizedRusForStations env.channelWidth
    (min (s.m_nStations % 256) (s.staList env.primaryAc).length)

/-- The value of a returned selection, `d` if it ended in a fault. -/
def resultSel (r : Except Fault SelState) (d : SelState) : SelState :=
  match r with
  | .ok sel => sel
  | .error _ => d

/-- The example scheduler with `NStations` set to 3 and `UseCentral26TonesRus` disabled,
after `DoInitialize` and the association of three stations. -/
def threeWide : State :=
  NotifyStationAssociated exampleEnv (NotifyStationAssociated exampleEnv
    (NotifyStationAssociated exampleEnv
      (DoInitialize { exampleState0 with m_nStations := 3 }) 1 101) 2 102) 3 103

/-- What the selection loop of `TrySendingDlMuPpdu` computes in the `threeWide` example. -/
def selWide : SelState :=
  resultSel (dlSelect exampleEnv (threeWide.touchStaList exampleEnv.primaryAc))
    ⟨WifiTxParameters.Clear, WifiTxVector.default, [], [], none⟩

/-- The bound of the selection loop of `TrySendingDlMuPpdu` on the number of candidates:
`max (NStations, count + nCentral26TonesRus)`, where the central 26-tone RUs count only
when `UseCentral26TonesRus` is enabled. -/
def selectionBound (env : Env) (s : State) : Nat :=
  max (s.m_nStations % 256)
    ((selectionPartition env s).2.1
      + if s.m_useCentral26TonesRus then (selectionPartition env s).2.2 else 0)

/-- The time limit `actualAvailableTime` the selection passes to `TryAddMpdu`. -/
def selectionTime (env : Env) : Time := if env.m_initialFrame then TimeMin else env.m_availableTime

/-- The station `sta` yields no candidate: for every TID of `tids` with an established
block-ack agreement, the head-of-queue frame, if there is one, is rejected by `TryAddMpdu`
for the trial parameters it is tried with. -/
def FrameRejected (env : Env) (t : Time) (tids : List Nat) (sta : Node) : Prop :=
  ∀ tid ∈ tids,
    env.GetBaAgreementEstablished (env.QosUtilsMapTidToAc tid) sta.info.address tid = true →
    ∀ mpdu, env.PeekNextMpdu (env.QosUtilsMapTidToAc tid) tid sta.info.address = some mpdu →
      ∃ txParams, env.TryAddMpdu mpdu txParams t = none

/-- The frame `mpdu` is the head-of-queue frame of the station `sta` peeked for a TID of
`tids` with an established block-ack agreement, and `TryAddMpdu` accepted it. -/
def FrameAccepted (env : Env) (t : Time) (tids : List Nat) (sta : Node)
    (mpdu : WifiMacQueueItem) : Prop :=
  ∃ tid ∈ tids,
    env.GetBaAgreementEstablished (env.QosUtilsMapTidToAc tid) sta.info.address tid = true
      ∧ env.PeekNextMpdu (env.QosUtilsMapTidToAc tid) tid sta.info.address = some mpdu
      ∧ ∃ txParams txParams', env.TryAddMpdu mpdu txParams t = some txParams'

/-- What the selection loop of `TrySendingDlMuPpdu` computes in the three-station
example (`NStations` is 2). -/
def selThree : SelState :=
  resultSel (dlSelect exampleEnv (threeStations.touchStaList exampleEnv.primaryAc))
    ⟨WifiTxParameters.Clear, WifiTxVector.default, [], [], none⟩

/-! ## The station registry -/

/-- The states of the station registry: `DoInitialize` on a scheduler without station
lists, then any sequence of association notifications, de-association notifications,
calls of `SelectTxFormat` and MU commits (`ComputeDlMuInfo`), each in an environment of
its own. -/
inductive RegistryReachable : State → Prop where
  | init (s : State) : (∀ ac, s.m_staList ac = none) → RegistryReachable (DoInitialize s)
  | associated (env : Env) (s : State) (aid address : Nat) :
      RegistryReachable s → RegistryReachable (NotifyStationAssociated env s aid address)
  | deassociated (env : Env) (s : State) (aid address : Nat) :
      RegistryReachable s → RegistryReachable (NotifyStationDeassociated env s aid address)
  | selected (env : Env) (s : State) (txFormat : TxFormat) (s' : State) :
      RegistryReachable s → SelectTxFormat env s = .ok (txFormat, s') → RegistryReachable s'
  | committed (env : Env) (s : State) (info : DlMuInfo) (s' : State) :
      RegistryReachable s → ComputeDlMuInfo env s = .ok (info, s') → RegistryReachable s'

/-- The (AID, address) entry of a list node. -/
def registryKey (n : Node) : Nat × Nat := (n.info.aid, n.info.address)

/-! ## Uplink solicitation: reference definitions and examples -/

/-- The queue size a candidate's station reports: the `uint8_t` returned by
`GetMaxBufferStatus` for the address of the station the candidate points at (0 for a
dangling iterator). -/
def reportedQueueSize (env : Env) (s : State) (c : CandidateInfo) : Nat :=
  match s.deref c with
  | .ok info => env.GetMaxBufferStatus info.address % 256
  | .error _ => 0

/-- The worst-case size of one reported queue size, in the words of the specification:
`UlPsduSize` for 255 (unknown), 0xffffffff for 254 (unlimited), `256 * q` otherwise. -/
def worstCaseSize (ulPsduSize q : Nat) : Nat :=
  if q = 255 then ulPsduSize else if q = 254 then 0xffffffff else 256 * q

/-- The reference definition of `maxBufferSize`: the maximum of the worst-case sizes of
the candidates, 0 for an empty list. -/
def maxBufferSize_reference (env : Env) (s : State) (cs : List CandidateInfo) : Nat :=
  (cs.map (fun c => worstCaseSize s.m_ulPsduSize (reportedQueueSize env s c))).foldr max 0

/-- The example environment at the channel access that follows the DL MU PPDU of the
three-station example: the last format is DL MU, `GetDlMuInfo ()` holds its TX vector,
the stations report the queue sizes `queueSize` and `availableTime` is left of the TXOP;
sending `n` bytes takes `n` microseconds. -/
def ulEnv (queueSize : Nat → Nat) (availableTime : Time) : Env :=
  { exampleEnv with
    lastTxFormat := .DL_MU_TX
    dlMuInfoTxVector := committedThreeInfo.txParams.m_txVector
    GetMaxBufferStatus := queueSize
    m_availableTime := availableTime
    CalculateTxDuration := fun size _ _ => (size : Int) * 1000 }

/-- The part of the branch `maxBufferSize > 0` of `TrySendingBasicTf` that precedes the
trigger frame: the TX vector of the solicited TB PPDU after `AssignRuIndices` and the
receiver address of the trigger frame. -/
def basicAllocation (env : Env) (s : State) (ulCandidates : List (Nat × CandidateInfo)) :
    Except Fault (WifiTxVector × Nat) :=
  if ulCandidates = [] then .error .assertion
  else
    let (ruType, count, nCentral) :=
      env.GetEqualSizedRusForStations env.channelWidth ulCandidates.length
    let nCentral26TonesRus :=
      if !s.m_useCentral26TonesRus || ulCandidates.length = count then 0
      else min (sizeSub ulCandidates.length count) nCentral
    let txVector0 : WifiTxVector :=
      if env.lastTxFormat = .DL_MU_TX then
        { WifiTxVector.default with
          preamble := .HE_TB
          channelWidth := env.dlMuInfoTxVector.channelWidth
          guardInterval := env.defaultTriggerGuardInterval }
      else
        { WifiTxVector.default with
          preamble := .HE_TB
          channelWidth := env.ulMuInfoTrigger.ulBandwidth
          guardInterval := env.ulMuInfoTrigger.guardInterval }
    match basicFill env s ruType count (count + nCentral26TonesRus) 0 ulCandidates txVector0 with
    | .error e => .error e
    | .ok txVector1 =>
      let ulCandidates' := ulCandidates.take (count + nCentral26TonesRus)
      match AssignRuIndices env txVector1 with
      | .error e => .error e
      | .ok txVector =>
        match ulCandidates' with
        | [(_, c)] =>
            match s.deref c with
            | .error e => .error e
            | .ok info => .ok (txVector, info.address)
        | _ => .ok (txVector, env.broadcast)

/-- The trigger frame `TrySendingBasicTf` passes to `TryAddMpdu`, for the TX vector
`txVector` of the solicited TB PPDU and the receiver address `receiver`. -/
def basicTriggerItem (env : Env) (txVector : WifiTxVector) (receiver : Nat) : WifiMacQueueItem :=
  triggerItem (CtrlTriggerHeader.ofTxVector env .BASIC_TRIGGER txVector) receiver

/-- The TX parameters a trigger frame for `receiver` is added to: cleared, with the
TX vector `GetRtsTxVector (receiver)`. -/
def triggerTxParams (env : Env) (receiver : Nat) : WifiTxParameters :=
  { WifiTxParameters.Clear with m_txVector := env.GetRtsTxVector receiver }

/-- The time budget left for the solicited TB PPDU, in the words of the specification:
available time - protection time - trigger TX duration - SIFS - acknowledgment time. -/
def remainingBudget (env : Env) (txParams : WifiTxParameters) : Time :=
  env.m_availableTime - txParams.m_protection.getD 0 - txParams.m_txDuration - env.phySifs
    - (txParams.m_acknowledgment.map (·.acknowledgmentTime)).getD 0

/-- The bound on the duration granted by a basic trigger frame, in the words of the
specification: the maximum PPDU duration for the HE TB preamble, further limited to the
remaining budget when a time budget is set. -/
def grantBound (env : Env) (txParams : WifiTxParameters) : Time :=
  if env.m_availableTime = TimeMin then env.GetPpduMaxTime .HE_TB
  else min (env.GetPpduMaxTime .HE_TB) (remainingBudget env txParams)

/-- The minimum over the user info fields of the time to send `size` bytes (0 when
there is none). -/
def minDuration_reference (env : Env) (size : Nat) (txVector : WifiTxVector)
    (users : List TriggerUserInfo) : Time :=
  match users with
  | [] => 0
  | u :: rest =>
      rest.foldl (fun acc v => min acc (env.CalculateTxDuration size txVector v.aid12))
        (env.CalculateTxDuration size txVector u.aid12)

/-- The assertions `TrySendingBasicTf` makes on the TX parameters when a time budget is
set: protection and acknowledgment are present and no time is `Time::Min ()`. -/
def BasicTfAsserts (env : Env) (txParams : WifiTxParameters) : Prop :=
  env.m_availableTime ≠ TimeMin →
    ∃ p a, txParams.m_protection = some p ∧ txParams.m_acknowledgment = some a
      ∧ p ≠ TimeMin ∧ a.acknowledgmentTime ≠ TimeMin ∧ txParams.m_txDuration ≠ TimeMin

/-- The value of a returned result, `d` if the computation ended in a fault. -/
def resultValue {α : Type} (r : Except Fault α) (d : α) : α :=
  match r with
  | .ok a => a
  | .error _ => d

/-- The uplink example in which both served stations report a queue size of 2 (512
bytes) and 466 microseconds are left of the TXOP. -/
def ulEnvTwo : Env := ulEnv (fun _ => 2) 466000

/-- The worst-case size and the uplink candidates found in the `ulEnvTwo` example. -/
def ulScanTwo : Nat × List (Nat × CandidateInfo) :=
  resultValue (basicScan ulEnvTwo committedThree committedThree.m_candidates (0, [])) (0, [])

/-- The TX vector and the receiver address built in the `ulEnvTwo` example. -/
def ulAllocTwo : WifiTxVector × Nat :=
  resultValue (basicAllocation ulEnvTwo committedThree ulScanTwo.2) (WifiTxVector.default, 0)

/-- The TX parameters `TryAddMpdu` returns for the trigger frame of the `ulEnvTwo`
example. -/
def ulTxParamsTwo : WifiTxParameters :=
  (ulEnvTwo.TryAddMpdu (basicTriggerItem ulEnvTwo ulAllocTwo.1 ulAllocTwo.2)
    (triggerTxParams ulEnvTwo ulAllocTwo.2) ulEnvTwo.m_availableTime).getD WifiTxParameters.Clear

/-- The uplink example in which the first served station reports 254 (unlimited), the
second a queue size of 3, and there is no time budget. -/
def ulEnvUnlimited : Env := ulEnv (fun a => if a = 101 then 254 else 3) TimeMin

/-- The scheduler after `TrySendingBasicTf` in the `ulEnvUnlimited` example. -/
def solicitedUnlimited : State :=
  resultState (TrySendingBasicTf ulEnvUnlimited committedThree) committedThree

/-- The BSRP trigger frame header `TrySendingBsrpTf` builds from the TX vector of the
last DL MU PPDU. -/
def bsrpTrigger (env : Env) : CtrlTriggerHeader :=
  CtrlTriggerHeader.ofTxVector env .BSRP_TRIGGER env.dlMuInfoTxVector

/-- The receiver address of the BSRP trigger frame: the address of the only addressed
station when there is exactly one user info field (`none` if the AP does not know its
AID, where `TrySendingBsrpTf` fails an assertion), the broadcast address otherwise. -/
def bsrpReceiver (env : Env) : Option Nat :=
  match (bsrpTrigger env).userInfos with
  | [u] => env.apStaList u.aid12
  | _ => some env.broadcast

/-- The maximum over the addressed stations of the time to send 8 QoS Null frames. -/
def bsrpResponseDuration (env : Env) : Time :=
  maxTxDuration env env.m_sizeOf8QosNull
    { env.dlMuInfoTxVector with guardInterval := (bsrpTrigger env).guardInterval }
    (bsrpTrigger env).userInfos

/-- The assertions `TrySendingBsrpTf` makes on the TX parameters when a time budget is
set: protection and acknowledgment are present, the protection time and the TX duration
are not `Time::Min ()` and the acknowledgment time is zero. -/
def BsrpTfAsserts (env : Env) (txParams : WifiTxParameters) : Prop :=
  env.m_availableTime ≠ TimeMin →
    ∃ p a, txParams.m_protection = some p ∧ txParams.m_acknowledgment = some a
      ∧ p ≠ TimeMin ∧ a.acknowledgmentTime = 0 ∧ txParams.m_txDuration ≠ TimeMin

/-- The BSRP exchange does not fit the time budget, in the words of the specification:
a time budget is set and protection time + trigger TX duration + SIFS + the maximum
QoS-Null response duration is greater than the available time. -/
def BsrpExceedsBudget (env : Env) (txParams : WifiTxParameters) : Prop :=
  env.m_availableTime ≠ TimeMin
    ∧ txParams.m_protection.getD 0 + txParams.m_txDuration + env.phySifs
        + bsrpResponseDuration env > env.m_availableTime

/-- The part of `TrySendingBsrpTf` that follows the choice of the receiver address: the
trigger frame is offered to `TryAddMpdu`, checked against the time budget, finalised and
stored. -/
def bsrpExchange (env : Env) (s : State) (receiver : Nat) : Except Fault (TxFormat × State) :=
  match env.TryAddMpdu (triggerItem (bsrpTrigger env) receiver) (triggerTxParams env receiver)
      env.m_availableTime with
  | none => .ok (TxFormat.NO_TX, { s with m_txParams := triggerTxParams env receiver })
  | some txParams =>
    let granted : TxFormat × State :=
      (TxFormat.UL_MU_TX,
        { s with
          m_txParams := txParams
          m_trigger := some (triggerItem
            { bsrpTrigger env with
              ulLength := env.ConvertHeTbPpduDurationToLSigLength (bsrpResponseDuration env)
              csRequired := true
              targetRssiSet := true } receiver)
          m_ulTriggerType := TriggerFrameType.BSRP_TRIGGER
          m_tbPpduDuration := bsrpResponseDuration env })
    if env.m_availableTime ≠ TimeMin then
      match txParams.m_protection, txParams.m_acknowledgment with
      | some protectionTime, some ack =>
          if protectionTime = TimeMin ∨ ack.acknowledgmentTime ≠ 0
              ∨ txParams.m_txDuration = TimeMin then
            .error .assertion
          else if protectionTime + txParams.m_txDuration + env.phySifs
              + bsrpResponseDuration env > env.m_availableTime then
            .ok (TxFormat.NO_TX, { s with m_txParams := txParams })
          else .ok granted
      | _, _ => .error .assertion
    else .ok granted

/-- The uplink example for a BSRP trigger frame: the acknowledgment time of the trigger
frame is zero, and `availableTime` is left of the TXOP; 8 QoS Null frames (240 bytes) take
240 microseconds. -/
def bsrpEnv (availableTime : Time) : Env :=
  { ulEnv (fun _ => 0) availableTime with
    apStaList := fun aid => some (100 + aid)
    TryAddMpdu := fun _ txParams _ =>
      some
        { txParams with
          m_protection := some 0
          m_acknowledgment := some ⟨0, []⟩
          m_txDuration := 6000
          nPsdus := txParams.nPsdus + 1 } }

/-! ## Re-application of the stored frames: reference definitions and examples -/

/-- The final TX vector of `calculate_su_mpdu` for the candidate `c`: the common fields
of the trial TX vector of `m_txParams2`, the station of `c` on a 484-tone RU, and the RU
index set by `AssignRuIndices`. -/
def suFinalTxVector (env : Env) (s : State) (c : CandidateInfo) : Except Fault WifiTxVector :=
  match s.deref c with
  | .error e => .error e
  | .ok info =>
    match s.m_txParams2.m_txVector.GetMode info.aid with
    | .error e => .error e
    | .ok mode =>
      match s.m_txParams2.m_txVector.GetNss info.aid with
      | .error e => .error e
      | .ok nss =>
        AssignRuIndices env
          (({ WifiTxVector.default with
              preamble := s.m_txParams2.m_txVector.preamble
              channelWidth := s.m_txParams2.m_txVector.channelWidth
              guardInterval := s.m_txParams2.m_txVector.guardInterval
              bssColor := s.m_txParams2.m_txVector.bssColor } : WifiTxVector).SetHeMuUserInfo
            info.aid ⟨⟨.RU_484_TONE, 1, false⟩, mode, nss⟩)

/-- The final TX vector of `ComputeDlMuInfo`: the TX vector filled for the served
candidates, with the RU indices set by `AssignRuIndices`. -/
def dlFinalTxVector (env : Env) (s : State) : Except Fault WifiTxVector :=
  match dlFill s (dlPartition env s).1 (dlPartition env s).2.1
      ((dlPartition env s).2.1 + (dlPartition env s).2.2) 0 s.m_candidates
      (dlFinalTxVector0 s) with
  | .error e => .error e
  | .ok tv1 => AssignRuIndices env tv1

/-- The candidates `ComputeDlMuInfo` serves: those left after the erase. -/
def dlServed (env : Env) (s : State) : List CandidateInfo :=
  s.m_candidates.take ((dlPartition env s).2.1 + (dlPartition env s).2.2)

/-- The example environment with a collaborator that rejects every frame. -/
def rejectEnv : Env := { exampleEnv with TryAddMpdu := fun _ _ _ => none }

/-- The three-station example at the end of the selection loop, before the estimates. -/
def readyThree : State := dlSelected (threeStations.touchStaList exampleEnv.primaryAc) selThree

/-! ## Monotonicity of the selection: reference definitions and examples -/

/-- The three-station example with `NStations` set to `n`. -/
def threeWith (n : Nat) : State :=
  NotifyStationAssociated exampleEnv (NotifyStationAssociated exampleEnv
    (NotifyStationAssociated exampleEnv
      (DoInitialize { exampleState0 with m_nStations := n }) 1 101) 2 102) 3 103

/-- The time limit `actualAvailableTime2` of `calculate_su_mpdu`. -/
def suTime (env : Env) : Time := if env.m_initialFrame then TimeMin else env.m_availableTime2

/-- The state `calculate_su_mpdu` leaves when the frame of the first candidate has been
accepted with TX parameters `txParams`, acknowledgment `ack` and block-ack response
TX vector `resp`. -/
def suRecorded (env : Env) (s : State) (txParams : WifiTxParameters) (ack : WifiAcknowledgment)
    (resp : WifiTxVector) : State :=
  { s with
    m_txParams2 := WifiTxParameters.Clear
    su_txdata := txParams.m_txDuration
    su_Back := ack.acknowledgmentTime
    su_Pdl := env.CalculatePhyPreambleAndHeaderDuration txParams.m_txVector
    su_Pul := env.CalculatePhyPreambleAndHeaderDuration resp }

/-- The state `TrySendingDlMuPpdu` is in after recording the MU duration components of
the trial allocation: acknowledgment `ack` and block-ack response TX vector `resp`. -/
def muRecorded (env : Env) (s : State) (sel : SelState) (ack : WifiAcknowledgment)
    (resp : WifiTxVector) : State :=
  { s with
    mu_txdata := sel.txParams.m_txDuration
    mu_Back := ack.acknowledgmentTime
    mu_Pul := env.CalculatePhyPreambleAndHeaderDuration resp }

/-- The end of `TrySendingDlMuPpdu`, from the assignment of `su_ampdu` on: the frame
size is taken from the local `mpdu`, the two estimates are computed and compared. -/
def dlDecide (s3 : State) (ampdu : Nat) (mpdu : Option WifiMacQueueItem) :
    Except Fault (TxFormat × State) :=
  let s4 := { s3 with su_ampdu := ampdu % 2 ^ 32 }
  if !s4.que then .error .undefinedBehaviour
  else
    let s5 :=
      match mpdu with
      | some mpdu => { s4 with mpdu_size := mpdu.size % 2 ^ 32 }
      | none => s4
    let s6 := { s5 with su_tpt := suThroughput s5 }
    let s7 := { s6 with mu_tpt := muThroughput s6 }
    if s7.su_tpt > s7.mu_tpt then .ok (TxFormat.SU_TX, s7)
    else .ok (TxFormat.DL_MU_TX, s7)

/-- The SU estimate as the specification words it: 8 * frame size * burst count over
the sum of AIFS = 43, backoff = 63, downlink preamble, data duration, SIFS = 16, uplink
preamble and acknowledgment duration, every time in microseconds. -/
def suEstimate_reference (frameSize burst : ℚ) (pdl txdata pul back : ℚ) : ℚ :=
  8 * frameSize * burst / (43 + 63 + pdl + txdata + 16 + pul + back)

/-- The MU estimate as the specification words it: as the SU estimate, with the two
packet extensions PE = 16 added to the divisor. -/
def muEstimate_reference (frameSize burst : ℚ) (pdl txdata pul back : ℚ) : ℚ :=
  8 * frameSize * burst / (43 + 63 + pdl + txdata + 16 + 16 + pul + back + 16)

/-- The example environment with queued frames of 2^29 bytes. -/
def oversizedEnv : Env :=
  { exampleEnv with
    PeekNextMpdu := fun _ tid addr => some { exampleFrame addr tid with size := 2 ^ 29 } }

/-- The state left by `TrySendingDlMuPpdu` in the environment with frames of 2^29 bytes
and three associated stations. -/
def oversizedThree : State :=
  resultState (TrySendingDlMuPpdu oversizedEnv threeStations) threeStations

/-- The burst sizes the aggregation loop of `ComputeDlMuInfo` records, one per
candidate in loop order: the number of MPDUs of the PSDU built for the candidate. -/
def dlBursts (env : Env) : List CandidateInfo → WifiTxParameters → List Int
  | [], _ => []
  | c :: rest, txParams =>
      match c.mpdu with
      | none => []
      | some mpdu =>
          let (item, txParams1) :=
            if !mpdu.isRetry then
              let r := env.GetNextAmsdu mpdu txParams env.m_availableTime
              (r.1.getD mpdu, r.2)
            else (mpdu, txParams)
          let (mpduList, txParams2) := env.GetNextAmpdu item txParams1 env.m_availableTime
          let psdu := if mpduList.length > 1 then mpduList else [item]
          (psdu.length : Int) :: dlBursts env rest txParams2

/-! ## Environments for other channel widths

The tables of ns-3 for 20, 40 and 80 MHz channels. -/

/-- The number of RUs of each type on a channel of `bw` MHz (20, 40 or 80). -/
def heRuCount (bw : Nat) : RuType → Nat
  | .RU_26_TONE => if bw = 20 then 9 else if bw = 40 then 18 else 37
  | .RU_52_TONE => if bw = 20 then 4 else if bw = 40 then 8 else 16
  | .RU_106_TONE => if bw = 20 then 2 else if bw = 40 then 4 else 8
  | .RU_242_TONE => if bw = 20 then 1 else if bw = 40 then 2 else 4
  | .RU_484_TONE => if bw = 20 then 0 else if bw = 40 then 1 else 2
  | .RU_996_TONE => if bw = 20 then 0 else if bw = 40 then 0 else 1
  | .RU_2x996_TONE => 0

/-- The number of central 26-tone RUs `HeRu::GetEqualSizedRusForStations` reports with
an RU type on a channel of `bw` MHz. -/
def heCentralCount (bw : Nat) : RuType → Nat
  | .RU_52_TONE => if bw = 20 then 1 else if bw = 40 then 2 else 5
  | .RU_106_TONE => if bw = 20 then 1 else if bw = 40 then 2 else 5
  | .RU_242_TONE => if bw = 80 then 1 else 0
  | .RU_484_TONE => if bw = 80 then 1 else 0
  | _ => 0

/-- The result of `HeRu::GetEqualSizedRusForStations` on a 20, 40 or 80 MHz channel: the
first RU type, from the narrowest on, with at most `n` RUs. -/
def heEqualSizedRus (bw n : Nat) : RuType × Nat × Nat :=
  match [RuType.RU_26_TONE, .RU_52_TONE, .RU_106_TONE, .RU_242_TONE, .RU_484_TONE,
      .RU_996_TONE].find? (fun t => 0 < heRuCount bw t ∧ heRuCount bw t ≤ n) with
  | some t => (t, heRuCount bw t, heCentralCount bw t)
  | none => (.RU_2x996_TONE, 1, 0)

/-- The RUs of one type on a 20, 40 or 80 MHz channel (`HeRu::GetRusOfType`). -/
def heRusOfType (bw : Nat) (t : RuType) : List RuSpec :=
  (List.range (heRuCount bw t)).map (fun i => ⟨t, i + 1, true⟩)

/-- The central 26-tone RUs on a 20, 40 or 80 MHz channel
(`HeRu::GetCentral26TonesRus`). -/
def heCentral26TonesRus (bw : Nat) (t : RuType) : List RuSpec :=
  let indices :=
    if t = .RU_52_TONE ∨ t = .RU_106_TONE then
      if bw = 20 then [5] else if bw = 40 then [5, 14] else [5, 14, 19, 24, 33]
    else if t = .RU_242_TONE ∨ t = .RU_484_TONE then
      if 80 ≤ bw then [19] else []
    else []
  indices.map (fun i => ⟨.RU_26_TONE, i, true⟩)

/-- The example environment on a channel of `bw` MHz. -/
def widthEnv (bw : Nat) : Env :=
  { exampleEnv with
    channelWidth := bw
    GetEqualSizedRusForStations := heEqualSizedRus
    GetRusOfType := heRusOfType
    GetCentral26TonesRus := heCentral26TonesRus }

/-- The RU types of the users of a returned TX vector, in map order. -/
def ruTypesOf (r : Except Fault WifiTxVector) : Except Fault (List RuType) :=
  r.map (fun tv => tv.users.map (fun u => u.2.ru.ruType))

/-- The TX vector of the one-station trial `calculate_su_mpdu` builds when it is called
by `TrySendingDlMuPpdu` on the state `s`: the selection is run and the first SU
candidate is given to `suFinalTxVector`. -/
def suTrialTxVector (env : Env) (s : State) : Except Fault WifiTxVector :=
  match dlSelect env (s.touchStaList env.primaryAc) with
  | .error e => .error e
  | .ok sel =>
    match sel.candidates2 with
    | [] => .error .assertion
    | c :: _ => suFinalTxVector env (dlSelected (s.touchStaList env.primaryAc) sel) c

/-! ## Reference definitions for AssignRuIndices -/

/-- The content of the `std::set` of RU types of `AssignRuIndices` when the users carry
the type `m` (`hasMain`) and the 26-tone type (`has26`). -/
def ruSetOf (m : RuType) (hasMain has26 : Bool) : List RuType :=
  if m = .RU_26_TONE then (if hasMain || has26 then [.RU_26_TONE] else [])
  else (if has26 then [.RU_26_TONE] else []) ++ (if hasMain then [m] else [])

/-- The assignment in the words of the specification: the users are visited in map
order, a user of the main type takes the next unused RU of `ruSet`, any other user the
next unused RU of `central`. -/
def assign_reference (mainType : RuType) :
    List (Nat × HeMuUserInfo) → List RuSpec → List RuSpec → List (Nat × HeMuUserInfo)
  | [], _, _ => []
  | (staId, u) :: users, ruSet, central =>
      if u.ru.ruType = mainType then
        match ruSet with
        | [] => []
        | ru :: ruSet' => (staId, { u with ru := ru }) :: assign_reference mainType users ruSet' central
      else
        match central with
        | [] => []
        | ru :: central' => (staId, { u with ru := ru }) :: assign_reference mainType users ruSet central'

/-- A TX vector with two stations on tentative 106-tone RUs and one on a tentative
26-tone RU, on a 40 MHz channel. -/
def tentativeThree : WifiTxVector :=
  { WifiTxVector.default with
    channelWidth := 40
    users := [(1, ⟨⟨.RU_106_TONE, 1, false⟩, 7, 1⟩), (2, ⟨⟨.RU_26_TONE, 1, false⟩, 5, 2⟩),
      (3, ⟨⟨.RU_106_TONE, 1, false⟩, 3, 1⟩)] }

/-- The scheduler `s0` after `DoInitialize` and the association of `n` stations, with
the AIDs 1 to `n` and the addresses 101 to 100 + `n`. -/
def manyStations (n : Nat) (s0 : State) : State :=
  (List.range n).foldl (fun s i => NotifyStationAssociated exampleEnv s (i + 1) (101 + i))
    (DoInitialize s0)

/-- The example scheduler with `NStations` set to 19 and `UseCentral26TonesRus` enabled,
after `DoInitialize` and the association of 19 stations. -/
def nineteenStations : State :=
  manyStations 19 { exampleState0 with m_nStations := 19, m_useCentral26TonesRus := true }

/-- The state left by `TrySendingDlMuPpdu` on an 80 MHz channel in the 19-station
example. -/
def selectedNineteen : State :=
  resultState (TrySendingDlMuPpdu (widthEnv 80) nineteenStations) nineteenStations

/-! ## The queue peeks of the selection loop -/

/-- The results of the calls of `PeekNextMpdu` the inner loop of the selection makes for
the station `sta`, in the order of the calls. -/
def tryTidsPeeks (env : Env) (sta : Node) (currRuType : RuType) (actualAvailableTime : Time) :
    List Nat → SelState → List (Option WifiMacQueueItem)
  | [], _ => []
  | tid :: rest, st =>
      let ac := env.QosUtilsMapTidToAc tid
      if ac.priority < env.primaryAc.priority then []
      else if env.GetBaAgreementEstablished ac sta.info.address tid then
        match env.PeekNextMpdu ac tid sta.info.address with
        | some mpdu =>
            let suTxVector := env.GetDataTxVector mpdu
            let txVectorCopy := st.txParams.m_txVector
            let info : HeMuUserInfo :=
              ⟨⟨currRuType, 1, false⟩, suTxVector.mode, suTxVector.nss⟩
            let txParams :=
              { st.txParams with
                m_txVector := st.txParams.m_txVector.SetHeMuUserInfo sta.info.aid info }
            let txVectorCopy2 := st.txVector2
            match env.TryAddMpdu mpdu txParams actualAvailableTime with
            | none =>
                some mpdu :: tryTidsPeeks env sta currRuType actualAvailableTime rest
                  { st with
                    txParams := { txParams with m_txVector := txVectorCopy }
                    txVector2 := txVectorCopy2
                    mpdu := some mpdu }
            | some _ => [some mpdu]
        | none =>
            none :: tryTidsPeeks env sta currRuType actualAvailableTime rest
              { st with mpdu := none }
      else tryTidsPeeks env sta currRuType actualAvailableTime rest st

/-- The results of the calls of `PeekNextMpdu` the selection loop makes, in the order
of the calls. -/
def selectPeeks (env : Env) (nStations count nCentral26TonesRus : Nat) (ruType : RuType)
    (actualAvailableTime : Time) (tids : List Nat) :
    List Node → SelState → List (Option WifiMacQueueItem)
  | [], _ => []
  | sta :: rest, st =>
      if st.candidates.length < max nStations (count + nCentral26TonesRus) then
        let currRuType := if st.candidates.length < count then ruType else RuType.RU_26_TONE
        match tryTids env sta currRuType actualAvailableTime tids st with
        | .ok st' =>
            tryTidsPeeks env sta currRuType actualAvailableTime tids st
              ++ selectPeeks env nStations count nCentral26TonesRus ruType actualAvailableTime
                  tids rest st'
        | .error _ => tryTidsPeeks env sta currRuType actualAvailableTime tids st
      else []

/-- The results of the calls of `PeekNextMpdu` made by the selection loop of
`TrySendingDlMuPpdu` when it is called on the state `s`. -/
def dlPeeks (env : Env) (s : State) : List (Option WifiMacQueueItem) :=
  let s0 := s.touchStaList env.primaryAc
  let staList := s0.staList env.primaryAc
  let (ruType, count, nCentral) :=
    env.GetEqualSizedRusForStations env.channelWidth (min (s0.m_nStations % 256) staList.length)
  let nCentral26TonesRus := if !s0.m_useCentral26TonesRus then 0 else nCentral
  let actualAvailableTime := if env.m_initialFrame then TimeMin else env.m_availableTime
  selectPeeks env (s0.m_nStations % 256) count nCentral26TonesRus ruType actualAvailableTime
    (dlTids env s0) staList
    { txParams := { WifiTxParameters.Clear with m_txVector := dlInitialTxVector env }
      txVector2 := dlInitialTxVector env
      candidates := []
      candidates2 := []
      mpdu := env.edcaPeekNextMpdu }

/-- The example environment in which the frame queued for a station has the address of
the station as its size, and the frame for the station with address 103 is rejected. -/
def rejectLastEnv : Env :=
  { exampleEnv with
    PeekNextMpdu := fun _ tid addr => some { exampleFrame addr tid with size := addr }
    TryAddMpdu := fun mpdu txParams t =>
      if mpdu.addr1 = 103 then none else exampleEnv.TryAddMpdu mpdu txParams t }

/-- The state left by `TrySendingDlMuPpdu` in the `rejectLastEnv` example with three
stations and `NStations` = 3. -/
def selectedRejectLast : State :=
  resultState (TrySendingDlMuPpdu rejectLastEnv threeWide) threeWide

/-! ## The sum of the credits -/

/-- The sum of the credits of the stations of a list. -/
def creditSum (l : List Node) : ℚ := (l.map (fun n => n.info.credits)).sum

/-- The bandwidth the debit loop of `ComputeDlMuInfo` charges in `k` iterations from the
loop index `i` on: the bandwidth of the main RU type for an index below `nRusAssigned`,
that of a 26-tone RU otherwise. -/
def debitedBandwidth (env : Env) (ruType : RuType) (nRusAssigned : Nat) : Nat → Nat → Nat
  | 0, _ => 0
  | k + 1, i =>
      env.GetBandwidth (if i < nRusAssigned then ruType else .RU_26_TONE)
        + debitedBandwidth env ruType nRusAssigned k (i + 1)

/-! ## A selection that finds no candidate -/

/-- The TX parameters the selection of `TrySendingDlMuPpdu` asks `TryAddMpdu` with for
the frame `mpdu` of the station `sta` as long as no candidate has been found: the
cleared parameters with the initial TX vector and that station alone, on a tentative RU
of the type of the equal-size partition. -/
def firstTrial (env : Env) (s : State) (sta : Node) (mpdu : WifiMacQueueItem) :
    WifiTxParameters :=
  { WifiTxParameters.Clear with
    m_txVector := (dlInitialTxVector env).SetHeMuUserInfo sta.info.aid
      ⟨⟨(selectionPartition env s).1, 1, false⟩, (env.GetDataTxVector mpdu).mode,
        (env.GetDataTxVector mpdu).nss⟩ }

/-- No station of the winning category's list has, for a TID the selection checks, an
established block-ack agreement and a peeked frame that `TryAddMpdu` accepts when the
selection asks it: with the trial parameters of that station and the time limit of this
call. -/
def NoFrameAccepted (env : Env) (s : State) : Prop :=
  ∀ sta ∈ s.staList env.primaryAc, ∀ tid ∈ dlTids env s, ∀ mpdu,
    env.GetBaAgreementEstablished (env.QosUtilsMapTidToAc tid) sta.info.address tid = true →
    env.PeekNextMpdu (env.QosUtilsMapTidToAc tid) tid sta.info.address = some mpdu →
    env.TryAddMpdu mpdu (firstTrial env s sta mpdu) (selectionTime env) = none

/-- The example environment later in a TXOP, with 1 microsecond left: `TryAddMpdu`
accepts a frame only if the time limit is at least the 6 microseconds a DL MU PPDU
lasts. -/
def budgetEnv : Env :=
  { exampleEnv with
    m_initialFrame := false
    m_availableTime := 1000
    TryAddMpdu := fun mpdu txParams t =>
      if t < 6000 then none else exampleEnv.TryAddMpdu mpdu txParams t }

/-- The re-application loop of `ComputeDlMuInfo` in a build without assertions: the
result of `TryAddMpdu` is not looked at, so after a rejection, which leaves the TX
parameters as they are, the loop goes on with the next candidate. A null frame pointer
is handed to `TryAddMpdu`, which dereferences it. -/
def dlReAddNoAssert (env : Env) (actualAvailableTime : Time) :
    List CandidateInfo → WifiTxParameters → Except Fault WifiTxParameters
  | [], txParams => .ok txParams
  | c :: rest, txParams =>
      match c.mpdu with
      | none => .error .undefinedBehaviour
      | some mpdu =>
          match env.TryAddMpdu mpdu txParams actualAvailableTime with
          | none => dlReAddNoAssert env actualAvailableTime rest txParams
          | some txParams' => dlReAddNoAssert env actualAvailableTime rest txParams'

/-- The method `RrsumuScheduler::ComputeDlMuInfo` with the assertion on the result of
`TryAddMpdu` compiled out. The other assertions of the method are kept as faults: a run
that returns a result has passed every one of them, so it is also the run of the
build without assertions. -/
def ComputeDlMuInfoNoAssert (env : Env) (s : State) : Except Fault (DlMuInfo × State) :=
  if s.m_candidates = [] then .ok (DlMuInfo.default, s)
  else
    let ruType := (dlPartition env s).1
    let nRusAssigned := (dlPartition env s).2.1
    let nCentral26TonesRus1 := (dlPartition env s).2.2
    match dlFill s ruType nRusAssigned (nRusAssigned + nCentral26TonesRus1) 0
        s.m_candidates (dlFinalTxVector0 s) with
    | .error e => .error e
    | .ok tv1 =>
      let candidates := s.m_candidates.take (nRusAssigned + nCentral26TonesRus1)
      match AssignRuIndices env tv1 with
      | .error e => .error e
      | .ok tv =>
        let actualAvailableTime := if env.m_initialFrame then TimeMin else env.m_availableTime
        match dlReAddNoAssert env actualAvailableTime candidates
            { WifiTxParameters.Clear with m_txVector := tv } with
        | .error e => .error e
        | .ok txParams1 =>
          match dlAggregate env s candidates
              { txParams := txParams1, psduMap := [], mu_ampdu := s.mu_ampdu, iterator := 0 } with
          | .error e => .error e
          | .ok agg =>
            if !s.que then .error .undefinedBehaviour
            else
              match creditLedger env s ruType nRusAssigned nCentral26TonesRus1 candidates
                  agg.txParams.m_txDuration with
              | .error e => .error e
              | .ok staLists =>
                .ok ({ psduMap := agg.psduMap, txParams := agg.txParams },
                  { s with
                    m_candidates := candidates
                    m_txParams := WifiTxParameters.Clear
                    mu_ampdu := agg.mu_ampdu
                    m_staList := staLists })

/-- The method `RrsumuScheduler::calculate_su_mpdu` with the assertion on the result of
`TryAddMpdu` compiled out: after a rejection the method goes on with the TX parameters
as they were, which hold no acknowledgment, and reads `m_acknowledgment->`. The other
assertions are kept as faults. -/
def calculate_su_mpdu_NoAssert (env : Env) (s : State) : Except Fault (Nat × State) :=
  match s.m_candidates2 with
  | [] => .ok (0, s)
  | candidate_su :: _ => do
      let tv0 : WifiTxVector :=
        { WifiTxVector.default with
          preamble := s.m_txParams2.m_txVector.preamble
          channelWidth := s.m_txParams2.m_txVector.channelWidth
          guardInterval := s.m_txParams2.m_txVector.guardInterval
          bssColor := s.m_txParams2.m_txVector.bssColor }
      let info ← s.deref candidate_su
      let staId := info.aid
      let mode ← s.m_txParams2.m_txVector.GetMode staId
      let nss ← s.m_txParams2.m_txVector.GetNss staId
      let tv1 := tv0.SetHeMuUserInfo staId ⟨⟨.RU_484_TONE, 1, false⟩, mode, nss⟩
      let tv ← AssignRuIndices env tv1
      let actualAvailableTime2 := if env.m_initialFrame then TimeMin else env.m_availableTime2
      match candidate_su.mpdu with
      | none => throw Fault.undefinedBehaviour
      | some mpdu2 =>
        let txParams :=
          match env.TryAddMpdu mpdu2 { WifiTxParameters.Clear with m_txVector := tv }
              actualAvailableTime2 with
          | none => { WifiTxParameters.Clear with m_txVector := tv }
          | some txParams => txParams
        let (ack, responseTxVector2) ← responseTxVector txParams
        pure (pickSuAmpduByProbability env [(14, 1256), (64, 2513)],
          { s with
            m_txParams2 := WifiTxParameters.Clear
            su_txdata := txParams.m_txDuration
            su_Back := ack.acknowledgmentTime
            su_Pdl := env.CalculatePhyPreambleAndHeaderDuration txParams.m_txVector
            su_Pul := env.CalculatePhyPreambleAndHeaderDuration responseTxVector2 })

/-! ## The credit ledger in double precision

The credits are of type `double` in the source. The definitions below repeat the credit
ledger update with every arithmetic operation rounded to the nearest double and compare
it with the exact one. -/

/-- Number of binary digits of `n`; `fuel` bounds the recursion, `n` itself is enough. -/
def bitLength : Nat → Nat → Nat
  | 0, _ => 0
  | fuel + 1, n => if n = 0 then 0 else bitLength fuel (n / 2) + 1

/-- The integer nearest to `x / y` for `0 < y`, a tie going to the even neighbour. -/
def roundHalfEven (x y : Nat) : Nat :=
  let q := x / y
  let r := x % y
  if 2 * r < y then q else if y < 2 * r then q + 1 else if q % 2 = 0 then q else q + 1

/-- The value of type `double` nearest to the rational `q`: IEEE 754 binary64 with its
significand of 53 bits, rounding to nearest, a tie going to the even significand. The
range of the exponent is not modelled: no overflow, no subnormal numbers. -/
def fl (q : ℚ) : ℚ :=
  if q = 0 then 0
  else
    let n := q.num.natAbs
    let d := q.den
    -- `2 ^ (k - 1) < n / d < 2 ^ (k + 1)`
    let k : Int := (bitLength n n : Int) - (bitLength d d : Int)
    -- the binary exponent `p` of `n / d`: `2 ^ p ≤ n / d < 2 ^ (p + 1)`
    let p : Int :=
      if (if 0 ≤ k then d * 2 ^ k.toNat ≤ n else d ≤ n * 2 ^ (-k).toNat) then k else k - 1
    -- the unit in the last place is `2 ^ e`
    let e : Int := p - 52
    let m : Nat :=
      if 0 ≤ e then roundHalfEven n (d * 2 ^ e.toNat)
      else roundHalfEven (n * 2 ^ (-e).toNat) d
    let a : ℚ :=
      if 0 ≤ e then ((m * 2 ^ e.toNat : Nat) : ℚ)
      else (m : ℚ) / ((2 ^ (-e).toNat : Nat) : ℚ)
    if q < 0 then -a else a

/-- The loop of `ComputeDlMuInfo` that adds `creditsPerSta` to every station and caps
the result, in double precision: the sum is rounded, the minimum is exact. -/
def grantCreditsFl (creditsPerSta maxCredits : ℚ) (l : List Node) : List Node :=
  l.map (fun n =>
    { n with info :=
        { n.info with credits := min (fl (n.info.credits + creditsPerSta)) maxCredits } })

/-- The loop of `ComputeDlMuInfo` that subtracts the debits of the served candidates, in
double precision: the product and the difference are rounded, one after the other (no
fused multiply-add). -/
def debitLoopFl (env : Env) (debitsPerMhz : ℚ) (ruType : RuType) (nRusAssigned : Nat) :
    Nat → Nat → List CandidateInfo → (AcIndex → Option (List Node)) →
      Except Fault (AcIndex → Option (List Node))
  | 0, _, _, m => .ok m
  | _ + 1, _, [], _ => .error .assertion
  | k + 1, i, c :: rest, m =>
      let debit := fl (debitsPerMhz
        * (env.GetBandwidth (if i < nRusAssigned then ruType else .RU_26_TONE) : ℚ))
      match updateNode c.node (fun info => { info with credits := fl (info.credits - debit) })
          ((m c.ac).getD []) with
      | none => .error .undefinedBehaviour
      | some l =>
          debitLoopFl env debitsPerMhz ruType nRusAssigned k (i + 1) rest
            (Function.update m c.ac (some l))

/-- The credit ledger update at the end of `ComputeDlMuInfo` in double precision:
`ToDouble (Time::US)` gives the double nearest to the number of microseconds (the 64.64
fixed-point value ns-3 goes through is not modelled), the list size and the bandwidth
sum are converted without error, and the two quotients `creditsPerSta` and
`debitsPerMhz` are rounded. -/
def creditLedgerFl (env : Env) (s : State) (ruType : RuType)
    (nRusAssigned nCentral26TonesRus1 : Nat) (candidates : List CandidateInfo)
    (txDuration : Time) : Except Fault (AcIndex → Option (List Node)) :=
  let primaryAc := env.primaryAc
  let staList := s.staList primaryAc
  let creditsPerSta := fl (fl (ToDoubleUS txDuration) / (staList.length : ℚ))
  let debitsPerMhz := fl (fl (ToDoubleUS txDuration)
    / ((nRusAssigned * env.GetBandwidth ruType
        + nCentral26TonesRus1 * env.GetBandwidth .RU_26_TONE : Nat) : ℚ))
  let granted := Function.update s.m_staList primaryAc
    (some (grantCreditsFl creditsPerSta (fl (ToDoubleUS s.m_maxCredits)) staList))
  match debitLoopFl env debitsPerMhz ruType nRusAssigned
      (nRusAssigned + nCentral26TonesRus1) 0 candidates granted with
  | .error e => .error e
  | .ok debited =>
      .ok (Function.update debited primaryAc
        (some (sortByCredits ((debited primaryAc).getD []))))

/-- The method `RrsumuScheduler::ComputeDlMuInfo` with the credit ledger in double
precision. -/
def ComputeDlMuInfoFl (env : Env) (s : State) : Except Fault (DlMuInfo × State) :=
  if s.m_candidates = [] then .ok (DlMuInfo.default, s)
  else
    let ruType := (dlPartition env s).1
    let nRusAssigned := (dlPartition env s).2.1
    let nCentral26TonesRus1 := (dlPartition env s).2.2
    match dlFill s ruType nRusAssigned (nRusAssigned + nCentral26TonesRus1) 0
        s.m_candidates (dlFinalTxVector0 s) with
    | .error e => .error e
    | .ok tv1 =>
      let candidates := s.m_candidates.take (nRusAssigned + nCentral26TonesRus1)
      match AssignRuIndices env tv1 with
      | .error e => .error e
      | .ok tv =>
        let actualAvailableTime := if env.m_initialFrame then TimeMin else env.m_availableTime
        match dlReAdd env actualAvailableTime candidates
            { WifiTxParameters.Clear with m_txVector := tv } with
        | .error e => .error e
        | .ok txParams1 =>
          match dlAggregate env s candidates
              { txParams := txParams1, psduMap := [], mu_ampdu := s.mu_ampdu, iterator := 0 } with
          | .error e => .error e
          | .ok agg =>
            if !s.que then .error .undefinedBehaviour
            else
              match creditLedgerFl env s ruType nRusAssigned nCentral26TonesRus1 candidates
                  agg.txParams.m_txDuration with
              | .error e => .error e
              | .ok staLists =>
                .ok ({ psduMap := agg.psduMap, txParams := agg.txParams },
                  { s with
                    m_candidates := candidates
                    m_txParams := WifiTxParameters.Clear
                    mu_ampdu := agg.mu_ampdu
                    m_staList := staLists })

/-- One MU commit of a run of uniform rounds for the access category `ac`, with the
credit ledger in double precision: a returning `ComputeDlMuInfo` on a non-empty candidate
list with final TX duration `T`, `k` stations served on RUs of type `rt` (of bandwidth
`bw`) and none on a leftover unit; every station is eligible, so the candidates are the
first stations of the list, in order; the credit cap is not reached. -/
def UniformCommitFl (ac : AcIndex) (T : Time) (rt : RuType) (k bw : Nat) (s s' : State) :
    Prop :=
  ∃ env info, env.primaryAc = ac ∧ ComputeDlMuInfoFl env s = .ok (info, s')
    ∧ s.m_candidates ≠ [] ∧ info.txParams.m_txDuration = T
    ∧ dlPartition env s = (rt, k, 0) ∧ env.GetBandwidth rt = bw
    ∧ (∃ m, s.m_candidates.map (fun c => (c.ac, c.node))
        = ((s.staList ac).take m).map (fun n => (ac, n.id)))
    ∧ ∀ n ∈ s.staList ac,
        n.info.credits + ToDoubleUS T / ((s.staList ac).length : ℚ) ≤ ToDoubleUS s.m_maxCredits

/-- No operation of the credit ledger update of a uniform commit rounds: the TX duration
and the credit cap in microseconds, the credits per station `T / n`, the debits per MHz
`T / (k * bw)`, the debit `T / (k * bw) * bw`, the credit of every station after the
grant and the credit of every served station after the debit are doubles. -/
def ExactCommit (ac : AcIndex) (T : Time) (k bw : Nat) (s : State) : Prop :=
  let creditsPerSta := ToDoubleUS T / ((s.staList ac).length : ℚ)
  let debitsPerMhz := ToDoubleUS T / ((k * bw : Nat) : ℚ)
  fl (ToDoubleUS T) = ToDoubleUS T
    ∧ fl (ToDoubleUS s.m_maxCredits) = ToDoubleUS s.m_maxCredits
    ∧ fl creditsPerSta = creditsPerSta
    ∧ fl debitsPerMhz = debitsPerMhz
    ∧ fl (debitsPerMhz * (bw : ℚ)) = debitsPerMhz * (bw : ℚ)
    ∧ (∀ sta ∈ s.staList ac,
        fl (sta.info.credits + creditsPerSta) = sta.info.credits + creditsPerSta)
    ∧ ∀ c ∈ s.m_candidates.take k, ∀ sta ∈ s.staList ac, sta.id = c.node →
        fl (sta.info.credits + creditsPerSta - debitsPerMhz * (bw : ℚ))
          = sta.info.credits + creditsPerSta - debitsPerMhz * (bw : ℚ)

/-- A run of one or more commits, each a `step`: `CommitRun ac step L0 s` says that `s`
is the state after the last commit of a run that started with the station list `L0`;
between two commits the station list is left as it is. -/
inductive CommitRun (ac : AcIndex) (step : State → State → Prop) : List Node → State → Prop where
  | first (s s' : State) : step s s' → CommitRun ac step (s.staList ac) s'
  | next (L0 : List Node) (sPrev s s' : State) :
      CommitRun ac step L0 sPrev → s.staList ac = sPrev.staList ac → step s s' →
      CommitRun ac step L0 s'

/-- The example environment with a DL MU PPDU of `duration` nanoseconds. -/
def durationEnv (duration : Time) : Env :=
  { exampleEnv with
    TryAddMpdu := fun _ txParams _ =>
      some
        { txParams with
          m_protection := some 0
          m_acknowledgment := some ⟨44000, [WifiTxVector.default]⟩
          m_txDuration := duration
          nPsdus := txParams.nPsdus + 1 } }

/-- The state after `rounds` rounds of selection (`TrySendingDlMuPpdu`) and commit
(`ComputeDlMuInfo` in double precision) in the environment `env`, starting from `s`. -/
def roundsFl (env : Env) (s : State) : Nat → State
  | 0 => s
  | rounds + 1 =>
      let before := roundsFl env s rounds
      let selected := resultState (TrySendingDlMuPpdu env before) before
      resultState (ComputeDlMuInfoFl env selected) selected

/-- The state after `rounds` rounds and the selection of the next one. -/
def selectedFl (env : Env) (s : State) (rounds : Nat) : State :=
  resultState (TrySendingDlMuPpdu env (roundsFl env s rounds)) (roundsFl env s rounds)

/-- The identity and credit of every station of the list of `ac`. -/
def creditsOf (ac : AcIndex) (s : State) : List (Nat × ℚ) :=
  (s.staList ac).map (fun n => (n.id, n.info.credits))

/-- The DL MU information returned by the commit of round `rounds + 1`. -/
def infoFl (env : Env) (s : State) (rounds : Nat) : DlMuInfo :=
  resultInfo (ComputeDlMuInfoFl env (selectedFl env s rounds))

/-! ## The top-level format selector -/

theorem basicDuration_fst (env : Env) (s s1 : State) (b : Nat) (tv : WifiTxVector)
    (tr : CtrlTriggerHeader) (r : Nat) (d : Time) (fmt : TxFormat) (s' : State)
    (h : basicDuration env s s1 b tv tr r d = (fmt, s')) : fmt ≠ .DL_MU_TX := by
  unfold basicDuration basicGrant at h
  dsimp only at h
  split_ifs at h <;> simp only [Prod.mk.injEq] at h <;> rw [← h.1] <;> simp

theorem basicTrigger_fst (env : Env) (s : State) (b : Nat) (tv : WifiTxVector) (r : Nat)
    (fmt : TxFormat) (s' : State) (h : basicTrigger env s b tv r = .ok (fmt, s')) :
    fmt ≠ .DL_MU_TX := by
  unfold basicTrigger at h
  dsimp only at h
  split at h
  · simp only [Except.ok.injEq, Prod.mk.injEq] at h
    rw [← h.1]; simp
  · split_ifs at h
    · split at h
      · split_ifs at h
        · simp only [Except.ok.injEq, Prod.mk.injEq] at h
          rw [← h.1]; simp
        · simp only [Except.ok.injEq] at h
          exact basicDuration_fst _ _ _ _ _ _ _ _ _ _ h
      · simp at h
    · simp only [Except.ok.injEq] at h
      exact basicDuration_fst _ _ _ _ _ _ _ _ _ _ h

theorem basicSolicit_fst (env : Env) (s : State) (b : Nat) (ul : List (Nat × CandidateInfo))
    (fmt : TxFormat) (s' : State) (h : basicSolicit env s b ul = .ok (fmt, s')) :
    fmt ≠ .DL_MU_TX := by
  unfold basicSolicit at h
  dsimp only at h
  by_cases hul : ul = []
  · simp [hul] at h
  rw [if_neg hul] at h
  split at h
  · simp at h
  · split at h
    · simp at h
    · split at h
      · split at h
        · simp at h
        · exact basicTrigger_fst _ _ _ _ _ _ _ h
      · exact basicTrigger_fst _ _ _ _ _ _ _ h

/-- When `TrySendingBasicTf` answers "proceed to DL" it has changed nothing. -/
theorem TrySendingBasicTf_DL_MU_TX (env : Env) (s s' : State)
    (h : TrySendingBasicTf env s = .ok (.DL_MU_TX, s')) : s' = s := by
  unfold TrySendingBasicTf at h
  split_ifs at h
  split at h
  · simp at h
  · split_ifs at h
    · exact absurd rfl (basicSolicit_fst _ _ _ _ _ _ h)
    · simp only [Except.ok.injEq, Prod.mk.injEq, true_and] at h
      exact h.symm

/-- C1: for every environment and scheduler state, `SelectTxFormat` equals the reference
definition of the specification: the BSRP attempt alone when uplink OFDMA and BSRP are
enabled and the last format is DL MU; otherwise the basic-trigger attempt when uplink
OFDMA is enabled and the last format is DL MU or the stored trigger type is BSRP, whose
result is returned unless it is DL_MU_TX; in every remaining case the DL MU attempt. -/
theorem SelectTxFormat_eq_reference (env : Env) (s : State) :
    SelectTxFormat env s = SelectTxFormat_reference env s := by
  unfold SelectTxFormat SelectTxFormat_reference
  by_cases h1 : s.m_enableUlOfdma = true ∧ s.m_enableBsrp = true ∧ env.lastTxFormat = .DL_MU_TX
  · rw [if_pos h1, if_pos (by simpa [Bool.and_eq_true, and_assoc] using h1)]
  · rw [if_neg h1, if_neg (by simpa [Bool.and_eq_true, and_assoc] using h1)]
    by_cases h2 : s.m_enableUlOfdma = true
        ∧ (env.lastTxFormat = .DL_MU_TX ∨ s.m_ulTriggerType = .BSRP_TRIGGER)
    · rw [if_pos h2, if_pos (by simpa [Bool.and_eq_true, Bool.or_eq_true] using h2)]
      cases hb : TrySendingBasicTf env s with
      | error e => rfl
      | ok r =>
        obtain ⟨fmt, s'⟩ := r
        by_cases hf : fmt = .DL_MU_TX
        · subst hf
          have := TrySendingBasicTf_DL_MU_TX env s s' hb
          subst this
          simp
        · simp [hf]
    · rw [if_neg h2, if_neg (by simpa [Bool.and_eq_true, Bool.or_eq_true] using h2)]

/-! ## The SU/MU decision and the fallbacks of `TrySendingDlMuPpdu` -/

theorem staList_touchStaList (s : State) (ac ac' : AcIndex) :
    (s.touchStaList ac).staList ac' = s.staList ac' := by
  unfold State.touchStaList State.staList
  by_cases h : ac' = ac
  · subst h; simp
  · simp [Function.update_noteq h]

theorem calculate_su_mpdu_fields (env : Env) (s s' : State) (a : Nat)
    (h : calculate_su_mpdu env s = .ok (a, s')) :
    s'.m_candidates = s.m_candidates ∧ s'.mu_tpt = s.mu_tpt ∧ s'.su_tpt = s.su_tpt
      ∧ s'.m_staList = s.m_staList ∧ s'.m_maxCredits = s.m_maxCredits := by
  unfold calculate_su_mpdu at h
  split at h
  · simp only [Except.ok.injEq, Prod.mk.injEq] at h
    rw [← h.2]; simp
  · simp only [bind, Except.bind, pure, Except.pure, throw, throwThe, MonadExceptOf.throw] at h
    repeat' split at h
    all_goals first
      | (simp at h; done)
      | (simp only [Except.ok.injEq, Prod.mk.injEq] at h; rw [← h.2]; simp)

theorem dlEstimate_decision (env : Env) (s1 : State) (sel : SelState) (fmt : TxFormat)
    (s' : State) (h : dlEstimate env s1 sel = .ok (fmt, s')) :
    (fmt = .SU_TX ↔ s'.mu_tpt < s'.su_tpt) ∧ (fmt = .DL_MU_TX ↔ s'.su_tpt ≤ s'.mu_tpt)
      ∧ s'.su_tpt = suThroughput s' ∧ s'.mu_tpt = muThroughput s'
      ∧ s'.m_candidates = s1.m_candidates := by
  unfold dlEstimate at h
  split at h
  · simp at h
  · dsimp only at h
    split at h
    · simp at h
    · rename_i ampdu s3 hsu
      have hf := calculate_su_mpdu_fields _ _ _ _ hsu
      split_ifs at h with hq hgt
      · simp only [Except.ok.injEq, Prod.mk.injEq] at h
        obtain ⟨h1, h2⟩ := h
        subst h1; subst h2
        refine ⟨by simpa using hgt, by simpa using hgt, ?_, ?_, ?_⟩
        · cases sel.mpdu <;> rfl
        · cases sel.mpdu <;> rfl
        · cases sel.mpdu <;> simp [hf.1]
      · simp only [Except.ok.injEq, Prod.mk.injEq] at h
        obtain ⟨h1, h2⟩ := h
        subst h1; subst h2
        refine ⟨by simpa using hgt, by simpa using hgt, ?_, ?_, ?_⟩
        · cases sel.mpdu <;> rfl
        · cases sel.mpdu <;> rfl
        · cases sel.mpdu <;> simp [hf.1]

theorem ok_of_map_fst {α β : Type} (r : Except Fault (α × β)) (a : α)
    (h : r.map Prod.fst = .ok a) : ∃ b, r = .ok (a, b) := by
  cases r with
  | error e => simp [Except.map] at h
  | ok p =>
    obtain ⟨x, y⟩ := p
    simp only [Except.map, Except.ok.injEq] at h
    exact ⟨y, by rw [← h]⟩

/-- C2: whenever the selection of `TrySendingDlMuPpdu` has found at least one candidate
and the call returns, it returns SU_TX exactly when the SU estimate is strictly greater
than the MU estimate and DL_MU_TX exactly when the SU estimate is at most the MU
estimate (so equal estimates give DL_MU_TX); the estimates compared are the values of the
two throughput expressions on the state returned. -/
theorem TrySendingDlMuPpdu_decision (env : Env) (s : State) (cands : List CandidateInfo)
    (fmt : TxFormat) (s' : State)
    (hfound : dlCandidatesFound env s = .ok cands) (hne : cands ≠ [])
    (hres : TrySendingDlMuPpdu env s = .ok (fmt, s')) :
    (fmt = .SU_TX ↔ s'.mu_tpt < s'.su_tpt) ∧ (fmt = .DL_MU_TX ↔ s'.su_tpt ≤ s'.mu_tpt)
      ∧ s'.su_tpt = suThroughput s' ∧ s'.mu_tpt = muThroughput s'
      ∧ s'.m_candidates = cands := by
  unfold dlCandidatesFound at hfound
  unfold TrySendingDlMuPpdu at hres
  dsimp only at hres
  rw [staList_touchStaList] at hres
  by_cases hl : s.staList env.primaryAc = []
  · rw [if_pos hl] at hfound
    simp only [Except.ok.injEq] at hfound
    exact absurd hfound.symm hne
  · rw [if_neg hl] at hfound hres
    cases hsel : dlSelect env (s.touchStaList env.primaryAc) with
    | error e => rw [hsel] at hfound; simp at hfound
    | ok sel =>
      rw [hsel] at hfound hres
      simp only [Except.ok.injEq] at hfound
      dsimp only at hres
      rw [if_neg (by rw [hfound]; exact hne)] at hres
      have := dlEstimate_decision _ _ _ _ _ hres
      rw [← hfound]
      exact this

/-- Witness of C2: in the example environment with three associated stations two
candidates are found and the decision, DL_MU_TX, is the one the estimates give. -/
theorem TrySendingDlMuPpdu_decision_witness :
    ∃ s', TrySendingDlMuPpdu exampleEnv threeStations = .ok (.DL_MU_TX, s')
      ∧ s'.su_tpt ≤ s'.mu_tpt ∧ s'.m_candidates.length = 2 := by
  obtain ⟨s', hs'⟩ := ok_of_map_fst (TrySendingDlMuPpdu exampleEnv threeStations) .DL_MU_TX
    (by with_unfolding_all rfl)
  have h := TrySendingDlMuPpdu_decision exampleEnv threeStations
    [⟨.AC_BE, 0, some (exampleFrame 101 3)⟩, ⟨.AC_BE, 1, some (exampleFrame 102 3)⟩]
    .DL_MU_TX s' (by with_unfolding_all rfl) (by simp) hs'
  exact ⟨s', hs', h.2.1.mp rfl, by rw [h.2.2.2.2]; rfl⟩

/-- C3 fails as stated: with `ForceDlOfdma` enabled and no station associated, no
candidate is found and `TrySendingDlMuPpdu` returns SU_TX, not NO_TX. -/
theorem forced_empty_list_gives_SU_TX :
    forcedNoStation.m_forceDlOfdma = true
      ∧ dlCandidatesFound exampleEnv forcedNoStation = .ok []
      ∧ (TrySendingDlMuPpdu exampleEnv forcedNoStation).map Prod.fst = .ok .SU_TX := by
  refine ⟨rfl, ?_, ?_⟩ <;> with_unfolding_all rfl

/-- C3, amended: when `ForceDlOfdma` is enabled, the station list of the winning
category is not empty and the selection loop ends without a candidate,
`TrySendingDlMuPpdu` returns NO_TX (and so not SU_TX), leaving the state of the
selection. -/
theorem forced_no_candidate_gives_NO_TX (env : Env) (s : State) (sel : SelState)
    (hforce : s.m_forceDlOfdma = true)
    (hlist : s.staList env.primaryAc ≠ [])
    (hsel : dlSelect env (s.touchStaList env.primaryAc) = .ok sel)
    (hnone : sel.candidates = []) :
    TrySendingDlMuPpdu env s
        = .ok (.NO_TX, dlSelected (s.touchStaList env.primaryAc) sel)
      ∧ (TrySendingDlMuPpdu env s).map Prod.fst ≠ .ok .SU_TX := by
  have h : TrySendingDlMuPpdu env s
      = .ok (.NO_TX, dlSelected (s.touchStaList env.primaryAc) sel) := by
    unfold TrySendingDlMuPpdu
    dsimp only
    rw [staList_touchStaList, if_neg hlist, hsel]
    dsimp only
    rw [if_pos hnone, if_pos hforce]
  refine ⟨h, ?_⟩
  rw [h]
  simp [Except.map]

/-- Witness of the amended C3: one station is associated, nothing is queued,
`ForceDlOfdma` is enabled; the outcome is NO_TX. -/
theorem forced_no_candidate_gives_NO_TX_witness :
    (TrySendingDlMuPpdu idleEnv forcedOneStation).map Prod.fst = .ok .NO_TX := by
  have h := forced_no_candidate_gives_NO_TX idleEnv forcedOneStation
    { txParams := { WifiTxParameters.Clear with m_txVector := dlInitialTxVector idleEnv }
      txVector2 := dlInitialTxVector idleEnv
      candidates := []
      candidates2 := []
      mpdu := none }
    rfl (by with_unfolding_all decide) (by with_unfolding_all rfl) rfl
  rw [h.1]
  rfl

/-- C4 fails as stated: with `ForceDlOfdma` enabled, one station associated and nothing
queued, no candidate is found and `TrySendingDlMuPpdu` returns NO_TX, not DL_MU_TX. -/
theorem forced_no_candidate_not_DL_MU_TX :
    forcedOneStation.m_forceDlOfdma = true
      ∧ dlCandidatesFound idleEnv forcedOneStation = .ok []
      ∧ (TrySendingDlMuPpdu idleEnv forcedOneStation).map Prod.fst = .ok .NO_TX := by
  refine ⟨rfl, ?_, ?_⟩ <;> with_unfolding_all rfl

/-- C4, amended: when `ForceDlOfdma` is enabled and no candidate station is found,
`TrySendingDlMuPpdu` does not return DL_MU_TX: it returns SU_TX when the station list
of the winning category is empty and NO_TX otherwise. -/
theorem forced_no_candidate_format (env : Env) (s : State)
    (hforce : s.m_forceDlOfdma = true)
    (hfound : dlCandidatesFound env s = .ok []) :
    (TrySendingDlMuPpdu env s).map Prod.fst
        = .ok (if s.staList env.primaryAc = [] then .SU_TX else .NO_TX)
      ∧ (TrySendingDlMuPpdu env s).map Prod.fst ≠ .ok .DL_MU_TX := by
  have h : (TrySendingDlMuPpdu env s).map Prod.fst
      = .ok (if s.staList env.primaryAc = [] then .SU_TX else .NO_TX) := by
    unfold dlCandidatesFound at hfound
    unfold TrySendingDlMuPpdu
    dsimp only
    rw [staList_touchStaList]
    by_cases hl : s.staList env.primaryAc = []
    · rw [if_pos hl, if_pos hl]; rfl
    · rw [if_neg hl] at hfound
      rw [if_neg hl, if_neg hl]
      cases hsel : dlSelect env (s.touchStaList env.primaryAc) with
      | error e => rw [hsel] at hfound; simp at hfound
      | ok sel =>
        rw [hsel] at hfound
        simp only [Except.ok.injEq] at hfound
        dsimp only
        rw [if_pos hfound, if_pos hforce]
        rfl
  refine ⟨h, ?_⟩
  rw [h]
  split_ifs <;> simp

/-- Witness of the amended C4: `ForceDlOfdma` enabled and no station associated. -/
theorem forced_no_candidate_format_witness :
    (TrySendingDlMuPpdu exampleEnv forcedNoStation).map Prod.fst = .ok .SU_TX :=
  (forced_no_candidate_format exampleEnv forcedNoStation rfl
    (by with_unfolding_all rfl)).1

theorem dlTids_touchStaList (env : Env) (s : State) (ac : AcIndex) :
    dlTids env (s.touchStaList ac) = dlTids env s := rfl

/-! ## What the selection leaves in the candidate list -/

theorem tryTids_candidates (env : Env) (sta : Node) (rt : RuType) (t : Time) :
    ∀ (tids : List Nat) (st st' : SelState),
      tryTids env sta rt t tids st = .ok st' →
      st'.candidates = st.candidates
        ∨ ∃ mpdu,
            st'.candidates = st.candidates ++ [⟨env.primaryAc, sta.id, some mpdu⟩] := by
  intro tids
  induction tids with
  | nil =>
    intro st st' h
    simp only [tryTids, Except.ok.injEq] at h
    exact Or.inl (by rw [h])
  | cons tid rest ih =>
    intro st st' h
    unfold tryTids at h
    dsimp only at h
    split_ifs at h
    · split at h
      · split at h
        · have := ih _ _ h
          exact this
        · simp only [Except.ok.injEq] at h
          exact Or.inr ⟨_, by rw [← h]⟩
      · have := ih _ _ h
        exact this
    · exact ih _ _ h

theorem selectLoop_candidates (env : Env) (n count nc : Nat) (rt : RuType) (t : Time)
    (tids : List Nat) :
    ∀ (l : List Node) (st st' : SelState),
      selectLoop env n count nc rt t tids l st = .ok st' →
      ∃ cs, st'.candidates = st.candidates ++ cs
        ∧ (cs.map (fun c => (c.ac, c.node))).Sublist
            (l.map (fun x => (env.primaryAc, x.id))) := by
  intro l
  induction l with
  | nil =>
    intro st st' h
    simp only [selectLoop, Except.ok.injEq] at h
    exact ⟨[], by rw [h]; simp, by simp⟩
  | cons sta rest ih =>
    intro st st' h
    unfold selectLoop at h
    split_ifs at h
    all_goals try (simp only [Except.ok.injEq] at h; exact ⟨[], by rw [h]; simp, by simp⟩)
    all_goals
      dsimp only at h
      split at h
      · rename_i st1 h1
        obtain ⟨cs, hcs, hsub⟩ := ih _ _ h
        rcases tryTids_candidates _ _ _ _ _ _ _ h1 with h2 | ⟨mpdu, h2⟩
        · exact ⟨cs, by rw [hcs, h2], hsub.trans (List.sublist_cons_self _ _)⟩
        · refine ⟨⟨env.primaryAc, sta.id, some mpdu⟩ :: cs, by rw [hcs, h2]; simp, ?_⟩
          simp only [List.map_cons]
          exact hsub.cons₂ _
      · simp at h

/-- After a returning `TrySendingDlMuPpdu` on a non-empty station list, the candidates
point, in list order, at stations of the station list of the winning category. -/
theorem TrySendingDlMuPpdu_candidates (env : Env) (s : State) (fmt : TxFormat) (s' : State)
    (h : TrySendingDlMuPpdu env s = .ok (fmt, s')) (hl : s.staList env.primaryAc ≠ []) :
    (s'.m_candidates.map (fun c => (c.ac, c.node))).Sublist
      ((s.staList env.primaryAc).map (fun x => (env.primaryAc, x.id))) := by
  unfold TrySendingDlMuPpdu at h
  dsimp only at h
  rw [staList_touchStaList, if_neg hl] at h
  split at h
  · simp at h
  · rename_i sel hsel
    have hsub : (sel.candidates.map (fun c => (c.ac, c.node))).Sublist
        ((s.staList env.primaryAc).map (fun x => (env.primaryAc, x.id))) := by
      unfold dlSelect at hsel
      dsimp only at hsel
      rw [staList_touchStaList] at hsel
      by_cases hcount : (env.GetEqualSizedRusForStations env.channelWidth
          (min ((s.touchStaList env.primaryAc).m_nStations % 256)
            (s.staList env.primaryAc).length)).2.1 < 1
      · rw [if_pos hcount] at hsel
        simp at hsel
      · rw [if_neg hcount] at hsel
        obtain ⟨cs, hcs, hs⟩ := selectLoop_candidates _ _ _ _ _ _ _ _ _ _ hsel
        rw [hcs]
        simpa using hs
    by_cases hc : sel.candidates = []
    · rw [if_pos hc] at h
      split_ifs at h
      all_goals
        simp only [Except.ok.injEq, Prod.mk.injEq] at h
        rw [← h.2]
        exact hsub
    · rw [if_neg hc] at h
      have := (dlEstimate_decision _ _ _ _ _ h).2.2.2.2
      rw [this]
      exact hsub

/-- After a returning `TrySendingDlMuPpdu` on a non-empty station list whose nodes are
distinct, every candidate points into the list of the winning category and no two
candidates point at the same node. -/
theorem TrySendingDlMuPpdu_candidates_distinct (env : Env) (s : State) (fmt : TxFormat)
    (s' : State) (h : TrySendingDlMuPpdu env s = .ok (fmt, s'))
    (hl : s.staList env.primaryAc ≠ [])
    (hids : ((s.staList env.primaryAc).map (·.id)).Nodup) :
    (∀ c ∈ s'.m_candidates, c.ac = env.primaryAc)
      ∧ (s'.m_candidates.map (·.node)).Nodup := by
  have hsub := TrySendingDlMuPpdu_candidates env s fmt s' h hl
  refine ⟨?_, ?_⟩
  · intro c hc
    have : (c.ac, c.node) ∈ s'.m_candidates.map (fun c => (c.ac, c.node)) :=
      List.mem_map_of_mem _ hc
    obtain ⟨x, _, hx⟩ := List.mem_map.mp (hsub.subset this)
    exact (Prod.mk.inj hx).1.symm
  · have h2 := hsub.map Prod.snd
    simp only [List.map_map] at h2
    exact List.Nodup.sublist h2 hids

/-! ## The credit ledger -/

theorem updateNode_eq_map (id : Nat) (f : MasterInfo → MasterInfo) :
    ∀ (l l' : List Node), updateNode id f l = some l' → (l.map (·.id)).Nodup →
      l' = l.map (fun n => if n.id = id then { n with info := f n.info } else n) := by
  intro l
  induction l with
  | nil => intro l' h; simp [updateNode] at h
  | cons n rest ih =>
    intro l' h hnd
    simp only [List.map_cons, List.nodup_cons] at hnd
    unfold updateNode at h
    by_cases hid : n.id = id
    · rw [if_pos hid] at h
      simp only [Option.some.injEq] at h
      subst h
      have hrest : rest.map (fun n => if n.id = id then { n with info := f n.info } else n)
          = rest := by
        conv_rhs => rw [← List.map_id rest]
        apply List.map_congr_left
        intro m hm
        have : m.id ≠ id := by
          intro hmid
          exact hnd.1 (by rw [hid, ← hmid]; exact List.mem_map_of_mem _ hm)
        simp [this]
      simp only [List.map_cons, hid, if_true, hrest]
    · rw [if_neg hid] at h
      cases hu : updateNode id f rest with
      | none => rw [hu] at h; simp at h
      | some r' =>
        rw [hu] at h
        simp only [Option.map_some', Option.some.injEq] at h
        subst h
        simp only [List.map_cons, hid, if_false]
        rw [ih r' hu hnd.2]

theorem servedIndex_eq_none (id : Nat) :
    ∀ cs : List CandidateInfo, id ∉ cs.map (·.node) → servedIndex id cs = none := by
  intro cs
  induction cs with
  | nil => intro _; rfl
  | cons c rest ih =>
    intro h
    simp only [List.map_cons, List.mem_cons, not_or] at h
    unfold servedIndex
    rw [if_neg (fun hc => h.1 hc.symm), ih h.2]
    rfl

theorem debitNode_nil (env : Env) (dpm : ℚ) (rt : RuType) (nRus i : Nat) (n : Node) :
    debitNode env dpm rt nRus i [] n = n := rfl

theorem debitLoop_spec (env : Env) (dpm : ℚ) (rt : RuType) (nRus : Nat) (ac : AcIndex) :
    ∀ (cs : List CandidateInfo) (i : Nat) (m m' : AcIndex → Option (List Node))
      (L : List Node),
      (∀ c ∈ cs, c.ac = ac) → (cs.map (·.node)).Nodup → m ac = some L →
      (L.map (·.id)).Nodup →
      debitLoop env dpm rt nRus cs.length i cs m = .ok m' →
      m' ac = some (L.map (debitNode env dpm rt nRus i cs))
        ∧ ∀ ac', ac' ≠ ac → m' ac' = m ac' := by
  intro cs
  induction cs with
  | nil =>
    intro i m m' L _ _ hm _ h
    simp only [List.length_nil, debitLoop, Except.ok.injEq] at h
    subst h
    refine ⟨?_, fun _ _ => rfl⟩
    rw [hm]
    congr 1
    conv_lhs => rw [← List.map_id L]
    exact List.map_congr_left (fun n _ => rfl)
  | cons c rest ih =>
    intro i m m' L hac hnd hm hids h
    simp only [List.map_cons, List.nodup_cons] at hnd
    have hcac : c.ac = ac := hac c (List.mem_cons_self _ _)
    simp only [List.length_cons, debitLoop] at h
    rw [hcac, hm] at h
    simp only [Option.getD_some] at h
    split at h
    · simp at h
    · rename_i l hl
      have hl' := updateNode_eq_map _ _ _ _ hl hids
      have hids' : (l.map (·.id)).Nodup := by
        rw [hl', List.map_map]
        have : ((fun n : Node => n.id) ∘ fun n : Node =>
            if n.id = c.node then
              { n with info := { n.info with credits := n.info.credits
                - dpm * (env.GetBandwidth (if i < nRus then rt else .RU_26_TONE) : ℚ) } }
            else n) = fun n => n.id := by
          funext n
          simp only [Function.comp]
          split_ifs <;> rfl
        rw [this]
        exact hids
      obtain ⟨h1, h2⟩ := ih (i + 1) (Function.update m ac (some l)) m' l
        (fun x hx => hac x (List.mem_cons_of_mem _ hx)) hnd.2 (by simp) hids' h
      refine ⟨?_, ?_⟩
      · rw [h1, hl', List.map_map]
        congr 1
        apply List.map_congr_left
        intro n _
        simp only [Function.comp]
        by_cases hn : n.id = c.node
        · rw [if_pos hn]
          unfold debitNode
          simp only [servedIndex, hn, if_true]
          rw [servedIndex_eq_none _ _ hnd.1]
          simp
        · rw [if_neg hn]
          unfold debitNode
          simp only [servedIndex]
          rw [if_neg (fun hc => hn hc.symm)]
          cases servedIndex n.id rest with
          | none => rfl
          | some j =>
            simp only [Option.map_some']
            have : i + 1 + j = i + (j + 1) := by omega
            rw [this]
      · intro ac' hne
        rw [h2 ac' hne, Function.update_noteq hne]

theorem dlFill_length (s : State) (rt : RuType) (nRus : Nat) :
    ∀ (k i : Nat) (cs : List CandidateInfo) (tv tv' : WifiTxVector),
      dlFill s rt nRus k i cs tv = .ok tv' → k ≤ cs.length := by
  intro k
  induction k with
  | zero => intros; exact Nat.zero_le _
  | succ k ih =>
    intro i cs tv tv' h
    cases cs with
    | nil => simp [dlFill] at h
    | cons c rest =>
      simp only [dlFill, bind, Except.bind] at h
      repeat' split at h
      all_goals first
        | (simp at h)
        | (simp only [List.length_cons]; exact Nat.succ_le_succ (ih _ _ _ _ h))

/-- What a returning call of `ComputeDlMuInfo` on a non-empty candidate list went
through. -/
theorem ComputeDlMuInfo_inv (env : Env) (s : State) (info : DlMuInfo) (s' : State)
    (h : ComputeDlMuInfo env s = .ok (info, s')) (hne : s.m_candidates ≠ []) :
    ∃ tv1 tv txParams1 agg staLists,
      dlFill s (dlPartition env s).1 (dlPartition env s).2.1
          ((dlPartition env s).2.1 + (dlPartition env s).2.2) 0 s.m_candidates
          (dlFinalTxVector0 s) = .ok tv1
      ∧ AssignRuIndices env tv1 = .ok tv
      ∧ dlReAdd env (if env.m_initialFrame then TimeMin else env.m_availableTime)
          (s.m_candidates.take ((dlPartition env s).2.1 + (dlPartition env s).2.2))
          { WifiTxParameters.Clear with m_txVector := tv } = .ok txParams1
      ∧ dlAggregate env s
          (s.m_candidates.take ((dlPartition env s).2.1 + (dlPartition env s).2.2))
          { txParams := txParams1, psduMap := [], mu_ampdu := s.mu_ampdu, iterator := 0 }
          = .ok agg
      ∧ creditLedger env s (dlPartition env s).1 (dlPartition env s).2.1
          (dlPartition env s).2.2
          (s.m_candidates.take ((dlPartition env s).2.1 + (dlPartition env s).2.2))
          agg.txParams.m_txDuration = .ok staLists
      ∧ info = { psduMap := agg.psduMap, txParams := agg.txParams }
      ∧ s' = { s with
                m_candidates :=
                  s.m_candidates.take ((dlPartition env s).2.1 + (dlPartition env s).2.2)
                m_txParams := WifiTxParameters.Clear
                mu_ampdu := agg.mu_ampdu
                m_staList := staLists } := by
  unfold ComputeDlMuInfo at h
  rw [if_neg hne] at h
  dsimp only at h
  split at h
  · simp at h
  · rename_i tv1 h1
    split at h
    · simp at h
    · rename_i tv h2
      split at h
      · simp at h
      · rename_i txParams1 h3
        split at h
        · simp at h
        · rename_i agg h4
          split_ifs at h
          split at h
          · simp at h
          · rename_i staLists h5
            simp only [Except.ok.injEq, Prod.mk.injEq] at h
            exact ⟨tv1, tv, txParams1, agg, staLists, h1, h2, h3, h4, h5, h.1.symm, h.2.symm⟩

theorem creditLedger_spec (env : Env) (s : State) (rt : RuType) (nRus nLeft : Nat)
    (cs : List CandidateInfo) (T : Time) (m' : AcIndex → Option (List Node))
    (h : creditLedger env s rt nRus nLeft cs T = .ok m')
    (hlen : cs.length = nRus + nLeft)
    (hac : ∀ c ∈ cs, c.ac = env.primaryAc) (hnd : (cs.map (·.node)).Nodup)
    (hids : ((s.staList env.primaryAc).map (·.id)).Nodup) :
    m' env.primaryAc = some (sortByCredits ((s.staList env.primaryAc).map (fun sta =>
        { sta with info := { sta.info with credits :=
            (creditAfterCommit env T (s.staList env.primaryAc).length s.m_maxCredits rt nRus
              nLeft cs sta) } })))
      ∧ ∀ ac', ac' ≠ env.primaryAc → m' ac' = s.m_staList ac' := by
  unfold creditLedger at h
  dsimp only at h
  split at h
  · simp at h
  · rename_i debited hd
    simp only [Except.ok.injEq] at h
    subst h
    rw [← hlen] at hd
    have hgids : ((grantCredits (ToDoubleUS T / ((s.staList env.primaryAc).length : ℚ))
        (ToDoubleUS s.m_maxCredits) (s.staList env.primaryAc)).map (·.id)).Nodup := by
      unfold grantCredits
      rw [List.map_map]
      exact hids
    obtain ⟨h1, h2⟩ := debitLoop_spec env _ rt nRus env.primaryAc cs 0 _ debited _ hac hnd
      (by simp) hgids hd
    refine ⟨?_, ?_⟩
    · simp only [Function.update_same, h1, Option.getD_some]
      congr 2
      unfold grantCredits
      rw [List.map_map]
      apply List.map_congr_left
      intro n _
      simp only [Function.comp, debitNode, creditAfterCommit]
      cases servedIndex n.id cs with
      | none => rfl
      | some j => simp
    · intro ac' hne
      rw [Function.update_noteq hne, h2 ac' hne, Function.update_noteq hne]

/-- The station list of the winning category after a returning commit. -/
theorem commit_staList (env : Env) (s : State) (info : DlMuInfo) (s' : State)
    (hres : ComputeDlMuInfo env s = .ok (info, s')) (hne : s.m_candidates ≠ [])
    (hac : ∀ c ∈ s.m_candidates, c.ac = env.primaryAc)
    (hnd : (s.m_candidates.map (·.node)).Nodup)
    (hids : ((s.staList env.primaryAc).map (·.id)).Nodup) :
    s'.staList env.primaryAc
      = sortByCredits ((s.staList env.primaryAc).map (fun sta =>
          { sta with info := { sta.info with credits :=
              (creditAfterCommit env info.txParams.m_txDuration
                (s.staList env.primaryAc).length s.m_maxCredits (dlPartition env s).1
                (dlPartition env s).2.1 (dlPartition env s).2.2 s'.m_candidates sta) } })) := by
  obtain ⟨tv1, tv, txParams1, agg, staLists, h1, _, _, _, h5, hinfo, hs'⟩ :=
    ComputeDlMuInfo_inv env s info s' hres hne
  have hk := dlFill_length _ _ _ _ _ _ _ _ h1
  have hlen : (s.m_candidates.take ((dlPartition env s).2.1 + (dlPartition env s).2.2)).length
      = (dlPartition env s).2.1 + (dlPartition env s).2.2 := by
    rw [List.length_take]; omega
  have hsub : ∀ c ∈ s.m_candidates.take ((dlPartition env s).2.1 + (dlPartition env s).2.2),
      c.ac = env.primaryAc := fun c hc => hac c (List.mem_of_mem_take hc)
  have hnd' : ((s.m_candidates.take
      ((dlPartition env s).2.1 + (dlPartition env s).2.2)).map (·.node)).Nodup := by
    rw [List.map_take]
    exact List.Nodup.sublist (List.take_sublist _ _) hnd
  obtain ⟨h6, _⟩ := creditLedger_spec env s _ _ _ _ _ _ h5 hlen hsub hnd' hids
  subst hs'
  subst hinfo
  simp only [State.staList, h6, Option.getD_some]

/-- C6: a returning `ComputeDlMuInfo` on a non-empty candidate list (whose candidates
point at distinct nodes of the winning category's station list) leaves that list as the
sorted list of the old stations, each with the credit the specification states:
`min (old + T / n, MaxCredits)` for every station, reduced for the station granted the
`i`-th RU by `T / (nRus * bandwidth (main type) + nLeftover * bandwidth (26-tone))`
times the bandwidth of its RU type, and not reduced for the others. -/
theorem ComputeDlMuInfo_credits (env : Env) (s : State) (info : DlMuInfo) (s' : State)
    (hres : ComputeDlMuInfo env s = .ok (info, s')) (hne : s.m_candidates ≠ [])
    (hac : ∀ c ∈ s.m_candidates, c.ac = env.primaryAc)
    (hnd : (s.m_candidates.map (·.node)).Nodup)
    (hids : ((s.staList env.primaryAc).map (·.id)).Nodup) :
    s'.staList env.primaryAc
      = sortByCredits ((s.staList env.primaryAc).map (fun sta =>
          { sta with info := { sta.info with credits :=
              (creditAfterCommit env info.txParams.m_txDuration
                (s.staList env.primaryAc).length s.m_maxCredits (dlPartition env s).1
                (dlPartition env s).2.1 (dlPartition env s).2.2 s'.m_candidates sta) } })) := by
  obtain ⟨tv1, tv, txParams1, agg, staLists, h1, _, _, _, h5, hinfo, hs'⟩ :=
    ComputeDlMuInfo_inv env s info s' hres hne
  have hk := dlFill_length _ _ _ _ _ _ _ _ h1
  have hlen : (s.m_candidates.take ((dlPartition env s).2.1 + (dlPartition env s).2.2)).length
      = (dlPartition env s).2.1 + (dlPartition env s).2.2 := by
    rw [List.length_take]; omega
  have hsub : ∀ c ∈ s.m_candidates.take ((dlPartition env s).2.1 + (dlPartition env s).2.2),
      c.ac = env.primaryAc := fun c hc => hac c (List.mem_of_mem_take hc)
  have hnd' : ((s.m_candidates.take
      ((dlPartition env s).2.1 + (dlPartition env s).2.2)).map (·.node)).Nodup := by
    rw [List.map_take]
    exact List.Nodup.sublist (List.take_sublist _ _) hnd
  obtain ⟨h6, _⟩ := creditLedger_spec env s _ _ _ _ _ _ h5 hlen hsub hnd' hids
  subst hs'
  subst hinfo
  simp only [State.staList, h6, Option.getD_some]

/-- Witness of C6: the first commit of the three-station example, with a TX duration of
6 microseconds and two stations served on 242-tone RUs: every station is granted 2, the
two served stations pay 3. -/
theorem ComputeDlMuInfo_credits_witness :
    (committedThree.staList .AC_BE).map (fun n => (n.id, n.info.credits))
      = [(2, 2), (0, -1), (1, -1)] := by
  have h := ComputeDlMuInfo_credits exampleEnv selectedThree committedThreeInfo committedThree
    (by with_unfolding_all rfl) (by with_unfolding_all decide) (by with_unfolding_all decide)
    (by with_unfolding_all decide) (by with_unfolding_all decide)
  have hac : exampleEnv.primaryAc = .AC_BE := rfl
  rw [hac] at h
  rw [h]
  with_unfolding_all rfl

theorem updateNode_props (id : Nat) (d : ℚ) :
    ∀ (l l' : List Node),
      updateNode id (fun info => { info with credits := info.credits - d }) l = some l' →
      l'.map stationKey = l.map stationKey
        ∧ (0 ≤ d → ∀ M : ℚ, (∀ n ∈ l, n.info.credits ≤ M) → ∀ n ∈ l', n.info.credits ≤ M)
        ∧ (∀ x ∈ l, x.id ≠ id → x ∈ l') := by
  intro l
  induction l with
  | nil => intro l' h; simp [updateNode] at h
  | cons n rest ih =>
    intro l' h
    unfold updateNode at h
    by_cases hid : n.id = id
    · rw [if_pos hid] at h
      simp only [Option.some.injEq] at h
      subst h
      refine ⟨by simp [stationKey], ?_, ?_⟩
      · intro hd M hM x hx
        rcases List.mem_cons.mp hx with hx | hx
        · subst hx
          have := hM n (List.mem_cons_self _ _)
          simp only
          linarith
        · exact hM x (List.mem_cons_of_mem _ hx)
      · intro x hx hne
        rcases List.mem_cons.mp hx with hx | hx
        · subst hx; exact absurd hid hne
        · exact List.mem_cons_of_mem _ hx
    · rw [if_neg hid] at h
      cases hu : updateNode id (fun info => { info with credits := info.credits - d }) rest with
      | none => rw [hu] at h; simp at h
      | some r' =>
        rw [hu] at h
        simp only [Option.map_some', Option.some.injEq] at h
        subst h
        obtain ⟨h1, h2, h3⟩ := ih r' hu
        refine ⟨by simp [h1], ?_, ?_⟩
        · intro hd M hM x hx
          rcases List.mem_cons.mp hx with hx | hx
          · subst hx; exact hM _ (List.mem_cons_self _ _)
          · exact h2 hd M (fun y hy => hM y (List.mem_cons_of_mem _ hy)) x hx
        · intro x hx hne
          rcases List.mem_cons.mp hx with hx | hx
          · subst hx; exact List.mem_cons_self _ _
          · exact List.mem_cons_of_mem _ (h3 x hx hne)

theorem debitLoop_props (env : Env) (dpm : ℚ) (rt : RuType) (nRus : Nat) :
    ∀ (k i : Nat) (cs : List CandidateInfo) (m m' : AcIndex → Option (List Node)),
      debitLoop env dpm rt nRus k i cs m = .ok m' →
      (∀ ac, ((m' ac).getD []).map stationKey = ((m ac).getD []).map stationKey)
        ∧ (0 ≤ dpm → ∀ M : ℚ, (∀ ac, ∀ n ∈ (m ac).getD [], n.info.credits ≤ M) →
            ∀ ac, ∀ n ∈ (m' ac).getD [], n.info.credits ≤ M)
        ∧ (∀ ac, ∀ x ∈ (m ac).getD [], (∀ c ∈ cs, ¬(c.ac = ac ∧ c.node = x.id)) →
            x ∈ (m' ac).getD []) := by
  intro k
  induction k with
  | zero =>
    intro i cs m m' h
    simp only [debitLoop, Except.ok.injEq] at h
    subst h
    exact ⟨fun _ => rfl, fun _ _ hM => hM, fun _ x hx _ => hx⟩
  | succ k ih =>
    intro i cs m m' h
    cases cs with
    | nil => simp [debitLoop] at h
    | cons c rest =>
      simp only [debitLoop] at h
      split at h
      · simp at h
      · rename_i l hl
        obtain ⟨u1, u2, u3⟩ := updateNode_props _ _ _ _ hl
        obtain ⟨h1, h2, h3⟩ := ih _ _ _ _ h
        have hupd : ∀ ac, ((Function.update m c.ac (some l)) ac).getD []
            = if ac = c.ac then l else (m ac).getD [] := by
          intro ac
          by_cases hac : ac = c.ac
          · subst hac; simp
          · simp [Function.update_noteq hac, hac]
        refine ⟨?_, ?_, ?_⟩
        · intro ac
          rw [h1 ac, hupd]
          split_ifs with hac
          · subst hac; exact u1
          · rfl
        · intro hd M hM
          apply h2 hd M
          intro ac n hn
          rw [hupd] at hn
          split_ifs at hn with hac
          · subst hac
            exact u2 (mul_nonneg hd (Nat.cast_nonneg _)) M (hM _) n hn
          · exact hM ac n hn
        · intro ac x hx hc
          apply h3 ac x
          · rw [hupd]
            split_ifs with hac
            · subst hac
              apply u3 x hx
              intro hxid
              exact hc c (List.mem_cons_self _ _) ⟨rfl, hxid.symm⟩
            · exact hx
          · intro c' hc'
            exact hc c' (List.mem_cons_of_mem _ hc')

theorem sortByCredits_perm (l : List Node) : (sortByCredits l).Perm l :=
  List.perm_insertionSort _ l

theorem sortByCredits_sorted (l : List Node) :
    (sortByCredits l).Sorted (fun a b => b.info.credits ≤ a.info.credits) := by
  haveI : IsTotal Node (fun a b => b.info.credits ≤ a.info.credits) :=
    ⟨fun a b => le_total _ _⟩
  haveI : IsTrans Node (fun a b => b.info.credits ≤ a.info.credits) :=
    ⟨fun a b c hab hbc => le_trans hbc hab⟩
  exact List.sorted_insertionSort _ l

theorem grantCredits_keys (c M : ℚ) (l : List Node) :
    (grantCredits c M l).map stationKey = l.map stationKey := by
  unfold grantCredits
  rw [List.map_map]
  rfl

/-- The station lists left by the credit ledger update. -/
theorem creditLedger_props (env : Env) (s : State) (rt : RuType) (nRus nLeft : Nat)
    (cs : List CandidateInfo) (T : Time) (m' : AcIndex → Option (List Node))
    (h : creditLedger env s rt nRus nLeft cs T = .ok m') :
    ((m' env.primaryAc).getD []).Sorted (fun a b => b.info.credits ≤ a.info.credits)
      ∧ (∀ ac, (((m' ac).getD []).map stationKey).Perm ((s.staList ac).map stationKey))
      ∧ (0 ≤ T → (∀ ac, ∀ n ∈ s.staList ac, n.info.credits ≤ ToDoubleUS s.m_maxCredits) →
          ∀ ac, ∀ n ∈ (m' ac).getD [], n.info.credits ≤ ToDoubleUS s.m_maxCredits)
      ∧ (∀ x ∈ s.staList env.primaryAc, (∀ c ∈ cs, ¬(c.ac = env.primaryAc ∧ c.node = x.id)) →
          ∃ x' ∈ (m' env.primaryAc).getD [], x'.id = x.id ∧ x'.info.aid = x.info.aid
            ∧ x'.info.address = x.info.address
            ∧ x'.info.credits = min (x.info.credits
                + ToDoubleUS T / ((s.staList env.primaryAc).length : ℚ))
                (ToDoubleUS s.m_maxCredits)) := by
  unfold creditLedger at h
  dsimp only at h
  split at h
  · simp at h
  · rename_i debited hd
    simp only [Except.ok.injEq] at h
    subst h
    obtain ⟨h1, h2, h3⟩ := debitLoop_props _ _ _ _ _ _ _ _ _ hd
    have hg : ∀ ac, ((Function.update s.m_staList env.primaryAc
        (some (grantCredits (ToDoubleUS T / ((s.staList env.primaryAc).length : ℚ))
          (ToDoubleUS s.m_maxCredits) (s.staList env.primaryAc)))) ac).getD []
        = if ac = env.primaryAc then
            grantCredits (ToDoubleUS T / ((s.staList env.primaryAc).length : ℚ))
              (ToDoubleUS s.m_maxCredits) (s.staList env.primaryAc)
          else s.staList ac := by
      intro ac
      by_cases hac : ac = env.primaryAc
      · subst hac; simp
      · simp [Function.update_noteq hac, hac, State.staList]
    have hfin : ∀ ac, ((Function.update debited env.primaryAc
        (some (sortByCredits ((debited env.primaryAc).getD [])))) ac).getD []
        = if ac = env.primaryAc then sortByCredits ((debited env.primaryAc).getD [])
          else (debited ac).getD [] := by
      intro ac
      by_cases hac : ac = env.primaryAc
      · subst hac; simp
      · simp [Function.update_noteq hac, hac]
    have hkeys : ∀ ac, ((debited ac).getD []).map stationKey = (s.staList ac).map stationKey := by
      intro ac
      rw [h1 ac, hg]
      split_ifs with hac
      · subst hac; exact grantCredits_keys _ _ _
      · rfl
    refine ⟨?_, ?_, ?_, ?_⟩
    · rw [hfin, if_pos rfl]
      exact sortByCredits_sorted _
    · intro ac
      rw [hfin]
      split_ifs with hac
      · subst hac
        rw [← hkeys]
        exact (sortByCredits_perm _).map _
      · rw [hkeys]
    · intro hT hM ac n hn
      rw [hfin] at hn
      have hdpm : 0 ≤ ToDoubleUS T / ((nRus * env.GetBandwidth rt
          + nLeft * env.GetBandwidth .RU_26_TONE : Nat) : ℚ) := by
        apply div_nonneg
        · unfold ToDoubleUS
          apply div_nonneg
          · exact_mod_cast hT
          · norm_num
        · exact Nat.cast_nonneg _
      have hb := h2 hdpm (ToDoubleUS s.m_maxCredits) (by
        intro ac' n' hn'
        rw [hg] at hn'
        split_ifs at hn' with hac'
        · unfold grantCredits at hn'
          obtain ⟨y, _, hy⟩ := List.mem_map.mp hn'
          rw [← hy]
          exact min_le_right _ _
        · exact hM ac' n' hn')
      split_ifs at hn with hac
      · exact hb _ n ((sortByCredits_perm _).mem_iff.mp hn)
      · exact hb ac n hn
    · intro x hx hc
      have hxg : ({ x with info := { x.info with credits := (min (x.info.credits
          + ToDoubleUS T / ((s.staList env.primaryAc).length : ℚ))
          (ToDoubleUS s.m_maxCredits)) } } : Node) ∈ ((Function.update s.m_staList env.primaryAc
        (some (grantCredits (ToDoubleUS T / ((s.staList env.primaryAc).length : ℚ))
          (ToDoubleUS s.m_maxCredits) (s.staList env.primaryAc)))) env.primaryAc).getD [] := by
        rw [hg, if_pos rfl]
        unfold grantCredits
        exact List.mem_map.mpr ⟨x, hx, rfl⟩
      have := h3 env.primaryAc _ hxg hc
      refine ⟨({ x with info := { x.info with credits := (min (x.info.credits
          + ToDoubleUS T / ((s.staList env.primaryAc).length : ℚ))
          (ToDoubleUS s.m_maxCredits)) } } : Node), ?_, rfl, rfl, rfl, rfl⟩
      rw [hfin, if_pos rfl]
      exact (sortByCredits_perm _).mem_iff.mpr this

/-- C8: after a returning `ComputeDlMuInfo` on a non-empty candidate list, the station
list of the winning category is sorted in non-increasing order of credit and holds
exactly the stations it held before (same list nodes, AIDs and addresses, each as often
as before). -/
theorem ComputeDlMuInfo_sorted (env : Env) (s : State) (info : DlMuInfo) (s' : State)
    (hres : ComputeDlMuInfo env s = .ok (info, s')) (hne : s.m_candidates ≠ []) :
    (s'.staList env.primaryAc).Sorted (fun a b => b.info.credits ≤ a.info.credits)
      ∧ ((s'.staList env.primaryAc).map stationKey).Perm
          ((s.staList env.primaryAc).map stationKey) := by
  obtain ⟨tv1, tv, txParams1, agg, staLists, _, _, _, _, h5, _, hs'⟩ :=
    ComputeDlMuInfo_inv env s info s' hres hne
  obtain ⟨h1, h2, _, _⟩ := creditLedger_props _ _ _ _ _ _ _ _ h5
  subst hs'
  exact ⟨h1, h2 env.primaryAc⟩

/-- Witness of C8: the first commit of the three-station example. -/
theorem ComputeDlMuInfo_sorted_witness :
    (committedThree.staList .AC_BE).Sorted (fun a b => b.info.credits ≤ a.info.credits)
      ∧ ((committedThree.staList .AC_BE).map stationKey).Perm
          [(0, 1, 101), (1, 2, 102), (2, 3, 103)] := by
  have h := ComputeDlMuInfo_sorted exampleEnv selectedThree committedThreeInfo committedThree
    (by with_unfolding_all rfl) (by with_unfolding_all decide)
  have e : (selectedThree.staList exampleEnv.primaryAc).map stationKey
      = [(0, 1, 101), (1, 2, 102), (2, 3, 103)] := by with_unfolding_all rfl
  rw [e] at h
  exact h

theorem TrySendingBsrpTf_staList (env : Env) (s : State) (f : TxFormat) (s' : State)
    (h : TrySendingBsrpTf env s = .ok (f, s')) :
    s'.m_staList = s.m_staList ∧ s'.m_maxCredits = s.m_maxCredits := by
  unfold TrySendingBsrpTf at h
  simp only [bind, Except.bind, pure, Except.pure, throw, throwThe, MonadExceptOf.throw] at h
  repeat' split at h
  all_goals first
    | (simp at h; done)
    | (simp only [Except.ok.injEq, Prod.mk.injEq] at h; rw [← h.2]; exact ⟨rfl, rfl⟩)

theorem basicDuration_staList (env : Env) (s s1 : State) (b : Nat) (tv : WifiTxVector)
    (tr : CtrlTriggerHeader) (r : Nat) (d : Time) (fmt : TxFormat) (s' : State)
    (h : basicDuration env s s1 b tv tr r d = (fmt, s')) :
    s'.m_staList = s1.m_staList ∧ s'.m_maxCredits = s1.m_maxCredits := by
  unfold basicDuration basicGrant at h
  dsimp only at h
  split_ifs at h <;> simp only [Prod.mk.injEq] at h <;> rw [← h.2] <;> exact ⟨rfl, rfl⟩

theorem basicTrigger_staList (env : Env) (s : State) (b : Nat) (tv : WifiTxVector) (r : Nat)
    (fmt : TxFormat) (s' : State) (h : basicTrigger env s b tv r = .ok (fmt, s')) :
    s'.m_staList = s.m_staList ∧ s'.m_maxCredits = s.m_maxCredits := by
  unfold basicTrigger at h
  dsimp only at h
  split at h
  · simp only [Except.ok.injEq, Prod.mk.injEq] at h
    rw [← h.2]; exact ⟨rfl, rfl⟩
  · split_ifs at h
    · split at h
      · split_ifs at h
        · simp only [Except.ok.injEq, Prod.mk.injEq] at h
          rw [← h.2]; exact ⟨rfl, rfl⟩
        · simp only [Except.ok.injEq] at h
          have := basicDuration_staList _ _ _ _ _ _ _ _ _ _ h
          exact this
      · simp at h
    · simp only [Except.ok.injEq] at h
      have := basicDuration_staList _ _ _ _ _ _ _ _ _ _ h
      exact this

theorem TrySendingBasicTf_staList (env : Env) (s : State) (fmt : TxFormat) (s' : State)
    (h : TrySendingBasicTf env s = .ok (fmt, s')) :
    s'.m_staList = s.m_staList ∧ s'.m_maxCredits = s.m_maxCredits := by
  unfold TrySendingBasicTf at h
  split_ifs at h
  split at h
  · simp at h
  · split_ifs at h
    · unfold basicSolicit at h
      dsimp only at h
      rename_i b ul _ _
      by_cases hul : ul = []
      · simp [hul] at h
      rw [if_neg hul] at h
      split at h
      · simp at h
      · split at h
        · simp at h
        · split at h
          · split at h
            · simp at h
            · exact basicTrigger_staList _ _ _ _ _ _ _ h
          · exact basicTrigger_staList _ _ _ _ _ _ _ h
    · simp only [Except.ok.injEq, Prod.mk.injEq] at h
      rw [← h.2]; exact ⟨rfl, rfl⟩

theorem dlEstimate_staList (env : Env) (s1 : State) (sel : SelState) (fmt : TxFormat)
    (s' : State) (h : dlEstimate env s1 sel = .ok (fmt, s')) :
    s'.m_staList = s1.m_staList ∧ s'.m_maxCredits = s1.m_maxCredits := by
  unfold dlEstimate at h
  split at h
  · simp at h
  · dsimp only at h
    split at h
    · simp at h
    · rename_i ampdu s3 hsu
      have hf := calculate_su_mpdu_fields _ _ _ _ hsu
      split_ifs at h
      all_goals
        simp only [Except.ok.injEq, Prod.mk.injEq] at h
        rw [← h.2]
        cases sel.mpdu <;> exact ⟨hf.2.2.2.1, hf.2.2.2.2⟩

theorem TrySendingDlMuPpdu_staList (env : Env) (s : State) (fmt : TxFormat) (s' : State)
    (h : TrySendingDlMuPpdu env s = .ok (fmt, s')) :
    (∀ ac, s'.staList ac = s.staList ac) ∧ s'.m_maxCredits = s.m_maxCredits := by
  unfold TrySendingDlMuPpdu at h
  dsimp only at h
  by_cases hl : (s.touchStaList env.primaryAc).staList env.primaryAc = []
  · rw [if_pos hl] at h
    simp only [Except.ok.injEq, Prod.mk.injEq] at h
    rw [← h.2]
    exact ⟨fun ac => staList_touchStaList _ _ _, rfl⟩
  · rw [if_neg hl] at h
    split at h
    · simp at h
    · rename_i sel _
      by_cases hc : sel.candidates = []
      · rw [if_pos hc] at h
        split_ifs at h
        all_goals
          simp only [Except.ok.injEq, Prod.mk.injEq] at h
          rw [← h.2]
          exact ⟨fun ac => staList_touchStaList _ _ _, rfl⟩
      · rw [if_neg hc] at h
        obtain ⟨h1, h2⟩ := dlEstimate_staList _ _ _ _ _ h
        refine ⟨fun ac => ?_, h2⟩
        have : s'.staList ac = (s.touchStaList env.primaryAc).staList ac := by
          unfold State.staList
          rw [h1]
          rfl
        rw [this]
        exact staList_touchStaList _ _ _

theorem SelectTxFormat_staList (env : Env) (s : State) (fmt : TxFormat) (s' : State)
    (h : SelectTxFormat env s = .ok (fmt, s')) :
    (∀ ac, s'.staList ac = s.staList ac) ∧ s'.m_maxCredits = s.m_maxCredits := by
  unfold SelectTxFormat at h
  split_ifs at h
  · obtain ⟨h1, h2⟩ := TrySendingBsrpTf_staList _ _ _ _ h
    exact ⟨fun ac => by unfold State.staList; rw [h1], h2⟩
  · split at h
    · simp at h
    · rename_i f1 s1 hb
      obtain ⟨h1, h2⟩ := TrySendingBasicTf_staList _ _ _ _ hb
      split_ifs at h
      · simp only [Except.ok.injEq, Prod.mk.injEq] at h
        rw [← h.2]
        exact ⟨fun ac => by unfold State.staList; rw [h1], h2⟩
      · obtain ⟨h3, h4⟩ := TrySendingDlMuPpdu_staList _ _ _ _ h
        exact ⟨fun ac => by rw [h3]; unfold State.staList; rw [h1], h4.trans h2⟩
  · exact TrySendingDlMuPpdu_staList _ _ _ _ h

theorem Reachable_cap (s : State) (h : Reachable s) :
    0 ≤ s.m_maxCredits →
      ∀ ac, ∀ n ∈ s.staList ac, n.info.credits ≤ ToDoubleUS s.m_maxCredits := by
  induction h with
  | init s0 hs0 =>
    intro _ ac n hn
    simp [DoInitialize, State.staList, hs0] at hn
  | associated env s0 aid address _ ih =>
    intro hmax ac n hn
    unfold NotifyStationAssociated at hn hmax ⊢
    split_ifs at hn hmax ⊢ with hhe
    · have ih' := ih hmax ac
      simp only [State.staList] at hn ih' ⊢
      cases hl : s0.m_staList ac with
      | none => rw [hl] at hn; simp at hn
      | some l =>
        rw [hl] at hn ih'
        simp only [Option.map_some', Option.getD_some, List.mem_append,
          List.mem_singleton] at hn ih'
        rcases hn with hn | hn
        · exact ih' n hn
        · subst hn
          simp only [ToDoubleUS]
          apply div_nonneg
          · exact_mod_cast hmax
          · norm_num
    · exact ih hmax ac n hn
  | deassociated env s0 aid address _ ih =>
    intro hmax ac n hn
    unfold NotifyStationDeassociated at hn hmax ⊢
    split_ifs at hn hmax ⊢ with hhe
    · have ih' := ih hmax ac
      simp only [State.staList] at hn ih' ⊢
      cases hl : s0.m_staList ac with
      | none => rw [hl] at hn; simp at hn
      | some l =>
        rw [hl] at hn ih'
        simp only [Option.map_some', Option.getD_some] at hn ih'
        exact ih' n (List.mem_of_mem_filter hn)
    · exact ih hmax ac n hn
  | selected env s0 fmt s1 _ hsel ih =>
    intro hmax ac n hn
    obtain ⟨h1, h2⟩ := SelectTxFormat_staList _ _ _ _ hsel
    rw [h1] at hn
    rw [h2] at hmax ⊢
    exact ih hmax ac n hn
  | committed env s0 info s1 _ hres hT ih =>
    intro hmax ac n hn
    by_cases hne : s0.m_candidates = []
    · unfold ComputeDlMuInfo at hres
      rw [if_pos hne] at hres
      simp only [Except.ok.injEq, Prod.mk.injEq] at hres
      rw [← hres.2] at hn hmax ⊢
      exact ih hmax ac n hn
    · obtain ⟨tv1, tv, txParams1, agg, staLists, _, _, _, _, h5, hinfo, hs'⟩ :=
        ComputeDlMuInfo_inv env s0 info s1 hres hne
      obtain ⟨_, _, h3, _⟩ := creditLedger_props _ _ _ _ _ _ _ _ h5
      subst hs'
      subst hinfo
      exact h3 hT (ih hmax) ac n hn

/-- C7 fails as stated: with a negative `MaxCredits` a newly associated station has credit
0, above the cap. -/
theorem credit_above_negative_cap :
    Reachable negativeCap
      ∧ ∃ n ∈ negativeCap.staList .AC_BE,
          ToDoubleUS negativeCap.m_maxCredits < n.info.credits := by
  refine ⟨?_, ⟨0, ⟨1, 101, 0⟩⟩, by with_unfolding_all decide, by with_unfolding_all decide⟩
  exact Reachable.associated _ _ _ _ (Reachable.init _ (fun _ => rfl))

/-- C7, amended: when the configured `MaxCredits` is not negative, in every state
reachable from initialisation by association and de-association notifications, format
selections and MU commits (of non-negative TX duration) the credit of every station of
every per-category list is at most `MaxCredits`; and a station of the winning category
that is not granted an RU in a commit with positive TX duration and is below the cap
ends that commit with strictly more credit than before. -/
theorem credit_invariant (s : State) :
    (Reachable s → 0 ≤ s.m_maxCredits →
        ∀ ac, ∀ n ∈ s.staList ac, n.info.credits ≤ ToDoubleUS s.m_maxCredits)
    ∧ (∀ (env : Env) (info : DlMuInfo) (s' : State) (x : Node),
        ComputeDlMuInfo env s = .ok (info, s') → s.m_candidates ≠ [] →
        0 < info.txParams.m_txDuration → x ∈ s.staList env.primaryAc →
        (∀ c ∈ s'.m_candidates, ¬(c.ac = env.primaryAc ∧ c.node = x.id)) →
        x.info.credits < ToDoubleUS s.m_maxCredits →
        ∃ x' ∈ s'.staList env.primaryAc, x'.id = x.id ∧ x'.info.aid = x.info.aid
          ∧ x'.info.address = x.info.address ∧ x.info.credits < x'.info.credits) := by
  refine ⟨Reachable_cap s, ?_⟩
  intro env info s' x hres hne hT hx hserved hlt
  obtain ⟨tv1, tv, txParams1, agg, staLists, _, _, _, _, h5, hinfo, hs'⟩ :=
    ComputeDlMuInfo_inv env s info s' hres hne
  obtain ⟨_, _, _, h4⟩ := creditLedger_props _ _ _ _ _ _ _ _ h5
  subst hs'
  subst hinfo
  obtain ⟨x', hx', hid, haid, haddr, hcred⟩ := h4 x hx hserved
  refine ⟨x', hx', hid, haid, haddr, ?_⟩
  rw [hcred]
  have hlen : (0 : ℚ) < ((s.staList env.primaryAc).length : ℚ) := by
    have : 0 < (s.staList env.primaryAc).length := List.length_pos_of_mem hx
    exact_mod_cast this
  have hTq : (0 : ℚ) < ToDoubleUS agg.txParams.m_txDuration := by
    unfold ToDoubleUS
    apply div_pos
    · exact_mod_cast hT
    · norm_num
  have := div_pos hTq hlen
  exact lt_min (by linarith) hlt

/-- Witness of the amended C7: the three-station example after its first commit; the
station that was not served went from credit 0 to credit 2. -/
theorem credit_invariant_witness :
    (∀ ac, ∀ n ∈ committedThree.staList ac,
        n.info.credits ≤ ToDoubleUS committedThree.m_maxCredits)
      ∧ ∃ x' ∈ committedThree.staList .AC_BE, x'.id = 2 ∧ (0 : ℚ) < x'.info.credits := by
  have hsel : Reachable selectedThree :=
    Reachable.selected exampleEnv threeStations .DL_MU_TX selectedThree
      (Reachable.associated _ _ _ _ (Reachable.associated _ _ _ _
        (Reachable.associated _ _ _ _ (Reachable.init _ (fun _ => rfl)))))
      (by with_unfolding_all rfl)
  have hcom : Reachable committedThree :=
    Reachable.committed exampleEnv selectedThree committedThreeInfo committedThree hsel
      (by with_unfolding_all rfl) (by with_unfolding_all decide)
  refine ⟨(credit_invariant committedThree).1 hcom (by with_unfolding_all decide), ?_⟩
  obtain ⟨x', hx', hid, _, _, hcred⟩ := (credit_invariant selectedThree).2 exampleEnv
    committedThreeInfo committedThree ⟨2, ⟨3, 103, 0⟩⟩ (by with_unfolding_all rfl)
    (by with_unfolding_all decide) (by with_unfolding_all decide)
    (by with_unfolding_all decide) (by with_unfolding_all decide)
    (by with_unfolding_all decide)
  exact ⟨x', hx', hid, hcred⟩

/-! ## List nodes are distinct in every reachable state -/

theorem TrySendingBsrpTf_nextNodeId (env : Env) (s : State) (f : TxFormat) (s' : State)
    (h : TrySendingBsrpTf env s = .ok (f, s')) : s'.nextNodeId = s.nextNodeId := by
  unfold TrySendingBsrpTf at h
  simp only [bind, Except.bind, pure, Except.pure, throw, throwThe, MonadExceptOf.throw] at h
  repeat' split at h
  all_goals first
    | (simp at h; done)
    | (simp only [Except.ok.injEq, Prod.mk.injEq] at h; rw [← h.2])

theorem basicDuration_nextNodeId (env : Env) (s s1 : State) (b : Nat) (tv : WifiTxVector)
    (tr : CtrlTriggerHeader) (r : Nat) (d : Time) (fmt : TxFormat) (s' : State)
    (h : basicDuration env s s1 b tv tr r d = (fmt, s')) : s'.nextNodeId = s1.nextNodeId := by
  unfold basicDuration basicGrant at h
  dsimp only at h
  split_ifs at h <;> simp only [Prod.mk.injEq] at h <;> rw [← h.2]

theorem basicTrigger_nextNodeId (env : Env) (s : State) (b : Nat) (tv : WifiTxVector)
    (r : Nat) (fmt : TxFormat) (s' : State) (h : basicTrigger env s b tv r = .ok (fmt, s')) :
    s'.nextNodeId = s.nextNodeId := by
  unfold basicTrigger at h
  dsimp only at h
  split at h
  · simp only [Except.ok.injEq, Prod.mk.injEq] at h
    rw [← h.2]
  · split_ifs at h
    · split at h
      · split_ifs at h
        · simp only [Except.ok.injEq, Prod.mk.injEq] at h
          rw [← h.2]
        · simp only [Except.ok.injEq] at h
          have := basicDuration_nextNodeId _ _ _ _ _ _ _ _ _ _ h
          exact this
      · simp at h
    · simp only [Except.ok.injEq] at h
      have := basicDuration_nextNodeId _ _ _ _ _ _ _ _ _ _ h
      exact this

theorem TrySendingBasicTf_nextNodeId (env : Env) (s : State) (fmt : TxFormat) (s' : State)
    (h : TrySendingBasicTf env s = .ok (fmt, s')) : s'.nextNodeId = s.nextNodeId := by
  unfold TrySendingBasicTf at h
  split_ifs at h
  split at h
  · simp at h
  · split_ifs at h
    · unfold basicSolicit at h
      dsimp only at h
      rename_i b ul _ _
      by_cases hul : ul = []
      · simp [hul] at h
      rw [if_neg hul] at h
      split at h
      · simp at h
      · split at h
        · simp at h
        · split at h
          · split at h
            · simp at h
            · exact basicTrigger_nextNodeId _ _ _ _ _ _ _ h
          · exact basicTrigger_nextNodeId _ _ _ _ _ _ _ h
    · simp only [Except.ok.injEq, Prod.mk.injEq] at h
      rw [← h.2]

theorem calculate_su_mpdu_nextNodeId (env : Env) (s s' : State) (a : Nat)
    (h : calculate_su_mpdu env s = .ok (a, s')) : s'.nextNodeId = s.nextNodeId := by
  unfold calculate_su_mpdu at h
  split at h
  · simp only [Except.ok.injEq, Prod.mk.injEq] at h
    rw [← h.2]
  · simp only [bind, Except.bind, pure, Except.pure, throw, throwThe, MonadExceptOf.throw] at h
    repeat' split at h
    all_goals first
      | (simp at h; done)
      | (simp only [Except.ok.injEq, Prod.mk.injEq] at h; rw [← h.2])

theorem TrySendingDlMuPpdu_nextNodeId (env : Env) (s : State) (fmt : TxFormat) (s' : State)
    (h : TrySendingDlMuPpdu env s = .ok (fmt, s')) : s'.nextNodeId = s.nextNodeId := by
  unfold TrySendingDlMuPpdu at h
  dsimp only at h
  by_cases hl : (s.touchStaList env.primaryAc).staList env.primaryAc = []
  · rw [if_pos hl] at h
    simp only [Except.ok.injEq, Prod.mk.injEq] at h
    rw [← h.2]
    rfl
  · rw [if_neg hl] at h
    split at h
    · simp at h
    · rename_i sel _
      by_cases hc : sel.candidates = []
      · rw [if_pos hc] at h
        split_ifs at h
        all_goals
          simp only [Except.ok.injEq, Prod.mk.injEq] at h
          rw [← h.2]
          rfl
      · rw [if_neg hc] at h
        unfold dlEstimate at h
        split at h
        · simp at h
        · dsimp only at h
          split at h
          · simp at h
          · rename_i ampdu s3 hsu
            have hf := calculate_su_mpdu_nextNodeId _ _ _ _ hsu
            split_ifs at h
            all_goals
              simp only [Except.ok.injEq, Prod.mk.injEq] at h
              rw [← h.2]
              cases sel.mpdu <;> exact hf

theorem SelectTxFormat_nextNodeId (env : Env) (s : State) (fmt : TxFormat) (s' : State)
    (h : SelectTxFormat env s = .ok (fmt, s')) : s'.nextNodeId = s.nextNodeId := by
  unfold SelectTxFormat at h
  split_ifs at h
  · exact TrySendingBsrpTf_nextNodeId _ _ _ _ h
  · split at h
    · simp at h
    · rename_i f1 s1 hb
      have h1 := TrySendingBasicTf_nextNodeId _ _ _ _ hb
      split_ifs at h
      · simp only [Except.ok.injEq, Prod.mk.injEq] at h
        rw [← h.2]
        exact h1
      · exact (TrySendingDlMuPpdu_nextNodeId _ _ _ _ h).trans h1
  · exact TrySendingDlMuPpdu_nextNodeId _ _ _ _ h

/-- In every reachable state the nodes of every station list are distinct. -/
theorem Reachable_nodup (s : State) (h : Reachable s) :
    ∀ ac, ((s.staList ac).map (·.id)).Nodup ∧ ∀ n ∈ s.staList ac, n.id < s.nextNodeId := by
  induction h with
  | init s0 hs0 =>
    intro ac
    simp [DoInitialize, State.staList, hs0]
  | associated env s0 aid address _ ih =>
    intro ac
    unfold NotifyStationAssociated
    split_ifs with hhe
    · obtain ⟨i1, i2⟩ := ih ac
      simp only [State.staList] at i1 i2 ⊢
      cases hl : s0.m_staList ac with
      | none => simp
      | some l =>
        rw [hl] at i1 i2
        simp only [Option.getD_some] at i1 i2
        simp only [Option.map_some', Option.getD_some, List.map_append, List.map_cons,
          List.map_nil, List.mem_append, List.mem_singleton]
        refine ⟨?_, ?_⟩
        · rw [List.nodup_append]
          refine ⟨i1, by simp, ?_⟩
          intro a ha hb
          simp only [List.mem_singleton] at hb
          obtain ⟨n, hn, hna⟩ := List.mem_map.mp ha
          have := i2 n hn
          omega
        · intro n hn
          rcases hn with hn | hn
          · have := i2 n hn; omega
          · subst hn; simp
    · exact ih ac
  | deassociated env s0 aid address _ ih =>
    intro ac
    unfold NotifyStationDeassociated
    split_ifs with hhe
    · obtain ⟨i1, i2⟩ := ih ac
      simp only [State.staList] at i1 i2 ⊢
      cases hl : s0.m_staList ac with
      | none => simp
      | some l =>
        rw [hl] at i1 i2
        simp only [Option.getD_some] at i1 i2
        simp only [Option.map_some', Option.getD_some]
        exact ⟨List.Nodup.sublist ((List.filter_sublist _).map _) i1,
          fun n hn => i2 n (List.mem_of_mem_filter hn)⟩
    · exact ih ac
  | selected env s0 fmt s1 _ hsel ih =>
    intro ac
    obtain ⟨h1, _⟩ := SelectTxFormat_staList _ _ _ _ hsel
    rw [h1, SelectTxFormat_nextNodeId _ _ _ _ hsel]
    exact ih ac
  | committed env s0 info s1 _ hres _ ih =>
    intro ac
    by_cases hne : s0.m_candidates = []
    · unfold ComputeDlMuInfo at hres
      rw [if_pos hne] at hres
      simp only [Except.ok.injEq, Prod.mk.injEq] at hres
      rw [← hres.2]
      exact ih ac
    · obtain ⟨tv1, tv, txParams1, agg, staLists, _, _, _, _, h5, _, hs'⟩ :=
        ComputeDlMuInfo_inv env s0 info s1 hres hne
      obtain ⟨_, h2, _, _⟩ := creditLedger_props _ _ _ _ _ _ _ _ h5
      obtain ⟨i1, i2⟩ := ih ac
      have hp := (h2 ac).map Prod.fst
      simp only [List.map_map] at hp
      have hfun : (Prod.fst ∘ stationKey) = fun n : Node => n.id := rfl
      rw [hfun] at hp
      subst hs'
      refine ⟨hp.nodup_iff.mpr i1, ?_⟩
      intro n hn
      have : n.id ∈ (s0.staList ac).map (·.id) :=
        hp.mem_iff.mp (List.mem_map_of_mem _ hn)
      obtain ⟨n0, hn0, hid⟩ := List.mem_map.mp this
      have := i2 n0 hn0
      show n.id < s0.nextNodeId
      omega

/-! ## The allocation built by `ComputeDlMuInfo` -/

theorem mapInsert_keys {β : Type} (k : Nat) (v : β) :
    ∀ l : List (Nat × β), k ∉ l.map Prod.fst →
      ((mapInsert k v l).map Prod.fst).Perm (k :: l.map Prod.fst) := by
  intro l
  induction l with
  | nil => intro _; exact List.Perm.refl _
  | cons p rest ih =>
    intro hk
    obtain ⟨k', v'⟩ := p
    simp only [List.map_cons, List.mem_cons, not_or] at hk
    unfold mapInsert
    split_ifs with h1 h2
    · exact List.Perm.refl _
    · exact absurd h2 hk.1
    · simp only [List.map_cons]
      exact ((ih hk.2).cons k').trans (List.Perm.swap _ _ _)

theorem candidateAid_of_deref (s : State) (c : CandidateInfo) (info : MasterInfo)
    (h : s.deref c = .ok info) : candidateAid s c = info.aid := by
  unfold candidateAid
  rw [h]

theorem dlFill_users (s : State) (rt : RuType) (nRus : Nat) :
    ∀ (k i : Nat) (cs : List CandidateInfo) (tv tv' : WifiTxVector),
      dlFill s rt nRus k i cs tv = .ok tv' →
      ((cs.take k).map (candidateAid s)).Nodup →
      (∀ a ∈ (cs.take k).map (candidateAid s), a ∉ tv.users.map Prod.fst) →
      (tv'.users.map Prod.fst).Perm ((cs.take k).map (candidateAid s) ++ tv.users.map Prod.fst) := by
  intro k
  induction k with
  | zero =>
    intro i cs tv tv' h _ _
    simp only [dlFill, Except.ok.injEq] at h
    subst h
    simp
  | succ k ih =>
    intro i cs tv tv' h hnd hdisj
    cases cs with
    | nil => simp [dlFill] at h
    | cons c rest =>
      simp only [dlFill, bind, Except.bind] at h
      split at h
      · simp at h
      · rename_i info hderef
        split at h
        · simp at h
        · split at h
          · simp at h
          · have haid := candidateAid_of_deref s c info hderef
            simp only [List.take_succ_cons, List.map_cons, List.nodup_cons, haid] at hnd
            simp only [List.take_succ_cons, List.map_cons, List.mem_cons, haid,
              forall_eq_or_imp] at hdisj
            have hk1 := fun (v : HeMuUserInfo) => mapInsert_keys info.aid v tv.users hdisj.1
            have := ih (i + 1) rest _ tv' h hnd.2 (by
              intro a ha hmem
              have hmem' := (hk1 _).mem_iff.mp hmem
              rcases List.mem_cons.mp hmem' with hmem' | hmem'
              · subst hmem'; exact hnd.1 ha
              · exact hdisj.2 a ha hmem')
            simp only [List.take_succ_cons, List.map_cons, haid, List.cons_append]
            refine this.trans ?_
            refine (List.Perm.append_left _ (hk1 _)).trans ?_
            exact List.perm_middle

theorem SetRu_keys (tv : WifiTxVector) (ru : RuSpec) (staId : Nat) :
    (tv.SetRu ru staId).users.map Prod.fst = tv.users.map Prod.fst := by
  unfold WifiTxVector.SetRu
  simp only [List.map_map]
  apply List.map_congr_left
  intro p _
  simp only [Function.comp]
  split_ifs <;> rfl

theorem assignLoop_keys (mainType : RuType) :
    ∀ (users : List (Nat × HeMuUserInfo)) (ruSet central : List RuSpec)
      (tv tv' : WifiTxVector),
      assignLoop mainType users ruSet central tv = .ok tv' →
      tv'.users.map Prod.fst = tv.users.map Prod.fst := by
  intro users
  induction users with
  | nil =>
    intro ruSet central tv tv' h
    simp only [assignLoop, Except.ok.injEq] at h
    rw [h]
  | cons p rest ih =>
    intro ruSet central tv tv' h
    obtain ⟨staId, u⟩ := p
    simp only [assignLoop] at h
    split_ifs at h
    · split at h
      · simp at h
      · exact (ih _ _ _ _ h).trans (SetRu_keys _ _ _)
    · split at h
      · simp at h
      · exact (ih _ _ _ _ h).trans (SetRu_keys _ _ _)

theorem AssignRuIndices_keys (env : Env) (tv tv' : WifiTxVector)
    (h : AssignRuIndices env tv = .ok tv') :
    tv'.users.map Prod.fst = tv.users.map Prod.fst := by
  unfold AssignRuIndices at h
  dsimp only at h
  split_ifs at h
  · split at h
    · exact assignLoop_keys _ _ _ _ _ _ h
    · simp at h
  · split at h
    · exact assignLoop_keys _ _ _ _ _ _ h
    · simp at h

theorem dlReAdd_txVector (env : Env) (henv : KeepsTxVector env) (t : Time) :
    ∀ (cs : List CandidateInfo) (txParams txParams' : WifiTxParameters),
      dlReAdd env t cs txParams = .ok txParams' →
      txParams'.m_txVector = txParams.m_txVector := by
  intro cs
  induction cs with
  | nil =>
    intro txParams txParams' h
    simp only [dlReAdd, Except.ok.injEq] at h
    rw [h]
  | cons c rest ih =>
    intro txParams txParams' h
    simp only [dlReAdd] at h
    split at h
    · simp at h
    · split at h
      · simp at h
      · rename_i hadd
        exact (ih _ _ h).trans (henv.1 _ _ _ _ hadd)

theorem dlAggregate_result (env : Env) (henv : KeepsTxVector env) (s : State) :
    ∀ (cs : List CandidateInfo) (st st' : AggState),
      dlAggregate env s cs st = .ok st' →
      (cs.map (candidateAid s)).Nodup →
      (∀ a ∈ cs.map (candidateAid s), a ∉ st.psduMap.map Prod.fst) →
      st'.txParams.m_txVector = st.txParams.m_txVector
        ∧ (st'.psduMap.map Prod.fst).Perm (cs.map (candidateAid s) ++ st.psduMap.map Prod.fst) := by
  intro cs
  induction cs with
  | nil =>
    intro st st' h _ _
    simp only [dlAggregate, Except.ok.injEq] at h
    subst h
    simp
  | cons c rest ih =>
    intro st st' h hnd hdisj
    simp only [dlAggregate, bind, Except.bind, pure, Except.pure, throw, throwThe,
      MonadExceptOf.throw] at h
    split at h
    · simp at h
    · split at h
      · simp at h
      · rename_i mpdu _ info hderef
        split_ifs at h
        all_goals
          split at h
          · simp at h
          · have haid := candidateAid_of_deref s c info hderef
            simp only [List.map_cons, List.nodup_cons, haid] at hnd
            simp only [List.map_cons, List.mem_cons, haid, forall_eq_or_imp] at hdisj
            have hk1 := fun (psdu : List WifiMacQueueItem) =>
              mapInsert_keys info.aid psdu st.psduMap hdisj.1
            obtain ⟨h1, h2⟩ := ih _ st' h hnd.2 (by
              intro a ha hmem
              have hmem' := (hk1 _).mem_iff.mp hmem
              rcases List.mem_cons.mp hmem' with hmem' | hmem'
              · subst hmem'; exact hnd.1 ha
              · exact hdisj.2 a ha hmem')
            refine ⟨?_, ?_⟩
            · rw [h1]
              simp [henv.2.2, henv.2.1]
            · simp only [List.map_cons, haid, List.cons_append]
              refine h2.trans ?_
              refine (List.Perm.append_left _ (hk1 _)).trans ?_
              exact List.perm_middle

theorem sizeSub_eq (a b : Nat) (hb : b ≤ a) (ha : a < 2 ^ 64) : sizeSub a b = a - b := by
  unfold sizeSub
  have hb' : b % 2 ^ 64 = b := Nat.mod_eq_of_lt (lt_of_le_of_lt hb ha)
  rw [hb']
  have : a + 2 ^ 64 - b = (a - b) + 2 ^ 64 := by omega
  rw [this, Nat.add_mod_right]
  exact Nat.mod_eq_of_lt (lt_of_le_of_lt (Nat.sub_le _ _) ha)

/-- C10 fails as stated: two stations notified with the same AID are both candidates and
both are served, but the TX vector and the payload map returned by `ComputeDlMuInfo`
hold one entry. -/
theorem shared_aid_single_entry :
    ComputeDlMuInfo exampleEnv selectedShared = .ok (committedSharedInfo, committedShared)
      ∧ selectedShared.m_candidates.length = 2
      ∧ committedShared.m_candidates.length = 2
      ∧ committedSharedInfo.txParams.m_txVector.users.length = 1
      ∧ committedSharedInfo.psduMap.length = 1 := by
  refine ⟨?_, ?_, ?_, ?_, ?_⟩ <;> with_unfolding_all rfl

/-- C10, amended: for a non-empty candidate list whose candidates have pairwise distinct
AIDs, and a frame-exchange collaborator that leaves the TX vector alone, a returning
`ComputeDlMuInfo` serves exactly the first `nRus + nLeftover` candidates in list order,
with `nRus` the equal-size partition count for the number of receivers of the trial
allocation and `nLeftover` 0 when `UseCentral26TonesRus` is disabled and
`min (candidates - nRus, central 26-tone units)` otherwise; `nRus + nLeftover` is at
most the number of candidates, the other candidates leave the candidate list, and the
returned TX vector and payload map have exactly one entry per remaining candidate.
With four candidates, a partition count of four and the leftover option disabled, four
candidates are served, none on a leftover unit. -/
theorem ComputeDlMuInfo_served (env : Env) (s : State) (info : DlMuInfo) (s' : State)
    (hres : ComputeDlMuInfo env s = .ok (info, s')) (hne : s.m_candidates ≠ [])
    (hsize : s.m_candidates.length < 2 ^ 64) (henv : KeepsTxVector env)
    (haid : (s.m_candidates.map (candidateAid s)).Nodup) :
    s'.m_candidates
        = s.m_candidates.take ((dlPartition env s).2.1 + (dlPartition env s).2.2)
      ∧ (dlPartition env s).2.1
          = (env.GetEqualSizedRusForStations (env.channelWidth % 2 ^ 16)
              s.m_txParams.nPsdus).2.1
      ∧ (dlPartition env s).2.2
          = (if s.m_useCentral26TonesRus then
              min (s.m_candidates.length - (dlPartition env s).2.1)
                (env.GetEqualSizedRusForStations (env.channelWidth % 2 ^ 16)
                  s.m_txParams.nPsdus).2.2
            else 0)
      ∧ (dlPartition env s).2.1 + (dlPartition env s).2.2 ≤ s.m_candidates.length
      ∧ (info.txParams.m_txVector.users.map Prod.fst).Perm
          (s'.m_candidates.map (candidateAid s))
      ∧ (info.psduMap.map Prod.fst).Perm (s'.m_candidates.map (candidateAid s))
      ∧ info.txParams.m_txVector.users.length = s'.m_candidates.length
      ∧ info.psduMap.length = s'.m_candidates.length
      ∧ (s.m_candidates.length = 4 → (dlPartition env s).2.1 = 4 →
          s.m_useCentral26TonesRus = false →
          s'.m_candidates = s.m_candidates ∧ (dlPartition env s).2.2 = 0
            ∧ info.txParams.m_txVector.users.length = 4 ∧ info.psduMap.length = 4) := by
  obtain ⟨tv1, tv, txParams1, agg, staLists, h1, h2, h3, h4, _, hinfo, hs'⟩ :=
    ComputeDlMuInfo_inv env s info s' hres hne
  have hk := dlFill_length _ _ _ _ _ _ _ _ h1
  have hcand : s'.m_candidates
      = s.m_candidates.take ((dlPartition env s).2.1 + (dlPartition env s).2.2) := by
    rw [hs']
  have hnRus : (dlPartition env s).2.1
      = (env.GetEqualSizedRusForStations (env.channelWidth % 2 ^ 16)
          s.m_txParams.nPsdus).2.1 := rfl
  have hle : (dlPartition env s).2.1 ≤ s.m_candidates.length := by omega
  have hnLeft : (dlPartition env s).2.2
      = (if s.m_useCentral26TonesRus then
          min (s.m_candidates.length - (dlPartition env s).2.1)
            (env.GetEqualSizedRusForStations (env.channelWidth % 2 ^ 16)
              s.m_txParams.nPsdus).2.2
        else 0) := by
    have hdef : (dlPartition env s).2.2
        = (if !s.m_useCentral26TonesRus
              || s.m_candidates.length = (dlPartition env s).2.1 then 0
           else min (sizeSub s.m_candidates.length (dlPartition env s).2.1)
            (env.GetEqualSizedRusForStations (env.channelWidth % 2 ^ 16)
              s.m_txParams.nPsdus).2.2) := rfl
    rw [hdef, sizeSub_eq _ _ hle hsize]
    cases huse : s.m_useCentral26TonesRus
    · simp
    · by_cases heq : s.m_candidates.length = (dlPartition env s).2.1
      · simp [heq]
      · simp [heq]
  have haid' : ((s.m_candidates.take
      ((dlPartition env s).2.1 + (dlPartition env s).2.2)).map (candidateAid s)).Nodup := by
    rw [List.map_take]
    exact List.Nodup.sublist (List.take_sublist _ _) haid
  have hu1 := dlFill_users _ _ _ _ _ _ _ _ h1 haid' (by
    intro a _ hmem
    simp [dlFinalTxVector0, WifiTxVector.default] at hmem)
  have hu2 := AssignRuIndices_keys _ _ _ h2
  have hu3 := dlReAdd_txVector env henv _ _ _ _ h3
  obtain ⟨hu4, hp⟩ := dlAggregate_result env henv s _ _ _ h4 haid' (by
    intro a _ hmem
    simp at hmem)
  have hkeys : (info.txParams.m_txVector.users.map Prod.fst).Perm
      (s'.m_candidates.map (candidateAid s)) := by
    rw [hinfo, hcand]
    dsimp only
    rw [hu4]
    dsimp only
    rw [hu3]
    dsimp only
    rw [hu2]
    have : (dlFinalTxVector0 s).users.map Prod.fst = [] := rfl
    rw [this, List.append_nil] at hu1
    exact hu1
  have hpsdu : (info.psduMap.map Prod.fst).Perm (s'.m_candidates.map (candidateAid s)) := by
    rw [hinfo, hcand]
    dsimp only
    simpa using hp
  have hlen1 : info.txParams.m_txVector.users.length = s'.m_candidates.length := by
    have := hkeys.length_eq
    simpa using this
  have hlen2 : info.psduMap.length = s'.m_candidates.length := by
    have := hpsdu.length_eq
    simpa using this
  refine ⟨hcand, hnRus, hnLeft, hk, hkeys, hpsdu, hlen1, hlen2, ?_⟩
  intro h4c h4r huse
  have h0 : (dlPartition env s).2.2 = 0 := by
    rw [hnLeft, huse]
    simp
  have hall : s'.m_candidates = s.m_candidates := by
    rw [hcand, h0, h4r, ← h4c]
    exact List.take_length _
  refine ⟨hall, h0, ?_, ?_⟩
  · rw [hlen1, hall, h4c]
  · rw [hlen2, hall, h4c]

theorem exampleEnv_KeepsTxVector : KeepsTxVector exampleEnv := by
  refine ⟨?_, fun _ _ _ => rfl, fun _ _ _ => rfl⟩
  intro mpdu txParams t txParams' h
  simp only [exampleEnv, Option.some.injEq] at h
  rw [← h]

/-- Witness of the amended C10: four associated stations with queued traffic on a 40 MHz
channel, where four stations get four 106-tone RUs: four candidates are selected, all
four are served, none on a central 26-tone RU, and the TX vector and the payload map
have four entries. -/
theorem ComputeDlMuInfo_served_witness :
    selectedFour.m_candidates.length = 4
      ∧ committedFour.m_candidates = selectedFour.m_candidates
      ∧ (dlPartition exampleEnv selectedFour).2.2 = 0
      ∧ committedFourInfo.txParams.m_txVector.users.length = 4
      ∧ committedFourInfo.psduMap.length = 4 := by
  have h := ComputeDlMuInfo_served exampleEnv selectedFour committedFourInfo committedFour
    (by with_unfolding_all rfl) (by with_unfolding_all decide)
    (by with_unfolding_all decide) exampleEnv_KeepsTxVector (by with_unfolding_all decide)
  have h4 : selectedFour.m_candidates.length = 4 := by with_unfolding_all rfl
  exact ⟨h4, h.2.2.2.2.2.2.2.2 h4 (by with_unfolding_all rfl) (by with_unfolding_all rfl)⟩

/-! ## Round-robin fairness -/

theorem servedIndex_some (id : Nat) :
    ∀ (cs : List CandidateInfo) (j : Nat), servedIndex id cs = some j →
      j < cs.length ∧ id ∈ cs.map (·.node) := by
  intro cs
  induction cs with
  | nil => intro j h; simp [servedIndex] at h
  | cons c rest ih =>
    intro j h
    unfold servedIndex at h
    split_ifs at h with hc
    · simp only [Option.some.injEq] at h
      subst h
      simp [hc]
    · cases hr : servedIndex id rest with
      | none => rw [hr] at h; simp at h
      | some j' =>
        rw [hr] at h
        simp only [Option.map_some', Option.some.injEq] at h
        subst h
        obtain ⟨h1, h2⟩ := ih j' hr
        simp only [List.length_cons, List.map_cons, List.mem_cons]
        exact ⟨by omega, Or.inr h2⟩

/-- The credit after a uniform commit: the grant, minus the uniform debit for a served
station. -/
theorem creditAfterCommit_uniform (env : Env) (T : Time) (n : Nat) (maxC : Time)
    (rt : RuType) (k : Nat) (served : List CandidateInfo) (sta : Node)
    (hlen : served.length = k)
    (hcap : sta.info.credits + ToDoubleUS T / (n : ℚ) ≤ ToDoubleUS maxC) :
    creditAfterCommit env T n maxC rt k 0 served sta
      = sta.info.credits + ToDoubleUS T / (n : ℚ)
        - (if sta.id ∈ served.map (·.node) then
            ToDoubleUS T / ((k * env.GetBandwidth rt + 0 * env.GetBandwidth .RU_26_TONE : Nat) : ℚ)
              * (env.GetBandwidth rt : ℚ)
           else 0) := by
  unfold creditAfterCommit
  dsimp only
  rw [min_eq_left hcap]
  cases hs : servedIndex sta.id served with
  | none =>
    have : sta.id ∉ served.map (·.node) := by
      intro hmem
      have : ∀ cs : List CandidateInfo, sta.id ∈ cs.map (·.node) →
          servedIndex sta.id cs ≠ none := by
        intro cs
        induction cs with
        | nil => intro h; simp at h
        | cons c rest ih =>
          intro h
          unfold servedIndex
          split_ifs with hc
          · simp
          · simp only [List.map_cons, List.mem_cons] at h
            rcases h with h | h
            · exact absurd h.symm hc
            · have := ih h
              cases hr : servedIndex sta.id rest with
              | none => exact absurd hr this
              | some _ => simp
      exact this served hmem hs
    rw [if_neg this]
    simp
  | some j =>
    obtain ⟨hj, hmem⟩ := servedIndex_some _ _ _ hs
    rw [if_pos hmem]
    dsimp only
    rw [if_pos (by omega)]

/-- One uniform commit keeps the list sorted with spread at most the debit, and leaves
every served station with at most the credit of every station that was not served. -/
theorem uniform_commit_step (ac : AcIndex) (T : Time) (rt : RuType) (k bw : Nat)
    (s s' : State) (h : UniformCommit ac T rt k bw s s') (hT : 0 ≤ T)
    (hids : ((s.staList ac).map (·.id)).Nodup)
    (hsorted : (s.staList ac).Sorted (fun a b => b.info.credits ≤ a.info.credits))
    (hspread : CreditSpread (ToDoubleUS T / ((k * bw + 0 : Nat) : ℚ) * (bw : ℚ)) (s.staList ac)) :
    ((s'.staList ac).map (·.id)).Nodup
      ∧ (s'.staList ac).Sorted (fun a b => b.info.credits ≤ a.info.credits)
      ∧ CreditSpread (ToDoubleUS T / ((k * bw + 0 : Nat) : ℚ) * (bw : ℚ)) (s'.staList ac)
      ∧ ∀ x ∈ s'.staList ac, ∀ y ∈ s'.staList ac,
          (∃ c ∈ s'.m_candidates, c.node = x.id) → (∀ c ∈ s'.m_candidates, c.node ≠ y.id) →
          x.info.credits ≤ y.info.credits := by
  obtain ⟨env, info, hac, hres, hne, hTT, hpart, hbw, ⟨m, hcand⟩, hcap⟩ := h
  subst hac
  -- the candidates point at the first stations of the list
  have hcac : ∀ c ∈ s.m_candidates, c.ac = env.primaryAc := by
    intro c hc
    have : (c.ac, c.node) ∈ s.m_candidates.map (fun c => (c.ac, c.node)) :=
      List.mem_map_of_mem _ hc
    rw [hcand] at this
    obtain ⟨n, _, hn⟩ := List.mem_map.mp this
    exact (Prod.mk.inj hn).1.symm
  have hnodes : s.m_candidates.map (·.node)
      = ((s.staList env.primaryAc).take m).map (·.id) := by
    have := congrArg (List.map Prod.snd) hcand
    simpa [List.map_map, Function.comp] using this
  have hcnd : (s.m_candidates.map (·.node)).Nodup := by
    rw [hnodes, List.map_take]
    exact List.Nodup.sublist (List.take_sublist _ _) hids
  obtain ⟨tv1, tv, txParams1, agg, staLists, h1, _, _, _, _, _, hs'⟩ :=
    ComputeDlMuInfo_inv env s info s' hres hne
  have hk := dlFill_length _ _ _ _ _ _ _ _ h1
  have hL := commit_staList env s info s' hres hne hcac hcnd hids
  have hserved : s'.m_candidates = s.m_candidates.take k := by
    have : s'.m_candidates = s.m_candidates.take
        ((dlPartition env s).2.1 + (dlPartition env s).2.2) := by rw [hs']
    rw [this, hpart]
    rfl
  rw [hpart] at hk hL
  simp only [Nat.add_zero] at hk hL
  have hslen : s'.m_candidates.length = k := by
    rw [hserved, List.length_take]; omega
  have hsnodes : s'.m_candidates.map (·.node)
      = ((s.staList env.primaryAc).take k).map (·.id) := by
    rw [hserved, List.map_take, hnodes, ← List.map_take, List.take_take]
    have hkm : k ≤ m ∨ (s.staList env.primaryAc).length ≤ m := by
      by_contra hcon
      push_neg at hcon
      have hl := congrArg List.length hnodes
      simp only [List.length_map, List.length_take] at hl
      omega
    rcases hkm with hkm | hkm
    · rw [min_eq_left hkm]
    · have : (s.staList env.primaryAc).take m = s.staList env.primaryAc :=
        List.take_of_length_le hkm
      rcases Nat.le_total k m with hkm' | hkm'
      · rw [min_eq_left hkm']
      · rw [min_eq_right hkm']
        have hk2 : (s.staList env.primaryAc).length ≤ k := le_trans hkm hkm'
        rw [this, List.take_of_length_le hk2]
  -- the debit and the grant
  set d : ℚ := ToDoubleUS T / ((k * bw + 0 : Nat) : ℚ) * (bw : ℚ) with hd
  set c : ℚ := ToDoubleUS T / ((s.staList env.primaryAc).length : ℚ) with hc
  have hd0 : 0 ≤ d := by
    apply mul_nonneg
    · apply div_nonneg
      · unfold ToDoubleUS
        exact div_nonneg (by exact_mod_cast hT) (by norm_num)
      · exact Nat.cast_nonneg _
    · exact Nat.cast_nonneg _
  have hcredit : ∀ sta ∈ s.staList env.primaryAc,
      creditAfterCommit env info.txParams.m_txDuration (s.staList env.primaryAc).length
          s.m_maxCredits rt k 0 s'.m_candidates sta
        = sta.info.credits + c
          - (if sta ∈ (s.staList env.primaryAc).take k then d else 0) := by
    intro sta hsta
    rw [hTT, creditAfterCommit_uniform env T _ _ rt k _ sta hslen (hcap sta hsta), hsnodes, hbw]
    have hiff : sta.id ∈ ((s.staList env.primaryAc).take k).map (·.id)
        ↔ sta ∈ (s.staList env.primaryAc).take k := by
      constructor
      · intro hmem
        obtain ⟨z, hz, hzid⟩ := List.mem_map.mp hmem
        have hzL : z ∈ s.staList env.primaryAc := List.mem_of_mem_take hz
        have := List.inj_on_of_nodup_map hids hzL hsta hzid
        rw [← this]; exact hz
      · intro hmem
        exact List.mem_map_of_mem _ hmem
    by_cases hmem : sta ∈ (s.staList env.primaryAc).take k
    · rw [if_pos (hiff.mpr hmem), if_pos hmem]
      simp only [hd, hc, Nat.zero_mul, Nat.add_zero]
    · rw [if_neg (fun h => hmem (hiff.mp h)), if_neg hmem]
  -- every member of the new list comes from a member of the old one
  have hmemL : ∀ x ∈ s'.staList env.primaryAc, ∃ x0 ∈ s.staList env.primaryAc,
      x.id = x0.id ∧ x.info.credits = x0.info.credits + c
        - (if x0 ∈ (s.staList env.primaryAc).take k then d else 0) := by
    intro x hx
    rw [hL] at hx
    have hx' := (sortByCredits_perm _).mem_iff.mp hx
    obtain ⟨x0, hx0, hxe⟩ := List.mem_map.mp hx'
    refine ⟨x0, hx0, by rw [← hxe], ?_⟩
    rw [← hxe]
    exact hcredit x0 hx0
  have hsplit : ∀ x0 ∈ s.staList env.primaryAc,
      x0 ∉ (s.staList env.primaryAc).take k → x0 ∈ (s.staList env.primaryAc).drop k := by
    intro x0 hx0 hnot
    have := List.take_append_drop k (s.staList env.primaryAc)
    rw [← this] at hx0
    rcases List.mem_append.mp hx0 with h | h
    · exact absurd h hnot
    · exact h
  have hord : ∀ a ∈ (s.staList env.primaryAc).take k,
      ∀ b ∈ (s.staList env.primaryAc).drop k, b.info.credits ≤ a.info.credits :=
    fun a ha b hb => hsorted.rel_of_mem_take_of_mem_drop ha hb
  refine ⟨?_, ?_, ?_, ?_⟩
  · rw [hL]
    have hp := (sortByCredits_perm ((s.staList env.primaryAc).map (fun sta =>
      ({ sta with info := { sta.info with credits :=
        (creditAfterCommit env info.txParams.m_txDuration
          (s.staList env.primaryAc).length s.m_maxCredits rt k 0 s'.m_candidates sta) } }
        : Node)))).map (·.id)
    rw [hp.nodup_iff, List.map_map]
    exact hids
  · rw [hL]
    exact sortByCredits_sorted _
  · intro a ha b hb
    obtain ⟨a0, ha0, _, hac⟩ := hmemL a ha
    obtain ⟨b0, hb0, _, hbc⟩ := hmemL b hb
    rw [hac, hbc]
    have hsp := hspread a0 ha0 b0 hb0
    by_cases hA : a0 ∈ (s.staList env.primaryAc).take k
    · by_cases hB : b0 ∈ (s.staList env.primaryAc).take k
      · rw [if_pos hA, if_pos hB]; linarith
      · rw [if_pos hA, if_neg hB]; linarith
    · by_cases hB : b0 ∈ (s.staList env.primaryAc).take k
      · rw [if_neg hA, if_pos hB]
        have := hord b0 hB a0 (hsplit a0 ha0 hA)
        linarith
      · rw [if_neg hA, if_neg hB]; linarith
  · intro x hx y hy hxs hys
    obtain ⟨x0, hx0, hxid, hxc⟩ := hmemL x hx
    obtain ⟨y0, hy0, hyid, hyc⟩ := hmemL y hy
    have hxin : x0 ∈ (s.staList env.primaryAc).take k := by
      obtain ⟨cd, hcd, hcdx⟩ := hxs
      have : x0.id ∈ s'.m_candidates.map (·.node) := by
        rw [← hxid, ← hcdx]; exact List.mem_map_of_mem _ hcd
      rw [hsnodes] at this
      obtain ⟨z, hz, hzid⟩ := List.mem_map.mp this
      have hzL : z ∈ s.staList env.primaryAc := List.mem_of_mem_take hz
      have := List.inj_on_of_nodup_map hids hzL hx0 hzid
      rw [← this]; exact hz
    have hyout : y0 ∉ (s.staList env.primaryAc).take k := by
      intro hin
      have : y0.id ∈ s'.m_candidates.map (·.node) := by
        rw [hsnodes]; exact List.mem_map_of_mem _ hin
      obtain ⟨cd, hcd, hcdy⟩ := List.mem_map.mp this
      exact hys cd hcd (by rw [hyid]; exact hcdy)
    rw [hxc, hyc, if_pos hxin, if_neg hyout]
    have := hspread x0 hx0 y0 hy0
    linarith

/-- The two rounds of the three-station example form a run of uniform commits: a TX
duration of 6 microseconds, two stations served on 242-tone RUs of 20 MHz. -/
theorem threeStations_rounds :
    UniformRounds .AC_BE 6000 .RU_242_TONE 2 20 (selectedThree.staList .AC_BE)
      committedThree2 := by
  have c1 : UniformCommit .AC_BE 6000 .RU_242_TONE 2 20 selectedThree committedThree :=
    ⟨exampleEnv, committedThreeInfo, rfl, by with_unfolding_all rfl,
      by with_unfolding_all decide, by with_unfolding_all rfl, by with_unfolding_all rfl,
      rfl, ⟨2, by with_unfolding_all rfl⟩, by with_unfolding_all decide⟩
  have c2 : UniformCommit .AC_BE 6000 .RU_242_TONE 2 20 selectedThree2 committedThree2 :=
    ⟨exampleEnv, committedThree2Info, rfl, by with_unfolding_all rfl,
      by with_unfolding_all decide, by with_unfolding_all rfl, by with_unfolding_all rfl,
      rfl, ⟨2, by with_unfolding_all rfl⟩, by with_unfolding_all decide⟩
  exact UniformRounds.next _ committedThree selectedThree2 committedThree2
    (UniformRounds.first selectedThree committedThree c1) (by with_unfolding_all rfl) c2

theorem committedThree2_candidates :
    committedThree2.m_candidates
      = [⟨.AC_BE, 2, some (exampleFrame 103 3)⟩, ⟨.AC_BE, 0, some (exampleFrame 101 3)⟩] := by
  with_unfolding_all rfl

/-- The invariant of a run of uniform commits of the exact ledger that starts from equal
credits, with a non-negative TX duration: the list nodes are distinct, the list is in
decreasing order of credits, two credits differ by at most one debit, and every station
served in the last commit has at most the credit of every station not served in it. -/
theorem uniform_rounds_invariant (ac : AcIndex) (T : Time) (rt : RuType) (k bw : Nat)
    (L0 : List Node) (sN : State) (h : UniformRounds ac T rt k bw L0 sN) (hT : 0 ≤ T)
    (heq : ∀ a ∈ L0, ∀ b ∈ L0, a.info.credits = b.info.credits)
    (hids : (L0.map (·.id)).Nodup) :
    ((sN.staList ac).map (·.id)).Nodup
      ∧ (sN.staList ac).Sorted (fun a b => b.info.credits ≤ a.info.credits)
      ∧ CreditSpread (ToDoubleUS T / ((k * bw + 0 : Nat) : ℚ) * (bw : ℚ)) (sN.staList ac)
      ∧ ∀ x ∈ sN.staList ac, ∀ y ∈ sN.staList ac,
          (∃ c ∈ sN.m_candidates, c.node = x.id) → (∀ c ∈ sN.m_candidates, c.node ≠ y.id) →
          x.info.credits ≤ y.info.credits := by
  have hd0 : (0 : ℚ) ≤ ToDoubleUS T / ((k * bw + 0 : Nat) : ℚ) * (bw : ℚ) := by
    apply mul_nonneg
    · apply div_nonneg
      · unfold ToDoubleUS
        exact div_nonneg (by exact_mod_cast hT) (by norm_num)
      · exact Nat.cast_nonneg _
    · exact Nat.cast_nonneg _
  induction h with
  | first s s' hc =>
    apply uniform_commit_step ac T rt k bw s s' hc hT hids
    · exact List.Pairwise.imp_of_mem (fun {a b} ha hb _ => le_of_eq (heq b hb a ha))
        (List.pairwise_of_forall (R := fun _ _ => True) (fun _ _ => trivial))
    · intro a ha b hb
      rw [heq a ha b hb, sub_self]
      exact hd0
  | next L0 sPrev s s' _ hL hc ih =>
    obtain ⟨i1, i2, i3, _⟩ := ih heq hids
    rw [← hL] at i1 i2 i3
    exact uniform_commit_step ac T rt k bw s s' hc hT i1 i2 i3

/-! ## The trial allocation of the selection loop -/

theorem mapFind_mapInsert_self {β : Type} (k : Nat) (v : β) :
    ∀ l : List (Nat × β), mapFind k (mapInsert k v l) = some v := by
  intro l
  induction l with
  | nil => simp [mapInsert, mapFind]
  | cons p rest ih =>
    obtain ⟨k', v'⟩ := p
    unfold mapInsert
    by_cases h1 : k < k'
    · rw [if_pos h1]; simp [mapFind]
    · rw [if_neg h1]
      by_cases h2 : k = k'
      · rw [if_pos h2]; simp [mapFind]
      · rw [if_neg h2]
        unfold mapFind
        rw [if_neg h2]
        exact ih

theorem mapFind_mapInsert_ne {β : Type} (a k : Nat) (v : β) (h : a ≠ k) :
    ∀ l : List (Nat × β), mapFind a (mapInsert k v l) = mapFind a l := by
  intro l
  induction l with
  | nil => simp [mapInsert, mapFind, h]
  | cons p rest ih =>
    obtain ⟨k', v'⟩ := p
    unfold mapInsert
    by_cases h1 : k < k'
    · rw [if_pos h1]
      conv_lhs => unfold mapFind
      rw [if_neg h]
    · rw [if_neg h1]
      by_cases h2 : k = k'
      · rw [if_pos h2]
        subst h2
        simp [mapFind, h]
      · rw [if_neg h2]
        unfold mapFind
        by_cases h3 : a = k'
        · rw [if_pos h3, if_pos h3]
        · rw [if_neg h3, if_neg h3]
          exact ih

/-- One station of the selection loop, with a collaborator that keeps the TX vector:
either nothing is added and the two trial TX vectors are as before, or one candidate is
added and the station is given an RU of the current type in both. -/
theorem tryTids_trial (env : Env) (henv : KeepsTxVector env) (sta : Node) (rt : RuType)
    (t : Time) :
    ∀ (tids : List Nat) (st st' : SelState),
      tryTids env sta rt t tids st = .ok st' →
      st.txParams.m_txVector = st.txVector2 →
      st'.txParams.m_txVector = st'.txVector2
        ∧ ((st'.candidates = st.candidates ∧ st'.txVector2 = st.txVector2)
          ∨ ∃ mpdu mcs nss,
              st'.candidates = st.candidates ++ [⟨env.primaryAc, sta.id, some mpdu⟩]
              ∧ st'.txVector2
                  = st.txVector2.SetHeMuUserInfo sta.info.aid ⟨⟨rt, 1, false⟩, mcs, nss⟩) := by
  intro tids
  induction tids with
  | nil =>
    intro st st' h heq
    simp only [tryTids, Except.ok.injEq] at h
    subst h
    exact ⟨heq, Or.inl ⟨rfl, rfl⟩⟩
  | cons tid rest ih =>
    intro st st' h heq
    unfold tryTids at h
    dsimp only at h
    split_ifs at h
    · split at h
      · rename_i mpdu hpeek
        split at h
        · have := ih _ _ h heq
          exact this
        · rename_i txParams' hadd
          simp only [Except.ok.injEq] at h
          subst h
          refine ⟨?_, Or.inr ⟨mpdu, _, _, rfl, rfl⟩⟩
          dsimp only
          rw [henv.1 _ _ _ _ hadd]
          dsimp only
          rw [heq]
      · have := ih _ _ h heq
        exact this
    · exact ih _ _ h heq

/-- The selection loop with a collaborator that keeps the TX vector: the candidates added
point, in order, at the stations `picked`, and the `i`-th of them is given, in the trial
TX vector, the RU type of the partition while fewer than `count` candidates were selected
before it, a 26-tone RU otherwise. -/
theorem selectLoop_trial (env : Env) (henv : KeepsTxVector env) (n count nc : Nat)
    (rt : RuType) (t : Time) (tids : List Nat) :
    ∀ (l : List Node) (st st' : SelState),
      selectLoop env n count nc rt t tids l st = .ok st' →
      st.txParams.m_txVector = st.txVector2 →
      ∃ picked : List Node, picked.Sublist l
        ∧ st'.candidates.map (·.node) = st.candidates.map (·.node) ++ picked.map (·.id)
        ∧ st'.txParams.m_txVector = st'.txVector2
        ∧ (∀ a, a ∉ picked.map (·.info.aid) →
            mapFind a st'.txVector2.users = mapFind a st.txVector2.users)
        ∧ ((picked.map (·.info.aid)).Nodup → ∀ i sta, picked[i]? = some sta →
            ∃ u, mapFind sta.info.aid st'.txVector2.users = some u
              ∧ u.ru.ruType
                  = if st.candidates.length + i < count then rt else RuType.RU_26_TONE) := by
  intro l
  induction l with
  | nil =>
    intro st st' h heq
    simp only [selectLoop, Except.ok.injEq] at h
    subst h
    exact ⟨[], List.Sublist.refl _, by simp, heq, fun _ _ => rfl, fun _ i sta hi => by simp at hi⟩
  | cons sta rest ih =>
    intro st st' h heq
    unfold selectLoop at h
    by_cases hlt : st.candidates.length < max n (count + nc)
    · rw [if_pos hlt] at h
      dsimp only at h
      cases h1 : tryTids env sta (if st.candidates.length < count then rt else RuType.RU_26_TONE)
          t tids st with
      | error e => rw [h1] at h; simp at h
      | ok st1 =>
        rw [h1] at h
        dsimp only at h
        obtain ⟨heq1, hcase⟩ := tryTids_trial env henv sta _ t tids st st1 h1 heq
        obtain ⟨picked, hsub, hnodes, heq', hother, hpick⟩ := ih st1 st' h heq1
        rcases hcase with ⟨hc, hv⟩ | ⟨mpdu, mcs, nss, hc, hv⟩
        · refine ⟨picked, hsub.trans (List.sublist_cons_self _ _), ?_, heq', ?_, ?_⟩
          · rw [hnodes, hc]
          · intro a ha; rw [hother a ha, hv]
          · intro hnd i x hi
            obtain ⟨u, hu1, hu2⟩ := hpick hnd i x hi
            exact ⟨u, hu1, by rw [hu2, hc]⟩
        · refine ⟨sta :: picked, hsub.cons₂ _, ?_, heq', ?_, ?_⟩
          · rw [hnodes, hc]; simp
          · intro a ha
            simp only [List.map_cons, List.mem_cons, not_or] at ha
            rw [hother a ha.2, hv]
            exact mapFind_mapInsert_ne a _ _ ha.1 _
          · intro hnd i x hi
            simp only [List.map_cons, List.nodup_cons] at hnd
            cases i with
            | zero =>
              simp only [List.getElem?_cons_zero, Option.some.injEq] at hi
              subst hi
              refine ⟨⟨⟨if st.candidates.length < count then rt else RuType.RU_26_TONE, 1, false⟩,
                mcs, nss⟩, ?_, by simp⟩
              rw [hother _ hnd.1, hv]
              exact mapFind_mapInsert_self _ _ _
            | succ j =>
              simp only [List.getElem?_cons_succ] at hi
              obtain ⟨u, hu1, hu2⟩ := hpick hnd.2 j x hi
              refine ⟨u, hu1, ?_⟩
              rw [hu2, hc]
              simp only [List.length_append, List.length_singleton]
              rw [Nat.add_assoc, Nat.add_comm 1 j]
    · rw [if_neg hlt] at h
      simp only [Except.ok.injEq] at h
      subst h
      exact ⟨[], List.nil_sublist _, by simp, heq, fun _ _ => rfl,
        fun _ i sta hi => by simp at hi⟩

/-- C11, the claim as stated fails: with `UseCentral26TonesRus` disabled, `NStations` 3
and three stations with queued frames on a 40 MHz channel, the equal-size partition has
two 242-tone RUs and no central 26-tone RU, yet the selection loop takes a third
candidate and gives it a 26-tone RU in the trial TX vector. -/
theorem trial_26_tone_with_option_disabled :
    threeWide.m_useCentral26TonesRus = false
      ∧ selectionPartition exampleEnv threeWide = (.RU_242_TONE, 2, 0)
      ∧ (dlSelect exampleEnv (threeWide.touchStaList exampleEnv.primaryAc)).map
          (fun sel => (sel.candidates.map (·.node),
            sel.txParams.m_txVector.users.map (fun p => (p.1, p.2.ru.ruType))))
        = .ok ([0, 1, 2],
            [(1, .RU_242_TONE), (2, .RU_242_TONE), (3, .RU_26_TONE)]) := by
  refine ⟨rfl, ?_, ?_⟩
  · with_unfolding_all rfl
  · with_unfolding_all rfl

/-- C11 (as amended): let the collaborator keep the TX vector and the stations of the
winning category have pairwise distinct AIDs.  After the selection loop of
`TrySendingDlMuPpdu` the trial TX vector gives the station of the `i`-th candidate
(counting from 0, so `i` candidates were selected before it) the RU type of the
equal-size partition when `i` is below the partition count and a 26-tone RU otherwise,
whether or not `UseCentral26TonesRus` is enabled; hence a candidate is given another RU
type than that of the partition only if the candidates already selected fill or exceed
the partition count. -/
theorem trial_ru_type (env : Env) (henv : KeepsTxVector env) (s : State) (sel : SelState)
    (hsel : dlSelect env (s.touchStaList env.primaryAc) = .ok sel)
    (hids : ((s.staList env.primaryAc).map (·.id)).Nodup)
    (haid : ((s.staList env.primaryAc).map (·.info.aid)).Nodup) :
    ∀ (i : Nat) (c : CandidateInfo) (sta : Node), sel.candidates[i]? = some c →
      sta ∈ s.staList env.primaryAc → sta.id = c.node →
      ∃ u, mapFind sta.info.aid sel.txParams.m_txVector.users = some u
        ∧ u.ru.ruType = (if i < (selectionPartition env s).2.1
            then (selectionPartition env s).1 else RuType.RU_26_TONE)
        ∧ (u.ru.ruType ≠ (selectionPartition env s).1 → (selectionPartition env s).2.1 ≤ i) := by
  intro i c sta hi hmem hid
  unfold selectionPartition
  unfold dlSelect at hsel
  dsimp only at hsel
  rw [staList_touchStaList] at hsel
  have hm : (s.touchStaList env.primaryAc).m_nStations = s.m_nStations := rfl
  rw [hm] at hsel
  by_cases hcount : (env.GetEqualSizedRusForStations env.channelWidth
      (min (s.m_nStations % 256) (s.staList env.primaryAc).length)).2.1 < 1
  · rw [if_pos hcount] at hsel
    simp at hsel
  rw [if_neg hcount] at hsel
  obtain ⟨picked, hsub, hnodes, heq, _, hpick⟩ :=
    selectLoop_trial env henv _ _ _ _ _ _ _ _ _ hsel rfl
  simp only [List.map_nil, List.nil_append] at hnodes
  -- the station the `i`-th candidate points at is the `i`-th picked station
  have hlen : sel.candidates.length = picked.length := by
    have := congrArg List.length hnodes
    simpa using this
  have hilt : i < picked.length := by
    rw [← hlen]
    exact (List.getElem?_eq_some.mp hi).1
  have hp : picked[i]? = some (picked.get ⟨i, hilt⟩) := List.getElem?_eq_getElem hilt
  have hpid : (picked.get ⟨i, hilt⟩).id = c.node := by
    have h1 : (sel.candidates.map (·.node))[i]? = some c.node := by
      rw [List.getElem?_map, hi]; rfl
    rw [hnodes, List.getElem?_map, hp] at h1
    simpa using h1
  have hpm : picked.get ⟨i, hilt⟩ ∈ s.staList env.primaryAc :=
    hsub.subset (List.get_mem _ _ _)
  have hsta : sta = picked.get ⟨i, hilt⟩ :=
    List.inj_on_of_nodup_map hids hmem hpm (by rw [hid, hpid])
  obtain ⟨u, hu1, hu2⟩ := hpick ((hsub.map _).nodup haid) i _ hp
  simp only [List.length_nil, Nat.zero_add] at hu2
  refine ⟨u, ?_, hu2, ?_⟩
  · rw [hsta, heq]; exact hu1
  · intro hne
    by_contra hlt
    rw [hu2, if_pos (Nat.lt_of_not_le hlt)] at hne
    exact hne rfl

/-- Witness of C11: in the `threeWide` example the third candidate (two were selected
before it, the partition count is two) is given a 26-tone RU in the trial TX vector. -/
theorem trial_ru_type_witness :
    ∃ u, mapFind 3 selWide.txParams.m_txVector.users = some u
      ∧ u.ru.ruType = RuType.RU_26_TONE := by
  have hl : threeWide.staList exampleEnv.primaryAc
      = [⟨0, ⟨1, 101, 0⟩⟩, ⟨1, ⟨2, 102, 0⟩⟩, ⟨2, ⟨3, 103, 0⟩⟩] := by with_unfolding_all rfl
  obtain ⟨u, h1, h2, _⟩ := trial_ru_type exampleEnv exampleEnv_KeepsTxVector threeWide selWide
    (by with_unfolding_all rfl) (by rw [hl]; decide) (by rw [hl]; decide)
    2 ⟨.AC_BE, 2, some (exampleFrame 103 3)⟩ ⟨2, ⟨3, 103, 0⟩⟩
    (by with_unfolding_all rfl) (by rw [hl]; simp) rfl
  refine ⟨u, h1, ?_⟩
  rw [h2]
  with_unfolding_all rfl

/-! ## The candidates the selection loop leaves -/

/-- One station of the selection loop: either no candidate is added and every frame of
the station was rejected, or one candidate is added whose frame was peeked and accepted. -/
theorem tryTids_outcome (env : Env) (sta : Node) (rt : RuType) (t : Time) :
    ∀ (tids : List Nat) (st st' : SelState),
      tryTids env sta rt t tids st = .ok st' →
      (st'.candidates = st.candidates ∧ FrameRejected env t tids sta)
        ∨ ∃ mpdu, st'.candidates = st.candidates ++ [⟨env.primaryAc, sta.id, some mpdu⟩]
            ∧ FrameAccepted env t tids sta mpdu := by
  intro tids
  induction tids with
  | nil =>
    intro st st' h
    simp only [tryTids, Except.ok.injEq] at h
    subst h
    exact Or.inl ⟨rfl, fun tid htid => by simp at htid⟩
  | cons tid rest ih =>
    intro st st' h
    -- what the rest of the TID list gives carries over to the whole list
    have lift : ∀ (st0 : SelState), st0.candidates = st.candidates →
        (∀ mpdu, env.GetBaAgreementEstablished (env.QosUtilsMapTidToAc tid) sta.info.address tid
            = true →
          env.PeekNextMpdu (env.QosUtilsMapTidToAc tid) tid sta.info.address = some mpdu →
          ∃ txParams, env.TryAddMpdu mpdu txParams t = none) →
        tryTids env sta rt t rest st0 = .ok st' →
        (st'.candidates = st.candidates ∧ FrameRejected env t (tid :: rest) sta)
          ∨ ∃ mpdu, st'.candidates = st.candidates ++ [⟨env.primaryAc, sta.id, some mpdu⟩]
              ∧ FrameAccepted env t (tid :: rest) sta mpdu := by
      intro st0 hc hrej h0
      rcases ih st0 st' h0 with ⟨h1, h2⟩ | ⟨mpdu, h1, tid', htid', h2⟩
      · refine Or.inl ⟨h1.trans hc, ?_⟩
        intro x hx hba mpdu hpeek
        rcases List.mem_cons.mp hx with hx | hx
        · subst hx; exact hrej mpdu hba hpeek
        · exact h2 x hx hba mpdu hpeek
      · exact Or.inr ⟨mpdu, by rw [h1, hc], tid', List.mem_cons_of_mem _ htid', h2⟩
    unfold tryTids at h
    dsimp only at h
    by_cases hac : (env.QosUtilsMapTidToAc tid).priority < env.primaryAc.priority
    · rw [if_pos hac] at h; simp at h
    rw [if_neg hac] at h
    by_cases hba :
        env.GetBaAgreementEstablished (env.QosUtilsMapTidToAc tid) sta.info.address tid = true
    · rw [if_pos hba] at h
      cases hpeek : env.PeekNextMpdu (env.QosUtilsMapTidToAc tid) tid sta.info.address with
      | none =>
        rw [hpeek] at h
        dsimp only at h
        exact lift _ (by rfl) (fun mpdu _ hp => by rw [hpeek] at hp; simp at hp) h
      | some mpdu =>
        rw [hpeek] at h
        dsimp only at h
        cases hadd : env.TryAddMpdu mpdu
            { st.txParams with
              m_txVector := st.txParams.m_txVector.SetHeMuUserInfo sta.info.aid
                ⟨⟨rt, 1, false⟩, (env.GetDataTxVector mpdu).mode, (env.GetDataTxVector mpdu).nss⟩ }
            t with
        | none =>
          rw [hadd] at h
          dsimp only at h
          refine lift _ (by rfl) ?_ h
          intro m _ hp
          rw [hpeek] at hp
          simp only [Option.some.injEq] at hp
          subst hp
          exact ⟨_, hadd⟩
        | some txParams' =>
          rw [hadd] at h
          simp only [Except.ok.injEq] at h
          subst h
          exact Or.inr ⟨mpdu, rfl, tid, List.mem_cons_self _ _, hba, hpeek, _, _, hadd⟩
    · rw [if_neg hba] at h
      exact lift st rfl (fun mpdu hb _ => absurd hb hba) h

/-- The selection loop walks a prefix `visited` of the stations in order; it stops before
the end of the list only when the bound on the number of candidates is reached; every
visited station either becomes a candidate or had all its frames rejected. -/
theorem selectLoop_walk (env : Env) (n count nc : Nat) (rt : RuType) (t : Time)
    (tids : List Nat) :
    ∀ (l : List Node) (st st' : SelState),
      selectLoop env n count nc rt t tids l st = .ok st' →
      ∃ (visited rest : List Node) (cs : List CandidateInfo),
        l = visited ++ rest ∧ st'.candidates = st.candidates ++ cs
          ∧ (rest = [] ∨ max n (count + nc) ≤ st'.candidates.length)
          ∧ (st.candidates.length ≤ max n (count + nc) →
              st'.candidates.length ≤ max n (count + nc))
          ∧ (∀ sta ∈ visited, sta.id ∉ cs.map (·.node) → FrameRejected env t tids sta)
          ∧ (∀ c ∈ cs, ∃ sta ∈ visited, ∃ mpdu,
              c = ⟨env.primaryAc, sta.id, some mpdu⟩ ∧ FrameAccepted env t tids sta mpdu) := by
  intro l
  induction l with
  | nil =>
    intro st st' h
    simp only [selectLoop, Except.ok.injEq] at h
    subst h
    exact ⟨[], [], [], rfl, by simp, Or.inl rfl, fun h => h,
      fun _ hs => by simp at hs, fun _ hc => by simp at hc⟩
  | cons sta tl ih =>
    intro st st' h
    unfold selectLoop at h
    by_cases hlt : st.candidates.length < max n (count + nc)
    · rw [if_pos hlt] at h
      dsimp only at h
      cases h1 : tryTids env sta (if st.candidates.length < count then rt else RuType.RU_26_TONE)
          t tids st with
      | error e => rw [h1] at h; simp at h
      | ok st1 =>
        rw [h1] at h
        dsimp only at h
        obtain ⟨visited, rest, cs, hl, hcs, hstop, hle, hrej, hacc⟩ := ih st1 st' h
        rcases tryTids_outcome env sta _ t tids st st1 h1 with ⟨hc, hr⟩ | ⟨mpdu, hc, ha⟩
        · refine ⟨sta :: visited, rest, cs, by rw [hl]; rfl, by rw [hcs, hc], hstop, ?_, ?_, ?_⟩
          · intro _
            exact hle (by rw [hc]; exact Nat.le_of_lt hlt)
          · intro x hx hnot
            rcases List.mem_cons.mp hx with hx | hx
            · subst hx; exact hr
            · exact hrej x hx hnot
          · intro c hc'
            obtain ⟨x, hx, m, h2, h3⟩ := hacc c hc'
            exact ⟨x, List.mem_cons_of_mem _ hx, m, h2, h3⟩
        · refine ⟨sta :: visited, rest, ⟨env.primaryAc, sta.id, some mpdu⟩ :: cs,
            by rw [hl]; rfl, by rw [hcs, hc]; simp, hstop, ?_, ?_, ?_⟩
          · intro _
            refine hle ?_
            rw [hc]
            simp only [List.length_append, List.length_singleton]
            exact hlt
          · intro x hx hnot
            simp only [List.map_cons, List.mem_cons, not_or] at hnot
            rcases List.mem_cons.mp hx with hx | hx
            · subst hx; exact absurd rfl hnot.1
            · exact hrej x hx hnot.2
          · intro c hc'
            rcases List.mem_cons.mp hc' with hc' | hc'
            · exact ⟨sta, List.mem_cons_self _ _, mpdu, hc', ha⟩
            · obtain ⟨x, hx, m, h2, h3⟩ := hacc c hc'
              exact ⟨x, List.mem_cons_of_mem _ hx, m, h2, h3⟩
    · rw [if_neg hlt] at h
      simp only [Except.ok.injEq] at h
      subst h
      exact ⟨[], sta :: tl, [], rfl, by simp, Or.inr (Nat.le_of_not_lt hlt), fun h => h,
        fun _ hs => by simp at hs, fun _ hc => by simp at hc⟩

/-- C12: after the selection loop of `TrySendingDlMuPpdu` (the nodes of the station list
being distinct) the candidates point, in list order, at stations of the list of the
winning category, no station twice; their number is at most
`max (NStations, count + enabled central 26-tone RUs)`; the loop walked a prefix of the
list and left the rest unvisited only if that number was reached, every visited station
that is not a candidate having had its frames rejected; and the frame of every candidate
is the head-of-queue frame peeked for a TID with an established block-ack agreement and
accepted by `TryAddMpdu`. -/
theorem selection_candidates (env : Env) (s : State) (sel : SelState)
    (hsel : dlSelect env (s.touchStaList env.primaryAc) = .ok sel)
    (hids : ((s.staList env.primaryAc).map (·.id)).Nodup) :
    (sel.candidates.map (fun c => (c.ac, c.node))).Sublist
        ((s.staList env.primaryAc).map (fun x => (env.primaryAc, x.id)))
      ∧ (sel.candidates.map (·.node)).Nodup
      ∧ sel.candidates.length ≤ selectionBound env s
      ∧ (∃ visited rest, s.staList env.primaryAc = visited ++ rest
          ∧ (rest = [] ∨ sel.candidates.length = selectionBound env s)
          ∧ (∀ c ∈ sel.candidates, ∃ sta ∈ visited, sta.id = c.node)
          ∧ ∀ sta ∈ visited, sta.id ∉ sel.candidates.map (·.node) →
              FrameRejected env (selectionTime env) (dlTids env s) sta)
      ∧ ∀ c ∈ sel.candidates, ∃ sta ∈ s.staList env.primaryAc, ∃ mpdu,
          c = ⟨env.primaryAc, sta.id, some mpdu⟩
            ∧ FrameAccepted env (selectionTime env) (dlTids env s) sta mpdu := by
  unfold selectionBound selectionPartition selectionTime
  unfold dlSelect at hsel
  dsimp only at hsel
  rw [staList_touchStaList, dlTids_touchStaList] at hsel
  have hm : (s.touchStaList env.primaryAc).m_nStations = s.m_nStations := rfl
  have hu : (s.touchStaList env.primaryAc).m_useCentral26TonesRus
      = s.m_useCentral26TonesRus := rfl
  rw [hm, hu] at hsel
  by_cases hcount : (env.GetEqualSizedRusForStations env.channelWidth
      (min (s.m_nStations % 256) (s.staList env.primaryAc).length)).2.1 < 1
  · rw [if_pos hcount] at hsel
    simp at hsel
  rw [if_neg hcount] at hsel
  have hnc : (if (!s.m_useCentral26TonesRus) = true then 0
      else (env.GetEqualSizedRusForStations env.channelWidth
        (min (s.m_nStations % 256) (s.staList env.primaryAc).length)).2.2)
      = if s.m_useCentral26TonesRus = true then
          (env.GetEqualSizedRusForStations env.channelWidth
            (min (s.m_nStations % 256) (s.staList env.primaryAc).length)).2.2
        else 0 := by
    cases s.m_useCentral26TonesRus <;> rfl
  rw [hnc] at hsel
  obtain ⟨cs0, hcs0, hsub⟩ := selectLoop_candidates _ _ _ _ _ _ _ _ _ _ hsel
  obtain ⟨visited, rest, cs, hl, hcs, hstop, hle, hrej, hacc⟩ :=
    selectLoop_walk _ _ _ _ _ _ _ _ _ _ hsel
  simp only [List.nil_append] at hcs0 hcs
  have hle' := hle (Nat.zero_le _)
  have hsub' : (sel.candidates.map (fun c => (c.ac, c.node))).Sublist
      ((s.staList env.primaryAc).map (fun x => (env.primaryAc, x.id))) := by
    rw [hcs0]; exact hsub
  refine ⟨hsub', ?_, hle', ⟨visited, rest, hl, ?_, ?_, ?_⟩, ?_⟩
  · have h2 := hsub'.map Prod.snd
    simp only [List.map_map] at h2
    exact List.Nodup.sublist h2 hids
  · rcases hstop with h | h
    · exact Or.inl h
    · exact Or.inr (Nat.le_antisymm hle' h)
  · intro c hc
    rw [hcs] at hc
    obtain ⟨x, hx, m, h2, _⟩ := hacc c hc
    exact ⟨x, hx, by rw [h2]⟩
  · intro x hx hnot
    rw [hcs] at hnot
    exact hrej x hx hnot
  · intro c hc
    rw [hcs] at hc
    obtain ⟨x, hx, m, h2, h3⟩ := hacc c hc
    exact ⟨x, by rw [hl]; exact List.mem_append_left _ hx, m, h2, h3⟩

/-- Witness of C12: in the three-station example with `NStations` 2 the loop stops at the
bound of two candidates, which point at the first two stations of the list. -/
theorem selection_candidates_witness :
    selThree.candidates.map (·.node) = [0, 1]
      ∧ selectionBound exampleEnv threeStations = 2
      ∧ (selThree.candidates.map (·.node)).Nodup
      ∧ selThree.candidates.length ≤ selectionBound exampleEnv threeStations := by
  have hl : threeStations.staList exampleEnv.primaryAc
      = [⟨0, ⟨1, 101, 0⟩⟩, ⟨1, ⟨2, 102, 0⟩⟩, ⟨2, ⟨3, 103, 0⟩⟩] := by with_unfolding_all rfl
  have h := selection_candidates exampleEnv threeStations selThree
    (by with_unfolding_all rfl) (by rw [hl]; decide)
  exact ⟨by with_unfolding_all rfl, by with_unfolding_all rfl, h.2.1, h.2.2.1⟩

/-! ## Membership is mirrored across the access categories -/

theorem touchStaList_present (s : State) (ac : AcIndex)
    (h : ∀ a, (s.m_staList a).isSome = true) :
    ∀ a, ((s.touchStaList ac).m_staList a).isSome = true := by
  intro a
  unfold State.touchStaList
  by_cases ha : a = ac
  · subst ha; simp
  · simp only [Function.update_noteq ha]; exact h a

theorem TrySendingDlMuPpdu_present (env : Env) (s : State) (fmt : TxFormat) (s' : State)
    (h : TrySendingDlMuPpdu env s = .ok (fmt, s'))
    (hp : ∀ a, (s.m_staList a).isSome = true) :
    ∀ a, (s'.m_staList a).isSome = true := by
  have hp0 := touchStaList_present s env.primaryAc hp
  unfold TrySendingDlMuPpdu at h
  dsimp only at h
  by_cases hl : (s.touchStaList env.primaryAc).staList env.primaryAc = []
  · rw [if_pos hl] at h
    simp only [Except.ok.injEq, Prod.mk.injEq] at h
    rw [← h.2]
    exact hp0
  · rw [if_neg hl] at h
    split at h
    · simp at h
    · rename_i sel _
      by_cases hc : sel.candidates = []
      · rw [if_pos hc] at h
        split_ifs at h
        all_goals
          simp only [Except.ok.injEq, Prod.mk.injEq] at h
          rw [← h.2]
          exact hp0
      · rw [if_neg hc] at h
        obtain ⟨h1, _⟩ := dlEstimate_staList _ _ _ _ _ h
        rw [h1]
        exact hp0

theorem SelectTxFormat_present (env : Env) (s : State) (fmt : TxFormat) (s' : State)
    (h : SelectTxFormat env s = .ok (fmt, s'))
    (hp : ∀ a, (s.m_staList a).isSome = true) :
    ∀ a, (s'.m_staList a).isSome = true := by
  unfold SelectTxFormat at h
  split_ifs at h
  · obtain ⟨h1, _⟩ := TrySendingBsrpTf_staList _ _ _ _ h
    rw [h1]; exact hp
  · split at h
    · simp at h
    · rename_i f1 s1 hb
      obtain ⟨h1, _⟩ := TrySendingBasicTf_staList _ _ _ _ hb
      split_ifs at h
      · simp only [Except.ok.injEq, Prod.mk.injEq] at h
        rw [← h.2, h1]
        exact hp
      · exact TrySendingDlMuPpdu_present _ _ _ _ h (by rw [h1]; exact hp)
  · exact TrySendingDlMuPpdu_present _ _ _ _ h hp

theorem debitLoop_present (env : Env) (dpm : ℚ) (rt : RuType) (nRus : Nat) :
    ∀ (k i : Nat) (cs : List CandidateInfo) (m m' : AcIndex → Option (List Node)),
      debitLoop env dpm rt nRus k i cs m = .ok m' →
      (∀ a, (m a).isSome = true) → ∀ a, (m' a).isSome = true := by
  intro k
  induction k with
  | zero =>
    intro i cs m m' h hp
    simp only [debitLoop, Except.ok.injEq] at h
    subst h
    exact hp
  | succ k ih =>
    intro i cs m m' h hp
    cases cs with
    | nil => simp [debitLoop] at h
    | cons c rest =>
      unfold debitLoop at h
      dsimp only at h
      split at h
      · simp at h
      · rename_i l _
        refine ih _ _ _ _ h ?_
        intro a
        by_cases ha : a = c.ac
        · subst ha; simp
        · simp only [Function.update_noteq ha]; exact hp a

theorem creditLedger_present (env : Env) (s : State) (rt : RuType) (nRus nLeft : Nat)
    (cs : List CandidateInfo) (T : Time) (m' : AcIndex → Option (List Node))
    (h : creditLedger env s rt nRus nLeft cs T = .ok m')
    (hp : ∀ a, (s.m_staList a).isSome = true) : ∀ a, (m' a).isSome = true := by
  unfold creditLedger at h
  dsimp only at h
  split at h
  · simp at h
  · rename_i debited hd
    simp only [Except.ok.injEq] at h
    subst h
    have hdeb := debitLoop_present _ _ _ _ _ _ _ _ _ hd (by
      intro a
      by_cases ha : a = env.primaryAc
      · subst ha; simp
      · simp only [Function.update_noteq ha]; exact hp a)
    intro a
    by_cases ha : a = env.primaryAc
    · subst ha; simp
    · simp only [Function.update_noteq ha]; exact hdeb a

theorem ComputeDlMuInfo_registry (env : Env) (s : State) (info : DlMuInfo) (s' : State)
    (h : ComputeDlMuInfo env s = .ok (info, s')) :
    ((∀ a, (s.m_staList a).isSome = true) → ∀ a, (s'.m_staList a).isSome = true)
      ∧ ∀ ac, ((s'.staList ac).map stationKey).Perm ((s.staList ac).map stationKey) := by
  by_cases hne : s.m_candidates = []
  · unfold ComputeDlMuInfo at h
    rw [if_pos hne] at h
    simp only [Except.ok.injEq, Prod.mk.injEq] at h
    rw [← h.2]
    exact ⟨fun hp => hp, fun _ => List.Perm.refl _⟩
  · obtain ⟨tv1, tv, txParams1, agg, staLists, _, _, _, _, hled, _, hst⟩ :=
      ComputeDlMuInfo_inv env s info s' h hne
    have hm : s'.m_staList = staLists := by rw [hst]
    refine ⟨fun hp => ?_, fun ac => ?_⟩
    · rw [hm]
      exact creditLedger_present _ _ _ _ _ _ _ _ hled hp
    · have := (creditLedger_props _ _ _ _ _ _ _ _ hled).2.1 ac
      unfold State.staList at this ⊢
      rw [hm]
      exact this

/-- In every state of the registry all four station lists exist and hold the same
nodes (identity, AID and address), up to their order. -/
theorem RegistryReachable_inv (s : State) (h : RegistryReachable s) :
    (∀ a, (s.m_staList a).isSome = true)
      ∧ ∀ ac ac', ((s.staList ac).map stationKey).Perm ((s.staList ac').map stationKey) := by
  induction h with
  | init s0 hs0 =>
    refine ⟨fun a => by simp [DoInitialize], fun ac ac' => ?_⟩
    simp [DoInitialize, State.staList, hs0]
  | associated env s0 aid address _ ih =>
    obtain ⟨ip, iq⟩ := ih
    unfold NotifyStationAssociated
    split_ifs with hhe
    · refine ⟨fun a => ?_, fun ac ac' => ?_⟩
      · have := ip a
        simp only [Option.isSome_map']
        exact this
      · have hq := iq ac ac'
        have h1 := ip ac
        have h2 := ip ac'
        simp only [State.staList] at hq ⊢
        obtain ⟨l1, hl1⟩ := Option.isSome_iff_exists.mp h1
        obtain ⟨l2, hl2⟩ := Option.isSome_iff_exists.mp h2
        rw [hl1, hl2] at hq ⊢
        simp only [Option.getD_some, Option.map_some', List.map_append] at hq ⊢
        exact hq.append (List.Perm.refl _)
    · exact ⟨ip, iq⟩
  | deassociated env s0 aid address _ ih =>
    obtain ⟨ip, iq⟩ := ih
    unfold NotifyStationDeassociated
    split_ifs with hhe
    · refine ⟨fun a => ?_, fun ac ac' => ?_⟩
      · have := ip a
        simp only [Option.isSome_map']
        exact this
      · have hq := iq ac ac'
        have h1 := ip ac
        have h2 := ip ac'
        simp only [State.staList] at hq ⊢
        obtain ⟨l1, hl1⟩ := Option.isSome_iff_exists.mp h1
        obtain ⟨l2, hl2⟩ := Option.isSome_iff_exists.mp h2
        rw [hl1, hl2] at hq ⊢
        simp only [Option.getD_some, Option.map_some'] at hq ⊢
        have hf : ∀ l : List Node,
            (l.filter (fun n => !decide (n.info.aid = aid ∧ n.info.address = address))).map
                stationKey
              = (l.map stationKey).filter
                  (fun k => !decide (k.2.1 = aid ∧ k.2.2 = address)) := by
          intro l
          rw [List.filter_map]
          rfl
        rw [hf, hf]
        exact hq.filter _
    · exact ⟨ip, iq⟩
  | selected env s0 fmt s1 _ hsel ih =>
    obtain ⟨ip, iq⟩ := ih
    obtain ⟨h1, _⟩ := SelectTxFormat_staList _ _ _ _ hsel
    refine ⟨SelectTxFormat_present _ _ _ _ hsel ip, fun ac ac' => ?_⟩
    rw [h1, h1]
    exact iq ac ac'
  | committed env s0 info s1 _ hc ih =>
    obtain ⟨ip, iq⟩ := ih
    obtain ⟨h1, h2⟩ := ComputeDlMuInfo_registry _ _ _ _ hc
    exact ⟨h1 ip, fun ac ac' => ((h2 ac).trans (iq ac ac')).trans (h2 ac').symm⟩

/-- C13: in every state reachable from `DoInitialize` by association notifications,
de-association notifications, calls of `SelectTxFormat` and MU commits, all per-category
station lists hold the same (AID, address) entries (up to the order, which a commit
changes in the list it sorts); there `NotifyStationAssociated` for an HE-capable station
appends one entry with credit 0 to every list, `NotifyStationDeassociated` removes from
every list exactly the entries with that AID and address, the others keeping their
order, and for a station that is not HE-capable both leave the scheduler as it is. -/
theorem membership_mirrored (s : State) (h : RegistryReachable s) :
    (∀ ac ac', ((s.staList ac).map registryKey).Perm ((s.staList ac').map registryKey))
      ∧ (∀ (env : Env) (aid address : Nat), env.GetHeSupported address = true →
          ∀ ac, (NotifyStationAssociated env s aid address).staList ac
            = s.staList ac ++ [⟨s.nextNodeId, ⟨aid, address, 0⟩⟩])
      ∧ (∀ (env : Env) (aid address : Nat), env.GetHeSupported address = true →
          ∀ ac, (NotifyStationDeassociated env s aid address).staList ac
            = (s.staList ac).filter
                (fun n => !decide (n.info.aid = aid ∧ n.info.address = address)))
      ∧ (∀ (env : Env) (aid address : Nat), env.GetHeSupported address = false →
          NotifyStationAssociated env s aid address = s
            ∧ NotifyStationDeassociated env s aid address = s) := by
  obtain ⟨hp, hq⟩ := RegistryReachable_inv s h
  refine ⟨fun ac ac' => ?_, fun env aid address hhe ac => ?_,
    fun env aid address hhe ac => ?_, fun env aid address hhe => ?_⟩
  · have hk : ∀ l : List Node,
        l.map registryKey = (l.map stationKey).map (fun k => (k.2.1, k.2.2)) := by
      intro l
      rw [List.map_map]
      rfl
    rw [hk, hk]
    exact (hq ac ac').map _
  · obtain ⟨l, hl⟩ := Option.isSome_iff_exists.mp (hp ac)
    unfold NotifyStationAssociated
    rw [if_pos hhe]
    simp only [State.staList, hl, Option.map_some', Option.getD_some]
  · obtain ⟨l, hl⟩ := Option.isSome_iff_exists.mp (hp ac)
    unfold NotifyStationDeassociated
    rw [if_pos hhe]
    simp only [State.staList, hl, Option.map_some', Option.getD_some]
  · unfold NotifyStationAssociated NotifyStationDeassociated
    rw [if_neg (by simp [hhe]), if_neg (by simp [hhe])]
    exact ⟨rfl, rfl⟩

/-- Witness of C13: after the first commit of the three-station example the list of the
winning category is sorted by credit (station 3 first) while the list of `AC_VO` is in
association order; both hold the same three entries. -/
theorem membership_mirrored_witness :
    (committedThree.staList .AC_BE).map registryKey = [(3, 103), (1, 101), (2, 102)]
      ∧ (committedThree.staList .AC_VO).map registryKey = [(1, 101), (2, 102), (3, 103)]
      ∧ ((committedThree.staList .AC_BE).map registryKey).Perm
          ((committedThree.staList .AC_VO).map registryKey) := by
  have hsel : RegistryReachable selectedThree :=
    RegistryReachable.selected exampleEnv threeStations .DL_MU_TX selectedThree
      (RegistryReachable.associated _ _ _ _ (RegistryReachable.associated _ _ _ _
        (RegistryReachable.associated _ _ _ _ (RegistryReachable.init _ (fun _ => rfl)))))
      (by with_unfolding_all rfl)
  have hcom : RegistryReachable committedThree :=
    RegistryReachable.committed exampleEnv selectedThree committedThreeInfo committedThree hsel
      (by with_unfolding_all rfl)
  exact ⟨by with_unfolding_all rfl, by with_unfolding_all rfl,
    (membership_mirrored committedThree hcom).1 .AC_BE .AC_VO⟩

/-! ## The worst-case buffer size of `TrySendingBasicTf` -/

theorem ulInsert_ne_nil (q : Nat) (c : CandidateInfo) (l : List (Nat × CandidateInfo)) :
    ulInsert q c l ≠ [] := by
  cases l with
  | nil => simp [ulInsert]
  | cons p rest =>
    obtain ⟨q', c'⟩ := p
    unfold ulInsert
    split_ifs <;> simp

theorem reportedQueueSize_of_deref (env : Env) (s : State) (c : CandidateInfo)
    (info : MasterInfo) (h : s.deref c = .ok info) :
    reportedQueueSize env s c = env.GetMaxBufferStatus info.address % 256 := by
  unfold reportedQueueSize
  rw [h]

/-- The first loop of `TrySendingBasicTf` on candidates with valid iterators and a
non-zero `UlPsduSize`: it returns, and both the worst-case size stays 0 and the
multimap of uplink candidates stays empty exactly when every candidate reports 0. -/
theorem basicScan_zero (env : Env) (s : State) (hul : s.m_ulPsduSize ≠ 0) :
    ∀ (cs : List CandidateInfo) (acc : Nat) (ul : List (Nat × CandidateInfo)),
      (∀ c ∈ cs, ∃ info, s.deref c = .ok info) →
      ∃ mbs ul', basicScan env s cs (acc, ul) = .ok (mbs, ul')
        ∧ (mbs = 0 ↔ acc = 0 ∧ ∀ c ∈ cs, reportedQueueSize env s c = 0)
        ∧ (ul' = [] ↔ ul = [] ∧ ∀ c ∈ cs, reportedQueueSize env s c = 0) := by
  intro cs
  induction cs with
  | nil =>
    intro acc ul _
    exact ⟨acc, ul, rfl, by simp, by simp⟩
  | cons c rest ih =>
    intro acc ul hvalid
    obtain ⟨info, hinfo⟩ := hvalid c (List.mem_cons_self _ _)
    have hq := reportedQueueSize_of_deref env s c info hinfo
    have hqlt : env.GetMaxBufferStatus info.address % 256 < 256 := Nat.mod_lt _ (by norm_num)
    obtain ⟨mbs, ul', h1, h2, h3⟩ := ih
      (if env.GetMaxBufferStatus info.address % 256 = 255 then max acc s.m_ulPsduSize
        else if env.GetMaxBufferStatus info.address % 256 = 254 then 0xffffffff
        else max acc ((env.GetMaxBufferStatus info.address % 256 * 256) % 2 ^ 32))
      (if env.GetMaxBufferStatus info.address % 256 > 0
        then ulInsert (env.GetMaxBufferStatus info.address % 256) c ul else ul)
      (fun x hx => hvalid x (List.mem_cons_of_mem _ hx))
    refine ⟨mbs, ul', ?_, ?_, ?_⟩
    · unfold basicScan
      simp only [bind, Except.bind, hinfo]
      exact h1
    · rw [h2]
      simp only [List.mem_cons, forall_eq_or_imp, hq]
      generalize env.GetMaxBufferStatus info.address % 256 = q at hqlt
      constructor
      · rintro ⟨ha, hr⟩
        by_cases h255 : q = 255
        · rw [if_pos h255] at ha
          exact absurd (Nat.max_eq_zero_iff.mp ha).2 hul
        · rw [if_neg h255] at ha
          by_cases h254 : q = 254
          · rw [if_pos h254] at ha
            norm_num at ha
          · rw [if_neg h254] at ha
            have := Nat.max_eq_zero_iff.mp ha
            exact ⟨this.1, by omega, hr⟩
      · rintro ⟨ha, hq0, hr⟩
        subst hq0; subst ha
        exact ⟨by norm_num, hr⟩
    · rw [h3]
      simp only [List.mem_cons, forall_eq_or_imp, hq]
      generalize env.GetMaxBufferStatus info.address % 256 = q
      constructor
      · rintro ⟨ha, hr⟩
        split_ifs at ha with hpos
        · exact absurd ha (ulInsert_ne_nil _ _ _)
        · exact ⟨ha, by omega, hr⟩
      · rintro ⟨ha, hq0, hr⟩
        subst hq0
        exact ⟨by simp [ha], hr⟩

/-- C14: with `UlPsduSize` non-zero and candidates with valid iterators,
`TrySendingBasicTf` returns DL_MU_TX (leaving the scheduler as it is) if and only if
every candidate of the last DL round reports a queue size of 0, which an empty candidate
list does; and whenever the worst-case size computed by the first loop is positive, some
candidate reports a non-zero queue size and the multimap of uplink candidates is not
empty. -/
theorem TrySendingBasicTf_skips_iff (env : Env) (s : State) (hul : s.m_ulPsduSize ≠ 0)
    (hvalid : ∀ c ∈ s.m_candidates, ∃ info, s.deref c = .ok info) :
    ((∃ s', TrySendingBasicTf env s = .ok (.DL_MU_TX, s'))
        ↔ ∀ c ∈ s.m_candidates, reportedQueueSize env s c = 0)
      ∧ (∀ s', TrySendingBasicTf env s = .ok (.DL_MU_TX, s') → s' = s)
      ∧ (s.m_candidates = [] → TrySendingBasicTf env s = .ok (.DL_MU_TX, s))
      ∧ ∀ maxBufferSize ulCandidates,
          basicScan env s s.m_candidates (0, []) = .ok (maxBufferSize, ulCandidates) →
          0 < maxBufferSize →
          (∃ c ∈ s.m_candidates, reportedQueueSize env s c ≠ 0) ∧ ulCandidates ≠ [] := by
  obtain ⟨mbs, ul, hscan, hz, hu⟩ := basicScan_zero env s hul s.m_candidates 0 [] hvalid
  simp only [true_and] at hz hu
  have hiff : (∃ s', TrySendingBasicTf env s = .ok (.DL_MU_TX, s'))
      ↔ ∀ c ∈ s.m_candidates, reportedQueueSize env s c = 0 := by
    constructor
    · rintro ⟨s', h⟩
      unfold TrySendingBasicTf at h
      rw [if_neg hul, hscan] at h
      dsimp only at h
      by_cases hpos : mbs > 0
      · rw [if_pos hpos] at h
        exact absurd rfl (basicSolicit_fst _ _ _ _ _ _ h)
      · exact hz.mp (by omega)
    · intro hall
      refine ⟨s, ?_⟩
      unfold TrySendingBasicTf
      rw [if_neg hul, hscan]
      dsimp only
      rw [if_neg (by rw [hz.mpr hall]; exact Nat.lt_irrefl 0)]
  refine ⟨hiff, fun s' h => TrySendingBasicTf_DL_MU_TX env s s' h, ?_, ?_⟩
  · intro hnil
    obtain ⟨s', h⟩ := hiff.mpr (by rw [hnil]; simp)
    rw [h, TrySendingBasicTf_DL_MU_TX env s s' h]
  · intro m u hmu hpos
    rw [hscan] at hmu
    simp only [Except.ok.injEq, Prod.mk.injEq] at hmu
    obtain ⟨rfl, rfl⟩ := hmu
    have hnz : ¬ ∀ c ∈ s.m_candidates, reportedQueueSize env s c = 0 :=
      fun hall => by have := hz.mpr hall; omega
    refine ⟨?_, fun hnil => hnz (hu.mp hnil)⟩
    by_contra hno
    exact hnz (fun c hc => by
      by_contra hc0
      exact hno ⟨c, hc, hc0⟩)

theorem committedThree_candidates :
    committedThree.m_candidates
      = [⟨.AC_BE, 0, some (exampleFrame 101 3)⟩, ⟨.AC_BE, 1, some (exampleFrame 102 3)⟩] := by
  with_unfolding_all rfl

theorem committedThree_valid :
    ∀ c ∈ committedThree.m_candidates, ∃ info, committedThree.deref c = .ok info := by
  intro c hmem
  rw [committedThree_candidates] at hmem
  simp only [List.mem_cons, List.mem_singleton, List.not_mem_nil, or_false] at hmem
  rcases hmem with rfl | rfl
  · exact ⟨⟨1, 101, -1⟩, by with_unfolding_all rfl⟩
  · exact ⟨⟨2, 102, -1⟩, by with_unfolding_all rfl⟩

/-- Witness of C14: after the DL MU PPDU of the three-station example both served
stations report an empty queue, and `TrySendingBasicTf` answers DL_MU_TX. -/
theorem TrySendingBasicTf_skips_iff_witness :
    ∃ s', TrySendingBasicTf (ulEnv (fun _ => 0) TimeMin) committedThree = .ok (.DL_MU_TX, s') :=
  (TrySendingBasicTf_skips_iff (ulEnv (fun _ => 0) TimeMin) committedThree
    (by with_unfolding_all decide) committedThree_valid).1.mpr (by
      intro c hc
      obtain ⟨info, hinfo⟩ := committedThree_valid c hc
      rw [reportedQueueSize_of_deref _ _ _ _ hinfo]
      rfl)

theorem worstCaseSize_le (ulPsduSize q : Nat) (hsize : ulPsduSize < 2 ^ 32) (hq : q < 256) :
    worstCaseSize ulPsduSize q ≤ 0xffffffff := by
  unfold worstCaseSize
  split_ifs <;> omega

/-- The first loop of `TrySendingBasicTf` computes the running maximum of the worst-case
sizes (the assignment for 254 is a maximum because no `uint32_t` exceeds 0xffffffff). -/
theorem basicScan_max (env : Env) (s : State) (hsize : s.m_ulPsduSize < 2 ^ 32) :
    ∀ (cs : List CandidateInfo) (acc : Nat) (ul : List (Nat × CandidateInfo)),
      (∀ c ∈ cs, ∃ info, s.deref c = .ok info) → acc ≤ 0xffffffff →
      ∃ ul', basicScan env s cs (acc, ul)
        = .ok (max acc (maxBufferSize_reference env s cs), ul') := by
  intro cs
  induction cs with
  | nil =>
    intro acc ul _ _
    exact ⟨ul, by simp [basicScan, maxBufferSize_reference]⟩
  | cons c rest ih =>
    intro acc ul hvalid hacc
    obtain ⟨info, hinfo⟩ := hvalid c (List.mem_cons_self _ _)
    have hq := reportedQueueSize_of_deref env s c info hinfo
    have hqlt : env.GetMaxBufferStatus info.address % 256 < 256 := Nat.mod_lt _ (by norm_num)
    have hstep : (if env.GetMaxBufferStatus info.address % 256 = 255 then max acc s.m_ulPsduSize
        else if env.GetMaxBufferStatus info.address % 256 = 254 then 0xffffffff
        else max acc ((env.GetMaxBufferStatus info.address % 256 * 256) % 2 ^ 32))
        = max acc (worstCaseSize s.m_ulPsduSize (reportedQueueSize env s c)) := by
      rw [hq]
      unfold worstCaseSize
      generalize env.GetMaxBufferStatus info.address % 256 = q at hqlt
      by_cases h255 : q = 255
      · rw [if_pos h255, if_pos h255]
      · rw [if_neg h255, if_neg h255]
        by_cases h254 : q = 254
        · rw [if_pos h254, if_pos h254]
          exact (Nat.max_eq_right hacc).symm
        · rw [if_neg h254, if_neg h254]
          have : q * 256 % 2 ^ 32 = 256 * q := by omega
          rw [this]
    obtain ⟨ul', h1⟩ := ih
      (max acc (worstCaseSize s.m_ulPsduSize (reportedQueueSize env s c)))
      (if env.GetMaxBufferStatus info.address % 256 > 0
        then ulInsert (env.GetMaxBufferStatus info.address % 256) c ul else ul)
      (fun x hx => hvalid x (List.mem_cons_of_mem _ hx))
      (Nat.max_le.mpr ⟨hacc, by
        rw [hq]; exact worstCaseSize_le _ _ hsize hqlt⟩)
    refine ⟨ul', ?_⟩
    unfold basicScan
    simp only [bind, Except.bind, hinfo]
    rw [hstep, h1]
    simp only [maxBufferSize_reference, List.map_cons, List.foldr_cons, Nat.max_assoc]

theorem maxBufferSize_reference_ge (env : Env) (s : State) :
    ∀ (cs : List CandidateInfo) (c : CandidateInfo), c ∈ cs →
      worstCaseSize s.m_ulPsduSize (reportedQueueSize env s c)
        ≤ maxBufferSize_reference env s cs := by
  intro cs
  induction cs with
  | nil => intro c hc; simp at hc
  | cons x rest ih =>
    intro c hc
    simp only [maxBufferSize_reference, List.map_cons, List.foldr_cons]
    rcases List.mem_cons.mp hc with h | h
    · subst h; exact Nat.le_max_left _ _
    · exact Nat.le_trans (ih c h) (Nat.le_max_right _ _)

theorem maxBufferSize_reference_le (env : Env) (s : State) (b : Nat) :
    ∀ (cs : List CandidateInfo),
      (∀ c ∈ cs, worstCaseSize s.m_ulPsduSize (reportedQueueSize env s c) ≤ b) →
      maxBufferSize_reference env s cs ≤ b := by
  intro cs
  induction cs with
  | nil => intro _; simp [maxBufferSize_reference]
  | cons x rest ih =>
    intro h
    simp only [maxBufferSize_reference, List.map_cons, List.foldr_cons]
    exact Nat.max_le.mpr ⟨h x (List.mem_cons_self _ _),
      ih (fun c hc => h c (List.mem_cons_of_mem _ hc))⟩

theorem reportedQueueSize_lt (env : Env) (s : State) (c : CandidateInfo) :
    reportedQueueSize env s c < 256 := by
  unfold reportedQueueSize
  split
  · exact Nat.mod_lt _ (by norm_num)
  · norm_num

/-- C15: for candidates with valid iterators (and `UlPsduSize` a `uint32_t`), the first
loop of `TrySendingBasicTf` returns as `maxBufferSize` the maximum over the candidates of
`UlPsduSize` for a reported 255, 0xffffffff for 254 and `256 * q` for any other `q`, which
is 0 for an empty list; if any candidate reports 254 the result is 0xffffffff, and the
result does not depend on the order of the candidates. -/
theorem maxBufferSize_eq_reference (env : Env) (s : State) (cs : List CandidateInfo)
    (hsize : s.m_ulPsduSize < 2 ^ 32)
    (hvalid : ∀ c ∈ cs, ∃ info, s.deref c = .ok info) :
    (∃ ul, basicScan env s cs (0, []) = .ok (maxBufferSize_reference env s cs, ul))
      ∧ maxBufferSize_reference env s [] = 0
      ∧ ((∃ c ∈ cs, reportedQueueSize env s c = 254) →
          maxBufferSize_reference env s cs = 0xffffffff)
      ∧ ∀ cs' : List CandidateInfo, cs'.Perm cs →
          ∃ ul, basicScan env s cs' (0, []) = .ok (maxBufferSize_reference env s cs, ul) := by
  have hle : ∀ l : List CandidateInfo, maxBufferSize_reference env s l ≤ 0xffffffff :=
    fun l => maxBufferSize_reference_le env s _ l
      (fun c _ => worstCaseSize_le _ _ hsize (reportedQueueSize_lt env s c))
  have hscan : ∀ l : List CandidateInfo, (∀ c ∈ l, ∃ info, s.deref c = .ok info) →
      ∃ ul, basicScan env s l (0, []) = .ok (maxBufferSize_reference env s l, ul) := by
    intro l hl
    obtain ⟨ul, h⟩ := basicScan_max env s hsize l 0 [] hl (by norm_num)
    rw [Nat.zero_max] at h
    exact ⟨ul, h⟩
  refine ⟨hscan cs hvalid, rfl, ?_, ?_⟩
  · rintro ⟨c, hc, h254⟩
    have h1 := maxBufferSize_reference_ge env s cs c hc
    rw [h254] at h1
    have h2 : worstCaseSize s.m_ulPsduSize 254 = 0xffffffff := by
      unfold worstCaseSize; norm_num
    rw [h2] at h1
    exact Nat.le_antisymm (hle cs) h1
  · intro cs' hperm
    have heq : maxBufferSize_reference env s cs' = maxBufferSize_reference env s cs := by
      apply Nat.le_antisymm
      · exact maxBufferSize_reference_le env s _ cs'
          (fun c hc => maxBufferSize_reference_ge env s cs c (hperm.subset hc))
      · exact maxBufferSize_reference_le env s _ cs
          (fun c hc => maxBufferSize_reference_ge env s cs' c (hperm.symm.subset hc))
    rw [← heq]
    exact hscan cs' (fun c hc => hvalid c (hperm.subset hc))

/-- Witness of C15: the first served station reports 254 (unlimited) and the second a
queue size of 3; the worst-case size is 0xffffffff. -/
theorem maxBufferSize_eq_reference_witness :
    (∃ ul, basicScan (ulEnv (fun a => if a = 101 then 254 else 3) TimeMin) committedThree
        committedThree.m_candidates (0, []) = .ok (0xffffffff, ul))
      ∧ maxBufferSize_reference (ulEnv (fun a => if a = 101 then 254 else 3) TimeMin)
          committedThree committedThree.m_candidates = 0xffffffff := by
  have h := maxBufferSize_eq_reference (ulEnv (fun a => if a = 101 then 254 else 3) TimeMin)
    committedThree committedThree.m_candidates (by with_unfolding_all decide)
    committedThree_valid
  have h254 := h.2.2.1 ⟨⟨.AC_BE, 0, some (exampleFrame 101 3)⟩,
    by rw [committedThree_candidates]; exact List.mem_cons_self _ _, by with_unfolding_all rfl⟩
  refine ⟨?_, h254⟩
  rw [← h254]
  exact h.1

/-! ## The duration granted by a basic trigger frame -/

/-- The branch `maxBufferSize > 0` of `TrySendingBasicTf` is its allocation part followed
by the trigger part. -/
theorem basicSolicit_eq (env : Env) (s : State) (mbs : Nat)
    (ul : List (Nat × CandidateInfo)) :
    basicSolicit env s mbs ul
      = match basicAllocation env s ul with
        | .error e => .error e
        | .ok (tv, r) => basicTrigger env s mbs tv r := by
  unfold basicSolicit basicAllocation
  dsimp only
  by_cases hul : ul = []
  · rw [if_pos hul, if_pos hul]
  · rw [if_neg hul, if_neg hul]
    cases basicFill env s _ _ _ 0 ul _ with
    | error e => rfl
    | ok tv1 =>
      dsimp only
      cases AssignRuIndices env tv1 with
      | error e => rfl
      | ok tv =>
        dsimp only
        generalize List.take _ ul = l'
        rcases l' with _ | ⟨⟨q, c⟩, _ | ⟨x, rest⟩⟩
        · rfl
        · dsimp only
          cases s.deref c <;> rfl
        · rfl

/-- What `TrySendingBasicTf` does once its first loop has found a positive worst-case
size and the allocation part has returned. -/
theorem TrySendingBasicTf_eq_trigger (env : Env) (s : State) (mbs : Nat)
    (ul : List (Nat × CandidateInfo)) (tv : WifiTxVector) (r : Nat)
    (hul : s.m_ulPsduSize ≠ 0)
    (hscan : basicScan env s s.m_candidates (0, []) = .ok (mbs, ul)) (hpos : 0 < mbs)
    (halloc : basicAllocation env s ul = .ok (tv, r)) :
    TrySendingBasicTf env s = basicTrigger env s mbs tv r := by
  unfold TrySendingBasicTf
  rw [if_neg hul, hscan]
  dsimp only
  rw [if_pos hpos, basicSolicit_eq, halloc]

/-- A returning `TrySendingBasicTf` that does not answer DL_MU_TX has gone through the
allocation part and the trigger part. -/
theorem TrySendingBasicTf_inv (env : Env) (s : State) (fmt : TxFormat) (s' : State)
    (h : TrySendingBasicTf env s = .ok (fmt, s')) (hfmt : fmt ≠ .DL_MU_TX) :
    ∃ mbs ul tv r, s.m_ulPsduSize ≠ 0
      ∧ basicScan env s s.m_candidates (0, []) = .ok (mbs, ul) ∧ 0 < mbs
      ∧ basicAllocation env s ul = .ok (tv, r)
      ∧ basicTrigger env s mbs tv r = .ok (fmt, s') := by
  unfold TrySendingBasicTf at h
  by_cases hul : s.m_ulPsduSize = 0
  · rw [if_pos hul] at h; simp at h
  rw [if_neg hul] at h
  cases hscan : basicScan env s s.m_candidates (0, []) with
  | error e => rw [hscan] at h; simp at h
  | ok p =>
    obtain ⟨mbs, ul⟩ := p
    rw [hscan] at h
    dsimp only at h
    by_cases hpos : mbs > 0
    · rw [if_pos hpos, basicSolicit_eq] at h
      cases halloc : basicAllocation env s ul with
      | error e => rw [halloc] at h; simp at h
      | ok q =>
        obtain ⟨tv, r⟩ := q
        rw [halloc] at h
        exact ⟨mbs, ul, tv, r, hul, rfl, hpos, halloc, h⟩
    · rw [if_neg hpos] at h
      simp only [Except.ok.injEq, Prod.mk.injEq] at h
      exact absurd h.1.symm hfmt

theorem basicFill_preamble (env : Env) (s : State) (rt : RuType) (count : Nat) :
    ∀ (k i : Nat) (ul : List (Nat × CandidateInfo)) (tv tv' : WifiTxVector),
      basicFill env s rt count k i ul tv = .ok tv' → tv'.preamble = tv.preamble := by
  intro k
  induction k with
  | zero =>
    intro i ul tv tv' h
    simp only [basicFill, Except.ok.injEq] at h
    rw [← h]
  | succ k ih =>
    intro i ul tv tv' h
    cases ul with
    | nil => simp [basicFill] at h
    | cons p rest =>
      obtain ⟨q, c⟩ := p
      unfold basicFill at h
      simp only [bind, Except.bind] at h
      split at h
      · simp at h
      · by_cases hl : env.lastTxFormat = .DL_MU_TX
        · rw [if_pos hl] at h
          split at h
          · simp at h
          · split at h
            · simp at h
            · have := ih _ _ _ _ h
              exact this
        · rw [if_neg hl] at h
          split at h
          · simp at h
          · have := ih _ _ _ _ h
            exact this

theorem assignLoop_preamble (mainType : RuType) :
    ∀ (users : List (Nat × HeMuUserInfo)) (ruSet central : List RuSpec)
      (tv tv' : WifiTxVector),
      assignLoop mainType users ruSet central tv = .ok tv' → tv'.preamble = tv.preamble := by
  intro users
  induction users with
  | nil =>
    intro ruSet central tv tv' h
    simp only [assignLoop, Except.ok.injEq] at h
    rw [← h]
  | cons p rest ih =>
    intro ruSet central tv tv' h
    obtain ⟨staId, u⟩ := p
    unfold assignLoop at h
    split_ifs at h
    · cases ruSet with
      | nil => simp at h
      | cons ru ruSet' =>
        have := ih _ _ _ _ h
        exact this
    · cases central with
      | nil => simp at h
      | cons ru central' =>
        have := ih _ _ _ _ h
        exact this

theorem AssignRuIndices_preamble (env : Env) (tv tv' : WifiTxVector)
    (h : AssignRuIndices env tv = .ok tv') : tv'.preamble = tv.preamble := by
  unfold AssignRuIndices at h
  dsimp only at h
  split_ifs at h
  · split at h
    · exact assignLoop_preamble _ _ _ _ _ _ h
    · simp at h
  · split at h
    · exact assignLoop_preamble _ _ _ _ _ _ h
    · simp at h

/-- The TX vector built by the allocation part of `TrySendingBasicTf` has the HE TB
preamble. -/
theorem basicAllocation_preamble (env : Env) (s : State) (ul : List (Nat × CandidateInfo))
    (tv : WifiTxVector) (r : Nat) (h : basicAllocation env s ul = .ok (tv, r)) :
    tv.preamble = .HE_TB := by
  unfold basicAllocation at h
  dsimp only at h
  by_cases hul : ul = []
  · rw [if_pos hul] at h; simp at h
  rw [if_neg hul] at h
  split at h
  · simp at h
  · rename_i tv1 h1
    split at h
    · simp at h
    · rename_i tv2 h2
      have hp : tv2.preamble = .HE_TB := by
        rw [AssignRuIndices_preamble _ _ _ h2, basicFill_preamble _ _ _ _ _ _ _ _ _ h1]
        split_ifs <;> rfl
      have htv : tv = tv2 := by
        revert h
        generalize List.take _ ul = l'
        rcases l' with _ | ⟨⟨q, c⟩, _ | ⟨x, rest⟩⟩
        · intro h; simp only [Except.ok.injEq, Prod.mk.injEq] at h; exact h.1.symm
        · intro h
          dsimp only at h
          split at h
          · simp at h
          · simp only [Except.ok.injEq, Prod.mk.injEq] at h; exact h.1.symm
        · intro h; simp only [Except.ok.injEq, Prod.mk.injEq] at h; exact h.1.symm
      rw [htv]; exact hp

/-- The trigger part of `TrySendingBasicTf` when `TryAddMpdu` accepts the trigger frame
and the assertions on the TX parameters hold: NO_TX if a time budget is set and leaves
no time, otherwise the duration part run with the bound `grantBound`. -/
theorem basicTrigger_accepted (env : Env) (s : State) (mbs : Nat) (tv : WifiTxVector)
    (r : Nat) (txParams : WifiTxParameters) (hpre : tv.preamble = .HE_TB)
    (hadd : env.TryAddMpdu (basicTriggerItem env tv r) (triggerTxParams env r)
      env.m_availableTime = some txParams)
    (hassert : BasicTfAsserts env txParams) :
    basicTrigger env s mbs tv r
      = if env.m_availableTime ≠ TimeMin ∧ grantBound env txParams ≤ 0 then
          .ok (.NO_TX, { s with m_txParams := txParams })
        else
          .ok (basicDuration env s { s with m_txParams := txParams } mbs tv
            (CtrlTriggerHeader.ofTxVector env .BASIC_TRIGGER tv) r (grantBound env txParams)) := by
  unfold basicTriggerItem triggerTxParams at hadd
  unfold basicTrigger grantBound
  dsimp only
  rw [hadd, hpre]
  dsimp only
  by_cases hav : env.m_availableTime = TimeMin
  · rw [if_neg (by simp [hav]), if_neg (by simp [hav]), if_pos hav]
  · obtain ⟨p, a, hp, ha, h1, h2, h3⟩ := hassert hav
    rw [if_pos hav, if_neg hav, hp, ha]
    dsimp only
    rw [if_neg (by simp [h1, h2, h3])]
    have hb : remainingBudget env txParams
        = env.m_availableTime - p - txParams.m_txDuration - env.phySifs
          - a.acknowledgmentTime := by
      unfold remainingBudget
      rw [hp, ha]
      rfl
    rw [hb]
    by_cases hneg : min (env.GetPpduMaxTime .HE_TB)
        (env.m_availableTime - p - txParams.m_txDuration - env.phySifs
          - a.acknowledgmentTime) ≤ 0
    · rw [if_pos hneg, if_pos ⟨hav, hneg⟩]
    · rw [if_neg hneg, if_neg (fun h => hneg h.2)]

/-- A returning trigger part that does not answer NO_TX had its trigger frame accepted
and its assertions hold. -/
theorem basicTrigger_returns (env : Env) (s : State) (mbs : Nat) (tv : WifiTxVector)
    (r : Nat) (fmt : TxFormat) (s' : State)
    (h : basicTrigger env s mbs tv r = .ok (fmt, s')) (hfmt : fmt ≠ .NO_TX) :
    ∃ txParams, env.TryAddMpdu (basicTriggerItem env tv r) (triggerTxParams env r)
        env.m_availableTime = some txParams ∧ BasicTfAsserts env txParams := by
  unfold basicTriggerItem triggerTxParams
  unfold basicTrigger at h
  dsimp only at h
  split at h
  · simp only [Except.ok.injEq, Prod.mk.injEq] at h
    exact absurd h.1.symm hfmt
  · rename_i txParams hadd
    refine ⟨txParams, hadd, ?_⟩
    intro hav
    rw [if_pos hav] at h
    split at h
    · rename_i p a hp ha
      split_ifs at h with hbad
      · simp only [not_or] at hbad
        exact ⟨p, a, hp, ha, hbad.1, hbad.2.1, hbad.2.2⟩
      · simp only [not_or] at hbad
        exact ⟨p, a, hp, ha, hbad.1, hbad.2.1, hbad.2.2⟩
    · simp at h

/-- The duration part of `TrySendingBasicTf`: it answers UL_MU_TX with the smaller of the
worst-case buffer transmit time and the bound, unless the buffer time is not below the
bound and the bound is below the minimum duration, where it answers NO_TX. -/
theorem basicDuration_cases (env : Env) (s s1 : State) (mbs : Nat) (tv : WifiTxVector)
    (tr : CtrlTriggerHeader) (r : Nat) (B : Time) :
    (¬ maxTxDuration env mbs tv tr.userInfos < B
        ∧ B < minTxDuration env s.m_ulPsduSize tv tr.userInfos
        ∧ basicDuration env s s1 mbs tv tr r B = (.NO_TX, s1))
      ∨ ((maxTxDuration env mbs tv tr.userInfos < B
            ∨ minTxDuration env s.m_ulPsduSize tv tr.userInfos ≤ B)
        ∧ ∃ s', basicDuration env s s1 mbs tv tr r B = (.UL_MU_TX, s')
            ∧ s'.m_tbPpduDuration = min (maxTxDuration env mbs tv tr.userInfos) B
            ∧ s'.m_ulTriggerType = .BASIC_TRIGGER
            ∧ s'.m_txParams = s1.m_txParams) := by
  unfold basicDuration
  dsimp only
  by_cases h1 : maxTxDuration env mbs tv tr.userInfos < B
  · rw [if_pos h1]
    exact Or.inr ⟨Or.inl h1, _, rfl, (min_eq_left (le_of_lt h1)).symm, rfl, rfl⟩
  · rw [if_neg h1]
    by_cases h2 : B < minTxDuration env s.m_ulPsduSize tv tr.userInfos
    · rw [if_pos h2]
      exact Or.inl ⟨h1, h2, rfl⟩
    · rw [if_neg h2]
      exact Or.inr ⟨Or.inr (not_lt.mp h2), _, rfl, (min_eq_right (not_lt.mp h1)).symm, rfl, rfl⟩

/-- C16: whenever `TrySendingBasicTf` returns UL_MU_TX, the trigger frame built for the
final TX vector was accepted by `TryAddMpdu` and the granted TB PPDU duration is the
smaller of the worst-case buffer transmit time over the addressed stations and the bound
`grantBound` (the maximum PPDU duration for the HE TB preamble, limited to available
time - protection time - trigger TX duration - SIFS - acknowledgment time when a time
budget is set); hence it exceeds neither the maximum PPDU duration nor, when a budget is
set, the remaining budget. -/
theorem granted_duration (env : Env) (s s' : State)
    (h : TrySendingBasicTf env s = .ok (.UL_MU_TX, s')) :
    ∃ mbs ul tv r txParams,
      basicScan env s s.m_candidates (0, []) = .ok (mbs, ul)
        ∧ basicAllocation env s ul = .ok (tv, r)
        ∧ env.TryAddMpdu (basicTriggerItem env tv r) (triggerTxParams env r)
            env.m_availableTime = some txParams
        ∧ s'.m_tbPpduDuration
            = min (maxTxDuration env mbs tv
                (CtrlTriggerHeader.ofTxVector env .BASIC_TRIGGER tv).userInfos)
              (grantBound env txParams)
        ∧ s'.m_tbPpduDuration ≤ env.GetPpduMaxTime .HE_TB
        ∧ (env.m_availableTime ≠ TimeMin →
            (∃ p a, txParams.m_protection = some p ∧ txParams.m_acknowledgment = some a)
              ∧ s'.m_tbPpduDuration ≤ remainingBudget env txParams) := by
  obtain ⟨mbs, ul, tv, r, _, hscan, _, halloc, htrig⟩ :=
    TrySendingBasicTf_inv env s _ s' h (by simp)
  obtain ⟨txParams, hadd, hassert⟩ := basicTrigger_returns env s mbs tv r _ s' htrig (by simp)
  have hpre := basicAllocation_preamble env s ul tv r halloc
  rw [basicTrigger_accepted env s mbs tv r txParams hpre hadd hassert] at htrig
  have hgrant : s'.m_tbPpduDuration
      = min (maxTxDuration env mbs tv
          (CtrlTriggerHeader.ofTxVector env .BASIC_TRIGGER tv).userInfos)
        (grantBound env txParams) := by
    by_cases hno : env.m_availableTime ≠ TimeMin ∧ grantBound env txParams ≤ 0
    · rw [if_pos hno] at htrig
      simp at htrig
    rw [if_neg hno] at htrig
    simp only [Except.ok.injEq] at htrig
    rcases basicDuration_cases env s { s with m_txParams := txParams } mbs tv
        (CtrlTriggerHeader.ofTxVector env .BASIC_TRIGGER tv) r (grantBound env txParams)
      with ⟨_, _, hd⟩ | ⟨_, s2, hd, hdur, _, _⟩
    · rw [hd] at htrig
      simp at htrig
    · rw [hd] at htrig
      simp only [Prod.mk.injEq, true_and] at htrig
      rw [← htrig]
      exact hdur
  refine ⟨mbs, ul, tv, r, txParams, hscan, halloc, hadd, hgrant, ?_, ?_⟩
  · rw [hgrant]
    refine le_trans (min_le_right _ _) ?_
    unfold grantBound
    split_ifs
    · exact le_refl _
    · exact min_le_left _ _
  · intro hav
    obtain ⟨p, a, hp, ha, _⟩ := hassert hav
    refine ⟨⟨p, a, hp, ha⟩, ?_⟩
    rw [hgrant]
    refine le_trans (min_le_right _ _) ?_
    unfold grantBound
    rw [if_neg hav]
    exact min_le_right _ _

/-- Witness of C16: one station reports an unlimited queue and there is no time budget;
the trigger frame grants the maximum PPDU duration. -/
theorem granted_duration_witness :
    solicitedUnlimited.m_tbPpduDuration = 5484000
      ∧ solicitedUnlimited.m_tbPpduDuration ≤ ulEnvUnlimited.GetPpduMaxTime .HE_TB := by
  obtain ⟨_, _, _, _, _, _, _, _, _, hle, _⟩ :=
    granted_duration ulEnvUnlimited committedThree solicitedUnlimited
      (by with_unfolding_all rfl)
  exact ⟨by with_unfolding_all rfl, hle⟩

/-- The loop computing `minDuration` uses 0 for "not set yet"; when no station needs a
zero duration it computes the minimum of the durations. -/
theorem minTxDuration_eq_reference (env : Env) (size : Nat) (tv : WifiTxVector)
    (users : List TriggerUserInfo)
    (hdur : ∀ u ∈ users, env.CalculateTxDuration size tv u.aid12 ≠ 0) :
    minTxDuration env size tv users = minDuration_reference env size tv users := by
  have key : ∀ (l : List TriggerUserInfo) (acc : Time), acc ≠ 0 →
      (∀ u ∈ l, env.CalculateTxDuration size tv u.aid12 ≠ 0) →
      l.foldl (fun acc u =>
          let duration := env.CalculateTxDuration size tv u.aid12
          if acc = 0 then duration else min acc duration) acc
        = l.foldl (fun acc v => min acc (env.CalculateTxDuration size tv v.aid12)) acc := by
    intro l
    induction l with
    | nil => intro acc _ _; rfl
    | cons u rest ih =>
      intro acc hacc hl
      simp only [List.foldl_cons]
      rw [if_neg hacc]
      refine ih _ ?_ (fun x hx => hl x (List.mem_cons_of_mem _ hx))
      have hu := hl u (List.mem_cons_self _ _)
      rcases min_choice acc (env.CalculateTxDuration size tv u.aid12) with h | h
      · rw [h]; exact hacc
      · rw [h]; exact hu
  cases users with
  | nil => rfl
  | cons u rest =>
    unfold minTxDuration minDuration_reference
    simp only [List.foldl_cons, if_true]
    exact key rest _ (hdur u (List.mem_cons_self _ _))
      (fun x hx => hdur x (List.mem_cons_of_mem _ hx))

/-- C17, the claim as stated fails: both served stations report a queue size of 1 (256
bytes, 256 microseconds), a single frame of `UlPsduSize` = 500 bytes needs 500
microseconds for every station, and the bound left by the time budget is 400
microseconds: the minimum exceeds the bound, yet `TrySendingBasicTf` returns UL_MU_TX
(granting 256 microseconds). -/
theorem short_buffer_is_solicited :
    (TrySendingBasicTf (ulEnv (fun _ => 1) 466000) committedThree).map
        (fun p => (p.1, p.2.m_tbPpduDuration,
          grantBound (ulEnv (fun _ => 1) 466000) p.2.m_txParams))
      = .ok (.UL_MU_TX, 256000, 400000)
    ∧ committedThree.m_ulPsduSize = 500
    ∧ ∀ tv users, users ≠ [] →
        minDuration_reference (ulEnv (fun _ => 1) 466000) 500 tv users = 500000 := by
  refine ⟨by with_unfolding_all rfl, by with_unfolding_all rfl, ?_⟩
  intro tv users hne
  cases users with
  | nil => exact absurd rfl hne
  | cons u rest =>
    unfold minDuration_reference
    dsimp only
    have hd : ∀ v : TriggerUserInfo,
        (ulEnv (fun _ => 1) 466000).CalculateTxDuration 500 tv v.aid12 = 500000 := fun _ => rfl
    rw [hd]
    clear hne
    induction rest with
    | nil => rfl
    | cons v rest ih =>
      simp only [List.foldl_cons]
      rw [hd, min_self]
      exact ih

/-- C17 (as amended): let the first loop of `TrySendingBasicTf` have found a positive
worst-case size, the allocation part have returned, `TryAddMpdu` have accepted the
trigger frame with TX parameters satisfying the assertions, and no addressed station
need a zero duration.  Then `TrySendingBasicTf` returns NO_TX whenever the worst-case
buffer transmit time is not below the bound on the requested duration and the minimum,
over the addressed stations, of the time to transmit a single frame of `UlPsduSize`
exceeds that bound, and also when a time budget is set and the bound is not positive;
in every other case it returns UL_MU_TX and records the basic trigger type. -/
theorem basic_tf_feasibility (env : Env) (s : State) (mbs : Nat)
    (ul : List (Nat × CandidateInfo)) (tv : WifiTxVector) (r : Nat)
    (txParams : WifiTxParameters) (hul : s.m_ulPsduSize ≠ 0)
    (hscan : basicScan env s s.m_candidates (0, []) = .ok (mbs, ul)) (hpos : 0 < mbs)
    (halloc : basicAllocation env s ul = .ok (tv, r))
    (hadd : env.TryAddMpdu (basicTriggerItem env tv r) (triggerTxParams env r)
      env.m_availableTime = some txParams)
    (hassert : BasicTfAsserts env txParams)
    (hdur : ∀ u ∈ (CtrlTriggerHeader.ofTxVector env .BASIC_TRIGGER tv).userInfos,
      env.CalculateTxDuration s.m_ulPsduSize tv u.aid12 ≠ 0) :
    (¬ maxTxDuration env mbs tv (CtrlTriggerHeader.ofTxVector env .BASIC_TRIGGER tv).userInfos
          < grantBound env txParams →
        grantBound env txParams < minDuration_reference env s.m_ulPsduSize tv
          (CtrlTriggerHeader.ofTxVector env .BASIC_TRIGGER tv).userInfos →
        ∃ s', TrySendingBasicTf env s = .ok (.NO_TX, s'))
      ∧ (env.m_availableTime ≠ TimeMin → grantBound env txParams ≤ 0 →
          ∃ s', TrySendingBasicTf env s = .ok (.NO_TX, s'))
      ∧ ((env.m_availableTime = TimeMin ∨ 0 < grantBound env txParams) →
          (maxTxDuration env mbs tv
                (CtrlTriggerHeader.ofTxVector env .BASIC_TRIGGER tv).userInfos
              < grantBound env txParams
            ∨ minDuration_reference env s.m_ulPsduSize tv
                (CtrlTriggerHeader.ofTxVector env .BASIC_TRIGGER tv).userInfos
              ≤ grantBound env txParams) →
          ∃ s', TrySendingBasicTf env s = .ok (.UL_MU_TX, s')
            ∧ s'.m_ulTriggerType = .BASIC_TRIGGER) := by
  have hpre := basicAllocation_preamble env s ul tv r halloc
  have heq := TrySendingBasicTf_eq_trigger env s mbs ul tv r hul hscan hpos halloc
  rw [basicTrigger_accepted env s mbs tv r txParams hpre hadd hassert] at heq
  rw [← minTxDuration_eq_reference env s.m_ulPsduSize tv _ hdur]
  have hcases := basicDuration_cases env s { s with m_txParams := txParams } mbs tv
    (CtrlTriggerHeader.ofTxVector env .BASIC_TRIGGER tv) r (grantBound env txParams)
  refine ⟨fun h1 h2 => ?_, fun hav hneg => ?_, fun hfit hok => ?_⟩
  · by_cases hno : env.m_availableTime ≠ TimeMin ∧ grantBound env txParams ≤ 0
    · rw [if_pos hno] at heq
      exact ⟨_, heq⟩
    · rw [if_neg hno] at heq
      rcases hcases with ⟨_, _, hd⟩ | ⟨hor, _⟩
      · rw [hd] at heq
        exact ⟨_, heq⟩
      · rcases hor with h | h
        · exact absurd h h1
        · exact absurd h2 (not_lt.mpr h)
  · rw [if_pos ⟨hav, hneg⟩] at heq
    exact ⟨_, heq⟩
  · have hno : ¬(env.m_availableTime ≠ TimeMin ∧ grantBound env txParams ≤ 0) := by
      rintro ⟨hav, hneg⟩
      rcases hfit with h | h
      · exact hav h
      · exact absurd h (not_lt.mpr hneg)
    rw [if_neg hno] at heq
    rcases hcases with ⟨h1, h2, _⟩ | ⟨_, s2, hd, _, htype, _⟩
    · rcases hok with h | h
      · exact absurd h h1
      · exact absurd h2 (not_lt.mpr h)
    · rw [hd] at heq
      exact ⟨s2, heq, htype⟩

/-- Witness of C17: both served stations report 512 bytes (512 microseconds), the bound
left by the budget is 400 microseconds and a frame of `UlPsduSize` needs 500
microseconds: `TrySendingBasicTf` returns NO_TX. -/
theorem basic_tf_feasibility_witness :
    ∃ s', TrySendingBasicTf ulEnvTwo committedThree = .ok (.NO_TX, s') := by
  have hd : ∀ (tv : WifiTxVector) (aid : Nat),
      ulEnvTwo.CalculateTxDuration committedThree.m_ulPsduSize tv aid = 500000 :=
    fun _ _ => by with_unfolding_all rfl
  exact (basic_tf_feasibility ulEnvTwo committedThree ulScanTwo.1 ulScanTwo.2 ulAllocTwo.1
    ulAllocTwo.2 ulTxParamsTwo (by with_unfolding_all decide) (by with_unfolding_all rfl)
    (by with_unfolding_all decide) (by with_unfolding_all rfl) (by with_unfolding_all rfl)
    (fun _ => ⟨0, ⟨44000, [WifiTxVector.default]⟩, by with_unfolding_all rfl,
      by with_unfolding_all rfl, by with_unfolding_all decide, by with_unfolding_all decide,
      by with_unfolding_all decide⟩)
    (fun u _ => by rw [hd]; decide)).1
    (by with_unfolding_all decide) (by with_unfolding_all decide)

/-! ## The BSRP trigger frame -/

/-- `TrySendingBsrpTf` is the choice of the receiver address followed by the exchange
part. -/
theorem TrySendingBsrpTf_eq (env : Env) (s : State) :
    TrySendingBsrpTf env s
      = match bsrpReceiver env with
        | some r => bsrpExchange env s r
        | none => .error .assertion := by
  unfold TrySendingBsrpTf bsrpReceiver bsrpExchange bsrpResponseDuration bsrpTrigger
    triggerTxParams
  simp only [bind, Except.bind, pure, Except.pure, throw, throwThe, MonadExceptOf.throw]
  generalize (CtrlTriggerHeader.ofTxVector env .BSRP_TRIGGER env.dlMuInfoTxVector).userInfos
    = users
  rcases users with _ | ⟨u, _ | ⟨v, rest⟩⟩
  · rfl
  · rfl
  · rfl

/-- The formats `TrySendingBsrpTf` can return. -/
theorem TrySendingBsrpTf_formats (env : Env) (s : State) (fmt : TxFormat) (s' : State)
    (h : TrySendingBsrpTf env s = .ok (fmt, s')) : fmt = .NO_TX ∨ fmt = .UL_MU_TX := by
  rw [TrySendingBsrpTf_eq] at h
  cases hr : bsrpReceiver env with
  | none => rw [hr] at h; simp at h
  | some r =>
    rw [hr] at h
    dsimp only at h
    unfold bsrpExchange at h
    repeat' split at h
    all_goals first
      | (simp at h; done)
      | (simp only [Except.ok.injEq, Prod.mk.injEq] at h; exact Or.inl h.1.symm)
      | (simp only [Except.ok.injEq, Prod.mk.injEq] at h; exact Or.inr h.1.symm)

/-- C18: `TrySendingBsrpTf` never returns SU_TX or DL_MU_TX.  When the receiver address of
the BSRP trigger frame is determined and the assertions on the TX parameters returned by
`TryAddMpdu` hold, it returns; it returns NO_TX if and only if `TryAddMpdu` rejects the
trigger frame or, a time budget being set, protection time + trigger TX duration + SIFS
+ the maximum QoS-Null response duration over the addressed stations is greater than
the available time; in every other case it returns UL_MU_TX, records BSRP as the trigger
type and sets the solicited duration to that maximum response duration. -/
theorem bsrp_outcome (env : Env) (s : State) :
    (∀ fmt s', TrySendingBsrpTf env s = .ok (fmt, s') → fmt = .NO_TX ∨ fmt = .UL_MU_TX)
      ∧ ∀ r, bsrpReceiver env = some r →
        (∀ txParams,
          env.TryAddMpdu (triggerItem (bsrpTrigger env) r) (triggerTxParams env r)
            env.m_availableTime = some txParams → BsrpTfAsserts env txParams) →
        ((∃ s', TrySendingBsrpTf env s = .ok (.NO_TX, s'))
            ↔ (env.TryAddMpdu (triggerItem (bsrpTrigger env) r) (triggerTxParams env r)
                  env.m_availableTime = none
                ∨ ∃ txParams,
                    env.TryAddMpdu (triggerItem (bsrpTrigger env) r) (triggerTxParams env r)
                      env.m_availableTime = some txParams
                    ∧ BsrpExceedsBudget env txParams))
          ∧ ((∃ s', TrySendingBsrpTf env s = .ok (.NO_TX, s'))
              ∨ ∃ s', TrySendingBsrpTf env s = .ok (.UL_MU_TX, s')
                  ∧ s'.m_ulTriggerType = .BSRP_TRIGGER
                  ∧ s'.m_tbPpduDuration = bsrpResponseDuration env) := by
  refine ⟨fun fmt s' h => TrySendingBsrpTf_formats env s fmt s' h, ?_⟩
  intro r hr hassert
  rw [TrySendingBsrpTf_eq, hr]
  dsimp only
  unfold bsrpExchange
  cases hadd : env.TryAddMpdu (triggerItem (bsrpTrigger env) r) (triggerTxParams env r)
      env.m_availableTime with
  | none =>
    dsimp only
    exact ⟨⟨fun _ => Or.inl rfl, fun _ => ⟨_, rfl⟩⟩, Or.inl ⟨_, rfl⟩⟩
  | some txParams =>
    dsimp only
    have has := hassert txParams hadd
    by_cases hav : env.m_availableTime ≠ TimeMin
    · obtain ⟨p, a, hp, ha, h1, h2, h3⟩ := has hav
      rw [if_pos hav, hp, ha]
      dsimp only
      rw [if_neg (by simp [h1, h2, h3])]
      by_cases hex : p + txParams.m_txDuration + env.phySifs + bsrpResponseDuration env
          > env.m_availableTime
      · rw [if_pos hex]
        refine ⟨⟨fun _ => Or.inr ⟨txParams, rfl, hav, ?_⟩, fun _ => ⟨_, rfl⟩⟩,
          Or.inl ⟨_, rfl⟩⟩
        rw [hp]; exact hex
      · rw [if_neg hex]
        refine ⟨⟨fun h => ?_, fun h => ?_⟩, Or.inr ⟨_, rfl, rfl, rfl⟩⟩
        · obtain ⟨s', hs'⟩ := h
          simp at hs'
        · rcases h with h | ⟨tp, htp, _, hgt⟩
          · simp at h
          · simp only [Option.some.injEq] at htp
            subst htp
            rw [hp] at hgt
            exact absurd hgt hex
    · rw [if_neg hav]
      refine ⟨⟨fun h => ?_, fun h => ?_⟩, Or.inr ⟨_, rfl, rfl, rfl⟩⟩
      · obtain ⟨s', hs'⟩ := h
        simp at hs'
      · rcases h with h | ⟨tp, _, hav', _⟩
        · simp at h
        · exact absurd hav' hav

/-- Witness of C18: with 300 microseconds left the BSRP exchange (6 + 16 + 240
microseconds) fits and `TrySendingBsrpTf` returns UL_MU_TX; with 200 microseconds left it
returns NO_TX. -/
theorem bsrp_outcome_witness :
    (∃ s', TrySendingBsrpTf (bsrpEnv 300000) committedThree = .ok (.UL_MU_TX, s')
        ∧ s'.m_ulTriggerType = .BSRP_TRIGGER ∧ s'.m_tbPpduDuration = 240000)
      ∧ ∃ s', TrySendingBsrpTf (bsrpEnv 200000) committedThree = .ok (.NO_TX, s') := by
  have hassert : ∀ (t : Time) (txParams : WifiTxParameters),
      (bsrpEnv t).TryAddMpdu (triggerItem (bsrpTrigger (bsrpEnv t)) (bsrpEnv t).broadcast)
        (triggerTxParams (bsrpEnv t) (bsrpEnv t).broadcast) (bsrpEnv t).m_availableTime
        = some txParams → BsrpTfAsserts (bsrpEnv t) txParams := by
    intro t txParams h _
    simp only [bsrpEnv, Option.some.injEq] at h
    subst h
    refine ⟨0, ⟨0, []⟩, rfl, rfl, ?_, rfl, ?_⟩
    · show (0 : Time) ≠ TimeMin
      with_unfolding_all decide
    · show (6000 : Time) ≠ TimeMin
      with_unfolding_all decide
  have h1 := (bsrp_outcome (bsrpEnv 300000) committedThree).2 (bsrpEnv 300000).broadcast
    (by with_unfolding_all rfl) (hassert 300000)
  have h2 := (bsrp_outcome (bsrpEnv 200000) committedThree).2 (bsrpEnv 200000).broadcast
    (by with_unfolding_all rfl) (hassert 200000)
  refine ⟨?_, ?_⟩
  · rcases h1.2 with ⟨s', hs'⟩ | ⟨s', hs', ht, hd⟩
    · have : (TrySendingBsrpTf (bsrpEnv 300000) committedThree).map Prod.fst
          = .ok .UL_MU_TX := by with_unfolding_all rfl
      rw [hs'] at this
      simp [Except.map] at this
    · exact ⟨s', hs', ht, by rw [hd]; with_unfolding_all rfl⟩
  · exact h2.1.mpr (Or.inr ⟨_, by with_unfolding_all rfl, by with_unfolding_all decide,
      by with_unfolding_all decide⟩)

/-! ## A failed solicitation commits nothing -/

/-- A `TrySendingBsrpTf` that returns NO_TX has only rewritten the scratch TX
parameters. -/
theorem TrySendingBsrpTf_NO_TX (env : Env) (s s' : State)
    (h : TrySendingBsrpTf env s = .ok (.NO_TX, s')) :
    ∃ txParams, s' = { s with m_txParams := txParams } := by
  unfold TrySendingBsrpTf at h
  simp only [bind, Except.bind, pure, Except.pure, throw, throwThe, MonadExceptOf.throw] at h
  repeat' split at h
  all_goals first
    | (simp at h; done)
    | (simp only [Except.ok.injEq, Prod.mk.injEq, true_and] at h; exact ⟨_, h.symm⟩)

/-- A trigger part of `TrySendingBasicTf` that returns NO_TX has only rewritten the
scratch TX parameters. -/
theorem basicTrigger_NO_TX (env : Env) (s : State) (mbs : Nat) (tv : WifiTxVector) (r : Nat)
    (s' : State) (h : basicTrigger env s mbs tv r = .ok (.NO_TX, s')) :
    ∃ txParams, s' = { s with m_txParams := txParams } := by
  have hdur : ∀ (s1 : State) (tr : CtrlTriggerHeader) (B : Time),
      basicDuration env s s1 mbs tv tr r B = (.NO_TX, s') → s' = s1 := by
    intro s1 tr B hd
    rcases basicDuration_cases env s s1 mbs tv tr r B with ⟨_, _, h1⟩ | ⟨_, s2, h1, _⟩
    · rw [h1] at hd
      simp only [Prod.mk.injEq, true_and] at hd
      exact hd.symm
    · rw [h1] at hd
      simp at hd
  unfold basicTrigger at h
  dsimp only at h
  split at h
  · simp only [Except.ok.injEq, Prod.mk.injEq, true_and] at h
    exact ⟨_, h.symm⟩
  · rename_i txParams _
    by_cases hav : env.m_availableTime ≠ TimeMin
    · rw [if_pos hav] at h
      split at h
      · split_ifs at h
        · simp only [Except.ok.injEq, Prod.mk.injEq, true_and] at h
          exact ⟨_, h.symm⟩
        · simp only [Except.ok.injEq] at h
          exact ⟨txParams, hdur _ _ _ h⟩
      · simp at h
    · rw [if_neg hav] at h
      simp only [Except.ok.injEq] at h
      exact ⟨txParams, hdur _ _ _ h⟩

/-- C19: whenever `TrySendingBsrpTf` or `TrySendingBasicTf` returns NO_TX, the scheduler
is as before the call except for the scratch TX parameters `m_txParams`; in particular
the stored trigger frame, the solicited TB PPDU duration, the trigger-type memory, the
candidate list and every per-category station list (every station's credit and
position) are the same as before the call. -/
theorem no_partial_commit (env : Env) (s s' : State)
    (h : TrySendingBsrpTf env s = .ok (.NO_TX, s')
      ∨ TrySendingBasicTf env s = .ok (.NO_TX, s')) :
    s'.m_trigger = s.m_trigger ∧ s'.m_tbPpduDuration = s.m_tbPpduDuration
      ∧ s'.m_ulTriggerType = s.m_ulTriggerType ∧ s'.m_candidates = s.m_candidates
      ∧ s'.m_staList = s.m_staList
      ∧ s' = { s with m_txParams := s'.m_txParams } := by
  have key : ∃ txParams, s' = { s with m_txParams := txParams } := by
    rcases h with h | h
    · exact TrySendingBsrpTf_NO_TX env s s' h
    · obtain ⟨mbs, ul, tv, r, _, _, _, _, htrig⟩ :=
        TrySendingBasicTf_inv env s _ s' h (by simp)
      exact basicTrigger_NO_TX env s mbs tv r s' htrig
  obtain ⟨txParams, hs⟩ := key
  subst hs
  exact ⟨rfl, rfl, rfl, rfl, rfl, rfl⟩

/-- Witness of C19: the `ulEnvTwo` example, where `TrySendingBasicTf` returns NO_TX; the
stored trigger frame, the solicited duration and the candidates are those of before. -/
theorem no_partial_commit_witness :
    (resultState (TrySendingBasicTf ulEnvTwo committedThree) committedThree).m_trigger
        = committedThree.m_trigger
      ∧ (resultState (TrySendingBasicTf ulEnvTwo committedThree) committedThree).m_candidates
        = committedThree.m_candidates := by
  have h := no_partial_commit ulEnvTwo committedThree
    (resultState (TrySendingBasicTf ulEnvTwo committedThree) committedThree)
    (Or.inr (by with_unfolding_all rfl))
  exact ⟨h.1, h.2.2.2.1⟩

/-! ## A rejected re-application is fatal -/

/-- The re-application loop of `ComputeDlMuInfo` fails its assertion at the first stored
frame that `TryAddMpdu` rejects. -/
theorem dlReAdd_rejected (env : Env) (t : Time) (c : CandidateInfo)
    (post : List CandidateInfo) (mpdu : WifiMacQueueItem) (hm : c.mpdu = some mpdu) :
    ∀ (pre : List CandidateInfo) (txParams0 txParams : WifiTxParameters),
      dlReAdd env t pre txParams0 = .ok txParams →
      env.TryAddMpdu mpdu txParams t = none →
      dlReAdd env t (pre ++ c :: post) txParams0 = .error .assertion := by
  intro pre
  induction pre with
  | nil =>
    intro txParams0 txParams h hrej
    simp only [dlReAdd, Except.ok.injEq] at h
    subst h
    simp only [List.nil_append]
    unfold dlReAdd
    rw [hm]
    dsimp only
    rw [hrej]
  | cons x rest ih =>
    intro txParams0 txParams h hrej
    unfold dlReAdd at h
    simp only [List.cons_append]
    unfold dlReAdd
    cases hx : x.mpdu with
    | none => rw [hx] at h
    | some m =>
      rw [hx] at h
      dsimp only at h ⊢
      cases hadd : env.TryAddMpdu m txParams0 t with
      | none => rw [hadd] at h
      | some txParams1 =>
        rw [hadd] at h
        dsimp only at h ⊢
        exact ih txParams1 txParams h hrej

/-! ## Monotonicity of the selection in `NStations` -/

/-- The method `calculate_su_mpdu`, step by step: the final TX vector for the first
candidate, the re-application of its frame, the recording of the SU duration components
and the draw of the burst size. -/
theorem calculate_su_mpdu_eq (env : Env) (s : State) :
    calculate_su_mpdu env s
      = match s.m_candidates2 with
        | [] => .ok (0, s)
        | c :: _ =>
          match suFinalTxVector env s c with
          | .error e => .error e
          | .ok tv =>
            match c.mpdu with
            | none => .error .assertion
            | some mpdu =>
              match env.TryAddMpdu mpdu { WifiTxParameters.Clear with m_txVector := tv }
                  (suTime env) with
              | none => .error .assertion
              | some txParams =>
                match responseTxVector txParams with
                | .error e => .error e
                | .ok (ack, resp) =>
                  .ok (pickSuAmpduByProbability env [(14, 1256), (64, 2513)],
                    suRecorded env s txParams ack resp) := by
  unfold calculate_su_mpdu suFinalTxVector suTime suRecorded
  cases s.m_candidates2 with
  | nil => rfl
  | cons c rest =>
    simp only [bind, Except.bind, pure, Except.pure, throw, throwThe, MonadExceptOf.throw]
    cases s.deref c with
    | error e => rfl
    | ok info =>
      try dsimp only
      cases s.m_txParams2.m_txVector.GetMode info.aid with
      | error e => rfl
      | ok mode =>
        try dsimp only
        cases s.m_txParams2.m_txVector.GetNss info.aid with
        | error e => rfl
        | ok nss =>
          try dsimp only
          cases AssignRuIndices env _ with
          | error e => rfl
          | ok tv =>
            try dsimp only
            cases c.mpdu with
            | none => rfl
            | some mpdu =>
              try dsimp only
              cases env.TryAddMpdu mpdu _ _ with
              | none => rfl
              | some txParams =>
                try dsimp only
                cases responseTxVector txParams with
                | error e => rfl
                | ok p => rfl

/-- The estimation part of `TrySendingDlMuPpdu`, step by step. -/
theorem dlEstimate_eq (env : Env) (s1 : State) (sel : SelState) :
    dlEstimate env s1 sel
      = match responseTxVector sel.txParams with
        | .error e => .error e
        | .ok (ack, resp) =>
          match calculate_su_mpdu env (muRecorded env s1 sel ack resp) with
          | .error e => .error e
          | .ok (ampdu, s3) => dlDecide s3 ampdu sel.mpdu := by
  unfold dlEstimate muRecorded dlDecide
  cases responseTxVector sel.txParams with
  | error e => rfl
  | ok p =>
    obtain ⟨ack, resp⟩ := p
    rfl

theorem touchStaList_of_present (s : State) (ac : AcIndex) (l : List Node)
    (h : s.m_staList ac = some l) : s.touchStaList ac = s := by
  unfold State.touchStaList State.staList
  rw [h]
  simp only [Option.getD_some]
  rw [← h, Function.update_eq_self]

theorem touchStaList_present_at (s : State) (ac : AcIndex) :
    (s.touchStaList ac).m_staList ac = some (s.staList ac) := by
  unfold State.touchStaList
  simp

theorem dlSelect_congr (env : Env) (a b : State) (h1 : a.m_staList = b.m_staList)
    (h2 : a.m_nStations = b.m_nStations)
    (h3 : a.m_useCentral26TonesRus = b.m_useCentral26TonesRus)
    (h4 : a.m_enableTxopSharing = b.m_enableTxopSharing) :
    dlSelect env a = dlSelect env b := by
  unfold dlSelect dlTids State.staList
  rw [h1, h2, h3, h4]

theorem suFinalTxVector_congr (env : Env) (a b : State) (c : CandidateInfo)
    (h1 : a.m_staList = b.m_staList) (h2 : a.m_txParams2 = b.m_txParams2) :
    suFinalTxVector env a c = suFinalTxVector env b c := by
  unfold suFinalTxVector State.deref State.staList
  rw [h1, h2]

/-- A returning estimation part: what was read and what is left. -/
theorem dlEstimate_inv (env : Env) (a : State) (sel : SelState) (fmt : TxFormat) (a' : State)
    (h : dlEstimate env a sel = .ok (fmt, a')) :
    ∃ ack resp ampdu s3,
      responseTxVector sel.txParams = .ok (ack, resp)
        ∧ calculate_su_mpdu env (muRecorded env a sel ack resp) = .ok (ampdu, s3)
        ∧ dlDecide s3 ampdu sel.mpdu = .ok (fmt, a') := by
  rw [dlEstimate_eq] at h
  cases hr : responseTxVector sel.txParams with
  | error e => rw [hr] at h; simp at h
  | ok p =>
    obtain ⟨ack, resp⟩ := p
    rw [hr] at h
    dsimp only at h
    cases hsu : calculate_su_mpdu env (muRecorded env a sel ack resp) with
    | error e => rw [hsu] at h; simp at h
    | ok q =>
      obtain ⟨ampdu, s3⟩ := q
      rw [hsu] at h
      exact ⟨ack, resp, ampdu, s3, rfl, by first | rfl | exact hsu, h⟩

/-- A returning `calculate_su_mpdu`: either there is no SU candidate and nothing is
changed, or the frame of the first candidate was re-applied to the final TX vector and
the SU duration components recorded. -/
theorem calculate_su_mpdu_inv (env : Env) (s : State) (ampdu : Nat) (s' : State)
    (h : calculate_su_mpdu env s = .ok (ampdu, s')) :
    (s.m_candidates2 = [] ∧ ampdu = 0 ∧ s' = s)
      ∨ ∃ c rest tv mpdu txParams ack resp,
          s.m_candidates2 = c :: rest ∧ suFinalTxVector env s c = .ok tv
            ∧ c.mpdu = some mpdu
            ∧ env.TryAddMpdu mpdu { WifiTxParameters.Clear with m_txVector := tv } (suTime env)
                = some txParams
            ∧ responseTxVector txParams = .ok (ack, resp)
            ∧ ampdu = pickSuAmpduByProbability env [(14, 1256), (64, 2513)]
            ∧ s' = suRecorded env s txParams ack resp := by
  rw [calculate_su_mpdu_eq] at h
  cases hc : s.m_candidates2 with
  | nil =>
    rw [hc] at h
    simp only [Except.ok.injEq, Prod.mk.injEq] at h
    exact Or.inl ⟨rfl, h.1.symm, h.2.symm⟩
  | cons c rest =>
    rw [hc] at h
    dsimp only at h
    cases htv : suFinalTxVector env s c with
    | error e => rw [htv] at h; simp at h
    | ok tv =>
      rw [htv] at h
      dsimp only at h
      cases hm : c.mpdu with
      | none => rw [hm] at h; simp at h
      | some mpdu =>
        rw [hm] at h
        dsimp only at h
        cases hadd : env.TryAddMpdu mpdu { WifiTxParameters.Clear with m_txVector := tv }
            (suTime env) with
        | none => rw [hadd] at h; simp at h
        | some txParams =>
          rw [hadd] at h
          dsimp only at h
          cases hresp : responseTxVector txParams with
          | error e => rw [hresp] at h; simp at h
          | ok p =>
            obtain ⟨ack, resp⟩ := p
            rw [hresp] at h
            simp only [Except.ok.injEq, Prod.mk.injEq] at h
            exact Or.inr ⟨c, rest, tv, mpdu, txParams, ack, resp, rfl,
              by first | rfl | exact htv, by first | rfl | exact hm,
              by first | rfl | exact hadd, by first | rfl | exact hresp, h.1.symm, h.2.symm⟩

theorem calculate_su_mpdu_congr (env : Env) (a b : State)
    (h1 : a.m_staList = b.m_staList) (h2 : a.m_txParams2 = b.m_txParams2)
    (h3 : a.m_candidates2 = b.m_candidates2) (ampdu : Nat) (a' : State)
    (h : calculate_su_mpdu env a = .ok (ampdu, a')) :
    (a' = a ∧ calculate_su_mpdu env b = .ok (ampdu, b))
      ∨ ∃ txParams ack resp, a' = suRecorded env a txParams ack resp
          ∧ calculate_su_mpdu env b = .ok (ampdu, suRecorded env b txParams ack resp) := by
  rcases calculate_su_mpdu_inv env a ampdu a' h with ⟨hc, h0, hs⟩
    | ⟨c, rest, tv, mpdu, txParams, ack, resp, hc, htv, hm, hadd, hresp, hamp, hs⟩
  · refine Or.inl ⟨hs, ?_⟩
    rw [calculate_su_mpdu_eq, ← h3, hc, h0]
  · refine Or.inr ⟨txParams, ack, resp, hs, ?_⟩
    rw [calculate_su_mpdu_eq, ← h3, hc]
    dsimp only
    rw [← suFinalTxVector_congr env a b c h1 h2, htv]
    dsimp only
    rw [hm]
    dsimp only
    rw [hadd]
    dsimp only
    rw [hresp, hamp]

/-- The decision step overwrites `su_ampdu`, `su_tpt` and `mu_tpt`, and `mpdu_size` when
a frame was peeked: their previous values do not matter. -/
theorem dlDecide_congr (x : State) (ampdu : Nat) (mpdu : Option WifiMacQueueItem)
    (m a : Nat) (t u : ℚ) (hm : mpdu = none → m = x.mpdu_size) :
    dlDecide { x with mpdu_size := m, su_ampdu := a, su_tpt := t, mu_tpt := u } ampdu mpdu
      = dlDecide x ampdu mpdu := by
  cases mpdu with
  | none => rw [hm rfl]; rfl
  | some f => rfl

/-- The state the decision step leaves differs from the one it starts from in
`mpdu_size`, `su_ampdu`, `su_tpt` and `mu_tpt` only. -/
theorem dlDecide_state (x : State) (ampdu : Nat) (mpdu : Option WifiMacQueueItem)
    (fmt : TxFormat) (s1 : State) (h : dlDecide x ampdu mpdu = .ok (fmt, s1)) :
    ∃ (m a : Nat) (t u : ℚ), (mpdu = none → m = x.mpdu_size) ∧
      s1 = { x with mpdu_size := m, su_ampdu := a, su_tpt := t, mu_tpt := u } := by
  unfold dlDecide at h
  dsimp only at h
  by_cases hq : (!x.que) = true
  · rw [if_pos hq] at h; simp at h
  rw [if_neg hq] at h
  cases mpdu with
  | none =>
    dsimp only at h
    split_ifs at h
    all_goals
      simp only [Except.ok.injEq, Prod.mk.injEq] at h
      exact ⟨_, _, _, _, fun _ => rfl, h.2.symm⟩
  | some f =>
    dsimp only at h
    split_ifs at h
    all_goals
      simp only [Except.ok.injEq, Prod.mk.injEq] at h
      exact ⟨_, _, _, _, fun hn => by simp at hn, h.2.symm⟩

/-- Running the estimation part again on the state it left, after the same selection,
gives the same format and the same state. -/
theorem dlEstimate_again (env : Env) (s0 : State) (sel : SelState) (fmt : TxFormat)
    (s1 : State) (h : dlEstimate env (dlSelected s0 sel) sel = .ok (fmt, s1)) :
    dlEstimate env (dlSelected s1 sel) sel = .ok (fmt, s1) := by
  have hst := (dlEstimate_staList env _ sel fmt s1 h).1
  obtain ⟨ack, resp, ampdu, s3, hr, hsu, hdec⟩ := dlEstimate_inv env _ sel fmt s1 h
  rw [dlEstimate_eq, hr]
  dsimp only
  have hsu2 := calculate_su_mpdu_congr env (muRecorded env (dlSelected s0 sel) sel ack resp)
    (muRecorded env (dlSelected s1 sel) sel ack resp) hst.symm rfl rfl ampdu s3 hsu
  obtain ⟨m, a, t, u, hm, hs1⟩ := dlDecide_state s3 ampdu sel.mpdu fmt s1 hdec
  rcases hsu2 with ⟨hs3, hb⟩ | ⟨txParams, ack2, resp2, hs3, hb⟩
  · rw [hb]
    dsimp only
    rw [← hdec, ← dlDecide_congr s3 ampdu sel.mpdu m a t u hm, hs1, hs3]
    rfl
  · rw [hb]
    dsimp only
    rw [← hdec, ← dlDecide_congr s3 ampdu sel.mpdu m a t u hm, hs1, hs3]
    rfl

/-- The estimation part leaves the configuration, the registry, the MU candidate list
and the MU trial parameters as the selection left them. -/
theorem dlEstimate_fields (env : Env) (x : State) (sel : SelState) (fmt : TxFormat)
    (s1 : State) (h : dlEstimate env x sel = .ok (fmt, s1)) :
    s1.m_staList = x.m_staList ∧ s1.m_nStations = x.m_nStations
      ∧ s1.m_useCentral26TonesRus = x.m_useCentral26TonesRus
      ∧ s1.m_enableTxopSharing = x.m_enableTxopSharing
      ∧ s1.m_forceDlOfdma = x.m_forceDlOfdma
      ∧ s1.m_candidates = x.m_candidates ∧ s1.m_txParams = x.m_txParams
      ∧ s1.m_candidates2 = x.m_candidates2 ∧ s1.mu_Pdl = x.mu_Pdl
      ∧ s1.mu_ampdu = x.mu_ampdu := by
  obtain ⟨ack, resp, ampdu, s3, hr, hsu, hdec⟩ := dlEstimate_inv env x sel fmt s1 h
  obtain ⟨m, a, t, u, -, hs1⟩ := dlDecide_state s3 ampdu sel.mpdu fmt s1 hdec
  rcases calculate_su_mpdu_inv env _ ampdu s3 hsu with ⟨-, -, hs3⟩
    | ⟨c, rest, tv, mpdu, txParams, ack2, resp2, -, -, -, -, -, -, hs3⟩
  · subst hs1; subst hs3
    exact ⟨rfl, rfl, rfl, rfl, rfl, rfl, rfl, rfl, rfl, rfl⟩
  · subst hs1; subst hs3
    exact ⟨rfl, rfl, rfl, rfl, rfl, rfl, rfl, rfl, rfl, rfl⟩

/-- C22: idempotence of estimation. If `TrySendingDlMuPpdu` returns on a state, then
running it again on the state it left (no commit in between, the collaborators `env`
answering identically) returns the same format and leaves that state as it is: in
particular the candidate list and the four MU and four SU duration components
(downlink preamble, data duration, uplink preamble, acknowledgment duration) of the
second run are those of the first. -/
theorem estimation_idempotent (env : Env) (s : State) (fmt : TxFormat) (s1 : State)
    (h : TrySendingDlMuPpdu env s = .ok (fmt, s1)) :
    ∃ s2, TrySendingDlMuPpdu env s1 = .ok (fmt, s2)
      ∧ s2.m_candidates = s1.m_candidates
      ∧ s2.mu_Pdl = s1.mu_Pdl ∧ s2.mu_txdata = s1.mu_txdata
      ∧ s2.mu_Pul = s1.mu_Pul ∧ s2.mu_Back = s1.mu_Back
      ∧ s2.su_Pdl = s1.su_Pdl ∧ s2.su_txdata = s1.su_txdata
      ∧ s2.su_Pul = s1.su_Pul ∧ s2.su_Back = s1.su_Back
      ∧ s2 = s1 := by
  suffices hmain : TrySendingDlMuPpdu env s1 = .ok (fmt, s1) from
    ⟨s1, hmain, rfl, rfl, rfl, rfl, rfl, rfl, rfl, rfl, rfl, rfl⟩
  have hp := touchStaList_present_at s env.primaryAc
  unfold TrySendingDlMuPpdu at h
  dsimp only at h
  by_cases hl : (s.touchStaList env.primaryAc).staList env.primaryAc = []
  · rw [if_pos hl] at h
    simp only [Except.ok.injEq, Prod.mk.injEq] at h
    obtain ⟨hf, hs⟩ := h
    have ht : s1.touchStaList env.primaryAc = s1 :=
      touchStaList_of_present s1 env.primaryAc _ (by rw [← hs]; exact hp)
    unfold TrySendingDlMuPpdu
    dsimp only
    rw [ht, ← hs, if_pos hl, hf]
  · rw [if_neg hl] at h
    cases hsel : dlSelect env (s.touchStaList env.primaryAc) with
    | error e => rw [hsel] at h; simp at h
    | ok sel =>
      rw [hsel] at h
      dsimp only at h
      by_cases hc : sel.candidates = []
      · rw [if_pos hc] at h
        have hs : s1 = dlSelected (s.touchStaList env.primaryAc) sel := by
          split_ifs at h
          all_goals
            simp only [Except.ok.injEq, Prod.mk.injEq] at h
            exact h.2.symm
        have ht : s1.touchStaList env.primaryAc = s1 :=
          touchStaList_of_present s1 env.primaryAc _ (by rw [hs]; exact hp)
        have hsel1 : dlSelect env s1 = .ok sel := by
          rw [← hsel]
          exact dlSelect_congr env _ _ (by rw [hs]; rfl) (by rw [hs]; rfl) (by rw [hs]; rfl)
            (by rw [hs]; rfl)
        have hl1 : ¬ s1.staList env.primaryAc = [] := by
          rw [hs]; exact hl
        have hforce : s1.m_forceDlOfdma = s.m_forceDlOfdma := by rw [hs]; rfl
        have hfix : dlSelected s1 sel = s1 := by rw [hs]; rfl
        unfold TrySendingDlMuPpdu
        dsimp only
        rw [ht, if_neg hl1, hsel1]
        dsimp only
        rw [if_pos hc, hforce, hfix]
        split_ifs at h ⊢
        all_goals
          simp only [Except.ok.injEq, Prod.mk.injEq] at h
          rw [h.1]
      · rw [if_neg hc] at h
        obtain ⟨h1, h2, h3, h4, h5, h6, h7, h8, h9, h10⟩ := dlEstimate_fields env _ sel fmt s1 h
        have ht : s1.touchStaList env.primaryAc = s1 :=
          touchStaList_of_present s1 env.primaryAc _ (by rw [h1]; exact hp)
        have hsel1 : dlSelect env s1 = .ok sel := by
          rw [← hsel]
          exact dlSelect_congr env _ _ h1 h2 h3 h4
        have hl1 : ¬ s1.staList env.primaryAc = [] := by
          unfold State.staList at hl ⊢
          rw [h1]; exact hl
        unfold TrySendingDlMuPpdu
        dsimp only
        rw [ht, if_neg hl1, hsel1]
        dsimp only
        rw [if_neg hc]
        exact dlEstimate_again env _ sel fmt s1 h

/-- Witness of C22: in the example environment with three associated stations the
estimation returns DL_MU_TX with two candidates, and a second run on the state it left
returns the same format and leaves the same candidates and duration components. -/
theorem estimation_idempotent_witness :
    TrySendingDlMuPpdu exampleEnv threeStations = .ok (.DL_MU_TX, selectedThree)
      ∧ selectedThree.m_candidates.length = 2
      ∧ ∃ s2, TrySendingDlMuPpdu exampleEnv selectedThree = .ok (.DL_MU_TX, s2)
          ∧ s2.m_candidates = selectedThree.m_candidates
          ∧ s2.mu_Pdl = selectedThree.mu_Pdl ∧ s2.mu_txdata = selectedThree.mu_txdata
          ∧ s2.mu_Pul = selectedThree.mu_Pul ∧ s2.mu_Back = selectedThree.mu_Back
          ∧ s2.su_Pdl = selectedThree.su_Pdl ∧ s2.su_txdata = selectedThree.su_txdata
          ∧ s2.su_Pul = selectedThree.su_Pul ∧ s2.su_Back = selectedThree.su_Back
          ∧ s2 = selectedThree :=
  ⟨by with_unfolding_all rfl, by with_unfolding_all rfl,
    estimation_idempotent exampleEnv threeStations .DL_MU_TX selectedThree
      (by with_unfolding_all rfl)⟩

/-! ## C23: the two throughput estimates -/

/-- When the selection of `TrySendingDlMuPpdu` has found a candidate, the call is the
estimation part run after the selection. -/
theorem TrySendingDlMuPpdu_estimate (env : Env) (s : State) (cands : List CandidateInfo)
    (fmt : TxFormat) (s' : State)
    (hfound : dlCandidatesFound env s = .ok cands) (hne : cands ≠ [])
    (hres : TrySendingDlMuPpdu env s = .ok (fmt, s')) :
    ∃ sel, dlSelect env (s.touchStaList env.primaryAc) = .ok sel ∧ sel.candidates = cands
      ∧ dlEstimate env (dlSelected (s.touchStaList env.primaryAc) sel) sel = .ok (fmt, s') := by
  unfold dlCandidatesFound at hfound
  unfold TrySendingDlMuPpdu at hres
  dsimp only at hres
  rw [staList_touchStaList] at hres
  by_cases hl : s.staList env.primaryAc = []
  · rw [if_pos hl] at hfound
    simp only [Except.ok.injEq] at hfound
    exact absurd hfound.symm hne
  · rw [if_neg hl] at hfound hres
    cases hsel : dlSelect env (s.touchStaList env.primaryAc) with
    | error e => rw [hsel] at hfound; simp at hfound
    | ok sel =>
      rw [hsel] at hfound hres
      simp only [Except.ok.injEq] at hfound
      dsimp only at hres
      rw [if_neg (by rw [hfound]; exact hne)] at hres
      exact ⟨sel, rfl, hfound, hres⟩

theorem suThroughput_eq_reference (s : State) (h : 8 * s.mpdu_size * s.su_ampdu < 2 ^ 32) :
    suThroughput s = suEstimate_reference s.mpdu_size s.su_ampdu (GetMicroSeconds s.su_Pdl)
      (GetMicroSeconds s.su_txdata) (GetMicroSeconds s.su_Pul) (GetMicroSeconds s.su_Back) := by
  unfold suThroughput suEstimate_reference
  have hn : 8 * s.mpdu_size % 2 ^ 32 * s.su_ampdu % 2 ^ 32 = 8 * s.mpdu_size * s.su_ampdu := by
    rw [Nat.mod_mul_mod, Nat.mod_eq_of_lt h]
  rw [hn]
  have hb : bo = 63 := by unfold bo slot_time; norm_num
  have ha : (aifs : ℚ) = 43 := by unfold aifs sifs slot_time; norm_num
  have hs : (sifs : ℚ) = 16 := by unfold sifs; norm_num
  rw [hb, ha, hs]
  push_cast
  ring

theorem muThroughput_eq_reference (s : State) (h0 : 0 ≤ s.mu_ampdu.sum)
    (h : 8 * (s.mpdu_size : Int) * s.mu_ampdu.sum < 2 ^ 32) :
    muThroughput s = muEstimate_reference s.mpdu_size s.mu_ampdu.sum (GetMicroSeconds s.mu_Pdl)
      (GetMicroSeconds s.mu_txdata) (GetMicroSeconds s.mu_Pul) (GetMicroSeconds s.mu_Back) := by
  unfold muThroughput muEstimate_reference
  have hb : bo = 63 := by unfold bo slot_time; norm_num
  have ha : (aifs : ℚ) = 43 := by unfold aifs sifs slot_time; norm_num
  have hs : (sifs : ℚ) = 16 := by unfold sifs; norm_num
  have hp : (pe : ℚ) = 16 := by unfold pe; norm_num
  rw [hb, ha, hs, hp]
  have hn : (((8 * s.mpdu_size % 2 ^ 32 * (s.mu_ampdu.sum % 2 ^ 32).toNat % 2 ^ 32 : Nat)) : ℚ)
      = 8 * (s.mpdu_size : ℚ) * (s.mu_ampdu.sum : ℚ) := by
    obtain ⟨k, hk⟩ := Int.eq_ofNat_of_zero_le h0
    rw [hk] at h ⊢
    have h' : 8 * s.mpdu_size * k < 2 ^ 32 := by exact_mod_cast h
    by_cases hz : s.mpdu_size = 0
    · rw [hz]; simp
    · have hk32 : k < 2 ^ 32 := by
        have : k ≤ 8 * s.mpdu_size * k := Nat.le_mul_of_pos_left k (by omega)
        omega
      have hmod : ((k : Int) % 2 ^ 32).toNat = k := by
        have : ((k : Int) % 2 ^ 32) = ((k % 2 ^ 32 : Nat) : Int) := by push_cast; rfl
        rw [this, Int.toNat_natCast, Nat.mod_eq_of_lt hk32]
      rw [hmod, Nat.mod_mul_mod, Nat.mod_eq_of_lt h']
      push_cast
      ring
  rw [hn]

theorem GetMicroSeconds_nonneg (t : Time) (h : 0 ≤ t) : 0 ≤ GetMicroSeconds t := by
  unfold GetMicroSeconds
  exact Int.tdiv_nonneg h (by norm_num)

/-- C23 fails as stated: the product 8 * frame size * burst count is computed in 32-bit
unsigned arithmetic. With queued frames of 2^29 bytes the selection finds candidates,
the frame size used is 2^29 and the burst counts are 14 (SU) and 126 (MU), but both
estimates are 0, not the quotient the formulas give. -/
theorem oversized_frame_estimates_zero :
    (∃ fmt, TrySendingDlMuPpdu oversizedEnv threeStations = .ok (fmt, oversizedThree))
      ∧ oversizedThree.m_candidates.length = 2
      ∧ oversizedThree.mpdu_size = 2 ^ 29
      ∧ oversizedThree.su_ampdu = 14 ∧ oversizedThree.mu_ampdu.sum = 126
      ∧ oversizedThree.su_tpt = 0 ∧ oversizedThree.mu_tpt = 0
      ∧ oversizedThree.su_tpt ≠ suEstimate_reference oversizedThree.mpdu_size
          oversizedThree.su_ampdu (GetMicroSeconds oversizedThree.su_Pdl)
          (GetMicroSeconds oversizedThree.su_txdata) (GetMicroSeconds oversizedThree.su_Pul)
          (GetMicroSeconds oversizedThree.su_Back)
      ∧ oversizedThree.mu_tpt ≠ muEstimate_reference oversizedThree.mpdu_size
          oversizedThree.mu_ampdu.sum (GetMicroSeconds oversizedThree.mu_Pdl)
          (GetMicroSeconds oversizedThree.mu_txdata) (GetMicroSeconds oversizedThree.mu_Pul)
          (GetMicroSeconds oversizedThree.mu_Back) := by
  have hrun : TrySendingDlMuPpdu oversizedEnv threeStations = .ok (.DL_MU_TX, oversizedThree) := by
    with_unfolding_all rfl
  have hsize : oversizedThree.mpdu_size = 2 ^ 29 := by with_unfolding_all rfl
  have hsu : oversizedThree.su_ampdu = 14 := by with_unfolding_all rfl
  have hmu : oversizedThree.mu_ampdu.sum = 126 := by with_unfolding_all rfl
  have h1 : oversizedThree.su_Pdl = 40000 := by with_unfolding_all rfl
  have h2 : oversizedThree.su_txdata = 6000 := by with_unfolding_all rfl
  have h3 : oversizedThree.su_Pul = 40000 := by with_unfolding_all rfl
  have h4 : oversizedThree.su_Back = 44000 := by with_unfolding_all rfl
  have h5 : oversizedThree.mu_Pdl = 0 := by with_unfolding_all rfl
  have h6 : oversizedThree.mu_txdata = 6000 := by with_unfolding_all rfl
  have h7 : oversizedThree.mu_Pul = 40000 := by with_unfolding_all rfl
  have h8 : oversizedThree.mu_Back = 44000 := by with_unfolding_all rfl
  obtain ⟨sel, -, -, hest⟩ := TrySendingDlMuPpdu_estimate oversizedEnv threeStations
    oversizedThree.m_candidates .DL_MU_TX oversizedThree (by with_unfolding_all rfl)
    (by
      intro h
      have hl : oversizedThree.m_candidates.length = 2 := by with_unfolding_all rfl
      rw [h] at hl
      simp at hl) hrun
  obtain ⟨-, -, hs, hm, -⟩ := dlEstimate_decision _ _ _ _ _ hest
  have hs0 : oversizedThree.su_tpt = 0 := by
    rw [hs]
    unfold suThroughput
    rw [hsize]
    norm_num
  have hm0 : oversizedThree.mu_tpt = 0 := by
    rw [hm]
    unfold muThroughput
    rw [hsize]
    norm_num
  have hus : (GetMicroSeconds 40000 = 40) ∧ (GetMicroSeconds 6000 = 6)
      ∧ (GetMicroSeconds 44000 = 44) ∧ (GetMicroSeconds 0 = 0) := by
    unfold GetMicroSeconds; decide
  refine ⟨⟨_, hrun⟩, by with_unfolding_all rfl, hsize, hsu, hmu, hs0, hm0, ?_, ?_⟩
  · rw [hs0, hsize, hsu, h1, h2, h3, h4, hus.1, hus.2.1, hus.2.2.1]
    unfold suEstimate_reference
    norm_num
  · rw [hm0, hsize, hmu, h5, h6, h7, h8, hus.1, hus.2.1, hus.2.2.1, hus.2.2.2]
    unfold muEstimate_reference
    norm_num

/-- C23, amended: whenever the selection of `TrySendingDlMuPpdu` has found a candidate
and the call returns, and the products 8 * frame size * burst count are below 2^32 (the
MU burst count, the sum of `mu_ampdu`, being non-negative), the two estimates compared
are the quotients of the specification, with AIFS = 43, backoff = 63, SIFS = 16, PE = 16
and every time in whole microseconds; with non-negative durations both divisors are
positive. -/
theorem throughput_estimates (env : Env) (s : State) (cands : List CandidateInfo)
    (fmt : TxFormat) (s' : State)
    (hfound : dlCandidatesFound env s = .ok cands) (hne : cands ≠ [])
    (hres : TrySendingDlMuPpdu env s = .ok (fmt, s'))
    (hsu : 8 * s'.mpdu_size * s'.su_ampdu < 2 ^ 32)
    (hmu0 : 0 ≤ s'.mu_ampdu.sum)
    (hmu : 8 * (s'.mpdu_size : Int) * s'.mu_ampdu.sum < 2 ^ 32)
    (hsd : 0 ≤ s'.su_Pdl ∧ 0 ≤ s'.su_txdata ∧ 0 ≤ s'.su_Pul ∧ 0 ≤ s'.su_Back)
    (hmd : 0 ≤ s'.mu_Pdl ∧ 0 ≤ s'.mu_txdata ∧ 0 ≤ s'.mu_Pul ∧ 0 ≤ s'.mu_Back) :
    s'.su_tpt = suEstimate_reference s'.mpdu_size s'.su_ampdu (GetMicroSeconds s'.su_Pdl)
        (GetMicroSeconds s'.su_txdata) (GetMicroSeconds s'.su_Pul) (GetMicroSeconds s'.su_Back)
      ∧ s'.mu_tpt = muEstimate_reference s'.mpdu_size s'.mu_ampdu.sum
        (GetMicroSeconds s'.mu_Pdl) (GetMicroSeconds s'.mu_txdata) (GetMicroSeconds s'.mu_Pul)
        (GetMicroSeconds s'.mu_Back)
      ∧ (0 : ℚ) < 43 + 63 + GetMicroSeconds s'.su_Pdl + GetMicroSeconds s'.su_txdata + 16
          + GetMicroSeconds s'.su_Pul + GetMicroSeconds s'.su_Back
      ∧ (0 : ℚ) < 43 + 63 + GetMicroSeconds s'.mu_Pdl + GetMicroSeconds s'.mu_txdata + 16 + 16
          + GetMicroSeconds s'.mu_Pul + GetMicroSeconds s'.mu_Back + 16
      ∧ (aifs : ℚ) = 43 ∧ bo = 63 ∧ (sifs : ℚ) = 16 ∧ (pe : ℚ) = 16
      ∧ (fmt = .SU_TX ↔ s'.mu_tpt < s'.su_tpt) := by
  obtain ⟨sel, -, -, hest⟩ := TrySendingDlMuPpdu_estimate env s cands fmt s' hfound hne hres
  obtain ⟨hdec, -, hs, hm, -⟩ := dlEstimate_decision _ _ _ _ _ hest
  have p1 : (0 : ℚ) ≤ GetMicroSeconds s'.su_Pdl := by
    exact_mod_cast GetMicroSeconds_nonneg _ hsd.1
  have p2 : (0 : ℚ) ≤ GetMicroSeconds s'.su_txdata := by
    exact_mod_cast GetMicroSeconds_nonneg _ hsd.2.1
  have p3 : (0 : ℚ) ≤ GetMicroSeconds s'.su_Pul := by
    exact_mod_cast GetMicroSeconds_nonneg _ hsd.2.2.1
  have p4 : (0 : ℚ) ≤ GetMicroSeconds s'.su_Back := by
    exact_mod_cast GetMicroSeconds_nonneg _ hsd.2.2.2
  have q1 : (0 : ℚ) ≤ GetMicroSeconds s'.mu_Pdl := by
    exact_mod_cast GetMicroSeconds_nonneg _ hmd.1
  have q2 : (0 : ℚ) ≤ GetMicroSeconds s'.mu_txdata := by
    exact_mod_cast GetMicroSeconds_nonneg _ hmd.2.1
  have q3 : (0 : ℚ) ≤ GetMicroSeconds s'.mu_Pul := by
    exact_mod_cast GetMicroSeconds_nonneg _ hmd.2.2.1
  have q4 : (0 : ℚ) ≤ GetMicroSeconds s'.mu_Back := by
    exact_mod_cast GetMicroSeconds_nonneg _ hmd.2.2.2
  refine ⟨?_, ?_, by linarith, by linarith, ?_, ?_, ?_, ?_, hdec⟩
  · rw [hs]; exact suThroughput_eq_reference s' hsu
  · rw [hm]; exact muThroughput_eq_reference s' hmu0 hmu
  · unfold aifs sifs slot_time; norm_num
  · unfold bo slot_time; norm_num
  · unfold sifs; norm_num
  · unfold pe; norm_num

/-- Witness of C23: the example environment with three associated stations and frames
of 1000 bytes. -/
theorem throughput_estimates_witness :
    dlCandidatesFound exampleEnv threeStations = .ok selectedThree.m_candidates
      ∧ TrySendingDlMuPpdu exampleEnv threeStations = .ok (.DL_MU_TX, selectedThree)
      ∧ selectedThree.su_tpt = suEstimate_reference 1000 14 40 6 40 44
      ∧ selectedThree.mu_tpt = muEstimate_reference 1000 126 0 6 40 44 := by
  have hfound : dlCandidatesFound exampleEnv threeStations = .ok selectedThree.m_candidates := by
    with_unfolding_all rfl
  have hrun : TrySendingDlMuPpdu exampleEnv threeStations = .ok (.DL_MU_TX, selectedThree) := by
    with_unfolding_all rfl
  have hsize : selectedThree.mpdu_size = 1000 := by with_unfolding_all rfl
  have hsu : selectedThree.su_ampdu = 14 := by with_unfolding_all rfl
  have hmu : selectedThree.mu_ampdu.sum = 126 := by with_unfolding_all rfl
  have h1 : selectedThree.su_Pdl = 40000 := by with_unfolding_all rfl
  have h2 : selectedThree.su_txdata = 6000 := by with_unfolding_all rfl
  have h3 : selectedThree.su_Pul = 40000 := by with_unfolding_all rfl
  have h4 : selectedThree.su_Back = 44000 := by with_unfolding_all rfl
  have h5 : selectedThree.mu_Pdl = 0 := by with_unfolding_all rfl
  have h6 : selectedThree.mu_txdata = 6000 := by with_unfolding_all rfl
  have h7 : selectedThree.mu_Pul = 40000 := by with_unfolding_all rfl
  have h8 : selectedThree.mu_Back = 44000 := by with_unfolding_all rfl
  have hm : (GetMicroSeconds 40000 = 40) ∧ (GetMicroSeconds 6000 = 6)
      ∧ (GetMicroSeconds 44000 = 44) ∧ (GetMicroSeconds 0 = 0) := by
    unfold GetMicroSeconds; decide
  have h := throughput_estimates exampleEnv threeStations selectedThree.m_candidates
    .DL_MU_TX selectedThree hfound
    (by
      intro h
      have hl : selectedThree.m_candidates.length = 2 := by with_unfolding_all rfl
      rw [h] at hl
      simp at hl) hrun
    (by rw [hsize, hsu]; norm_num) (by rw [hmu]; norm_num) (by rw [hsize, hmu]; norm_num)
    (by rw [h1, h2, h3, h4]; norm_num) (by rw [h5, h6, h7, h8]; norm_num)
  rw [hsize, hsu, hmu, h1, h2, h3, h4, h5, h6, h7, h8, hm.1, hm.2.1, hm.2.2.1, hm.2.2.2]
    at h
  refine ⟨hfound, hrun, ?_, ?_⟩
  · simpa using h.1
  · simpa using h.2.1

/-! ## C24: the burst count of the MU estimate -/

theorem vectorSet_ok (v : List Int) (i : Nat) (x : Int) (w : List Int)
    (h : vectorSet v i x = .ok w) : i < v.length ∧ w = v.set i x := by
  unfold vectorSet at h
  by_cases hi : i < v.length
  · rw [if_pos hi] at h
    simp only [Except.ok.injEq] at h
    exact ⟨hi, h.symm⟩
  · rw [if_neg hi] at h
    simp at h

theorem vectorSet_error (v : List Int) (i : Nat) (x : Int) (h : v.length ≤ i) :
    vectorSet v i x = .error .undefinedBehaviour := by
  unfold vectorSet
  rw [if_neg (by omega)]

/-- One iteration of the aggregation loop: either it ends the call, or it writes the
burst size at index `iterator` and goes on with the rest. -/
theorem dlAggregate_step (env : Env) (s : State) (c : CandidateInfo)
    (rest : List CandidateInfo) (st agg : AggState)
    (h : dlAggregate env s (c :: rest) st = .ok agg) :
    ∃ x txParams2 psduMap, dlBursts env (c :: rest) st.txParams = x :: dlBursts env rest txParams2
      ∧ st.iterator < st.mu_ampdu.length
      ∧ dlAggregate env s rest
          { txParams := txParams2, psduMap := psduMap, mu_ampdu := st.mu_ampdu.set st.iterator x,
            iterator := st.iterator + 1 } = .ok agg := by
  unfold dlAggregate at h
  cases hm : c.mpdu with
  | none => rw [hm] at h; simp at h
  | some mpdu =>
    rw [hm] at h
    dsimp only at h
    cases hd : s.deref c with
    | error e => rw [hd] at h; simp [bind, Except.bind] at h
    | ok info =>
      rw [hd] at h
      simp only [bind, Except.bind] at h
      by_cases ha : mpdu.addr1 ≠ info.address
      · rw [if_pos ha] at h; simp [throw, throwThe, MonadExceptOf.throw] at h
      rw [if_neg ha] at h
      by_cases hq : (!mpdu.isQueued) = true
      · rw [if_pos hq] at h; cases h
      rw [if_neg hq] at h
      dsimp only [pure, Except.pure] at h
      cases hv : vectorSet st.mu_ampdu st.iterator _ with
      | error e => rw [hv] at h; simp at h
      | ok w =>
        rw [hv] at h
        dsimp only at h
        obtain ⟨hi, hw⟩ := vectorSet_ok _ _ _ _ hv
        rw [hw] at h
        refine ⟨_, _, _, ?_, hi, h⟩
        rw [dlBursts, hm]

theorem take_drop_set (v : List Int) : ∀ (i n : Nat) (x : Int), i < v.length →
    (v.set i x).take (i + 1) = v.take i ++ [x]
      ∧ (v.set i x).drop (i + 1 + n) = v.drop (i + 1 + n) := by
  induction v with
  | nil => intro i n x hi; simp at hi
  | cons a v ih =>
    intro i n x hi
    cases i with
    | zero =>
      have e : 0 + 1 + n = n + 1 := by omega
      rw [e]
      simp
    | succ j =>
      have hj : j < v.length := by simpa using hi
      obtain ⟨h1, h2⟩ := ih j n x hj
      constructor
      · simp only [List.set_cons_succ, List.take_succ_cons, List.cons_append, h1]
      · have e : j + 1 + 1 + n = (j + 1 + n) + 1 := by omega
        rw [e]
        simp only [List.set_cons_succ, List.drop_succ_cons, h2]

/-- The aggregation loop writes the burst sizes of its candidates at the indices
`iterator`, `iterator + 1`, ... of `mu_ampdu`, each inside the vector, and leaves the
other entries as they are. -/
theorem dlAggregate_mu_ampdu (env : Env) (s : State) :
    ∀ (cands : List CandidateInfo) (st agg : AggState),
      dlAggregate env s cands st = .ok agg →
      (cands ≠ [] → st.iterator + cands.length ≤ st.mu_ampdu.length)
        ∧ (dlBursts env cands st.txParams).length = cands.length
        ∧ agg.mu_ampdu = st.mu_ampdu.take st.iterator ++ dlBursts env cands st.txParams
            ++ st.mu_ampdu.drop (st.iterator + cands.length) := by
  intro cands
  induction cands with
  | nil =>
    intro st agg h
    unfold dlAggregate at h
    simp only [Except.ok.injEq] at h
    subst h
    refine ⟨fun hc => absurd rfl hc, rfl, ?_⟩
    simp [dlBursts]
  | cons c rest ih =>
    intro st agg h
    obtain ⟨x, txParams2, psduMap, hb, hi, hrest⟩ := dlAggregate_step env s c rest st agg h
    have hih := ih _ _ hrest
    obtain ⟨h1, h2, h3⟩ := hih
    dsimp only at h1 h2 h3
    rw [hb]
    refine ⟨fun _ => ?_, by simp [h2], ?_⟩
    · rcases rest with _ | ⟨c2, rest2⟩
      · simp only [List.length_cons, List.length_nil]; omega
      · have := h1 (by simp)
        simp only [List.length_set, List.length_cons] at this ⊢
        omega
    · obtain ⟨ht, hd⟩ := take_drop_set st.mu_ampdu st.iterator rest.length x hi
      rw [h3, ht, hd]
      have e : st.iterator + (c :: rest).length = st.iterator + 1 + rest.length := by
        simp only [List.length_cons]; omega
      rw [e]
      simp only [List.append_assoc, List.cons_append, List.nil_append]

/-- A commit writes the burst sizes of the served stations in the first entries of
`mu_ampdu` and leaves the entries after them as they were. -/
theorem ComputeDlMuInfo_mu_ampdu (env : Env) (s : State) (info : DlMuInfo) (s' : State)
    (h : ComputeDlMuInfo env s = .ok (info, s')) (hne : s.m_candidates ≠ []) :
    ∃ txParams1,
      (dlBursts env s'.m_candidates txParams1).length = s'.m_candidates.length
        ∧ (s'.m_candidates ≠ [] → s'.m_candidates.length ≤ s.mu_ampdu.length)
        ∧ s'.mu_ampdu = dlBursts env s'.m_candidates txParams1
            ++ s.mu_ampdu.drop s'.m_candidates.length := by
  obtain ⟨tv1, tv, txParams1, agg, staLists, -, -, -, hagg, -, -, hs'⟩ :=
    ComputeDlMuInfo_inv env s info s' h hne
  obtain ⟨h1, h2, h3⟩ := dlAggregate_mu_ampdu env s _ _ _ hagg
  dsimp only at h1 h2 h3
  rw [hs']
  dsimp only
  refine ⟨txParams1, h2, ?_, ?_⟩
  · intro hc
    have := h1 hc
    omega
  · rw [h3]
    simp

/-- C24 fails as stated: the first commit of the three-station example serves two
stations and records the burst size 1 for each, so the sum over the served stations
is 2; the estimate that follows uses the sum of all 18 entries of `mu_ampdu`, which is
114 because the 16 entries the commit did not write still hold the 7 of `DoInitialize`. -/
theorem stale_entries_in_mu_burst :
    ComputeDlMuInfo exampleEnv selectedThree = .ok (committedThreeInfo, committedThree)
      ∧ committedThree.m_candidates.length = 2
      ∧ committedThree.mu_ampdu = 1 :: 1 :: List.replicate 16 7
      ∧ TrySendingDlMuPpdu exampleEnv committedThree = .ok (.DL_MU_TX, selectedThree2)
      ∧ selectedThree2.m_candidates ≠ []
      ∧ selectedThree2.mu_tpt = muEstimate_reference 1000 114 0 6 40 44
      ∧ selectedThree2.mu_tpt ≠ muEstimate_reference 1000 2 0 6 40 44 := by
  have hrun : TrySendingDlMuPpdu exampleEnv committedThree = .ok (.DL_MU_TX, selectedThree2) := by
    with_unfolding_all rfl
  have hl : selectedThree2.m_candidates.length = 2 := by with_unfolding_all rfl
  have hne : selectedThree2.m_candidates ≠ [] := by
    intro h
    rw [h] at hl
    simp at hl
  have hsize : selectedThree2.mpdu_size = 1000 := by with_unfolding_all rfl
  have hmu : selectedThree2.mu_ampdu.sum = 114 := by with_unfolding_all rfl
  have h5 : selectedThree2.mu_Pdl = 0 := by with_unfolding_all rfl
  have h6 : selectedThree2.mu_txdata = 6000 := by with_unfolding_all rfl
  have h7 : selectedThree2.mu_Pul = 40000 := by with_unfolding_all rfl
  have h8 : selectedThree2.mu_Back = 44000 := by with_unfolding_all rfl
  have hus : (GetMicroSeconds 40000 = 40) ∧ (GetMicroSeconds 6000 = 6)
      ∧ (GetMicroSeconds 44000 = 44) ∧ (GetMicroSeconds 0 = 0) := by
    unfold GetMicroSeconds; decide
  obtain ⟨sel, -, -, hest⟩ := TrySendingDlMuPpdu_estimate exampleEnv committedThree
    selectedThree2.m_candidates .DL_MU_TX selectedThree2 (by with_unfolding_all rfl) hne hrun
  obtain ⟨-, -, -, hm, -⟩ := dlEstimate_decision _ _ _ _ _ hest
  have hval : selectedThree2.mu_tpt = muEstimate_reference 1000 114 0 6 40 44 := by
    rw [hm, muThroughput_eq_reference selectedThree2 (by rw [hmu]; norm_num)
      (by rw [hsize, hmu]; norm_num), hsize, hmu, h5, h6, h7, h8, hus.1, hus.2.1, hus.2.2.1,
      hus.2.2.2]
    norm_num
  refine ⟨by with_unfolding_all rfl, by with_unfolding_all rfl, by with_unfolding_all rfl,
    hrun, hne, hval, ?_⟩
  rw [hval]
  unfold muEstimate_reference
  norm_num

/-- C24, amended: the burst count used in the MU estimate is the sum of all entries of
`mu_ampdu`. After a commit that served `k` stations these are the `k` burst sizes the
commit recorded for them, followed by the entries from index `k` on, which the commit
left as they were; the estimation that follows does not change the vector. -/
theorem mu_burst_count (env env2 : Env) (s : State) (info : DlMuInfo) (s1 : State)
    (cands : List CandidateInfo) (fmt : TxFormat) (s2 : State)
    (hcommit : ComputeDlMuInfo env s = .ok (info, s1)) (hne : s.m_candidates ≠ [])
    (hfound : dlCandidatesFound env2 s1 = .ok cands) (hne2 : cands ≠ [])
    (hres : TrySendingDlMuPpdu env2 s1 = .ok (fmt, s2)) :
    ∃ txParams1,
      (dlBursts env s1.m_candidates txParams1).length = s1.m_candidates.length
        ∧ s1.mu_ampdu = dlBursts env s1.m_candidates txParams1
            ++ s.mu_ampdu.drop s1.m_candidates.length
        ∧ s2.mu_ampdu = s1.mu_ampdu
        ∧ s2.mu_tpt = muThroughput s2
        ∧ s2.mu_ampdu.sum = (dlBursts env s1.m_candidates txParams1).sum
            + (s.mu_ampdu.drop s1.m_candidates.length).sum := by
  obtain ⟨txParams1, h1, -, h3⟩ := ComputeDlMuInfo_mu_ampdu env s info s1 hcommit hne
  obtain ⟨sel, -, -, hest⟩ := TrySendingDlMuPpdu_estimate env2 s1 cands fmt s2 hfound hne2 hres
  obtain ⟨-, -, -, hm, -⟩ := dlEstimate_decision _ _ _ _ _ hest
  have hf := (dlEstimate_fields env2 _ sel fmt s2 hest).2.2.2.2.2.2.2.2.2
  have hkeep : s2.mu_ampdu = s1.mu_ampdu := by rw [hf]; rfl
  refine ⟨txParams1, h1, h3, hkeep, hm, ?_⟩
  rw [hkeep, h3, List.sum_append]

/-- Witness of C24: the first commit of the three-station example followed by the
estimation of the second round. -/
theorem mu_burst_count_witness :
    ∃ txParams1,
      (dlBursts exampleEnv committedThree.m_candidates txParams1).length
          = committedThree.m_candidates.length
        ∧ committedThree.mu_ampdu = dlBursts exampleEnv committedThree.m_candidates txParams1
            ++ selectedThree.mu_ampdu.drop committedThree.m_candidates.length
        ∧ selectedThree2.mu_ampdu = committedThree.mu_ampdu
        ∧ selectedThree2.mu_tpt = muThroughput selectedThree2
        ∧ selectedThree2.mu_ampdu.sum
            = (dlBursts exampleEnv committedThree.m_candidates txParams1).sum
              + (selectedThree.mu_ampdu.drop committedThree.m_candidates.length).sum :=
  mu_burst_count exampleEnv exampleEnv selectedThree committedThreeInfo committedThree
    selectedThree2.m_candidates .DL_MU_TX selectedThree2 (by with_unfolding_all rfl)
    (by
      intro h
      have hl : selectedThree.m_candidates.length = 2 := by with_unfolding_all rfl
      rw [h] at hl
      simp at hl)
    (by with_unfolding_all rfl)
    (by
      intro h
      have hl : selectedThree2.m_candidates.length = 2 := by with_unfolding_all rfl
      rw [h] at hl
      simp at hl)
    (by with_unfolding_all rfl)

/-! ## C25: the MU duration components -/

/-- The MU duration components after an estimation with at least one candidate: the
data duration, the acknowledgment duration and the uplink preamble are those of the
trial allocation validated by the selection; `mu_Pdl` is not assigned. -/
theorem TrySendingDlMuPpdu_mu_components (env : Env) (s : State)
    (cands : List CandidateInfo) (fmt : TxFormat) (s' : State)
    (hfound : dlCandidatesFound env s = .ok cands) (hne : cands ≠ [])
    (hres : TrySendingDlMuPpdu env s = .ok (fmt, s')) :
    ∃ ack resp, responseTxVector s'.m_txParams = .ok (ack, resp)
      ∧ s'.mu_txdata = s'.m_txParams.m_txDuration
      ∧ s'.mu_Back = ack.acknowledgmentTime
      ∧ s'.mu_Pul = env.CalculatePhyPreambleAndHeaderDuration resp
      ∧ s'.mu_Pdl = s.mu_Pdl := by
  obtain ⟨sel, -, -, hest⟩ := TrySendingDlMuPpdu_estimate env s cands fmt s' hfound hne hres
  obtain ⟨ack, resp, ampdu, s3, hr, hsu, hdec⟩ := dlEstimate_inv env _ sel fmt s' hest
  obtain ⟨m, a, t, u, -, hs1⟩ := dlDecide_state s3 ampdu sel.mpdu fmt s' hdec
  refine ⟨ack, resp, ?_⟩
  rcases calculate_su_mpdu_inv env _ ampdu s3 hsu with ⟨-, -, hs3⟩
    | ⟨c, rest, tv, mpdu, txParams, ack2, resp2, -, -, -, -, -, -, hs3⟩
  · subst hs1; subst hs3
    exact ⟨hr, rfl, rfl, rfl, rfl⟩
  · subst hs1; subst hs3
    exact ⟨hr, rfl, rfl, rfl, rfl⟩

/-- The code at the failing input of C25: in the three-station example the estimation
finds two candidates; the preamble-and-header duration of the trial TX vector is 40
microseconds, but the MU downlink preamble entering the estimate is 0, the value it had
before the call. The other three MU components are those of the trial allocation. -/
theorem mu_downlink_preamble_not_recorded :
    TrySendingDlMuPpdu exampleEnv threeStations = .ok (.DL_MU_TX, selectedThree)
      ∧ selectedThree.m_candidates.length = 2
      ∧ exampleEnv.CalculatePhyPreambleAndHeaderDuration selectedThree.m_txParams.m_txVector
          = 40000
      ∧ selectedThree.mu_Pdl = 0 ∧ threeStations.mu_Pdl = 0
      ∧ selectedThree.mu_txdata = selectedThree.m_txParams.m_txDuration
      ∧ responseTxVector selectedThree.m_txParams = .ok (⟨44000, [WifiTxVector.default]⟩,
          WifiTxVector.default)
      ∧ selectedThree.mu_Back = 44000
      ∧ selectedThree.mu_Pul
          = exampleEnv.CalculatePhyPreambleAndHeaderDuration WifiTxVector.default
      ∧ selectedThree.mu_tpt = muEstimate_reference 1000 126 0 6 40 44
      ∧ selectedThree.mu_tpt ≠ muEstimate_reference 1000 126 40 6 40 44 := by
  have hrun : TrySendingDlMuPpdu exampleEnv threeStations = .ok (.DL_MU_TX, selectedThree) := by
    with_unfolding_all rfl
  have hl : selectedThree.m_candidates.length = 2 := by with_unfolding_all rfl
  have hne : selectedThree.m_candidates ≠ [] := by
    intro h
    rw [h] at hl
    simp at hl
  have hsize : selectedThree.mpdu_size = 1000 := by with_unfolding_all rfl
  have hmu : selectedThree.mu_ampdu.sum = 126 := by with_unfolding_all rfl
  have h5 : selectedThree.mu_Pdl = 0 := by with_unfolding_all rfl
  have h6 : selectedThree.mu_txdata = 6000 := by with_unfolding_all rfl
  have h7 : selectedThree.mu_Pul = 40000 := by with_unfolding_all rfl
  have h8 : selectedThree.mu_Back = 44000 := by with_unfolding_all rfl
  have hus : (GetMicroSeconds 40000 = 40) ∧ (GetMicroSeconds 6000 = 6)
      ∧ (GetMicroSeconds 44000 = 44) ∧ (GetMicroSeconds 0 = 0) := by
    unfold GetMicroSeconds; decide
  obtain ⟨sel, -, -, hest⟩ := TrySendingDlMuPpdu_estimate exampleEnv threeStations
    selectedThree.m_candidates .DL_MU_TX selectedThree (by with_unfolding_all rfl) hne hrun
  obtain ⟨-, -, -, hm, -⟩ := dlEstimate_decision _ _ _ _ _ hest
  have hval : selectedThree.mu_tpt = muEstimate_reference 1000 126 0 6 40 44 := by
    rw [hm, muThroughput_eq_reference selectedThree (by rw [hmu]; norm_num)
      (by rw [hsize, hmu]; norm_num), hsize, hmu, h5, h6, h7, h8, hus.1, hus.2.1, hus.2.2.1,
      hus.2.2.2]
    norm_num
  refine ⟨hrun, hl, by with_unfolding_all rfl, h5, by with_unfolding_all rfl,
    by with_unfolding_all rfl, by with_unfolding_all rfl, h8, by with_unfolding_all rfl,
    hval, ?_⟩
  rw [hval]
  unfold muEstimate_reference
  norm_num

/-! ## C26: the one-station trial of the SU estimation -/

/-- On a 40 MHz channel the tables for 20, 40 and 80 MHz are those of the example
environment. -/
theorem heTables_40 :
    (∀ n < 40, heEqualSizedRus 40 (n + 1) = ns3EqualSizedRus 40 (n + 1))
      ∧ (∀ t, heRusOfType 40 t = ns3RusOfType 40 t)
      ∧ (∀ t, heCentral26TonesRus 40 t = ns3Central26TonesRus 40 t) := by
  refine ⟨by decide, ?_, ?_⟩
  · intro t; cases t <;> rfl
  · intro t; cases t <;> rfl

/-- The one-station trial of `calculate_su_mpdu`, for every environment: with an empty
SU candidate list the call returns 0 and changes nothing; otherwise only the first
candidate is looked at, and its station is put on an RU of the literal type
`RU_484_TONE` before `AssignRuIndices` and `TryAddMpdu` are called. The RU type returned
by `GetEqualSizedRusForStations` does not enter the trial. -/
theorem calculate_su_mpdu_trial (env : Env) (s : State) (ampdu : Nat) (s' : State)
    (h : calculate_su_mpdu env s = .ok (ampdu, s')) :
    (s.m_candidates2 = [] ∧ ampdu = 0 ∧ s' = s)
      ∨ ∃ c rest info mode nss tv mpdu txParams,
          s.m_candidates2 = c :: rest ∧ s.deref c = .ok info
            ∧ AssignRuIndices env
                (({ WifiTxVector.default with
                    preamble := s.m_txParams2.m_txVector.preamble
                    channelWidth := s.m_txParams2.m_txVector.channelWidth
                    guardInterval := s.m_txParams2.m_txVector.guardInterval
                    bssColor := s.m_txParams2.m_txVector.bssColor } :
                      WifiTxVector).SetHeMuUserInfo
                  info.aid ⟨⟨.RU_484_TONE, 1, false⟩, mode, nss⟩) = .ok tv
            ∧ c.mpdu = some mpdu
            ∧ env.TryAddMpdu mpdu { WifiTxParameters.Clear with m_txVector := tv } (suTime env)
                = some txParams := by
  rcases calculate_su_mpdu_inv env s ampdu s' h with ⟨hc, h0, hs⟩
    | ⟨c, rest, tv, mpdu, txParams, ack, resp, hc, htv, hm, hadd, -, -, -⟩
  · exact Or.inl ⟨hc, h0, hs⟩
  · refine Or.inr ?_
    unfold suFinalTxVector at htv
    cases hd : s.deref c with
    | error e => rw [hd] at htv; simp at htv
    | ok info =>
      rw [hd] at htv
      dsimp only at htv
      cases hmode : s.m_txParams2.m_txVector.GetMode info.aid with
      | error e => rw [hmode] at htv; simp at htv
      | ok mode =>
        rw [hmode] at htv
        dsimp only at htv
        cases hnss : s.m_txParams2.m_txVector.GetNss info.aid with
        | error e => rw [hnss] at htv; simp at htv
        | ok nss =>
          rw [hnss] at htv
          dsimp only at htv
          exact ⟨c, rest, info, mode, nss, tv, mpdu, txParams, hc, hd, htv, hm, hadd⟩

/-- The code at the failing inputs of C26, the three-station example on a 20 MHz and on
an 80 MHz channel. On 20 MHz the partitioner gives one station a 242-tone RU and there
is no 484-tone RU: the selection finds two candidates and the SU estimation ends the
call in `AssignRuIndices`. On 80 MHz the partitioner gives one station a 996-tone RU,
and the one-station trial of the SU estimation puts the station on a 484-tone RU. -/
theorem su_trial_ru_is_484_tone :
    (heEqualSizedRus 20 1).1 = .RU_242_TONE ∧ heRusOfType 20 .RU_484_TONE = []
      ∧ dlCandidatesFound (widthEnv 20) threeStations
          = .ok [⟨.AC_BE, 0, some (exampleFrame 101 3)⟩, ⟨.AC_BE, 1, some (exampleFrame 102 3)⟩]
      ∧ suTrialTxVector (widthEnv 20) threeStations = .error .assertion
      ∧ TrySendingDlMuPpdu (widthEnv 20) threeStations = .error .assertion
      ∧ (heEqualSizedRus 80 1).1 = .RU_996_TONE
      ∧ ruTypesOf (suTrialTxVector (widthEnv 80) threeStations) = .ok [.RU_484_TONE]
      ∧ (TrySendingDlMuPpdu (widthEnv 80) threeStations).map Prod.fst = .ok .DL_MU_TX
      ∧ (heEqualSizedRus 40 1).1 = .RU_484_TONE
      ∧ ruTypesOf (suTrialTxVector (widthEnv 40) threeStations) = .ok [.RU_484_TONE] :=
  ⟨by decide, by decide, by with_unfolding_all rfl, by with_unfolding_all rfl,
    by with_unfolding_all rfl, by decide, by with_unfolding_all rfl, by with_unfolding_all rfl,
    by decide, by with_unfolding_all rfl⟩

/-! ## C27: the assignment of RU indices -/

theorem ruSetInsert_main (m : RuType) (a b : Bool) :
    ruSetInsert m (ruSetOf m a b) = ruSetOf m true b := by
  cases m <;> cases a <;> cases b <;> rfl

theorem ruSetInsert_26 (m : RuType) (a b : Bool) :
    ruSetInsert .RU_26_TONE (ruSetOf m a b) = ruSetOf m a true := by
  cases m <;> cases a <;> cases b <;> rfl

/-- The set of RU types `AssignRuIndices` collects from users that carry the type `m`
or the 26-tone type. -/
theorem ruTypeSet_eq (m : RuType) :
    ∀ (users : List (Nat × HeMuUserInfo)) (a b : Bool),
      (∀ p ∈ users, p.2.ru.ruType = m ∨ p.2.ru.ruType = .RU_26_TONE) →
      users.foldl (fun acc p => ruSetInsert p.2.ru.ruType acc) (ruSetOf m a b)
        = ruSetOf m (a || users.any (fun p => p.2.ru.ruType = m))
            (b || users.any (fun p => p.2.ru.ruType = .RU_26_TONE)) := by
  intro users
  induction users with
  | nil => intro a b _; simp
  | cons p rest ih =>
    intro a b h
    have hp := h p (List.mem_cons_self _ _)
    have hrest : ∀ q ∈ rest, q.2.ru.ruType = m ∨ q.2.ru.ruType = .RU_26_TONE :=
      fun q hq => h q (List.mem_cons_of_mem _ hq)
    simp only [List.foldl_cons, List.any_cons]
    by_cases hm : p.2.ru.ruType = m
    · rw [hm, ruSetInsert_main, ih _ _ hrest]
      by_cases h26 : m = .RU_26_TONE
      · subst h26
        cases a <;> cases b <;> simp [ruSetOf]
      · have : ¬ (RuType.RU_26_TONE = m) := fun e => h26 e.symm
        simp [this, h26]
    · have h26 : p.2.ru.ruType = .RU_26_TONE := hp.resolve_left hm
      rw [h26, ruSetInsert_26, ih _ _ hrest]
      have : ¬ (RuType.RU_26_TONE = m) := fun e => hm (h26.trans e)
      simp [this]

/-- On a user map with pairwise distinct STA-IDs `SetRu` changes the RU of the one
user with the given STA-ID. -/
theorem SetRu_users (tv : WifiTxVector) (ru : RuSpec) (staId : Nat) (u : HeMuUserInfo)
    (pre post : List (Nat × HeMuUserInfo)) (h : tv.users = pre ++ (staId, u) :: post)
    (hk : (tv.users.map Prod.fst).Nodup) :
    tv.SetRu ru staId = { tv with users := pre ++ (staId, { u with ru := ru }) :: post } := by
  unfold WifiTxVector.SetRu
  rw [h] at hk ⊢
  simp only [List.map_append, List.map_cons] at hk ⊢
  rw [List.nodup_append] at hk
  obtain ⟨-, hpost, hdis⟩ := hk
  have hpre : ∀ p ∈ pre, p.1 ≠ staId := by
    intro p hp e
    exact hdis (List.mem_map_of_mem Prod.fst hp) (by rw [e]; exact List.mem_cons_self _ _)
  have hpost2 : ∀ p ∈ post, p.1 ≠ staId := by
    intro p hp e
    rw [List.nodup_cons] at hpost
    exact hpost.1 (by rw [← e]; exact List.mem_map_of_mem Prod.fst hp)
  have e1 : pre.map (fun p => if p.1 = staId then (p.1, { p.2 with ru := ru }) else p) = pre := by
    conv_rhs => rw [← List.map_id pre]
    apply List.map_congr_left
    intro p hp
    rw [if_neg (hpre p hp)]; rfl
  have e2 : post.map (fun p => if p.1 = staId then (p.1, { p.2 with ru := ru }) else p) = post := by
    conv_rhs => rw [← List.map_id post]
    apply List.map_congr_left
    intro p hp
    rw [if_neg (hpost2 p hp)]; rfl
  rw [e1, e2]
  simp

/-- The assignment loop of `AssignRuIndices` on a user map with pairwise distinct
STA-IDs: when it returns, the users still to visit have been replaced by the assignment
of the reference definition and nothing else has changed. -/
theorem assignLoop_eq_reference (mainType : RuType) :
    ∀ (users : List (Nat × HeMuUserInfo)) (ruSet central : List RuSpec)
      (pre : List (Nat × HeMuUserInfo)) (tv : WifiTxVector),
      tv.users = pre ++ users → (tv.users.map Prod.fst).Nodup →
      (users.filter (fun p => p.2.ru.ruType = mainType)).length ≤ ruSet.length →
      (users.filter (fun p => !decide (p.2.ru.ruType = mainType))).length ≤ central.length →
      assignLoop mainType users ruSet central tv
        = .ok { tv with users := pre ++ assign_reference mainType users ruSet central } := by
  intro users
  induction users with
  | nil =>
    intro ruSet central pre tv h _ _ _
    unfold assignLoop assign_reference
    rw [← h]
  | cons p rest ih =>
    intro ruSet central pre tv h hk h1 h2
    obtain ⟨staId, u⟩ := p
    unfold assignLoop assign_reference
    by_cases hm : u.ru.ruType = mainType
    · rw [if_pos hm, if_pos hm]
      cases ruSet with
      | nil => simp [List.filter_cons, hm] at h1
      | cons ru ruSet' =>
        dsimp only
        have hs := SetRu_users tv ru staId u pre rest h hk
        have hu : (tv.SetRu ru staId).users = (pre ++ [(staId, { u with ru := ru })]) ++ rest := by
          rw [hs]; simp
        have hk' : ((tv.SetRu ru staId).users.map Prod.fst).Nodup := by
          rw [SetRu_keys]; exact hk
        rw [ih ruSet' central (pre ++ [(staId, { u with ru := ru })]) (tv.SetRu ru staId) hu hk'
          (by simp [List.filter_cons, hm] at h1; exact h1)
          (by simp [List.filter_cons, hm] at h2; exact h2)]
        rw [hs]
        simp
    · rw [if_neg hm, if_neg hm]
      cases central with
      | nil => simp [List.filter_cons, hm] at h2
      | cons ru central' =>
        dsimp only
        have hs := SetRu_users tv ru staId u pre rest h hk
        have hu : (tv.SetRu ru staId).users = (pre ++ [(staId, { u with ru := ru })]) ++ rest := by
          rw [hs]; simp
        have hk' : ((tv.SetRu ru staId).users.map Prod.fst).Nodup := by
          rw [SetRu_keys]; exact hk
        rw [ih ruSet central' (pre ++ [(staId, { u with ru := ru })]) (tv.SetRu ru staId) hu hk'
          (by simp [List.filter_cons, hm] at h1; exact h1)
          (by simp [List.filter_cons, hm] at h2; exact h2)]
        rw [hs]
        simp

/-- What the reference assignment gives when there are enough RUs of the right types:
the STA-IDs, the modulation and the RU type of every user are kept, the users of the
main type hold the first RUs of `ruSet` in order, the others the first RUs of
`central` in order. -/
theorem assign_reference_props (m : RuType) :
    ∀ (users : List (Nat × HeMuUserInfo)) (ruSet central : List RuSpec),
      (users.filter (fun p => p.2.ru.ruType = m)).length ≤ ruSet.length →
      (users.filter (fun p => !decide (p.2.ru.ruType = m))).length ≤ central.length →
      (∀ ru ∈ ruSet, ru.ruType = m) →
      (∀ ru ∈ central, ru.ruType = .RU_26_TONE ∧ ru.ruType ≠ m) →
      (∀ p ∈ users, p.2.ru.ruType = m ∨ p.2.ru.ruType = .RU_26_TONE) →
      (assign_reference m users ruSet central).map Prod.fst = users.map Prod.fst
        ∧ (assign_reference m users ruSet central).map (fun p => (p.2.mcs, p.2.nss))
            = users.map (fun p => (p.2.mcs, p.2.nss))
        ∧ (assign_reference m users ruSet central).map (fun p => p.2.ru.ruType)
            = users.map (fun p => p.2.ru.ruType)
        ∧ ((assign_reference m users ruSet central).map (fun p => p.2.ru)).filter
              (fun r => r.ruType = m)
            = ruSet.take (users.filter (fun p => p.2.ru.ruType = m)).length
        ∧ ((assign_reference m users ruSet central).map (fun p => p.2.ru)).filter
              (fun r => !decide (r.ruType = m))
            = central.take (users.filter (fun p => !decide (p.2.ru.ruType = m))).length := by
  intro users
  induction users with
  | nil =>
    intro ruSet central _ _ _ _ _
    simp [assign_reference]
  | cons p rest ih =>
    intro ruSet central h1 h2 ht1 ht2 hu
    obtain ⟨staId, u⟩ := p
    have hrest : ∀ q ∈ rest, q.2.ru.ruType = m ∨ q.2.ru.ruType = .RU_26_TONE :=
      fun q hq => hu q (List.mem_cons_of_mem _ hq)
    have hp := hu (staId, u) (List.mem_cons_self _ _)
    unfold assign_reference
    by_cases hm : u.ru.ruType = m
    · rw [if_pos hm]
      cases ruSet with
      | nil => simp [List.filter_cons, hm] at h1
      | cons ru ruSet' =>
        dsimp only
        have hru : ru.ruType = m := ht1 ru (List.mem_cons_self _ _)
        obtain ⟨i1, i2, i3, i4, i5⟩ := ih ruSet' central
          (by simp [List.filter_cons, hm] at h1; exact h1)
          (by simp [List.filter_cons, hm] at h2; exact h2)
          (fun r hr => ht1 r (List.mem_cons_of_mem _ hr)) ht2 hrest
        refine ⟨by simp [i1], by simp [i2], by simp [i3, hru, hm], ?_, ?_⟩
        · simp only [List.map_cons, List.filter_cons, hru, hm, decide_True, if_true,
            List.length_cons, List.take_succ_cons]
          rw [i4]
        · simp only [List.map_cons, List.filter_cons, hru, hm, decide_True, Bool.not_true,
            Bool.false_eq_true, if_false]
          rw [i5]
    · rw [if_neg hm]
      have h26 : u.ru.ruType = .RU_26_TONE := hp.resolve_left hm
      cases central with
      | nil => simp [List.filter_cons, hm] at h2
      | cons ru central' =>
        dsimp only
        obtain ⟨hru26, hru⟩ := ht2 ru (List.mem_cons_self _ _)
        obtain ⟨i1, i2, i3, i4, i5⟩ := ih ruSet central'
          (by simp [List.filter_cons, hm] at h1; exact h1)
          (by simp [List.filter_cons, hm] at h2; exact h2)
          ht1 (fun r hr => ht2 r (List.mem_cons_of_mem _ hr)) hrest
        refine ⟨by simp [i1], by simp [i2], by simp [i3, hru26, h26], ?_, ?_⟩
        · simp only [List.map_cons, List.filter_cons, hru, hm, decide_False,
            Bool.false_eq_true, if_false]
          rw [i4]
        · simp only [List.map_cons, List.filter_cons, hru, hm, decide_False, Bool.not_false,
            if_true, List.length_cons, List.take_succ_cons]
          rw [i5]

/-- A list is duplicate-free when its elements that satisfy a predicate are and those
that do not are. -/
theorem nodup_of_filter (l : List RuSpec) (p : RuSpec → Bool) (h1 : (l.filter p).Nodup)
    (h2 : (l.filter (fun r => !p r)).Nodup) : l.Nodup := by
  rw [List.nodup_iff_count_le_one] at h1 h2 ⊢
  intro a
  by_cases ha : p a = true
  · have := h1 a
    rwa [List.count_filter ha] at this
  · have hna : (fun r => !p r) a = true := by simp [ha]
    have := h2 a
    rwa [List.count_filter (p := fun r => !p r) hna] at this

theorem ruSetOf_none (m : RuType) : ruSetOf m false false = [] := by
  cases m <;> rfl

/-- The two branches of `AssignRuIndices` on users that carry the type `m` and
optionally the 26-tone type: with both types the loop runs over the RUs of type `m` and
the central 26-tone RUs, with one type over the RUs of type `m` alone. -/
theorem AssignRuIndices_eq_loop (env : Env) (tv : WifiTxVector) (m : RuType)
    (htypes : ∀ p ∈ tv.users, p.2.ru.ruType = m ∨ p.2.ru.ruType = .RU_26_TONE)
    (hmain : ∃ p ∈ tv.users, p.2.ru.ruType = m) :
    (tv.users.filter (fun p => !decide (p.2.ru.ruType = m)) ≠ []
        ∧ AssignRuIndices env tv
          = assignLoop m tv.users (env.GetRusOfType (tv.channelWidth % 256) m)
              (env.GetCentral26TonesRus (tv.channelWidth % 256) m) tv
        ∧ m ≠ .RU_26_TONE)
      ∨ (tv.users.filter (fun p => !decide (p.2.ru.ruType = m)) = []
        ∧ AssignRuIndices env tv
          = assignLoop m tv.users (env.GetRusOfType (tv.channelWidth % 256) m) [] tv) := by
  have hset := ruTypeSet_eq m tv.users false false htypes
  rw [ruSetOf_none] at hset
  have hany : tv.users.any (fun p => p.2.ru.ruType = m) = true := by
    obtain ⟨p, hp, hpm⟩ := hmain
    rw [List.any_eq_true]
    exact ⟨p, hp, by simp [hpm]⟩
  rw [hany] at hset
  simp only [Bool.false_or] at hset
  unfold AssignRuIndices
  dsimp only
  rw [hset]
  by_cases h26 : m = .RU_26_TONE
  · refine Or.inr ⟨?_, ?_⟩
    · rw [List.filter_eq_nil_iff]
      intro p hp
      rcases htypes p hp with h | h
      · simp [h]
      · simp [h, h26]
    · subst h26
      simp [ruSetOf]
  · by_cases hb : tv.users.any (fun p => p.2.ru.ruType = .RU_26_TONE) = true
    · refine Or.inl ⟨?_, ?_, h26⟩
      · rw [List.any_eq_true] at hb
        obtain ⟨p, hp, hp26⟩ := hb
        intro hnil
        rw [List.filter_eq_nil_iff] at hnil
        have := hnil p hp
        simp only [decide_eq_true_eq] at hp26
        rw [hp26] at this
        have hne : ¬ (RuType.RU_26_TONE = m) := fun e => h26 e.symm
        simp [hne] at this
      · rw [hb]
        have hne : ¬ (RuType.RU_26_TONE = m) := fun e => h26 e.symm
        simp [ruSetOf, h26, hne]
    · refine Or.inr ⟨?_, ?_⟩
      · rw [List.filter_eq_nil_iff]
        intro p hp
        rcases htypes p hp with h | h
        · simp [h]
        · exfalso
          apply hb
          rw [List.any_eq_true]
          exact ⟨p, hp, by simp [h]⟩
      · have hb' : tv.users.any (fun p => p.2.ru.ruType = .RU_26_TONE) = false := by
          simpa using hb
        rw [hb']
        simp [ruSetOf, h26]

/-- C27: `AssignRuIndices` on a TX vector whose users (with pairwise distinct STA-IDs)
carry the main RU type `m` and optionally the 26-tone type, when `GetRusOfType` and
`GetCentral26TonesRus` return enough RUs of the right type. The call returns; the
result differs from the argument in the RUs of the users only (channel width and
modulation are kept), with the same STA-IDs and per-user MCS and NSS; every user keeps
the type of its tentative RU; the users of the main type hold, in map order, the first
RUs of `GetRusOfType`, the others the first RUs of `GetCentral26TonesRus`; and when
those two lists are duplicate-free no two users hold the same RU. -/
theorem AssignRuIndices_assigns (env : Env) (tv : WifiTxVector) (m : RuType)
    (hkeys : (tv.users.map Prod.fst).Nodup)
    (htypes : ∀ p ∈ tv.users, p.2.ru.ruType = m ∨ p.2.ru.ruType = .RU_26_TONE)
    (hmain : ∃ p ∈ tv.users, p.2.ru.ruType = m)
    (h1 : (tv.users.filter (fun p => p.2.ru.ruType = m)).length
      ≤ (env.GetRusOfType (tv.channelWidth % 256) m).length)
    (h2 : (tv.users.filter (fun p => !decide (p.2.ru.ruType = m))).length
      ≤ (env.GetCentral26TonesRus (tv.channelWidth % 256) m).length)
    (ht1 : ∀ ru ∈ env.GetRusOfType (tv.channelWidth % 256) m, ru.ruType = m)
    (ht2 : ∀ ru ∈ env.GetCentral26TonesRus (tv.channelWidth % 256) m,
      ru.ruType = .RU_26_TONE) :
    ∃ tv', AssignRuIndices env tv = .ok tv'
      ∧ tv' = { tv with users := tv'.users }
      ∧ tv'.users.map Prod.fst = tv.users.map Prod.fst
      ∧ tv'.users.map (fun p => (p.2.mcs, p.2.nss)) = tv.users.map (fun p => (p.2.mcs, p.2.nss))
      ∧ tv'.users.map (fun p => p.2.ru.ruType) = tv.users.map (fun p => p.2.ru.ruType)
      ∧ (tv'.users.map (fun p => p.2.ru)).filter (fun r => r.ruType = m)
          = (env.GetRusOfType (tv.channelWidth % 256) m).take
              (tv.users.filter (fun p => p.2.ru.ruType = m)).length
      ∧ (tv'.users.map (fun p => p.2.ru)).filter (fun r => !decide (r.ruType = m))
          = (env.GetCentral26TonesRus (tv.channelWidth % 256) m).take
              (tv.users.filter (fun p => !decide (p.2.ru.ruType = m))).length
      ∧ ((env.GetRusOfType (tv.channelWidth % 256) m).Nodup →
          (env.GetCentral26TonesRus (tv.channelWidth % 256) m).Nodup →
          (tv'.users.map (fun p => p.2.ru)).Nodup) := by
  have key : ∀ central : List RuSpec,
      (tv.users.filter (fun p => !decide (p.2.ru.ruType = m))).length ≤ central.length →
      (∀ ru ∈ central, ru.ruType = .RU_26_TONE ∧ ru.ruType ≠ m) →
      central.take (tv.users.filter (fun p => !decide (p.2.ru.ruType = m))).length
        = (env.GetCentral26TonesRus (tv.channelWidth % 256) m).take
            (tv.users.filter (fun p => !decide (p.2.ru.ruType = m))).length →
      AssignRuIndices env tv
        = assignLoop m tv.users (env.GetRusOfType (tv.channelWidth % 256) m) central tv →
      ∃ tv', AssignRuIndices env tv = .ok tv'
        ∧ tv' = { tv with users := tv'.users }
        ∧ tv'.users.map Prod.fst = tv.users.map Prod.fst
        ∧ tv'.users.map (fun p => (p.2.mcs, p.2.nss))
            = tv.users.map (fun p => (p.2.mcs, p.2.nss))
        ∧ tv'.users.map (fun p => p.2.ru.ruType) = tv.users.map (fun p => p.2.ru.ruType)
        ∧ (tv'.users.map (fun p => p.2.ru)).filter (fun r => r.ruType = m)
            = (env.GetRusOfType (tv.channelWidth % 256) m).take
                (tv.users.filter (fun p => p.2.ru.ruType = m)).length
        ∧ (tv'.users.map (fun p => p.2.ru)).filter (fun r => !decide (r.ruType = m))
            = (env.GetCentral26TonesRus (tv.channelWidth % 256) m).take
                (tv.users.filter (fun p => !decide (p.2.ru.ruType = m))).length
        ∧ ((env.GetRusOfType (tv.channelWidth % 256) m).Nodup →
            (env.GetCentral26TonesRus (tv.channelWidth % 256) m).Nodup →
            (tv'.users.map (fun p => p.2.ru)).Nodup) := by
    intro central hc htc htake hloop
    have hrun := assignLoop_eq_reference m tv.users (env.GetRusOfType (tv.channelWidth % 256) m)
      central [] tv (by simp) hkeys h1 hc
    obtain ⟨p1, p2, p3, p4, p5⟩ := assign_reference_props m tv.users
      (env.GetRusOfType (tv.channelWidth % 256) m) central h1 hc ht1 htc htypes
    rw [List.nil_append] at hrun
    refine ⟨_, hloop.trans hrun, rfl, p1, p2, p3, p4, p5.trans htake, ?_⟩
    intro hn1 hn2
    apply nodup_of_filter _ (fun r => r.ruType = m)
    · dsimp only
      rw [p4]
      exact hn1.sublist (List.take_sublist _ _)
    · dsimp only
      rw [p5, htake]
      exact hn2.sublist (List.take_sublist _ _)
  rcases AssignRuIndices_eq_loop env tv m htypes hmain with ⟨-, hloop, hm⟩ | ⟨hnil, hloop⟩
  · exact key _ h2 (fun ru hru => ⟨ht2 ru hru, by rw [ht2 ru hru]; exact fun e => hm e.symm⟩)
      rfl hloop
  · exact key [] (by rw [hnil]; simp) (fun ru hru => by simp at hru)
      (by rw [hnil]; simp) hloop

/-- Witness of C27: two stations on tentative 106-tone RUs and one on a tentative
26-tone RU on the 40 MHz channel of the example environment receive the 106-tone RUs 1
and 2 and the central 26-tone RU 5. -/
theorem AssignRuIndices_assigns_witness :
    AssignRuIndices exampleEnv tentativeThree
        = .ok { tentativeThree with
            users := [(1, ⟨⟨.RU_106_TONE, 1, true⟩, 7, 1⟩), (2, ⟨⟨.RU_26_TONE, 5, true⟩, 5, 2⟩),
              (3, ⟨⟨.RU_106_TONE, 2, true⟩, 3, 1⟩)] }
      ∧ ∃ tv', AssignRuIndices exampleEnv tentativeThree = .ok tv'
          ∧ tv'.users.map Prod.fst = [1, 2, 3]
          ∧ (tv'.users.map (fun p => p.2.ru)).Nodup := by
  obtain ⟨tv', hrun, -, hk, -, -, -, -, hn⟩ :=
    AssignRuIndices_assigns exampleEnv tentativeThree .RU_106_TONE (by decide) (by decide)
      (by decide) (by decide) (by decide) (by decide) (by decide)
  exact ⟨by with_unfolding_all rfl, tv', hrun, hk, hn (by decide) (by decide)⟩

/-! ## C28: the indices written in mu_ampdu -/

/-- A commit returns only if every index at which it records a burst size is inside
`mu_ampdu`: the number of served stations is at most the length of the vector. -/
theorem ComputeDlMuInfo_served_bound (env : Env) (s : State) (info : DlMuInfo) (s' : State)
    (h : ComputeDlMuInfo env s = .ok (info, s')) (hne : s.m_candidates ≠ [])
    (hserved : s'.m_candidates ≠ []) :
    s'.m_candidates.length ≤ s.mu_ampdu.length := by
  obtain ⟨_, -, hle, -⟩ := ComputeDlMuInfo_mu_ampdu env s info s' h hne
  exact hle hserved

/-- The code at the failing input of C28: `NStations` = 19 (inside the range 1 to 74 of
the attribute checker), `UseCentral26TonesRus` enabled, 19 associated stations with a
queued frame each, an 80 MHz channel. `mu_ampdu` has the 18 entries of `DoInitialize`;
the selection finds 19 candidates, the partition of the commit serves 16 + 3 = 19 of
them, and the write of the nineteenth burst size, at index 18, is outside the vector. -/
theorem burst_index_out_of_range :
    nineteenStations.m_nStations = 19 ∧ nineteenStations.mu_ampdu.length = 18
      ∧ TrySendingDlMuPpdu (widthEnv 80) nineteenStations = .ok (.DL_MU_TX, selectedNineteen)
      ∧ selectedNineteen.m_candidates.length = 19
      ∧ selectedNineteen.mu_ampdu.length = 18
      ∧ dlPartition (widthEnv 80) selectedNineteen = (.RU_52_TONE, 16, 3)
      ∧ vectorSet selectedNineteen.mu_ampdu 18 1 = .error .undefinedBehaviour
      ∧ ComputeDlMuInfo (widthEnv 80) selectedNineteen = .error .undefinedBehaviour :=
  ⟨by with_unfolding_all rfl, by with_unfolding_all rfl, by with_unfolding_all rfl,
    by with_unfolding_all rfl, by with_unfolding_all rfl, by with_unfolding_all rfl,
    by with_unfolding_all rfl, by with_unfolding_all rfl⟩

/-! ## C29: the frame size of the estimates -/

/-- The inner loop of the selection leaves in the local `mpdu` the result of its last
queue peek, or the previous value if it made none; it adds a candidate only after a
peek. -/
theorem tryTids_peeks (env : Env) (sta : Node) (rt : RuType) (t : Time) :
    ∀ (tids : List Nat) (st st' : SelState),
      tryTids env sta rt t tids st = .ok st' →
      st'.mpdu = ((tryTidsPeeks env sta rt t tids st).getLast?).getD st.mpdu
        ∧ (tryTidsPeeks env sta rt t tids st = [] → st'.candidates = st.candidates) := by
  intro tids
  induction tids with
  | nil =>
    intro st st' h
    unfold tryTids at h
    simp only [Except.ok.injEq] at h
    subst h
    simp [tryTidsPeeks]
  | cons tid rest ih =>
    intro st st' h
    unfold tryTids at h
    unfold tryTidsPeeks
    dsimp only at h ⊢
    by_cases hac : (env.QosUtilsMapTidToAc tid).priority < env.primaryAc.priority
    · rw [if_pos hac] at h; simp at h
    rw [if_neg hac] at h ⊢
    by_cases hba : env.GetBaAgreementEstablished (env.QosUtilsMapTidToAc tid)
        sta.info.address tid = true
    · rw [if_pos hba] at h ⊢
      cases hpeek : env.PeekNextMpdu (env.QosUtilsMapTidToAc tid) tid sta.info.address with
      | none =>
        rw [hpeek] at h
        dsimp only at h ⊢
        obtain ⟨i1, -⟩ := ih _ _ h
        refine ⟨?_, fun hnil => by simp at hnil⟩
        rw [i1, List.getLast?_cons]
        cases (tryTidsPeeks env sta rt t rest { st with mpdu := none }).getLast? <;> rfl
      | some mpdu =>
        rw [hpeek] at h
        dsimp only at h ⊢
        cases hadd : env.TryAddMpdu mpdu _ t with
        | none =>
          rw [hadd] at h
          dsimp only at h ⊢
          obtain ⟨i1, -⟩ := ih _ _ h
          refine ⟨?_, fun hnil => by simp at hnil⟩
          rw [i1, List.getLast?_cons]
          cases (tryTidsPeeks env sta rt t rest _).getLast? <;> rfl
        | some txParams' =>
          rw [hadd] at h
          dsimp only at h ⊢
          simp only [Except.ok.injEq] at h
          subst h
          exact ⟨rfl, fun hnil => by simp at hnil⟩
    · rw [if_neg hba] at h ⊢
      exact ih _ _ h

theorem getLast?_append_getD {α : Type} (l1 l2 : List α) (d : α) :
    ((l1 ++ l2).getLast?).getD d = (l2.getLast?).getD ((l1.getLast?).getD d) := by
  rw [List.getLast?_append]
  cases l2.getLast? <;> simp

/-- The selection loop leaves in the local `mpdu` the result of its last queue peek, or
the previous value if it made none; it adds a candidate only after a peek. -/
theorem selectLoop_peeks (env : Env) (nStations count nCentral : Nat) (rt : RuType)
    (t : Time) (tids : List Nat) :
    ∀ (l : List Node) (st st' : SelState),
      selectLoop env nStations count nCentral rt t tids l st = .ok st' →
      st'.mpdu = ((selectPeeks env nStations count nCentral rt t tids l st).getLast?).getD st.mpdu
        ∧ (selectPeeks env nStations count nCentral rt t tids l st = [] →
            st'.candidates = st.candidates) := by
  intro l
  induction l with
  | nil =>
    intro st st' h
    unfold selectLoop at h
    simp only [Except.ok.injEq] at h
    subst h
    simp [selectPeeks]
  | cons sta rest ih =>
    intro st st' h
    unfold selectLoop at h
    unfold selectPeeks
    by_cases hb : st.candidates.length < max nStations (count + nCentral)
    · rw [if_pos hb] at h ⊢
      dsimp only at h ⊢
      cases htry : tryTids env sta (if st.candidates.length < count then rt else RuType.RU_26_TONE)
          t tids st with
      | error e => rw [htry] at h; simp at h
      | ok st1 =>
        rw [htry] at h
        dsimp only at h ⊢
        obtain ⟨a1, a2⟩ := tryTids_peeks env sta _ t tids st st1 htry
        obtain ⟨b1, b2⟩ := ih st1 st' h
        refine ⟨?_, ?_⟩
        · rw [getLast?_append_getD, b1, a1]
        · intro hnil
          rw [List.append_eq_nil] at hnil
          rw [b2 hnil.2, a2 hnil.1]
    · rw [if_neg hb] at h ⊢
      simp only [Except.ok.injEq] at h
      subst h
      simp

/-- The selection of `TrySendingDlMuPpdu` leaves in the local `mpdu` the result of the
last queue peek of its loop, and it finds a candidate only if the loop made a peek. -/
theorem dlSelect_peeks (env : Env) (s : State) (sel : SelState)
    (h : dlSelect env (s.touchStaList env.primaryAc) = .ok sel) :
    sel.mpdu = ((dlPeeks env s).getLast?).getD env.edcaPeekNextMpdu
      ∧ (dlPeeks env s = [] → sel.candidates = []) := by
  unfold dlSelect at h
  unfold dlPeeks
  dsimp only at h ⊢
  by_cases hc : (env.GetEqualSizedRusForStations env.channelWidth
      (min ((s.touchStaList env.primaryAc).m_nStations % 256)
        ((s.touchStaList env.primaryAc).staList env.primaryAc).length)).2.1 < 1
  · rw [if_pos hc] at h; simp at h
  · rw [if_neg hc] at h
    exact selectLoop_peeks env _ _ _ _ _ _ _ _ sel h

theorem dlDecide_mpdu_size (x : State) (ampdu : Nat) (mpdu : Option WifiMacQueueItem)
    (fmt : TxFormat) (s1 : State) (h : dlDecide x ampdu mpdu = .ok (fmt, s1)) :
    (∀ f, mpdu = some f → s1.mpdu_size = f.size % 2 ^ 32)
      ∧ (mpdu = none → s1.mpdu_size = x.mpdu_size) := by
  unfold dlDecide at h
  dsimp only at h
  by_cases hq : (!x.que) = true
  · rw [if_pos hq] at h; simp at h
  rw [if_neg hq] at h
  cases mpdu with
  | none =>
    dsimp only at h
    split_ifs at h
    all_goals
      simp only [Except.ok.injEq, Prod.mk.injEq] at h
      obtain ⟨-, hs⟩ := h
      subst hs
      exact ⟨fun f hf => by simp at hf, fun _ => rfl⟩
  | some f =>
    dsimp only at h
    split_ifs at h
    all_goals
      simp only [Except.ok.injEq, Prod.mk.injEq] at h
      obtain ⟨-, hs⟩ := h
      subst hs
      exact ⟨fun g hg => by simp only [Option.some.injEq] at hg; subst hg; rfl,
        fun hn => by simp at hn⟩

/-- C29: whenever the selection of `TrySendingDlMuPpdu` has found a candidate and the
call returns, the selection loop has made at least one queue peek, and the frame size
that enters both estimates is the size of the frame the last of these peeks returned,
whether or not that frame became a candidate; if the last peek returned no frame, the
frame size is the one the state held before the call. -/
theorem frame_size_from_last_peek (env : Env) (s : State) (cands : List CandidateInfo)
    (fmt : TxFormat) (s' : State)
    (hfound : dlCandidatesFound env s = .ok cands) (hne : cands ≠ [])
    (hres : TrySendingDlMuPpdu env s = .ok (fmt, s')) :
    ∃ last, (dlPeeks env s).getLast? = some last
      ∧ (∀ mpdu, last = some mpdu → s'.mpdu_size = mpdu.size % 2 ^ 32)
      ∧ (last = none → s'.mpdu_size = s.mpdu_size)
      ∧ s'.su_tpt = suThroughput s' ∧ s'.mu_tpt = muThroughput s' := by
  obtain ⟨sel, hsel, hc, hest⟩ := TrySendingDlMuPpdu_estimate env s cands fmt s' hfound hne hres
  obtain ⟨hm, hnil⟩ := dlSelect_peeks env s sel hsel
  obtain ⟨-, -, hsu, hmu, -⟩ := dlEstimate_decision _ _ _ _ _ hest
  obtain ⟨ack, resp, ampdu, s3, -, hcalc, hdec⟩ := dlEstimate_inv env _ sel fmt s' hest
  obtain ⟨d1, d2⟩ := dlDecide_mpdu_size s3 ampdu sel.mpdu fmt s' hdec
  have hs3 : s3.mpdu_size = s.mpdu_size := by
    rcases calculate_su_mpdu_inv env _ ampdu s3 hcalc with ⟨-, -, hs3⟩
      | ⟨c, rest, tv, mpdu, txParams, ack2, resp2, -, -, -, -, -, -, hs3⟩
    · rw [hs3]; rfl
    · rw [hs3]; rfl
  cases hlast : (dlPeeks env s).getLast? with
  | none =>
    rw [List.getLast?_eq_none_iff] at hlast
    exact absurd (hc ▸ hnil hlast) hne
  | some last =>
    rw [hlast] at hm
    simp only [Option.getD_some] at hm
    refine ⟨last, rfl, ?_, ?_, hsu, hmu⟩
    · intro mpdu hl
      exact d1 mpdu (by rw [hm, hl])
    · intro hl
      rw [d2 (by rw [hm, hl]), hs3]

/-- Witness of C29: three stations with frames of 101, 102 and 103 bytes; the first two
frames are accepted and become the candidates, the third is peeked last and rejected.
The frame size that enters the estimates is 103, the size of no candidate's frame. -/
theorem frame_size_from_last_peek_witness :
    TrySendingDlMuPpdu rejectLastEnv threeWide = .ok (.DL_MU_TX, selectedRejectLast)
      ∧ selectedRejectLast.m_candidates.map (fun c => c.mpdu.map (fun f => f.size))
          = [some 101, some 102]
      ∧ (dlPeeks rejectLastEnv threeWide).map (fun o => o.map (fun f => f.size))
          = [some 101, some 102, some 103]
      ∧ selectedRejectLast.mpdu_size = 103
      ∧ ∃ last, (dlPeeks rejectLastEnv threeWide).getLast? = some last
          ∧ (∀ mpdu, last = some mpdu → selectedRejectLast.mpdu_size = mpdu.size % 2 ^ 32)
          ∧ (last = none → selectedRejectLast.mpdu_size = threeWide.mpdu_size)
          ∧ selectedRejectLast.su_tpt = suThroughput selectedRejectLast
          ∧ selectedRejectLast.mu_tpt = muThroughput selectedRejectLast := by
  have hl : selectedRejectLast.m_candidates.length = 2 := by with_unfolding_all rfl
  exact ⟨by with_unfolding_all rfl, by with_unfolding_all rfl, by with_unfolding_all rfl,
    by with_unfolding_all rfl,
    frame_size_from_last_peek rejectLastEnv threeWide selectedRejectLast.m_candidates .DL_MU_TX
      selectedRejectLast (by with_unfolding_all rfl)
      (by
        intro h
        rw [h] at hl
        simp at hl)
      (by with_unfolding_all rfl)⟩

/-! ## C30: credit conservation -/

theorem debitedBandwidth_succ (env : Env) (rt : RuType) (nRus k i : Nat) :
    debitedBandwidth env rt nRus (k + 1) i
      = env.GetBandwidth (if i < nRus then rt else .RU_26_TONE)
        + debitedBandwidth env rt nRus k (i + 1) := rfl

theorem updateNode_sum (id : Nat) (d : ℚ) :
    ∀ (l l' : List Node),
      updateNode id (fun info => { info with credits := info.credits - d }) l = some l' →
      creditSum l' = creditSum l - d := by
  intro l
  induction l with
  | nil => intro l' h; simp [updateNode] at h
  | cons n rest ih =>
    intro l' h
    unfold updateNode at h
    by_cases hid : n.id = id
    · rw [if_pos hid] at h
      simp only [Option.some.injEq] at h
      subst h
      simp only [creditSum, List.map_cons, List.sum_cons]
      ring
    · rw [if_neg hid] at h
      cases hu : updateNode id (fun info => { info with credits := info.credits - d }) rest with
      | none => rw [hu] at h; simp at h
      | some r' =>
        rw [hu] at h
        simp only [Option.map_some', Option.some.injEq] at h
        subst h
        have := ih r' hu
        simp only [creditSum, List.map_cons, List.sum_cons] at this ⊢
        rw [this]
        ring

/-- The debit loop lowers the sum of the credits of the candidates' station list by
the debit per MHz times the bandwidth it charges. -/
theorem debitLoop_sum (env : Env) (dpm : ℚ) (rt : RuType) (nRus : Nat) (ac : AcIndex) :
    ∀ (k i : Nat) (cs : List CandidateInfo) (m m' : AcIndex → Option (List Node)),
      (∀ c ∈ cs, c.ac = ac) →
      debitLoop env dpm rt nRus k i cs m = .ok m' →
      creditSum ((m' ac).getD [])
        = creditSum ((m ac).getD []) - dpm * (debitedBandwidth env rt nRus k i : ℚ) := by
  intro k
  induction k with
  | zero =>
    intro i cs m m' _ h
    unfold debitLoop at h
    simp only [Except.ok.injEq] at h
    subst h
    simp [debitedBandwidth]
  | succ k ih =>
    intro i cs m m' hac h
    cases cs with
    | nil => simp [debitLoop] at h
    | cons c rest =>
      have hcac : c.ac = ac := hac c (List.mem_cons_self _ _)
      unfold debitLoop at h
      dsimp only at h
      rw [hcac] at h
      cases hu : updateNode c.node
          (fun info => { info with credits := info.credits
            - dpm * (env.GetBandwidth (if i < nRus then rt else .RU_26_TONE) : ℚ) })
          ((m ac).getD []) with
      | none => rw [hu] at h; simp at h
      | some l =>
        rw [hu] at h
        dsimp only at h
        have h1 := ih (i + 1) rest _ m' (fun x hx => hac x (List.mem_cons_of_mem _ hx)) h
        have h2 := updateNode_sum _ _ _ _ hu
        rw [h1]
        simp only [Function.update_same, Option.getD_some]
        rw [h2, debitedBandwidth_succ]
        push_cast
        ring

/-- The debit loop does not return on an empty station list when it has an iteration
to make. -/
theorem debitLoop_nonempty (env : Env) (dpm : ℚ) (rt : RuType) (nRus : Nat) (ac : AcIndex)
    (k i : Nat) (cs : List CandidateInfo) (m m' : AcIndex → Option (List Node))
    (hac : ∀ c ∈ cs, c.ac = ac) (hk : 0 < k)
    (h : debitLoop env dpm rt nRus k i cs m = .ok m') : (m ac).getD [] ≠ [] := by
  obtain ⟨k', rfl⟩ : ∃ k', k = k' + 1 := ⟨k - 1, by omega⟩
  cases cs with
  | nil => simp [debitLoop] at h
  | cons c rest =>
    have hcac : c.ac = ac := hac c (List.mem_cons_self _ _)
    unfold debitLoop at h
    dsimp only at h
    rw [hcac] at h
    intro hnil
    rw [hnil] at h
    simp [updateNode] at h

theorem debitedBandwidth_main (env : Env) (rt : RuType) (nRus : Nat) :
    ∀ (k i : Nat), i + k ≤ nRus →
      debitedBandwidth env rt nRus k i = k * env.GetBandwidth rt := by
  intro k
  induction k with
  | zero => intro i _; simp [debitedBandwidth]
  | succ k ih =>
    intro i h
    rw [debitedBandwidth_succ, if_pos (by omega), ih (i + 1) (by omega)]
    ring

theorem debitedBandwidth_central (env : Env) (rt : RuType) (nRus : Nat) :
    ∀ (k i : Nat), nRus ≤ i →
      debitedBandwidth env rt nRus k i = k * env.GetBandwidth .RU_26_TONE := by
  intro k
  induction k with
  | zero => intro i _; simp [debitedBandwidth]
  | succ k ih =>
    intro i h
    rw [debitedBandwidth_succ, if_neg (by omega), ih (i + 1) (by omega)]
    ring

theorem debitedBandwidth_add (env : Env) (rt : RuType) (nRus : Nat) :
    ∀ (a b i : Nat),
      debitedBandwidth env rt nRus (a + b) i
        = debitedBandwidth env rt nRus a i + debitedBandwidth env rt nRus b (i + a) := by
  intro a
  induction a with
  | zero => intro b i; simp [debitedBandwidth]
  | succ a ih =>
    intro b i
    have e : a + 1 + b = (a + b) + 1 := by omega
    rw [e, debitedBandwidth_succ, debitedBandwidth_succ, ih b (i + 1)]
    have e2 : i + 1 + a = i + (a + 1) := by omega
    rw [e2]
    ring

/-- The bandwidth charged by the whole debit loop is the total allocated bandwidth. -/
theorem debitedBandwidth_total (env : Env) (rt : RuType) (nRus nCentral : Nat) :
    debitedBandwidth env rt nRus (nRus + nCentral) 0
      = nRus * env.GetBandwidth rt + nCentral * env.GetBandwidth .RU_26_TONE := by
  rw [debitedBandwidth_add, debitedBandwidth_main env rt nRus nRus 0 (by omega),
    debitedBandwidth_central env rt nRus nCentral (0 + nRus) (by omega)]

theorem grantCredits_sum (c M : ℚ) :
    ∀ (l : List Node), (∀ n ∈ l, n.info.credits + c ≤ M) →
      creditSum (grantCredits c M l) = creditSum l + (l.length : ℚ) * c := by
  intro l
  induction l with
  | nil => intro _; simp [creditSum, grantCredits]
  | cons n rest ih =>
    intro h
    have hn := h n (List.mem_cons_self _ _)
    have hr := ih (fun x hx => h x (List.mem_cons_of_mem _ hx))
    unfold grantCredits creditSum at hr ⊢
    simp only [List.map_cons, List.sum_cons, List.length_cons, List.map_map] at hr ⊢
    rw [hr, min_eq_left hn]
    push_cast
    ring

theorem sortByCredits_sum (l : List Node) : creditSum (sortByCredits l) = creditSum l := by
  unfold creditSum
  exact ((sortByCredits_perm l).map _).sum_eq

theorem AssignRuIndices_users_ne_nil (env : Env) (tv tv' : WifiTxVector)
    (h : AssignRuIndices env tv = .ok tv') : tv.users ≠ [] := by
  intro hnil
  unfold AssignRuIndices at h
  rw [hnil] at h
  simp at h

/-- The sum of the credits of the winning category's station list after the ledger
update of `ComputeDlMuInfo`, when no credit is clipped: the old sum plus the credits
granted minus the credits debited. -/
theorem creditLedger_sum (env : Env) (s : State) (rt : RuType) (nRus nCentral : Nat)
    (cs : List CandidateInfo) (T : Time) (m' : AcIndex → Option (List Node))
    (h : creditLedger env s rt nRus nCentral cs T = .ok m')
    (hac : ∀ c ∈ cs, c.ac = env.primaryAc)
    (hclip : ∀ n ∈ s.staList env.primaryAc,
      n.info.credits + ToDoubleUS T / ((s.staList env.primaryAc).length : ℚ)
        ≤ ToDoubleUS s.m_maxCredits) :
    creditSum ((m' env.primaryAc).getD [])
        = creditSum (s.staList env.primaryAc)
          + ((s.staList env.primaryAc).length : ℚ)
              * (ToDoubleUS T / ((s.staList env.primaryAc).length : ℚ))
          - ToDoubleUS T
              / ((nRus * env.GetBandwidth rt + nCentral * env.GetBandwidth .RU_26_TONE : Nat) : ℚ)
              * (debitedBandwidth env rt nRus (nRus + nCentral) 0 : ℚ)
      ∧ (0 < nRus + nCentral → s.staList env.primaryAc ≠ []) := by
  unfold creditLedger at h
  dsimp only at h
  cases hd : debitLoop env
      (ToDoubleUS T
        / ((nRus * env.GetBandwidth rt + nCentral * env.GetBandwidth .RU_26_TONE : Nat) : ℚ))
      rt nRus (nRus + nCentral) 0 cs
      (Function.update s.m_staList env.primaryAc
        (some (grantCredits (ToDoubleUS T / ((s.staList env.primaryAc).length : ℚ))
          (ToDoubleUS s.m_maxCredits) (s.staList env.primaryAc)))) with
  | error e => rw [hd] at h; simp at h
  | ok debited =>
    rw [hd] at h
    simp only [Except.ok.injEq] at h
    subst h
    have hsum := debitLoop_sum env _ rt nRus env.primaryAc _ _ _ _ _ hac hd
    simp only [Function.update_same, Option.getD_some] at hsum ⊢
    refine ⟨?_, ?_⟩
    · rw [sortByCredits_sum, hsum, grantCredits_sum _ _ _ hclip]
    · intro hk
      have := debitLoop_nonempty env _ rt nRus env.primaryAc _ _ _ _ _ hac hk hd
      simp only [Function.update_same, Option.getD_some] at this
      intro hnil
      rw [hnil] at this
      exact this rfl

/-- C30: credit conservation. In a returning `ComputeDlMuInfo` on a non-empty candidate
list, whose candidates belong to the winning category and in which no credit is clipped
by the cap (the bandwidth of every RU type being positive), the sum of the credits of
the winning category's station list is the same after the commit as before it: the
total granted, `n` times `T / n`, and the total debited, `T` over the total allocated
bandwidth times the bandwidth charged to the served stations, are both `T`. -/
theorem credit_conservation (env : Env) (s : State) (info : DlMuInfo) (s' : State)
    (hres : ComputeDlMuInfo env s = .ok (info, s')) (hne : s.m_candidates ≠ [])
    (hac : ∀ c ∈ s.m_candidates, c.ac = env.primaryAc)
    (hbw : ∀ t, 0 < env.GetBandwidth t)
    (hclip : ∀ n ∈ s.staList env.primaryAc,
      n.info.credits
          + ToDoubleUS info.txParams.m_txDuration / ((s.staList env.primaryAc).length : ℚ)
        ≤ ToDoubleUS s.m_maxCredits) :
    creditSum (s'.staList env.primaryAc) = creditSum (s.staList env.primaryAc)
      ∧ ((s.staList env.primaryAc).length : ℚ)
          * (ToDoubleUS info.txParams.m_txDuration / ((s.staList env.primaryAc).length : ℚ))
          = ToDoubleUS info.txParams.m_txDuration
      ∧ ToDoubleUS info.txParams.m_txDuration
          / (((dlPartition env s).2.1 * env.GetBandwidth (dlPartition env s).1
              + (dlPartition env s).2.2 * env.GetBandwidth .RU_26_TONE : Nat) : ℚ)
          * (debitedBandwidth env (dlPartition env s).1 (dlPartition env s).2.1
              ((dlPartition env s).2.1 + (dlPartition env s).2.2) 0 : ℚ)
          = ToDoubleUS info.txParams.m_txDuration := by
  obtain ⟨tv1, tv, txParams1, agg, staLists, h1, h2, -, -, h5, hinfo, hs'⟩ :=
    ComputeDlMuInfo_inv env s info s' hres hne
  have hT : info.txParams.m_txDuration = agg.txParams.m_txDuration := by rw [hinfo]
  rw [hT] at hclip ⊢
  have hk : 0 < (dlPartition env s).2.1 + (dlPartition env s).2.2 := by
    rcases Nat.eq_zero_or_pos ((dlPartition env s).2.1 + (dlPartition env s).2.2) with h0 | hp
    · exfalso
      rw [h0] at h1
      unfold dlFill at h1
      simp only [Except.ok.injEq] at h1
      apply AssignRuIndices_users_ne_nil env tv1 tv h2
      rw [← h1]
      rfl
    · exact hp
  obtain ⟨hsum, hnonempty⟩ := creditLedger_sum env s _ _ _ _ _ _ h5
    (fun c hc => hac c (List.mem_of_mem_take hc)) hclip
  have hn : ((s.staList env.primaryAc).length : ℚ) ≠ 0 := by
    have := hnonempty hk
    have hpos : 0 < (s.staList env.primaryAc).length := List.length_pos.mpr this
    exact_mod_cast hpos.ne'
  have hB : (((dlPartition env s).2.1 * env.GetBandwidth (dlPartition env s).1
      + (dlPartition env s).2.2 * env.GetBandwidth .RU_26_TONE : Nat) : ℚ) ≠ 0 := by
    have h26 := hbw .RU_26_TONE
    have hrt := hbw (dlPartition env s).1
    have hpos : 0 < (dlPartition env s).2.1 * env.GetBandwidth (dlPartition env s).1
        + (dlPartition env s).2.2 * env.GetBandwidth .RU_26_TONE := by
      rcases Nat.eq_zero_or_pos (dlPartition env s).2.1 with h0 | hp
      · have : 0 < (dlPartition env s).2.2 := by omega
        exact Nat.add_pos_right _ (Nat.mul_pos this h26)
      · exact Nat.add_pos_left (Nat.mul_pos hp hrt) _
    exact_mod_cast hpos.ne'
  have hgrant : ((s.staList env.primaryAc).length : ℚ)
      * (ToDoubleUS agg.txParams.m_txDuration / ((s.staList env.primaryAc).length : ℚ))
      = ToDoubleUS agg.txParams.m_txDuration := by
    field_simp
  have hdebit : ToDoubleUS agg.txParams.m_txDuration
      / (((dlPartition env s).2.1 * env.GetBandwidth (dlPartition env s).1
          + (dlPartition env s).2.2 * env.GetBandwidth .RU_26_TONE : Nat) : ℚ)
      * (debitedBandwidth env (dlPartition env s).1 (dlPartition env s).2.1
          ((dlPartition env s).2.1 + (dlPartition env s).2.2) 0 : ℚ)
      = ToDoubleUS agg.txParams.m_txDuration := by
    rw [debitedBandwidth_total]
    exact div_mul_cancel₀ _ hB
  refine ⟨?_, hgrant, hdebit⟩
  have hst : s'.staList env.primaryAc = (staLists env.primaryAc).getD [] := by
    rw [hs']; rfl
  rw [hst, hsum, hgrant, hdebit]
  ring

/-- Witness of C30: the first commit of the three-station example grants 2 to each of
the three stations and debits 3 from each of the two served stations; the sum of the
credits is 0 before and after. -/
theorem credit_conservation_witness :
    (committedThree.staList .AC_BE).map (fun n => n.info.credits) = [2, -1, -1]
      ∧ (selectedThree.staList .AC_BE).map (fun n => n.info.credits) = [0, 0, 0]
      ∧ creditSum (committedThree.staList exampleEnv.primaryAc)
          = creditSum (selectedThree.staList exampleEnv.primaryAc) := by
  have hl : selectedThree.staList exampleEnv.primaryAc
      = [⟨0, ⟨1, 101, 0⟩⟩, ⟨1, ⟨2, 102, 0⟩⟩, ⟨2, ⟨3, 103, 0⟩⟩] := by with_unfolding_all rfl
  have hT : committedThreeInfo.txParams.m_txDuration = 6000 := by with_unfolding_all rfl
  have hM : selectedThree.m_maxCredits = 1000000000 := by with_unfolding_all rfl
  have hc : selectedThree.m_candidates
      = [⟨.AC_BE, 0, some (exampleFrame 101 3)⟩, ⟨.AC_BE, 1, some (exampleFrame 102 3)⟩] := by
    with_unfolding_all rfl
  have h := credit_conservation exampleEnv selectedThree committedThreeInfo committedThree
    (by with_unfolding_all rfl) (by rw [hc]; simp)
    (by
      intro c hcm
      rw [hc] at hcm
      simp only [List.mem_cons, List.mem_singleton, List.not_mem_nil, or_false] at hcm
      rcases hcm with rfl | rfl <;> rfl)
    (by intro t; cases t <;> decide)
    (by
      intro n hn
      rw [hT, hM]
      rw [hl] at hn ⊢
      simp only [List.mem_cons, List.mem_singleton, List.not_mem_nil, or_false] at hn
      unfold ToDoubleUS
      rcases hn with rfl | rfl | rfl <;> norm_num)
  exact ⟨by with_unfolding_all rfl, by with_unfolding_all rfl, h.1⟩

/-! ## C5: a selection without a candidate gives SU_TX -/

/-- The inner loop of the selection adds no candidate exactly when every TID passes the
assertion on its access category and every peeked frame with an established block-ack
agreement is rejected for the trial parameters of the station; the trial parameters are
then left as they were. -/
theorem tryTids_none_iff (env : Env) (sta : Node) (rt : RuType) (t : Time) :
    ∀ (tids : List Nat) (st : SelState),
      (∃ st', tryTids env sta rt t tids st = .ok st' ∧ st'.candidates = st.candidates)
        ↔ ((∀ tid ∈ tids, env.primaryAc.priority ≤ (env.QosUtilsMapTidToAc tid).priority)
          ∧ ∀ tid ∈ tids, ∀ mpdu,
              env.GetBaAgreementEstablished (env.QosUtilsMapTidToAc tid) sta.info.address tid
                = true →
              env.PeekNextMpdu (env.QosUtilsMapTidToAc tid) tid sta.info.address = some mpdu →
              env.TryAddMpdu mpdu
                { st.txParams with
                  m_txVector := st.txParams.m_txVector.SetHeMuUserInfo sta.info.aid
                    ⟨⟨rt, 1, false⟩, (env.GetDataTxVector mpdu).mode,
                      (env.GetDataTxVector mpdu).nss⟩ } t = none) := by
  intro tids
  induction tids with
  | nil =>
    intro st
    constructor
    · intro _
      exact ⟨fun tid h => by simp at h, fun tid h => by simp at h⟩
    · intro _
      exact ⟨st, rfl, rfl⟩
  | cons tid rest ih =>
    intro st
    unfold tryTids
    dsimp only
    by_cases hac : (env.QosUtilsMapTidToAc tid).priority < env.primaryAc.priority
    · rw [if_pos hac]
      constructor
      · rintro ⟨st', h, -⟩
        simp at h
      · rintro ⟨h1, -⟩
        have := h1 tid (List.mem_cons_self _ _)
        omega
    rw [if_neg hac]
    have hle : env.primaryAc.priority ≤ (env.QosUtilsMapTidToAc tid).priority := by omega
    by_cases hba :
        env.GetBaAgreementEstablished (env.QosUtilsMapTidToAc tid) sta.info.address tid = true
    · rw [if_pos hba]
      cases hpeek : env.PeekNextMpdu (env.QosUtilsMapTidToAc tid) tid sta.info.address with
      | none =>
        dsimp only
        have := ih { st with mpdu := none }
        dsimp only at this
        rw [this]
        constructor
        · rintro ⟨h1, h2⟩
          refine ⟨?_, ?_⟩
          · intro x hx
            rcases List.mem_cons.mp hx with rfl | hx
            · exact hle
            · exact h1 x hx
          · intro x hx mpdu hb hp
            rcases List.mem_cons.mp hx with rfl | hx
            · rw [hpeek] at hp; simp at hp
            · exact h2 x hx mpdu hb hp
        · rintro ⟨h1, h2⟩
          exact ⟨fun x hx => h1 x (List.mem_cons_of_mem _ hx),
            fun x hx => h2 x (List.mem_cons_of_mem _ hx)⟩
      | some mpdu =>
        dsimp only
        cases hadd : env.TryAddMpdu mpdu
            { st.txParams with
              m_txVector := st.txParams.m_txVector.SetHeMuUserInfo sta.info.aid
                ⟨⟨rt, 1, false⟩, (env.GetDataTxVector mpdu).mode,
                  (env.GetDataTxVector mpdu).nss⟩ } t with
        | none =>
          dsimp only
          have := ih { st with
            txParams := st.txParams
            txVector2 := st.txVector2
            mpdu := some mpdu }
          dsimp only at this
          constructor
          · intro hex
            obtain ⟨h1, h2⟩ := this.mp hex
            refine ⟨?_, ?_⟩
            · intro x hx
              rcases List.mem_cons.mp hx with rfl | hx
              · exact hle
              · exact h1 x hx
            · intro x hx m hb hp
              rcases List.mem_cons.mp hx with rfl | hx
              · rw [hpeek] at hp
                simp only [Option.some.injEq] at hp
                subst hp
                exact hadd
              · exact h2 x hx m hb hp
          · rintro ⟨h1, h2⟩
            exact this.mpr ⟨fun x hx => h1 x (List.mem_cons_of_mem _ hx),
              fun x hx => h2 x (List.mem_cons_of_mem _ hx)⟩
        | some txParams' =>
          dsimp only
          constructor
          · rintro ⟨st', h, hc⟩
            simp only [Except.ok.injEq] at h
            subst h
            simp at hc
          · rintro ⟨-, h2⟩
            have := h2 tid (List.mem_cons_self _ _) mpdu hba hpeek
            rw [hadd] at this
            simp at this
    · rw [if_neg hba]
      rw [ih st]
      constructor
      · rintro ⟨h1, h2⟩
        refine ⟨?_, ?_⟩
        · intro x hx
          rcases List.mem_cons.mp hx with rfl | hx
          · exact hle
          · exact h1 x hx
        · intro x hx mpdu hb hp
          rcases List.mem_cons.mp hx with rfl | hx
          · exact absurd hb hba
          · exact h2 x hx mpdu hb hp
      · rintro ⟨h1, h2⟩
        exact ⟨fun x hx => h1 x (List.mem_cons_of_mem _ hx),
          fun x hx => h2 x (List.mem_cons_of_mem _ hx)⟩

/-- When the inner loop of the selection adds no candidate it leaves the trial
parameters as they were. -/
theorem tryTids_none_txParams (env : Env) (sta : Node) (rt : RuType) (t : Time) :
    ∀ (tids : List Nat) (st st' : SelState),
      tryTids env sta rt t tids st = .ok st' → st'.candidates = st.candidates →
      st'.txParams = st.txParams := by
  intro tids
  induction tids with
  | nil =>
    intro st st' h _
    simp only [tryTids, Except.ok.injEq] at h
    rw [h]
  | cons tid rest ih =>
    intro st st' h hc
    unfold tryTids at h
    dsimp only at h
    by_cases hac : (env.QosUtilsMapTidToAc tid).priority < env.primaryAc.priority
    · rw [if_pos hac] at h; simp at h
    rw [if_neg hac] at h
    by_cases hba :
        env.GetBaAgreementEstablished (env.QosUtilsMapTidToAc tid) sta.info.address tid = true
    · rw [if_pos hba] at h
      cases hpeek : env.PeekNextMpdu (env.QosUtilsMapTidToAc tid) tid sta.info.address with
      | none =>
        rw [hpeek] at h
        dsimp only at h
        have h3 := ih _ st' h hc
        exact h3
      | some mpdu =>
        rw [hpeek] at h
        dsimp only at h
        cases hadd : env.TryAddMpdu mpdu _ t with
        | none =>
          rw [hadd] at h
          dsimp only at h
          have h3 := ih _ st' h hc
          exact h3
        | some txParams' =>
          rw [hadd] at h
          dsimp only at h
          simp only [Except.ok.injEq] at h
          subst h
          simp at hc
    · rw [if_neg hba] at h
      exact ih st st' h hc

/-- The selection loop, started without a candidate and with at least one RU in the
partition, ends without a candidate exactly when, for a non-empty list, every TID
passes the assertion on its access category and every station has all its peeked
frames rejected for the trial parameters the loop started with. -/
theorem selectLoop_none_iff (env : Env) (n count nc : Nat) (rt : RuType) (t : Time)
    (tids : List Nat) (hcount : 1 ≤ count) :
    ∀ (l : List Node) (st : SelState), st.candidates = [] →
      ((∃ st', selectLoop env n count nc rt t tids l st = .ok st' ∧ st'.candidates = [])
        ↔ ((l ≠ [] →
              ∀ tid ∈ tids, env.primaryAc.priority ≤ (env.QosUtilsMapTidToAc tid).priority)
          ∧ ∀ sta ∈ l, ∀ tid ∈ tids, ∀ mpdu,
              env.GetBaAgreementEstablished (env.QosUtilsMapTidToAc tid) sta.info.address tid
                = true →
              env.PeekNextMpdu (env.QosUtilsMapTidToAc tid) tid sta.info.address = some mpdu →
              env.TryAddMpdu mpdu
                { st.txParams with
                  m_txVector := st.txParams.m_txVector.SetHeMuUserInfo sta.info.aid
                    ⟨⟨rt, 1, false⟩, (env.GetDataTxVector mpdu).mode,
                      (env.GetDataTxVector mpdu).nss⟩ } t = none)) := by
  intro l
  induction l with
  | nil =>
    intro st hst
    constructor
    · intro _
      exact ⟨fun h => absurd rfl h, fun sta h => by simp at h⟩
    · intro _
      exact ⟨st, rfl, hst⟩
  | cons sta rest ih =>
    intro st hst
    unfold selectLoop
    have hb : st.candidates.length < max n (count + nc) := by
      rw [hst]
      simp only [List.length_nil]
      omega
    have hrt : (if st.candidates.length < count then rt else RuType.RU_26_TONE) = rt := by
      rw [hst]
      simp only [List.length_nil]
      rw [if_pos (by omega)]
    rw [if_pos hb]
    dsimp only
    rw [hrt]
    constructor
    · rintro ⟨st', h, hc⟩
      cases htry : tryTids env sta rt t tids st with
      | error e => rw [htry] at h; simp at h
      | ok st1 =>
        rw [htry] at h
        dsimp only at h
        obtain ⟨cs, hcs, -⟩ := selectLoop_candidates env n count nc rt t tids rest st1 st' h
        have hst1 : st1.candidates = [] := by
          rw [hc] at hcs
          exact (List.append_eq_nil.mp hcs.symm).1
        have hkeep : st1.candidates = st.candidates := by rw [hst1, hst]
        obtain ⟨a1, a2⟩ := (tryTids_none_iff env sta rt t tids st).mp ⟨st1, htry, hkeep⟩
        have htx := tryTids_none_txParams env sta rt t tids st st1 htry hkeep
        obtain ⟨-, b2⟩ := (ih st1 hst1).mp ⟨st', h, hc⟩
        refine ⟨fun _ => a1, ?_⟩
        intro x hx
        rcases List.mem_cons.mp hx with rfl | hx
        · exact a2
        · have := b2 x hx
          rw [htx] at this
          exact this
    · rintro ⟨h1, h2⟩
      have a1 := h1 (by simp)
      obtain ⟨st1, htry, hkeep⟩ := (tryTids_none_iff env sta rt t tids st).mpr
        ⟨a1, h2 sta (List.mem_cons_self _ _)⟩
      have htx := tryTids_none_txParams env sta rt t tids st st1 htry hkeep
      have hst1 : st1.candidates = [] := by rw [hkeep, hst]
      rw [htry]
      dsimp only
      apply (ih st1 hst1).mpr
      refine ⟨fun _ => a1, ?_⟩
      intro x hx
      rw [htx]
      exact h2 x (List.mem_cons_of_mem _ hx)

/-- The selection of `TrySendingDlMuPpdu` finds no candidate exactly when the station
list of the winning category is empty or the assertions of the selection hold and
`TryAddMpdu` accepts no peeked frame when the selection asks it. -/
theorem dlCandidatesFound_none_iff (env : Env) (s : State) :
    dlCandidatesFound env s = .ok []
      ↔ (s.staList env.primaryAc = []
          ∨ (SelectionAsserts env s ∧ NoFrameAccepted env s)) := by
  unfold dlCandidatesFound
  by_cases hl : s.staList env.primaryAc = []
  · rw [if_pos hl]
    exact ⟨fun _ => Or.inl hl, fun _ => rfl⟩
  rw [if_neg hl]
  have hsel : (∃ sel, dlSelect env (s.touchStaList env.primaryAc) = .ok sel
        ∧ sel.candidates = [])
      ↔ (SelectionAsserts env s ∧ NoFrameAccepted env s) := by
    unfold dlSelect SelectionAsserts NoFrameAccepted firstTrial selectionPartition selectionTime
    dsimp only
    rw [staList_touchStaList, dlTids_touchStaList]
    have hm : (s.touchStaList env.primaryAc).m_nStations = s.m_nStations := rfl
    have hu : (s.touchStaList env.primaryAc).m_useCentral26TonesRus
        = s.m_useCentral26TonesRus := rfl
    rw [hm, hu]
    by_cases hcount : (env.GetEqualSizedRusForStations env.channelWidth
        (min (s.m_nStations % 256) (s.staList env.primaryAc).length)).2.1 < 1
    · rw [if_pos hcount]
      constructor
      · rintro ⟨sel, h, -⟩
        simp at h
      · rintro ⟨⟨h1, -⟩, -⟩
        omega
    · rw [if_neg hcount]
      have hc1 : 1 ≤ (env.GetEqualSizedRusForStations env.channelWidth
          (min (s.m_nStations % 256) (s.staList env.primaryAc).length)).2.1 := by omega
      rw [selectLoop_none_iff env _ _ _ _ _ _ hc1 _ _ rfl]
      constructor
      · rintro ⟨h1, h2⟩
        exact ⟨⟨hc1, h1 hl⟩, h2⟩
      · rintro ⟨⟨-, h1⟩, h2⟩
        exact ⟨fun _ => h1, h2⟩
  constructor
  · intro h
    cases hs : dlSelect env (s.touchStaList env.primaryAc) with
    | error e => rw [hs] at h; simp at h
    | ok sel =>
      rw [hs] at h
      simp only [Except.ok.injEq] at h
      exact Or.inr (hsel.mp ⟨sel, hs, h⟩)
  · intro h
    rcases h with h | h
    · exact absurd h hl
    · obtain ⟨sel, hs, hc⟩ := hsel.mpr h
      rw [hs]
      simp only [Except.ok.injEq]
      exact hc

/-- C5: with `ForceDlOfdma` disabled, `TrySendingDlMuPpdu` returns SU_TX whenever its
selection finds no candidate. The selection finds no candidate exactly when the station
list of the winning category is empty, or (the assertions of the selection holding) no
station has a peeked frame with an established block-ack agreement that `TryAddMpdu`
accepts when it is asked in this call. Hence with one associated station, no queued
traffic and no preceding DL MU or BSRP round, `SelectTxFormat` returns SU_TX. -/
theorem no_candidate_gives_SU_TX (env : Env) (s : State)
    (hforce : s.m_forceDlOfdma = false) :
    (dlCandidatesFound env s = .ok [] → ∃ s', TrySendingDlMuPpdu env s = .ok (.SU_TX, s'))
    ∧ (dlCandidatesFound env s = .ok []
        ↔ (s.staList env.primaryAc = []
            ∨ (SelectionAsserts env s ∧ NoFrameAccepted env s)))
    ∧ ((∃ sta, s.staList env.primaryAc = [sta]) →
        (∀ ac tid addr, env.PeekNextMpdu ac tid addr = none) →
        env.lastTxFormat ≠ .DL_MU_TX → s.m_ulTriggerType ≠ .BSRP_TRIGGER →
        SelectionAsserts env s →
        ∃ s', SelectTxFormat env s = .ok (.SU_TX, s')) := by
  have hA : dlCandidatesFound env s = .ok [] →
      ∃ s', TrySendingDlMuPpdu env s = .ok (.SU_TX, s') := by
    intro h
    unfold dlCandidatesFound at h
    unfold TrySendingDlMuPpdu
    dsimp only
    rw [staList_touchStaList]
    by_cases hl : s.staList env.primaryAc = []
    · rw [if_pos hl]
      exact ⟨_, rfl⟩
    · rw [if_neg hl] at h ⊢
      cases hs : dlSelect env (s.touchStaList env.primaryAc) with
      | error e => rw [hs] at h; simp at h
      | ok sel =>
        rw [hs] at h
        simp only [Except.ok.injEq] at h
        dsimp only
        rw [if_pos h, hforce]
        exact ⟨_, rfl⟩
  refine ⟨hA, dlCandidatesFound_none_iff env s, ?_⟩
  intro _ hpeek hlast htrig hassert
  have hno : NoFrameAccepted env s := by
    intro sta _ tid _ mpdu _ hp
    rw [hpeek] at hp
    exact absurd hp (by simp)
  obtain ⟨s', hs'⟩ := hA ((dlCandidatesFound_none_iff env s).mpr (Or.inr ⟨hassert, hno⟩))
  refine ⟨s', ?_⟩
  unfold SelectTxFormat
  rw [if_neg (by simp [hlast]), if_neg (by simp [hlast, htrig])]
  exact hs'

/-- Witness of C5: one station is associated and nothing is queued, and both
`TrySendingDlMuPpdu` and `SelectTxFormat` return SU_TX; and three stations with queued
frames that are rejected only because 1 microsecond is left of the TXOP (the same frames
are accepted with a limit of 6 microseconds), where `TrySendingDlMuPpdu` finds no
candidate and returns SU_TX. -/
theorem no_candidate_gives_SU_TX_witness :
    (∃ s', TrySendingDlMuPpdu idleEnv oneStation = .ok (.SU_TX, s'))
      ∧ (∃ s', SelectTxFormat idleEnv oneStation = .ok (.SU_TX, s'))
      ∧ dlCandidatesFound budgetEnv threeStations = .ok []
      ∧ (budgetEnv.TryAddMpdu (exampleFrame 101 3) WifiTxParameters.Clear 6000).isSome = true
      ∧ (∃ s', TrySendingDlMuPpdu budgetEnv threeStations = .ok (.SU_TX, s'))
      ∧ (SelectionAsserts budgetEnv threeStations ∧ NoFrameAccepted budgetEnv threeStations) := by
  have hassert : SelectionAsserts idleEnv oneStation := by
    refine ⟨by with_unfolding_all decide, ?_⟩
    intro tid htid
    have : tid = 3 := by
      have h3 : dlTids idleEnv oneStation = [3] := by with_unfolding_all rfl
      rw [h3] at htid
      simpa using htid
    subst this
    with_unfolding_all decide
  have hno : NoFrameAccepted idleEnv oneStation := by
    intro sta _ tid _ mpdu _ hp
    exact absurd hp (by simp [idleEnv])
  have h := no_candidate_gives_SU_TX idleEnv oneStation rfl
  have hb := no_candidate_gives_SU_TX budgetEnv threeStations rfl
  have hfound : dlCandidatesFound budgetEnv threeStations = .ok [] := by with_unfolding_all rfl
  have hl : threeStations.staList budgetEnv.primaryAc ≠ [] := by
    intro hnil
    have : (threeStations.staList budgetEnv.primaryAc).length = 3 := by with_unfolding_all rfl
    rw [hnil] at this
    simp at this
  exact ⟨h.1 (h.2.1.mpr (Or.inr ⟨hassert, hno⟩)),
    h.2.2 ⟨⟨0, ⟨1, 101, 0⟩⟩, by with_unfolding_all rfl⟩ (fun _ _ _ => rfl)
      (by with_unfolding_all decide) (by with_unfolding_all decide) hassert,
    hfound, by with_unfolding_all rfl, hb.1 hfound,
    (hb.2.1.mp hfound).resolve_left hl⟩

/-! ## C21: monotonicity of the selection, the amended claim -/

/-- Without assertions the re-application loop skips a rejected frame: the frames before
it having been accepted, it goes on with the candidates after it and the parameters
reached before it. -/
theorem dlReAddNoAssert_skips (env : Env) (t : Time) (c : CandidateInfo)
    (post : List CandidateInfo) (mpdu : WifiMacQueueItem) (hm : c.mpdu = some mpdu) :
    ∀ (pre : List CandidateInfo) (txParams0 txParams : WifiTxParameters),
      dlReAdd env t pre txParams0 = .ok txParams →
      env.TryAddMpdu mpdu txParams t = none →
      dlReAddNoAssert env t (pre ++ c :: post) txParams0
        = dlReAddNoAssert env t post txParams := by
  intro pre
  induction pre with
  | nil =>
    intro txParams0 txParams h hrej
    simp only [dlReAdd, Except.ok.injEq] at h
    subst h
    simp only [List.nil_append]
    rw [dlReAddNoAssert, hm]
    dsimp only
    rw [hrej]
  | cons x rest ih =>
    intro txParams0 txParams h hrej
    unfold dlReAdd at h
    simp only [List.cons_append]
    rw [dlReAddNoAssert]
    cases hx : x.mpdu with
    | none => rw [hx] at h; simp at h
    | some m =>
      rw [hx] at h
      dsimp only at h ⊢
      cases hadd : env.TryAddMpdu m txParams0 t with
      | none => rw [hadd] at h; simp at h
      | some txParams1 =>
        rw [hadd] at h
        dsimp only at h ⊢
        exact ih txParams1 txParams h hrej

/-- C20, amended: in `calculate_su_mpdu` and in `ComputeDlMuInfo`, if `TryAddMpdu`
rejects a stored candidate frame when it is re-applied to the final TX vector (for the
first candidate in the SU estimation, for any served candidate in the MU finalisation,
the frames before it having been accepted), then with assertions enabled the assertion
on its result fails and the operation returns no result. With the assertions compiled
out the rejection is not looked at: the SU estimation goes on to read the acknowledgment
of parameters that hold none, and the re-application loop of the MU finalisation goes on
with the next candidate. -/
theorem rejection_is_fatal (env : Env) (s : State) :
    (∀ (c : CandidateInfo) (rest : List CandidateInfo) (mpdu : WifiMacQueueItem)
        (tv : WifiTxVector),
        s.m_candidates2 = c :: rest → c.mpdu = some mpdu →
        suFinalTxVector env s c = .ok tv →
        env.TryAddMpdu mpdu { WifiTxParameters.Clear with m_txVector := tv }
          (if env.m_initialFrame then TimeMin else env.m_availableTime2) = none →
        calculate_su_mpdu env s = .error .assertion
          ∧ calculate_su_mpdu_NoAssert env s = .error .undefinedBehaviour)
      ∧ (∀ (tv : WifiTxVector) (pre post : List CandidateInfo) (c : CandidateInfo)
          (mpdu : WifiMacQueueItem) (txParams : WifiTxParameters),
          s.m_candidates ≠ [] → dlFinalTxVector env s = .ok tv →
          dlServed env s = pre ++ c :: post → c.mpdu = some mpdu →
          dlReAdd env (if env.m_initialFrame then TimeMin else env.m_availableTime) pre
            { WifiTxParameters.Clear with m_txVector := tv } = .ok txParams →
          env.TryAddMpdu mpdu txParams
            (if env.m_initialFrame then TimeMin else env.m_availableTime) = none →
          ComputeDlMuInfo env s = .error .assertion
            ∧ dlReAddNoAssert env (if env.m_initialFrame then TimeMin else env.m_availableTime)
                (dlServed env s) { WifiTxParameters.Clear with m_txVector := tv }
              = dlReAddNoAssert env
                  (if env.m_initialFrame then TimeMin else env.m_availableTime) post txParams) := by
  refine ⟨?_, ?_⟩
  · intro c rest mpdu tv hc hm htv hrej
    unfold suFinalTxVector at htv
    unfold calculate_su_mpdu calculate_su_mpdu_NoAssert
    rw [hc]
    simp only [bind, Except.bind, pure, Except.pure, throw, throwThe, MonadExceptOf.throw]
    cases hd : s.deref c with
    | error e => rw [hd] at htv; simp at htv
    | ok info =>
      rw [hd] at htv
      dsimp only at htv ⊢
      cases hmode : s.m_txParams2.m_txVector.GetMode info.aid with
      | error e => rw [hmode] at htv; simp at htv
      | ok mode =>
        rw [hmode] at htv
        dsimp only at htv ⊢
        cases hnss : s.m_txParams2.m_txVector.GetNss info.aid with
        | error e => rw [hnss] at htv; simp at htv
        | ok nss =>
          rw [hnss] at htv
          dsimp only at htv ⊢
          rw [htv]
          dsimp only
          rw [hm]
          dsimp only
          rw [hrej]
          exact ⟨rfl, rfl⟩
  · intro tv pre post c mpdu txParams hne htv hserved hm hpre hrej
    refine ⟨?_, ?_⟩
    · unfold dlFinalTxVector at htv
      unfold dlServed at hserved
      unfold ComputeDlMuInfo
      rw [if_neg hne]
      dsimp only
      cases hfill : dlFill s (dlPartition env s).1 (dlPartition env s).2.1
          ((dlPartition env s).2.1 + (dlPartition env s).2.2) 0 s.m_candidates
          (dlFinalTxVector0 s) with
      | error e => rw [hfill] at htv; simp at htv
      | ok tv1 =>
        rw [hfill] at htv
        dsimp only at htv ⊢
        rw [htv]
        dsimp only
        rw [hserved, dlReAdd_rejected env _ c post mpdu hm pre _ txParams hpre hrej]
    · rw [hserved]
      exact dlReAddNoAssert_skips env _ c post mpdu hm pre _ txParams hpre hrej

/-- C20 fails as stated: the three-station example with a collaborator that rejects
every frame at the re-application. With assertions enabled both operations end in the
failed assertion. With the assertions compiled out `ComputeDlMuInfo` returns a result:
the two rejected frames are in its PSDU map although the TX parameters hold no PSDU. -/
theorem rejection_ignored_without_assertions :
    calculate_su_mpdu rejectEnv readyThree = .error .assertion
      ∧ ComputeDlMuInfo rejectEnv selectedThree = .error .assertion
      ∧ calculate_su_mpdu_NoAssert rejectEnv readyThree = .error .undefinedBehaviour
      ∧ (ComputeDlMuInfoNoAssert rejectEnv selectedThree).map
            (fun r => (r.1.psduMap.map Prod.fst, r.1.txParams.nPsdus, r.2.m_candidates.length))
          = .ok ([1, 2], 0, 2) :=
  ⟨by with_unfolding_all rfl, by with_unfolding_all rfl, by with_unfolding_all rfl,
    by with_unfolding_all rfl⟩

/-- Witness of C20: the three-station example with a collaborator that rejects every
frame at the re-application; with assertions enabled both the SU estimation and the MU
finalisation end in an assertion failure. -/
theorem rejection_is_fatal_witness :
    calculate_su_mpdu rejectEnv readyThree = .error .assertion
      ∧ ComputeDlMuInfo rejectEnv selectedThree = .error .assertion := by
  have hsu := (rejection_is_fatal rejectEnv readyThree).1
    ⟨.AC_BE, 0, some (exampleFrame 101 3)⟩ [⟨.AC_BE, 1, some (exampleFrame 102 3)⟩]
    (exampleFrame 101 3)
    (resultValue (suFinalTxVector rejectEnv readyThree ⟨.AC_BE, 0, some (exampleFrame 101 3)⟩)
      WifiTxVector.default)
    (by with_unfolding_all rfl) rfl (by with_unfolding_all rfl) rfl
  have hmu := (rejection_is_fatal rejectEnv selectedThree).2
    (resultValue (dlFinalTxVector rejectEnv selectedThree) WifiTxVector.default)
    [] [⟨.AC_BE, 1, some (exampleFrame 102 3)⟩] ⟨.AC_BE, 0, some (exampleFrame 101 3)⟩
    (exampleFrame 101 3) _
    (by with_unfolding_all decide) (by with_unfolding_all rfl) (by with_unfolding_all rfl)
    rfl rfl rfl
  exact ⟨hsu.1, hmu.1⟩

/-! ## C9: the credit ledger in double precision -/

/-- The rounding to the nearest double on a few numbers: 1/10 and -2/3 round, 3 does
not, and above 2 ^ 53 an odd integer goes to the neighbour with an even significand. -/
theorem fl_examples :
    fl (1 / 10) = 3602879701896397 / 36028797018963968
      ∧ fl (-2 / 3) = -6004799503160661 / 9007199254740992
      ∧ fl 3 = 3
      ∧ fl 9007199254740993 = 9007199254740992
      ∧ fl 9007199254740995 = 9007199254740996 :=
  ⟨by with_unfolding_all rfl, by with_unfolding_all rfl, by with_unfolding_all rfl,
    by with_unfolding_all rfl, by with_unfolding_all rfl⟩

theorem updateNode_congr (id : Nat) (f g : MasterInfo → MasterInfo) :
    ∀ l : List Node, (∀ n ∈ l, n.id = id → f n.info = g n.info) →
      updateNode id f l = updateNode id g l := by
  intro l
  induction l with
  | nil => intro _; rfl
  | cons n rest ih =>
    intro h
    unfold updateNode
    by_cases hid : n.id = id
    · rw [if_pos hid, if_pos hid, h n (List.mem_cons_self _ _) hid]
    · rw [if_neg hid, if_neg hid, ih (fun x hx => h x (List.mem_cons_of_mem _ hx))]

theorem updateNode_mem_ne (id : Nat) (f : MasterInfo → MasterInfo) :
    ∀ (l l' : List Node), updateNode id f l = some l' →
      ∀ n ∈ l', n.id ≠ id → n ∈ l := by
  intro l
  induction l with
  | nil => intro l' h; simp [updateNode] at h
  | cons a rest ih =>
    intro l' h n hn hne
    unfold updateNode at h
    by_cases hid : a.id = id
    · rw [if_pos hid] at h
      simp only [Option.some.injEq] at h
      subst h
      rcases List.mem_cons.mp hn with h1 | h1
      · exfalso
        apply hne
        rw [h1]
        exact hid
      · exact List.mem_cons_of_mem _ h1
    · rw [if_neg hid] at h
      cases hu : updateNode id f rest with
      | none => rw [hu] at h; simp at h
      | some r' =>
        rw [hu] at h
        simp only [Option.map_some', Option.some.injEq] at h
        subst h
        rcases List.mem_cons.mp hn with h1 | h1
        · rw [h1]; exact List.mem_cons_self _ _
        · exact List.mem_cons_of_mem _ (ih r' hu n h1 hne)

/-- The debit loop in double precision does what the exact one does when no product and
no difference it computes rounds; `G` is the station list the loop starts from. -/
theorem debitLoopFl_eq (env : Env) (dpm : ℚ) (rt : RuType) (nRus : Nat) (ac : AcIndex)
    (G : List Node) :
    ∀ (k : Nat) (cs : List CandidateInfo) (i : Nat) (m : AcIndex → Option (List Node)),
      (∀ c ∈ cs, c.ac = ac) → (cs.map (·.node)).Nodup →
      (∀ n ∈ (m ac).getD [], n.id ∈ cs.map (·.node) → n ∈ G) →
      (∀ p ∈ cs.enumFrom i,
        fl (dpm * (env.GetBandwidth (if p.1 < nRus then rt else .RU_26_TONE) : ℚ))
            = dpm * (env.GetBandwidth (if p.1 < nRus then rt else .RU_26_TONE) : ℚ)
          ∧ ∀ n ∈ G, n.id = p.2.node →
              fl (n.info.credits
                  - dpm * (env.GetBandwidth (if p.1 < nRus then rt else .RU_26_TONE) : ℚ))
                = n.info.credits
                  - dpm * (env.GetBandwidth (if p.1 < nRus then rt else .RU_26_TONE) : ℚ)) →
      debitLoopFl env dpm rt nRus k i cs m = debitLoop env dpm rt nRus k i cs m := by
  intro k
  induction k with
  | zero =>
    intro cs i m _ _ _ _
    rw [debitLoopFl, debitLoop]
  | succ k ih =>
    intro cs i m hac hnd hinv hex
    cases cs with
    | nil => rw [debitLoopFl, debitLoop]
    | cons c rest =>
      have hc : c.ac = ac := hac c (List.mem_cons_self _ _)
      have hp := hex (i, c) (by rw [List.enumFrom_cons]; exact List.mem_cons_self _ _)
      rw [debitLoopFl, debitLoop]
      dsimp only at hp ⊢
      have hupd : updateNode c.node
            (fun info => { info with credits := fl (info.credits
              - fl (dpm * (env.GetBandwidth (if i < nRus then rt else .RU_26_TONE) : ℚ))) })
            ((m c.ac).getD [])
          = updateNode c.node
            (fun info => { info with credits := info.credits
              - dpm * (env.GetBandwidth (if i < nRus then rt else .RU_26_TONE) : ℚ) })
            ((m c.ac).getD []) := by
        apply updateNode_congr
        intro n hn hid
        rw [hc] at hn
        have hG := hinv n hn (by rw [hid]; exact List.mem_map_of_mem _ (List.mem_cons_self _ _))
        have h2 := hp.2 n hG hid
        rw [hp.1, h2]
      rw [hupd]
      cases hu : updateNode c.node
            (fun info => { info with credits := info.credits
              - dpm * (env.GetBandwidth (if i < nRus then rt else .RU_26_TONE) : ℚ) })
            ((m c.ac).getD []) with
      | none => rfl
      | some l =>
        dsimp only
        have hnd2 := List.nodup_cons.mp hnd
        apply ih rest (i + 1) _ (fun c' hc' => hac c' (List.mem_cons_of_mem _ hc')) hnd2.2
        · intro n hn hmem
          rw [hc, Function.update_same] at hn
          simp only [Option.getD_some] at hn
          have hne : n.id ≠ c.node := by
            intro e
            rw [e] at hmem
            exact hnd2.1 hmem
          have h3 := updateNode_mem_ne _ _ _ _ hu n hn hne
          rw [hc] at h3
          exact hinv n h3 (List.mem_cons_of_mem _ hmem)
        · intro p hp2
          exact hex p (by rw [List.enumFrom_cons]; exact List.mem_cons_of_mem _ hp2)

/-- The credit ledger update in double precision gives the exact result when none of
its operations rounds. -/
theorem creditLedgerFl_eq (env : Env) (s : State) (rt : RuType) (nRus nC : Nat)
    (cs : List CandidateInfo) (T : Time)
    (hac : ∀ c ∈ cs, c.ac = env.primaryAc) (hnd : (cs.map (·.node)).Nodup)
    (hT : fl (ToDoubleUS T) = ToDoubleUS T)
    (hcap : fl (ToDoubleUS s.m_maxCredits) = ToDoubleUS s.m_maxCredits)
    (hcps : fl (ToDoubleUS T / ((s.staList env.primaryAc).length : ℚ))
      = ToDoubleUS T / ((s.staList env.primaryAc).length : ℚ))
    (hdpm : fl (ToDoubleUS T
        / ((nRus * env.GetBandwidth rt + nC * env.GetBandwidth .RU_26_TONE : Nat) : ℚ))
      = ToDoubleUS T
        / ((nRus * env.GetBandwidth rt + nC * env.GetBandwidth .RU_26_TONE : Nat) : ℚ))
    (hgrant : ∀ sta ∈ s.staList env.primaryAc,
      fl (sta.info.credits + ToDoubleUS T / ((s.staList env.primaryAc).length : ℚ))
        = sta.info.credits + ToDoubleUS T / ((s.staList env.primaryAc).length : ℚ))
    (hdebit : ∀ p ∈ cs.enumFrom 0,
      fl (ToDoubleUS T
            / ((nRus * env.GetBandwidth rt + nC * env.GetBandwidth .RU_26_TONE : Nat) : ℚ)
          * (env.GetBandwidth (if p.1 < nRus then rt else .RU_26_TONE) : ℚ))
        = ToDoubleUS T
            / ((nRus * env.GetBandwidth rt + nC * env.GetBandwidth .RU_26_TONE : Nat) : ℚ)
          * (env.GetBandwidth (if p.1 < nRus then rt else .RU_26_TONE) : ℚ)
      ∧ ∀ sta ∈ s.staList env.primaryAc, sta.id = p.2.node →
          fl (min (sta.info.credits + ToDoubleUS T / ((s.staList env.primaryAc).length : ℚ))
                (ToDoubleUS s.m_maxCredits)
              - ToDoubleUS T
                / ((nRus * env.GetBandwidth rt + nC * env.GetBandwidth .RU_26_TONE : Nat) : ℚ)
              * (env.GetBandwidth (if p.1 < nRus then rt else .RU_26_TONE) : ℚ))
            = min (sta.info.credits + ToDoubleUS T / ((s.staList env.primaryAc).length : ℚ))
                (ToDoubleUS s.m_maxCredits)
              - ToDoubleUS T
                / ((nRus * env.GetBandwidth rt + nC * env.GetBandwidth .RU_26_TONE : Nat) : ℚ)
              * (env.GetBandwidth (if p.1 < nRus then rt else .RU_26_TONE) : ℚ)) :
    creditLedgerFl env s rt nRus nC cs T = creditLedger env s rt nRus nC cs T := by
  unfold creditLedgerFl creditLedger
  dsimp only
  rw [hT, hcap, hcps, hdpm]
  have hg : grantCreditsFl (ToDoubleUS T / ((s.staList env.primaryAc).length : ℚ))
        (ToDoubleUS s.m_maxCredits) (s.staList env.primaryAc)
      = grantCredits (ToDoubleUS T / ((s.staList env.primaryAc).length : ℚ))
        (ToDoubleUS s.m_maxCredits) (s.staList env.primaryAc) := by
    unfold grantCreditsFl grantCredits
    apply List.map_congr_left
    intro n hn
    rw [hgrant n hn]
  rw [hg]
  have hloop := debitLoopFl_eq env
    (ToDoubleUS T
      / ((nRus * env.GetBandwidth rt + nC * env.GetBandwidth .RU_26_TONE : Nat) : ℚ))
    rt nRus env.primaryAc
    (grantCredits (ToDoubleUS T / ((s.staList env.primaryAc).length : ℚ))
        (ToDoubleUS s.m_maxCredits) (s.staList env.primaryAc))
    (nRus + nC) cs 0
    (Function.update s.m_staList env.primaryAc
      (some (grantCredits (ToDoubleUS T / ((s.staList env.primaryAc).length : ℚ))
        (ToDoubleUS s.m_maxCredits) (s.staList env.primaryAc))))
    hac hnd
    (by
      intro n hn _
      rw [Function.update_same] at hn
      exact hn)
    (by
      intro p hp
      refine ⟨(hdebit p hp).1, ?_⟩
      intro n hn hid
      unfold grantCredits at hn
      obtain ⟨sta, hsta, rfl⟩ := List.mem_map.mp hn
      exact (hdebit p hp).2 sta hsta hid)
  rw [hloop]

/-- What a returning call of `ComputeDlMuInfo` in double precision on a non-empty
candidate list went through. -/
theorem ComputeDlMuInfoFl_inv (env : Env) (s : State) (info : DlMuInfo) (s' : State)
    (h : ComputeDlMuInfoFl env s = .ok (info, s')) (hne : s.m_candidates ≠ []) :
    ∃ tv1 tv txParams1 agg staLists,
      dlFill s (dlPartition env s).1 (dlPartition env s).2.1
          ((dlPartition env s).2.1 + (dlPartition env s).2.2) 0 s.m_candidates
          (dlFinalTxVector0 s) = .ok tv1
      ∧ AssignRuIndices env tv1 = .ok tv
      ∧ dlReAdd env (if env.m_initialFrame then TimeMin else env.m_availableTime)
          (s.m_candidates.take ((dlPartition env s).2.1 + (dlPartition env s).2.2))
          { WifiTxParameters.Clear with m_txVector := tv } = .ok txParams1
      ∧ dlAggregate env s
          (s.m_candidates.take ((dlPartition env s).2.1 + (dlPartition env s).2.2))
          { txParams := txParams1, psduMap := [], mu_ampdu := s.mu_ampdu, iterator := 0 }
          = .ok agg
      ∧ s.que = true
      ∧ creditLedgerFl env s (dlPartition env s).1 (dlPartition env s).2.1
          (dlPartition env s).2.2
          (s.m_candidates.take ((dlPartition env s).2.1 + (dlPartition env s).2.2))
          agg.txParams.m_txDuration = .ok staLists
      ∧ info = { psduMap := agg.psduMap, txParams := agg.txParams }
      ∧ s' = { s with
                m_candidates :=
                  s.m_candidates.take ((dlPartition env s).2.1 + (dlPartition env s).2.2)
                m_txParams := WifiTxParameters.Clear
                mu_ampdu := agg.mu_ampdu
                m_staList := staLists } := by
  unfold ComputeDlMuInfoFl at h
  rw [if_neg hne] at h
  dsimp only at h
  split at h
  · simp at h
  · rename_i tv1 h1
    split at h
    · simp at h
    · rename_i tv h2
      split at h
      · simp at h
      · rename_i txParams1 h3
        split at h
        · simp at h
        · rename_i agg h4
          split_ifs at h with hq
          split at h
          · simp at h
          · rename_i staLists h5
            simp only [Except.ok.injEq, Prod.mk.injEq] at h
            have hq2 : s.que = true := by
              cases hb : s.que with
              | true => rfl
              | false => rw [hb] at hq; exact absurd rfl hq
            exact ⟨tv1, tv, txParams1, agg, staLists, h1, h2, h3, h4, hq2, h5,
              h.1.symm, h.2.symm⟩

/-- The result of `ComputeDlMuInfo` on a non-empty candidate list from the results of
its steps. -/
theorem ComputeDlMuInfo_of_steps (env : Env) (s : State) (tv1 tv : WifiTxVector)
    (txParams1 : WifiTxParameters) (agg : AggState)
    (staLists : AcIndex → Option (List Node)) (hne : s.m_candidates ≠ [])
    (h1 : dlFill s (dlPartition env s).1 (dlPartition env s).2.1
          ((dlPartition env s).2.1 + (dlPartition env s).2.2) 0 s.m_candidates
          (dlFinalTxVector0 s) = .ok tv1)
    (h2 : AssignRuIndices env tv1 = .ok tv)
    (h3 : dlReAdd env (if env.m_initialFrame then TimeMin else env.m_availableTime)
          (s.m_candidates.take ((dlPartition env s).2.1 + (dlPartition env s).2.2))
          { WifiTxParameters.Clear with m_txVector := tv } = .ok txParams1)
    (h4 : dlAggregate env s
          (s.m_candidates.take ((dlPartition env s).2.1 + (dlPartition env s).2.2))
          { txParams := txParams1, psduMap := [], mu_ampdu := s.mu_ampdu, iterator := 0 }
          = .ok agg)
    (hq : s.que = true)
    (h5 : creditLedger env s (dlPartition env s).1 (dlPartition env s).2.1
          (dlPartition env s).2.2
          (s.m_candidates.take ((dlPartition env s).2.1 + (dlPartition env s).2.2))
          agg.txParams.m_txDuration = .ok staLists) :
    ComputeDlMuInfo env s
      = .ok ({ psduMap := agg.psduMap, txParams := agg.txParams },
          { s with
            m_candidates :=
              s.m_candidates.take ((dlPartition env s).2.1 + (dlPartition env s).2.2)
            m_txParams := WifiTxParameters.Clear
            mu_ampdu := agg.mu_ampdu
            m_staList := staLists }) := by
  unfold ComputeDlMuInfo
  rw [if_neg hne]
  simp only [h1, h2, h3, h4, h5, hq, Bool.not_true, Bool.false_eq_true, if_false]

/-- A returning commit in double precision is a returning commit of the exact ledger,
with the same result, when the two ledger updates agree for its final TX duration. -/
theorem ComputeDlMuInfoFl_exact (env : Env) (s : State) (info : DlMuInfo) (s' : State)
    (h : ComputeDlMuInfoFl env s = .ok (info, s')) (hne : s.m_candidates ≠ [])
    (hex : creditLedgerFl env s (dlPartition env s).1 (dlPartition env s).2.1
          (dlPartition env s).2.2
          (s.m_candidates.take ((dlPartition env s).2.1 + (dlPartition env s).2.2))
          info.txParams.m_txDuration
        = creditLedger env s (dlPartition env s).1 (dlPartition env s).2.1
          (dlPartition env s).2.2
          (s.m_candidates.take ((dlPartition env s).2.1 + (dlPartition env s).2.2))
          info.txParams.m_txDuration) :
    ComputeDlMuInfo env s = .ok (info, s') := by
  obtain ⟨tv1, tv, txParams1, agg, staLists, h1, h2, h3, h4, hq, h5, hinfo, hs⟩ :=
    ComputeDlMuInfoFl_inv env s info s' h hne
  have hTT : info.txParams.m_txDuration = agg.txParams.m_txDuration := by rw [hinfo]
  rw [hTT, h5] at hex
  rw [hinfo, hs]
  exact ComputeDlMuInfo_of_steps env s tv1 tv txParams1 agg staLists hne h1 h2 h3 h4 hq
    hex.symm

/-- A uniform commit in double precision in which no operation rounds is a uniform
commit of the exact ledger. -/
theorem UniformCommitFl_exact (ac : AcIndex) (T : Time) (rt : RuType) (k bw : Nat)
    (s s' : State) (h : UniformCommitFl ac T rt k bw s s') (hex : ExactCommit ac T k bw s)
    (hids : ((s.staList ac).map (·.id)).Nodup) :
    UniformCommit ac T rt k bw s s' := by
  obtain ⟨env, info, hac, hres, hne, hTT, hpart, hbw, ⟨m, hcand⟩, hcap⟩ := h
  subst hac
  refine ⟨env, info, rfl, ?_, hne, hTT, hpart, hbw, ⟨m, hcand⟩, hcap⟩
  obtain ⟨e1, e2, e3, e4, e5, e6, e7⟩ := hex
  have hcac : ∀ c ∈ s.m_candidates, c.ac = env.primaryAc := by
    intro c hc
    have : (c.ac, c.node) ∈ s.m_candidates.map (fun c => (c.ac, c.node)) :=
      List.mem_map_of_mem _ hc
    rw [hcand] at this
    obtain ⟨n, _, hn⟩ := List.mem_map.mp this
    exact (Prod.mk.inj hn).1.symm
  have hnodes : s.m_candidates.map (·.node)
      = ((s.staList env.primaryAc).take m).map (·.id) := by
    have := congrArg (List.map Prod.snd) hcand
    simpa [List.map_map, Function.comp] using this
  have hcnd : (s.m_candidates.map (·.node)).Nodup := by
    rw [hnodes, List.map_take]
    exact List.Nodup.sublist (List.take_sublist _ _) hids
  have hB : k * env.GetBandwidth rt + 0 * env.GetBandwidth .RU_26_TONE = k * bw := by
    rw [hbw, Nat.zero_mul, Nat.add_zero]
  apply ComputeDlMuInfoFl_exact env s info s' hres hne
  rw [hpart, hTT]
  dsimp only
  apply creditLedgerFl_eq
  · intro c hc
    exact hcac c (List.mem_of_mem_take hc)
  · rw [List.map_take]
    exact List.Nodup.sublist (List.take_sublist _ _) hcnd
  · exact e1
  · exact e2
  · exact e3
  · rw [hB]; exact e4
  · exact e6
  · intro p hp
    have hmem := List.mem_enumFrom hp
    have hlt : p.1 < k := by
      have := hmem.2.1
      simp only [List.length_take, Nat.add_zero, Nat.zero_add] at this
      omega
    rw [hB, if_pos hlt, hbw]
    refine ⟨e5, ?_⟩
    intro sta hsta hid
    rw [min_eq_left (hcap sta hsta)]
    have hp2 : p.2 ∈ s.m_candidates.take k := by
      have := List.snd_mem_of_mem_enumFrom hp
      rwa [Nat.add_zero] at this
    exact e7 p.2 hp2 sta hsta hid

theorem forall_mem_three {P : Node → Prop} (l : List Node) (a b c : Node)
    (hl : l = [a, b, c]) (ha : P a) (hb : P b) (hc : P c) : ∀ n ∈ l, P n := by
  intro n hn
  rw [hl] at hn
  simp only [List.mem_cons, List.mem_singleton, List.not_mem_nil, or_false] at hn
  rcases hn with h | h | h <;> rw [h] <;> assumption

theorem exactThree_commit1 :
    UniformCommitFl .AC_BE 120000 .RU_242_TONE 2 20
        (selectedFl (durationEnv 120000) threeStations 0)
        (roundsFl (durationEnv 120000) threeStations 1)
      ∧ ExactCommit .AC_BE 120000 2 20 (selectedFl (durationEnv 120000) threeStations 0) := by
  refine ⟨⟨durationEnv 120000, infoFl (durationEnv 120000) threeStations 0, rfl,
      by with_unfolding_all rfl, by with_unfolding_all decide, by with_unfolding_all rfl,
      by with_unfolding_all rfl, rfl, ⟨2, by with_unfolding_all rfl⟩,
      by with_unfolding_all decide⟩, ?_⟩
  unfold ExactCommit
  dsimp only
  refine ⟨by with_unfolding_all rfl, by with_unfolding_all rfl, by with_unfolding_all rfl,
    by with_unfolding_all rfl, by with_unfolding_all rfl,
    forall_mem_three _ ⟨0, ⟨1, 101, 0⟩⟩ ⟨1, ⟨2, 102, 0⟩⟩ ⟨2, ⟨3, 103, 0⟩⟩
      (by with_unfolding_all rfl) (by with_unfolding_all rfl) (by with_unfolding_all rfl)
      (by with_unfolding_all rfl),
    fun c _ => forall_mem_three _ ⟨0, ⟨1, 101, 0⟩⟩ ⟨1, ⟨2, 102, 0⟩⟩ ⟨2, ⟨3, 103, 0⟩⟩
      (by with_unfolding_all rfl) (fun _ => by with_unfolding_all rfl)
      (fun _ => by with_unfolding_all rfl) (fun _ => by with_unfolding_all rfl)⟩

theorem exactThree_commit2 :
    UniformCommitFl .AC_BE 120000 .RU_242_TONE 2 20
        (selectedFl (durationEnv 120000) threeStations 1)
        (roundsFl (durationEnv 120000) threeStations 2)
      ∧ ExactCommit .AC_BE 120000 2 20 (selectedFl (durationEnv 120000) threeStations 1) := by
  refine ⟨⟨durationEnv 120000, infoFl (durationEnv 120000) threeStations 1, rfl,
      by with_unfolding_all rfl, by with_unfolding_all decide, by with_unfolding_all rfl,
      by with_unfolding_all rfl, rfl, ⟨2, by with_unfolding_all rfl⟩,
      by with_unfolding_all decide⟩, ?_⟩
  unfold ExactCommit
  dsimp only
  refine ⟨by with_unfolding_all rfl, by with_unfolding_all rfl, by with_unfolding_all rfl,
    by with_unfolding_all rfl, by with_unfolding_all rfl,
    forall_mem_three _ ⟨2, ⟨3, 103, 40⟩⟩ ⟨0, ⟨1, 101, -20⟩⟩ ⟨1, ⟨2, 102, -20⟩⟩
      (by with_unfolding_all rfl) (by with_unfolding_all rfl) (by with_unfolding_all rfl)
      (by with_unfolding_all rfl),
    fun c _ => forall_mem_three _ ⟨2, ⟨3, 103, 40⟩⟩ ⟨0, ⟨1, 101, -20⟩⟩ ⟨1, ⟨2, 102, -20⟩⟩
      (by with_unfolding_all rfl) (fun _ => by with_unfolding_all rfl)
      (fun _ => by with_unfolding_all rfl) (fun _ => by with_unfolding_all rfl)⟩

/-- Two rounds of the three-station example with a TX duration of 120 microseconds, two
stations served on 242-tone RUs of 20 MHz: a run of uniform commits in double precision
in which no operation rounds (40 credits granted, 60 debited). -/
theorem exactThree_rounds :
    CommitRun .AC_BE
      (fun s s' => UniformCommitFl .AC_BE 120000 .RU_242_TONE 2 20 s s'
        ∧ ExactCommit .AC_BE 120000 2 20 s)
      ((selectedFl (durationEnv 120000) threeStations 0).staList .AC_BE)
      (roundsFl (durationEnv 120000) threeStations 2) :=
  CommitRun.next _ (roundsFl (durationEnv 120000) threeStations 1)
    (selectedFl (durationEnv 120000) threeStations 1) _
    (CommitRun.first (selectedFl (durationEnv 120000) threeStations 0) _ exactThree_commit1)
    (by with_unfolding_all rfl) exactThree_commit2

/-- Two rounds of the three-station example with a TX duration of 101 microseconds and
one station served per round on the 484-tone RU of 40 MHz: a run of uniform commits in
double precision. -/
theorem roundedThree_rounds :
    CommitRun .AC_BE (UniformCommitFl .AC_BE 101000 .RU_484_TONE 1 40)
      ((selectedFl (durationEnv 101000) (threeWith 1) 0).staList .AC_BE)
      (roundsFl (durationEnv 101000) (threeWith 1) 2) := by
  have c1 : UniformCommitFl .AC_BE 101000 .RU_484_TONE 1 40
      (selectedFl (durationEnv 101000) (threeWith 1) 0)
      (roundsFl (durationEnv 101000) (threeWith 1) 1) :=
    ⟨durationEnv 101000, infoFl (durationEnv 101000) (threeWith 1) 0, rfl,
      by with_unfolding_all rfl, by with_unfolding_all decide, by with_unfolding_all rfl,
      by with_unfolding_all rfl, rfl, ⟨1, by with_unfolding_all rfl⟩,
      by with_unfolding_all decide⟩
  have c2 : UniformCommitFl .AC_BE 101000 .RU_484_TONE 1 40
      (selectedFl (durationEnv 101000) (threeWith 1) 1)
      (roundsFl (durationEnv 101000) (threeWith 1) 2) :=
    ⟨durationEnv 101000, infoFl (durationEnv 101000) (threeWith 1) 1, rfl,
      by with_unfolding_all rfl, by with_unfolding_all decide, by with_unfolding_all rfl,
      by with_unfolding_all rfl, rfl, ⟨1, by with_unfolding_all rfl⟩,
      by with_unfolding_all decide⟩
  exact CommitRun.next _ (roundsFl (durationEnv 101000) (threeWith 1) 1)
    (selectedFl (durationEnv 101000) (threeWith 1) 1) _
    (CommitRun.first (selectedFl (durationEnv 101000) (threeWith 1) 0) _ c1)
    (by with_unfolding_all rfl) c2

/-- C9 (amended): with the credits in double precision, starting from equal credits,
after a run of uniform commits (every station eligible in every round, the same TX
duration and RU allocation, the credit cap not reached) in which no operation of the
ledger update rounds, every station served in the last commit has at most the credit of
every station that was not served in it. -/
theorem round_robin_fairness (ac : AcIndex) (T : Time) (rt : RuType) (k bw : Nat)
    (L0 : List Node) (sN : State)
    (h : CommitRun ac
      (fun s s' => UniformCommitFl ac T rt k bw s s' ∧ ExactCommit ac T k bw s) L0 sN)
    (hT : 0 ≤ T)
    (heq : ∀ a ∈ L0, ∀ b ∈ L0, a.info.credits = b.info.credits)
    (hids : (L0.map (·.id)).Nodup) :
    ∀ x ∈ sN.staList ac, ∀ y ∈ sN.staList ac,
      (∃ c ∈ sN.m_candidates, c.node = x.id) → (∀ c ∈ sN.m_candidates, c.node ≠ y.id) →
      x.info.credits ≤ y.info.credits := by
  have key : UniformRounds ac T rt k bw L0 sN := by
    induction h with
    | first s s' hc =>
      exact UniformRounds.first s s' (UniformCommitFl_exact ac T rt k bw s s' hc.1 hc.2 hids)
    | next L0 sPrev s s' _ hL hc ih =>
      have hr := ih heq hids
      have hinv := uniform_rounds_invariant ac T rt k bw L0 sPrev hr hT heq hids
      exact UniformRounds.next L0 sPrev s s' hr hL
        (UniformCommitFl_exact ac T rt k bw s s' hc.1 hc.2 (by rw [hL]; exact hinv.1))
  exact (uniform_rounds_invariant ac T rt k bw L0 sN key hT heq hids).2.2.2

theorem round_robin_fairness_witness :
    CommitRun .AC_BE
        (fun s s' => UniformCommitFl .AC_BE 120000 .RU_242_TONE 2 20 s s'
          ∧ ExactCommit .AC_BE 120000 2 20 s)
        ((selectedFl (durationEnv 120000) threeStations 0).staList .AC_BE)
        (roundsFl (durationEnv 120000) threeStations 2)
      ∧ creditsOf .AC_BE (selectedFl (durationEnv 120000) threeStations 0)
          = [(0, 0), (1, 0), (2, 0)]
      ∧ creditsOf .AC_BE (roundsFl (durationEnv 120000) threeStations 2)
          = [(2, 20), (1, 20), (0, -40)]
      ∧ (roundsFl (durationEnv 120000) threeStations 2).m_candidates.map (·.node) = [2, 0]
      ∧ ∀ x ∈ (roundsFl (durationEnv 120000) threeStations 2).staList .AC_BE,
          ∀ y ∈ (roundsFl (durationEnv 120000) threeStations 2).staList .AC_BE,
          (∃ c ∈ (roundsFl (durationEnv 120000) threeStations 2).m_candidates,
              c.node = x.id) →
          (∀ c ∈ (roundsFl (durationEnv 120000) threeStations 2).m_candidates,
              c.node ≠ y.id) →
          x.info.credits ≤ y.info.credits :=
  ⟨exactThree_rounds, by with_unfolding_all rfl, by with_unfolding_all rfl,
    by with_unfolding_all rfl,
    round_robin_fairness .AC_BE 120000 .RU_242_TONE 2 20 _ _ exactThree_rounds (by decide)
      (by with_unfolding_all decide) (by with_unfolding_all decide)⟩

theorem roundedThree_candidates :
    (roundsFl (durationEnv 101000) (threeWith 1) 2).m_candidates
      = [⟨.AC_BE, 1, some (exampleFrame 102 3)⟩] := by
  with_unfolding_all rfl

theorem exactThree_candidates :
    (roundsFl (durationEnv 120000) threeStations 2).m_candidates
      = [⟨.AC_BE, 2, some (exampleFrame 103 3)⟩, ⟨.AC_BE, 0, some (exampleFrame 101 3)⟩] := by
  with_unfolding_all rfl

theorem roundedThree_credits :
    (roundsFl (durationEnv 101000) (threeWith 1) 2).staList .AC_BE
      = [⟨2, ⟨3, 103, 4738162107962709 / 70368744177664⟩⟩,
         ⟨1, ⟨2, 102, -2369081053981355 / 70368744177664⟩⟩,
         ⟨0, ⟨1, 101, -4738162107962711 / 140737488355328⟩⟩] := by
  with_unfolding_all rfl

theorem exactThree_credits :
    (roundsFl (durationEnv 120000) threeStations 2).staList .AC_BE
      = [⟨2, ⟨3, 103, 20⟩⟩, ⟨1, ⟨2, 102, 20⟩⟩, ⟨0, ⟨1, 101, -40⟩⟩] := by
  with_unfolding_all rfl

theorem roundedThree_not_exact :
    ¬ ExactCommit .AC_BE 101000 1 40 (selectedFl (durationEnv 101000) (threeWith 1) 0) := by
  intro h
  have h3 := h.2.2.1
  have e1 : ToDoubleUS 101000
      / (((selectedFl (durationEnv 101000) (threeWith 1) 0).staList .AC_BE).length : ℚ)
      = 101 / 3 := by with_unfolding_all rfl
  have e2 : fl (101 / 3) = 4738162107962709 / 140737488355328 := by with_unfolding_all rfl
  rw [e1, e2] at h3
  norm_num at h3

/-- C9 fails as stated, and fails in double precision without the exactness of the
arithmetic. After two uniform rounds of the three-station example, which starts from
equal credits and serves two stations per round, the two stations served in the last
commit hold credits 1 and -2 (TX duration 6 microseconds, exact ledger) or 20 and -40
(TX duration 120 microseconds, double precision, no operation rounds): a served station
has more credit than another station of the list. With a TX duration of 101 microseconds
and one station served per round, the grant 101 / 3 rounds: after two rounds in double
precision the station served in the last commit holds -33.66666666666667 and the station
served in the first one holds -33.66666666666668, so a served station has more credit
than a station that was not served. -/
theorem served_stations_unequal :
    (UniformRounds .AC_BE 6000 .RU_242_TONE 2 20 (selectedThree.staList .AC_BE)
        committedThree2
      ∧ (∀ a ∈ selectedThree.staList .AC_BE, ∀ b ∈ selectedThree.staList .AC_BE,
          a.info.credits = b.info.credits)
      ∧ ∃ x ∈ committedThree2.staList .AC_BE, ∃ y ∈ committedThree2.staList .AC_BE,
          (∃ c ∈ committedThree2.m_candidates, c.node = x.id) ∧ y.id ≠ x.id
            ∧ y.info.credits < x.info.credits)
    ∧ (CommitRun .AC_BE
          (fun s s' => UniformCommitFl .AC_BE 120000 .RU_242_TONE 2 20 s s'
            ∧ ExactCommit .AC_BE 120000 2 20 s)
          ((selectedFl (durationEnv 120000) threeStations 0).staList .AC_BE)
          (roundsFl (durationEnv 120000) threeStations 2)
      ∧ (∀ a ∈ (selectedFl (durationEnv 120000) threeStations 0).staList .AC_BE,
          ∀ b ∈ (selectedFl (durationEnv 120000) threeStations 0).staList .AC_BE,
          a.info.credits = b.info.credits)
      ∧ ∃ x ∈ (roundsFl (durationEnv 120000) threeStations 2).staList .AC_BE,
          ∃ y ∈ (roundsFl (durationEnv 120000) threeStations 2).staList .AC_BE,
          (∃ c ∈ (roundsFl (durationEnv 120000) threeStations 2).m_candidates,
              c.node = x.id)
            ∧ y.id ≠ x.id ∧ y.info.credits < x.info.credits)
    ∧ (CommitRun .AC_BE (UniformCommitFl .AC_BE 101000 .RU_484_TONE 1 40)
          ((selectedFl (durationEnv 101000) (threeWith 1) 0).staList .AC_BE)
          (roundsFl (durationEnv 101000) (threeWith 1) 2)
      ∧ (∀ a ∈ (selectedFl (durationEnv 101000) (threeWith 1) 0).staList .AC_BE,
          ∀ b ∈ (selectedFl (durationEnv 101000) (threeWith 1) 0).staList .AC_BE,
          a.info.credits = b.info.credits)
      ∧ (((selectedFl (durationEnv 101000) (threeWith 1) 0).staList .AC_BE).map
          (·.id)).Nodup
      ∧ ¬ ExactCommit .AC_BE 101000 1 40 (selectedFl (durationEnv 101000) (threeWith 1) 0)
      ∧ ∃ x ∈ (roundsFl (durationEnv 101000) (threeWith 1) 2).staList .AC_BE,
          ∃ y ∈ (roundsFl (durationEnv 101000) (threeWith 1) 2).staList .AC_BE,
          (∃ c ∈ (roundsFl (durationEnv 101000) (threeWith 1) 2).m_candidates,
              c.node = x.id)
            ∧ (∀ c ∈ (roundsFl (durationEnv 101000) (threeWith 1) 2).m_candidates,
              c.node ≠ y.id)
            ∧ x.info.credits = -2369081053981355 / 70368744177664
            ∧ y.info.credits = -4738162107962711 / 140737488355328
            ∧ y.info.credits < x.info.credits) := by
  refine ⟨?_, ?_, ?_⟩
  · refine ⟨threeStations_rounds, by with_unfolding_all decide,
      ⟨2, ⟨3, 103, 1⟩⟩, by with_unfolding_all decide,
      ⟨0, ⟨1, 101, -2⟩⟩, by with_unfolding_all decide, ?_, by decide,
      by with_unfolding_all decide⟩
    exact ⟨⟨.AC_BE, 2, some (exampleFrame 103 3)⟩,
      by rw [committedThree2_candidates]; exact List.mem_cons_self _ _, rfl⟩
  · refine ⟨exactThree_rounds, by with_unfolding_all decide,
      ⟨2, ⟨3, 103, 20⟩⟩, by rw [exactThree_credits]; simp,
      ⟨0, ⟨1, 101, -40⟩⟩, by rw [exactThree_credits]; simp, ?_, by decide, by norm_num⟩
    exact ⟨⟨.AC_BE, 2, some (exampleFrame 103 3)⟩,
      by rw [exactThree_candidates]; exact List.mem_cons_self _ _, rfl⟩
  · refine ⟨roundedThree_rounds, by with_unfolding_all decide, by with_unfolding_all decide,
      roundedThree_not_exact,
      ⟨1, ⟨2, 102, -2369081053981355 / 70368744177664⟩⟩, by rw [roundedThree_credits]; simp,
      ⟨0, ⟨1, 101, -4738162107962711 / 140737488355328⟩⟩, by rw [roundedThree_credits]; simp,
      ?_, ?_, rfl, rfl, by norm_num⟩
    · exact ⟨⟨.AC_BE, 1, some (exampleFrame 102 3)⟩,
        by rw [roundedThree_candidates]; exact List.mem_cons_self _ _, rfl⟩
    · rw [roundedThree_candidates]
      intro c hc
      rw [List.mem_singleton] at hc
      rw [hc]
      decide


end RrSumu
